import Mathlib

/-!
# Software rasteriser of `src_c/draw.c`: embedding and verified properties

C `int`s are embedded as `Int`: signed overflow is undefined behaviour in C, so
every statement below is about executions in which no intermediate value leaves
the `int` range.  `Uint32` colours are embedded as `Nat`; only the low bytes that
the pixel format stores are ever looked at.

A surface is a byte-addressed memory (`pixels`, indexed by the byte offset from
`surf->pixels`) together with its `pitch` and bytes-per-pixel.  The field
`written` is a ghost log: every store of a pixel pushes the coordinate of that
pixel, most recent first.  It is never read by the drawing code.

`while` loops carry a bound on the number of executions of their body and yield
`none` when the loop condition still holds after that many executions; that a
drawing function returns is therefore a theorem (`..._drawn`) and not a property of
the embedding.  `for` loops with a known trip count are iterated that many times.

Floating-point code is not evaluated: `draw_arc` is parametrised by the operations
on `double` it uses, `draw_circle_bresenham` keeps its quarter-integer `double`s as
rationals, and `draw_fillpoly` takes `floor` and `ceil` of the exact quotient.
-/

namespace Draw

/-! ## Data model -/

/-- Largest C `int`. -/
def INT_MAX : Int := 2147483647

/-- Smallest C `int`. -/
def INT_MIN : Int := -2147483648

/-- The `SDL_Rect` of the clip rectangle and of returned bounding boxes. -/
structure SDL_Rect where
  x : Int
  y : Int
  w : Int
  h : Int
  deriving DecidableEq, Repr

/-- The part of `SDL_Surface` the rasteriser touches.  `big_endian` is the host
byte order (`SDL_BYTEORDER == SDL_BIG_ENDIAN`), a compile-time constant that is
carried with the surface here. -/
structure Surface where
  pitch : Int
  BytesPerPixel : Nat
  big_endian : Bool
  pixels : Int → Nat
  written : List (Int × Int)

/-- The accumulator `int drawn_area[4]`: `minx = pts[0]`, `miny = pts[1]`,
`maxx = pts[2]`, `maxy = pts[3]`. -/
structure DrawnArea where
  minx : Int
  miny : Int
  maxx : Int
  maxy : Int
  deriving DecidableEq, Repr

/-- The initial value `{INT_MAX, INT_MAX, INT_MIN, INT_MIN}` of every
`drawn_area`. -/
def DrawnArea.init : DrawnArea := ⟨INT_MAX, INT_MAX, INT_MIN, INT_MIN⟩

/-- The C macro `MIN`. -/
def MIN (a b : Int) : Int := if a < b then a else b

/-- The C macro `MAX`. -/
def MAX (a b : Int) : Int := if a > b then a else b

/-- The C library function `abs`. -/
def abs (a : Int) : Int := if a < 0 then -a else a

/-- C integer division, which truncates toward zero. -/
def cdiv (a b : Int) : Int := Int.tdiv a b

/-- C remainder, with the sign of the dividend. -/
def cmod (a b : Int) : Int := Int.tmod a b

/-! ## Control structures -/

/-- A C loop `while (cond) body`, run for at most `fuel` executions of the body:
`none` when the condition still holds after `fuel` executions. -/
def while_loop {σ : Type} (cond : σ → Bool) (body : σ → σ) : Nat → σ → Option σ
  | 0, s => if cond s then none else some s
  | fuel + 1, s => if cond s then while_loop cond body fuel (body s) else some s

/-- A C loop `for (i = lo; i < lo + count; i++) body(i)`. -/
def for_loop {σ : Type} (lo : Int) (count : Nat) (body : Int → σ → σ) (s : σ) : σ :=
  match count with
  | 0 => s
  | count + 1 => for_loop (lo + 1) count body (body lo s)

/-! ## Pixel access layer -/

/-- Byte number `i` (in memory order) of the `n`-byte pixel value `color`. -/
def color_byte (big_endian : Bool) (n : Nat) (color : Nat) (i : Nat) : Nat :=
  if big_endian then (color / 256 ^ (n - 1 - i)) % 256 else (color / 256 ^ i) % 256

/-- The store of an `n`-byte pixel at `pixels + y * pitch + x * n`, shared by
`set_at`, `unsafe_set_at`, `drawhorzline` and `drawvertline`. -/
def store_pixel (surf : Surface) (n : Nat) (x y : Int) (color : Nat) : Surface :=
  { surf with
    pixels := fun a =>
      if y * surf.pitch + x * n ≤ a ∧ a < y * surf.pitch + x * n + n then
        color_byte surf.big_endian n color (a - (y * surf.pitch + x * n)).toNat
      else surf.pixels a
    written := (x, y) :: surf.written }

/-- The width selected by the `switch` of `set_at` and `unsafe_set_at`: cases 1,
2 and 4, and 3 bytes by default. -/
def set_at_bytes (surf : Surface) : Nat :=
  match surf.BytesPerPixel with
  | 1 => 1
  | 2 => 2
  | 4 => 4
  | _ => 3

/-- The width selected by the `switch` of `drawhorzline` and `drawvertline`:
cases 1, 2 and 3, and 4 bytes by default. -/
def line_bytes (surf : Surface) : Nat :=
  match surf.BytesPerPixel with
  | 1 => 1
  | 2 => 2
  | 3 => 3
  | _ => 4

/-- The function `set_at`: the surface afterwards and the returned flag. -/
def set_at (surf : Surface) (surf_clip_rect : SDL_Rect) (x y : Int) (color : Nat) :
    Surface × Int :=
  if x < surf_clip_rect.x ∨ x ≥ surf_clip_rect.x + surf_clip_rect.w ∨
      y < surf_clip_rect.y ∨ y ≥ surf_clip_rect.y + surf_clip_rect.h then
    (surf, 0)
  else
    (store_pixel surf (set_at_bytes surf) x y color, 1)

/-- The function `unsafe_set_at`: `set_at` without the clip test. -/
def unsafe_set_at (surf : Surface) (x y : Int) (color : Nat) : Surface :=
  store_pixel surf (set_at_bytes surf) x y color

/-! ## Bounding-box accumulator -/

/-- The function `add_pixel_to_drawn_list`. -/
def add_pixel_to_drawn_list (x y : Int) (pts : DrawnArea) : DrawnArea :=
  let pts := if x < pts.minx then { pts with minx := x } else pts
  let pts := if y < pts.miny then { pts with miny := y } else pts
  let pts := if x > pts.maxx then { pts with maxx := x } else pts
  let pts := if y > pts.maxy then { pts with maxy := y } else pts
  pts

/-- The function `add_line_to_drawn_list`. -/
def add_line_to_drawn_list (x1 y1 x2 y2 : Int) (pts : DrawnArea) : DrawnArea :=
  let pts := if x1 < pts.minx then { pts with minx := x1 } else pts
  let pts := if y1 < pts.miny then { pts with miny := y1 } else pts
  let pts := if x2 > pts.maxx then { pts with maxx := x2 } else pts
  let pts := if y2 > pts.maxy then { pts with maxy := y2 } else pts
  pts

/-- The function `set_and_check_rect`. -/
def set_and_check_rect (surf : Surface) (surf_clip_rect : SDL_Rect) (x y : Int)
    (color : Nat) (drawn_area : DrawnArea) : Surface × DrawnArea :=
  let r := set_at surf surf_clip_rect x y color
  if r.2 ≠ 0 then (r.1, add_pixel_to_drawn_list x y drawn_area) else (r.1, drawn_area)

/-! ## Spans -/

/-- The function `drawhorzline`: the pointer `pixel` runs over
`pixels + pitch * y1 + x * bpp` for `x = x1 .. x2`, so the loop is indexed by `x`
(every entry point has checked `1 <= bpp <= 4`, where `bpp` is the step of the
selected case). -/
def drawhorzline (surf : Surface) (color : Nat) (x1 y1 x2 : Int) : Surface :=
  for_loop x1 (x2 + 1 - x1).toNat
    (fun x s => store_pixel s (line_bytes surf) x y1 color) surf

/-- The function `drawvertline`: the pointer `pixel` runs over
`pixels + pitch * y + x1 * bpp` for `y = y1 .. y2` in steps of `pitch`, so the
loop is indexed by `y` (a surface has `pitch > 0`). -/
def drawvertline (surf : Surface) (color : Nat) (y1 x1 y2 : Int) : Surface :=
  for_loop y1 (y2 + 1 - y1).toNat
    (fun y s => store_pixel s (line_bytes surf) x1 y color) surf

/-- The function `drawhorzlineclip`. -/
def drawhorzlineclip (surf : Surface) (surf_clip_rect : SDL_Rect) (color : Nat)
    (x1 y1 x2 : Int) : Surface :=
  if y1 < surf_clip_rect.y ∨ y1 ≥ surf_clip_rect.y + surf_clip_rect.h then surf
  else
    let (x1, x2) := if x2 < x1 then (x2, x1) else (x1, x2)
    let x1 := MAX x1 surf_clip_rect.x
    let x2 := MIN x2 (surf_clip_rect.x + surf_clip_rect.w - 1)
    if x2 < surf_clip_rect.x ∨ x1 ≥ surf_clip_rect.x + surf_clip_rect.w then surf
    else if x1 = x2 then (set_at surf surf_clip_rect x1 y1 color).1
    else drawhorzline surf color x1 y1 x2

/-- The function `drawhorzlineclipbounding`. -/
def drawhorzlineclipbounding (surf : Surface) (surf_clip_rect : SDL_Rect) (color : Nat)
    (x1 y1 x2 : Int) (pts : DrawnArea) : Surface × DrawnArea :=
  if y1 < surf_clip_rect.y ∨ y1 ≥ surf_clip_rect.y + surf_clip_rect.h then (surf, pts)
  else
    let (x1, x2) := if x2 < x1 then (x2, x1) else (x1, x2)
    let x1 := MAX x1 surf_clip_rect.x
    let x2 := MIN x2 (surf_clip_rect.x + surf_clip_rect.w - 1)
    if x2 < surf_clip_rect.x ∨ x1 ≥ surf_clip_rect.x + surf_clip_rect.w then (surf, pts)
    else if x1 = x2 then set_and_check_rect surf surf_clip_rect x1 y1 color pts
    else
      let pts := add_line_to_drawn_list x1 y1 x2 y1 pts
      (drawhorzline surf color x1 y1 x2, pts)

/-- The function `drawvertlineclipbounding`. -/
def drawvertlineclipbounding (surf : Surface) (surf_clip_rect : SDL_Rect) (color : Nat)
    (y1 x1 y2 : Int) (pts : DrawnArea) : Surface × DrawnArea :=
  if x1 < surf_clip_rect.x ∨ x1 ≥ surf_clip_rect.x + surf_clip_rect.w then (surf, pts)
  else
    let (y1, y2) := if y2 < y1 then (y2, y1) else (y1, y2)
    let y1 := MAX y1 surf_clip_rect.y
    let y2 := MIN y2 (surf_clip_rect.y + surf_clip_rect.h - 1)
    if y2 < surf_clip_rect.y ∨ y1 ≥ surf_clip_rect.y + surf_clip_rect.h then (surf, pts)
    else if y1 = y2 then set_and_check_rect surf surf_clip_rect x1 y1 color pts
    else
      let pts := add_line_to_drawn_list x1 y1 x1 y2 pts
      (drawvertline surf color y1 x1 y2, pts)

/-! ## Line rasteriser -/

/-- The function `clip_line` (it never modifies the endpoints it is passed). -/
def clip_line (surf_clip_rect : SDL_Rect) (x1 y1 x2 y2 width : Int) (xinc : Bool) : Int :=
  let left := if xinc then MIN x1 x2 - width else MIN x1 x2
  let right := if xinc then MAX x1 x2 + width else MAX x1 x2
  let top := if xinc then MIN y1 y2 else MIN y1 y2 - width
  let bottom := if xinc then MAX y1 y2 else MAX y1 y2 + width
  if surf_clip_rect.x > right ∨ surf_clip_rect.y > bottom ∨
      surf_clip_rect.x + surf_clip_rect.w ≤ left ∨
      surf_clip_rect.y + surf_clip_rect.h ≤ top then 0
  else 1

/-- The variables a Bresenham loop of `draw_line` and `draw_line_width` updates. -/
structure LineState where
  surf : Surface
  drawn_area : DrawnArea
  x1 : Int
  y1 : Int
  err : Int

/-- The error update that ends every iteration of the Bresenham loops:
`e2 = err; if (e2 > -dx) { err -= dy; x1 += sx; } if (e2 < dy) { err += dx; y1 += sy; }`. -/
def bresenham_step (dx dy sx sy : Int) (s : LineState) : LineState :=
  let e2 := s.err
  let s := if e2 > -dx then { s with err := s.err - dy, x1 := s.x1 + sx } else s
  let s := if e2 < dy then { s with err := s.err + dx, y1 := s.y1 + sy } else s
  s

/-- The function `draw_line`.  Its C `int` variables are embedded as integers, so the
embedding follows the source as long as `dx`, `dy` and `err` stay C `int`s; this is
what `line_in_int_range` states, and the properties of the Bresenham walk are
proved under it. -/
def draw_line (surf : Surface) (surf_clip_rect : SDL_Rect) (x1 y1 x2 y2 : Int)
    (color : Nat) (drawn_area : DrawnArea) : Option (Surface × DrawnArea) :=
  if x1 = x2 ∧ y1 = y2 then
    some (set_and_check_rect surf surf_clip_rect x1 y1 color drawn_area)
  else if y1 = y2 then
    let dx : Int := if x1 < x2 then 1 else -1
    some (for_loop 0 (abs (x1 - x2) + 1).toNat
      (fun sx s => set_and_check_rect s.1 surf_clip_rect (x1 + dx * sx) y1 color s.2)
      (surf, drawn_area))
  else if x1 = x2 then
    let dy : Int := if y1 < y2 then 1 else -1
    some (for_loop 0 (abs (y1 - y2) + 1).toNat
      (fun sy s => set_and_check_rect s.1 surf_clip_rect x1 (y1 + dy * sy) color s.2)
      (surf, drawn_area))
  else
    let dx := abs (x2 - x1)
    let sx : Int := if x1 < x2 then 1 else -1
    let dy := abs (y2 - y1)
    let sy : Int := if y1 < y2 then 1 else -1
    let err := cdiv (if dx > dy then dx else -dy) 2
    (while_loop (fun s => decide (s.x1 ≠ x2 ∨ s.y1 ≠ y2))
      (fun s =>
        let r := set_and_check_rect s.surf surf_clip_rect s.x1 s.y1 color s.drawn_area
        bresenham_step dx dy sx sy { s with surf := r.1, drawn_area := r.2 })
      (dx + dy + 1).toNat ⟨surf, drawn_area, x1, y1, err⟩).map
      (fun s => set_and_check_rect s.surf surf_clip_rect x2 y2 color s.drawn_area)

/-- The body of the first loop of `draw_line_width` (`xinc` set): a horizontal
span around `x1` on row `y1`, then the Bresenham update. -/
def draw_line_width_xinc_body (surf_clip_rect : SDL_Rect) (color : Nat)
    (width extra_width dx dy sx sy : Int) (s : LineState) : LineState :=
  let end_x := surf_clip_rect.x + surf_clip_rect.w - 1
  let end_y := surf_clip_rect.y + surf_clip_rect.h - 1
  let s :=
    if surf_clip_rect.y ≤ s.y1 ∧ s.y1 ≤ end_y then
      let start_draw := MAX ((s.x1 - width) + extra_width) surf_clip_rect.x
      let end_draw := MIN end_x (s.x1 + width)
      if start_draw ≤ end_draw then
        { s with
          surf := drawhorzline s.surf color start_draw s.y1 end_draw
          drawn_area := add_line_to_drawn_list start_draw s.y1 end_draw s.y1 s.drawn_area }
      else s
    else s
  bresenham_step dx dy sx sy s

/-- The body of the second loop of `draw_line_width` (`xinc` clear): a vertical
span around `y1` on column `x1`, then the Bresenham update. -/
def draw_line_width_yinc_body (surf_clip_rect : SDL_Rect) (color : Nat)
    (width extra_width dx dy sx sy : Int) (s : LineState) : LineState :=
  let end_x := surf_clip_rect.x + surf_clip_rect.w - 1
  let end_y := surf_clip_rect.y + surf_clip_rect.h - 1
  let s :=
    if surf_clip_rect.x ≤ s.x1 ∧ s.x1 ≤ end_x then
      let start_draw := MAX ((s.y1 - width) + extra_width) surf_clip_rect.y
      let end_draw := MIN end_y (s.y1 + width)
      if start_draw ≤ end_draw then
        { s with
          surf := drawvertline s.surf color start_draw s.x1 end_draw
          drawn_area := add_line_to_drawn_list s.x1 start_draw s.x1 end_draw s.drawn_area }
      else s
    else s
  bresenham_step dx dy sx sy s

/-- The function `draw_line_width`.  Its C `int` variables are embedded as integers,
so the embedding follows the source as long as the differences, the error term and
the ends of the spans stay C `int`s; this is what `line_width_in_int_range` states. -/
def draw_line_width (surf : Surface) (surf_clip_rect : SDL_Rect) (color : Nat)
    (x1 y1 x2 y2 width : Int) (drawn_area : DrawnArea) : Option (Surface × DrawnArea) :=
  let end_x := surf_clip_rect.x + surf_clip_rect.w - 1
  let extra_width := 1 - cmod width 2
  if width < 1 then some (surf, drawn_area)
  else if width = 1 then draw_line surf surf_clip_rect x1 y1 x2 y2 color drawn_area
  else
    let width := cdiv width 2
    let xinc : Bool := decide (abs (x1 - x2) ≤ abs (y1 - y2))
    if clip_line surf_clip_rect x1 y1 x2 y2 width xinc = 0 then some (surf, drawn_area)
    else if x1 = x2 ∧ y1 = y2 then
      let start_draw := MAX ((x1 - width) + extra_width) surf_clip_rect.x
      let end_draw := MIN end_x (x1 + width)
      if start_draw ≤ end_draw then
        some (drawhorzline surf color start_draw y1 end_draw,
          add_line_to_drawn_list start_draw y1 end_draw y1 drawn_area)
      else some (surf, drawn_area)
    else
      let dx := abs (x2 - x1)
      let dy := abs (y2 - y1)
      let sx : Int := if x2 > x1 then 1 else -1
      let sy : Int := if y2 > y1 then 1 else -1
      let err := cdiv (if dx > dy then dx else -dy) 2
      if xinc then
        (while_loop (fun s => decide (s.y1 ≠ y2 + sy))
          (draw_line_width_xinc_body surf_clip_rect color width extra_width dx dy sx sy)
          (dx + dy + 2).toNat ⟨surf, drawn_area, x1, y1, err⟩).map
          (fun s => (s.surf, s.drawn_area))
      else
        (while_loop (fun s => decide (s.x1 ≠ x2 + sx))
          (draw_line_width_yinc_body surf_clip_rect color width extra_width dx dy sx sy)
          (dx + dy + 2).toNat ⟨surf, drawn_area, x1, y1, err⟩).map
          (fun s => (s.surf, s.drawn_area))

/-! ## Circle rasteriser -/

/-- The variables of the midpoint loops of `draw_circle_filled` and
`draw_circle_bresenham_thin`. -/
structure CircleState where
  surf : Surface
  drawn_area : DrawnArea
  f : Int
  ddF_x : Int
  ddF_y : Int
  x : Int
  y : Int

/-- The part of every midpoint loop body that advances the trace:
`if (f >= 0) { y--; ddF_y += 2; f += ddF_y; } x++; ddF_x += 2; f += ddF_x + 1;`. -/
def midpoint_step (s : CircleState) : CircleState :=
  let s := if s.f ≥ 0 then
      { s with y := s.y - 1, ddF_y := s.ddF_y + 2, f := s.f + (s.ddF_y + 2) }
    else s
  { s with x := s.x + 1, ddF_x := s.ddF_x + 2, f := s.f + (s.ddF_x + 2) + 1 }

/-- The spans one iteration of the loop of `draw_circle_filled` draws, for the
advanced `x`, `y` and `f`. -/
def draw_circle_filled_spans (surf_clip_rect : SDL_Rect) (x0 y0 xmax : Int) (color : Nat)
    (f x y : Int) (r : Surface × DrawnArea) : Surface × DrawnArea :=
  let r :=
    if f ≥ 0 then
      let r := drawhorzlineclipbounding r.1 surf_clip_rect color (x0 - x) (y0 + y - 1)
        (x0 + MIN (x - 1) xmax) r.2
      drawhorzlineclipbounding r.1 surf_clip_rect color (x0 - x) (y0 - y)
        (x0 + MIN (x - 1) xmax) r.2
    else r
  let r := drawhorzlineclipbounding r.1 surf_clip_rect color (x0 - y) (y0 + x - 1)
    (x0 + MIN (y - 1) xmax) r.2
  drawhorzlineclipbounding r.1 surf_clip_rect color (x0 - y) (y0 - x)
    (x0 + MIN (y - 1) xmax) r.2

/-- The body of the loop of `draw_circle_filled`. -/
def draw_circle_filled_body (surf_clip_rect : SDL_Rect) (x0 y0 xmax : Int) (color : Nat)
    (s : CircleState) : CircleState :=
  let s := midpoint_step s
  let r := draw_circle_filled_spans surf_clip_rect x0 y0 xmax color s.f s.x s.y
    (s.surf, s.drawn_area)
  { s with surf := r.1, drawn_area := r.2 }

/-- The function `draw_circle_filled`. -/
def draw_circle_filled (surf : Surface) (surf_clip_rect : SDL_Rect) (x0 y0 radius : Int)
    (color : Nat) (drawn_area : DrawnArea) : Option (Surface × DrawnArea) :=
  let xmax := if x0 < 0 then x0 + INT_MAX + 1 else INT_MAX - x0
  (while_loop (fun s => decide (s.x < s.y))
    (draw_circle_filled_body surf_clip_rect x0 y0 xmax color)
    (radius + 1).toNat ⟨surf, drawn_area, 1 - radius, 0, -2 * radius, 0, radius⟩).map
    (fun s => (s.surf, s.drawn_area))

/-- The body of the loop of `draw_circle_bresenham_thin`. -/
def draw_circle_bresenham_thin_body (surf_clip_rect : SDL_Rect) (x0 y0 : Int) (color : Nat)
    (s : CircleState) : CircleState :=
  let s := midpoint_step s
  let r : Surface × DrawnArea := (s.surf, s.drawn_area)
  let r := set_and_check_rect r.1 surf_clip_rect (x0 + s.x - 1) (y0 + s.y - 1) color r.2
  let r := set_and_check_rect r.1 surf_clip_rect (x0 - s.x) (y0 + s.y - 1) color r.2
  let r := set_and_check_rect r.1 surf_clip_rect (x0 + s.x - 1) (y0 - s.y) color r.2
  let r := set_and_check_rect r.1 surf_clip_rect (x0 - s.x) (y0 - s.y) color r.2
  let r := set_and_check_rect r.1 surf_clip_rect (x0 + s.y - 1) (y0 + s.x - 1) color r.2
  let r := set_and_check_rect r.1 surf_clip_rect (x0 + s.y - 1) (y0 - s.x) color r.2
  let r := set_and_check_rect r.1 surf_clip_rect (x0 - s.y) (y0 + s.x - 1) color r.2
  let r := set_and_check_rect r.1 surf_clip_rect (x0 - s.y) (y0 - s.x) color r.2
  { s with surf := r.1, drawn_area := r.2 }

/-- The function `draw_circle_bresenham_thin`. -/
def draw_circle_bresenham_thin (surf : Surface) (surf_clip_rect : SDL_Rect)
    (x0 y0 radius : Int) (color : Nat) (drawn_area : DrawnArea) :
    Option (Surface × DrawnArea) :=
  (while_loop (fun s => decide (s.x < s.y))
    (draw_circle_bresenham_thin_body surf_clip_rect x0 y0 color)
    (radius + 1).toNat ⟨surf, drawn_area, 1 - radius, 0, -2 * radius, 0, radius⟩).map
    (fun s => (s.surf, s.drawn_area))

/-- The variables of `draw_circle_bresenham`.  The `long long` variables are
integers; the `double` variables `d1`, `d1_inner` and `d2_inner` only ever hold
integer multiples of 1/4 and are embedded as rationals. -/
structure RingState where
  surf : Surface
  drawn_area : DrawnArea
  x : Int
  y : Int
  d1 : Rat
  dx : Int
  dy : Int
  line : Bool
  x_inner : Int
  y_inner : Int
  d1_inner : Rat
  d2_inner : Rat
  dx_inner : Int
  dy_inner : Int

/-- The loop `while (d1 < 0) { x++; dx += double_radius_squared;
d1 += dx + radius_squared; }` of `draw_circle_bresenham`, bounded by `fuel`. -/
def ring_skip (radius_squared : Int) : Nat → Int × Int × Rat → Option (Int × Int × Rat) :=
  while_loop (fun t => decide (t.2.2 < 0))
    (fun t =>
      let x := t.1 + 1
      let dx := t.2.1 + 2 * radius_squared
      (x, dx, t.2.2 + ((dx + radius_squared : Int) : Rat)))

/-- The spans both loops of `draw_circle_bresenham` draw for the current `x`, `y`,
`x_inner` and `line`. -/
def ring_spans (surf_clip_rect : SDL_Rect) (x0 y0 : Int) (color : Nat) (s : RingState) :
    Surface × DrawnArea :=
  let r : Surface × DrawnArea := (s.surf, s.drawn_area)
  if s.line then
    let r := drawhorzlineclipbounding r.1 surf_clip_rect color (x0 - s.x) (y0 - s.y)
      (x0 + s.x - 1) r.2
    drawhorzlineclipbounding r.1 surf_clip_rect color (x0 - s.x) (y0 + s.y - 1)
      (x0 + s.x - 1) r.2
  else
    let r := drawhorzlineclipbounding r.1 surf_clip_rect color (x0 - s.x) (y0 - s.y)
      (x0 - s.x_inner) r.2
    let r := drawhorzlineclipbounding r.1 surf_clip_rect color (x0 - s.x) (y0 + s.y - 1)
      (x0 - s.x_inner) r.2
    let r := drawhorzlineclipbounding r.1 surf_clip_rect color (x0 + s.x_inner - 1)
      (y0 - s.y) (x0 + s.x - 1) r.2
    drawhorzlineclipbounding r.1 surf_clip_rect color (x0 + s.x_inner - 1)
      (y0 + s.y - 1) (x0 + s.x - 1) r.2

/-- The advance of the inner trace in its first region: the skip loop on
`d1_inner`, then `x_inner++; y_inner--; ...`. -/
def ring_inner_region1 (radius_inner_squared : Int) (fuel : Nat) (s : RingState) :
    Option RingState :=
  (ring_skip radius_inner_squared fuel (s.x_inner, s.dx_inner, s.d1_inner)).map fun t =>
    let x_inner := t.1 + 1
    let y_inner := s.y_inner - 1
    let dx_inner := t.2.1 + 2 * radius_inner_squared
    let dy_inner := s.dy_inner - 2 * radius_inner_squared
    { s with
      x_inner := x_inner, y_inner := y_inner, dx_inner := dx_inner, dy_inner := dy_inner
      d1_inner := t.2.2 + ((dx_inner - dy_inner + radius_inner_squared : Int) : Rat) }

/-- The body of the first loop of `draw_circle_bresenham`; `none` when one of its
inner `while` loops exceeds `fuel`. -/
def draw_circle_bresenham_body1 (surf_clip_rect : SDL_Rect) (x0 y0 : Int) (color : Nat)
    (radius_squared radius_inner radius_inner_squared : Int) (fuel : Nat) (s : RingState) :
    Option RingState :=
  (ring_skip radius_squared fuel (s.x, s.dx, s.d1)).bind fun t =>
    let s := { s with x := t.1, dx := t.2.1, d1 := t.2.2 }
    let r := ring_spans surf_clip_rect x0 y0 color s
    let s := { s with surf := r.1, drawn_area := r.2 }
    let x := s.x + 1
    let y := s.y - 1
    let dx := s.dx + 2 * radius_squared
    let dy := s.dy - 2 * radius_squared
    let s := { s with
      x := x, y := y, dx := dx, dy := dy
      d1 := s.d1 + ((dx - dy + radius_squared : Int) : Rat) }
    let s := if s.line ∧ s.y < radius_inner then { s with line := false } else s
    if ¬ s.line then ring_inner_region1 radius_inner_squared fuel s else some s

/-- The body of the second loop of `draw_circle_bresenham`. -/
def draw_circle_bresenham_body2 (surf_clip_rect : SDL_Rect) (x0 y0 : Int) (color : Nat)
    (radius_squared radius_inner radius_inner_squared : Int) (fuel : Nat) (s : RingState) :
    Option RingState :=
  let r := ring_spans surf_clip_rect x0 y0 color s
  let s := { s with surf := r.1, drawn_area := r.2 }
  let s :=
    if s.d1 > 0 then
      let dy := s.dy - 2 * radius_squared
      { s with y := s.y - 1, dy := dy, d1 := s.d1 + ((radius_squared - dy : Int) : Rat) }
    else
      let dx := s.dx + 2 * radius_squared
      let dy := s.dy - 2 * radius_squared
      { s with
        y := s.y - 1, x := s.x + 1, dx := dx, dy := dy
        d1 := s.d1 + ((dx - dy + radius_squared : Int) : Rat) }
  let s := if s.line ∧ s.y < radius_inner then { s with line := false } else s
  if ¬ s.line then
    if s.dx_inner < s.dy_inner then ring_inner_region1 radius_inner_squared fuel s
    else
      let s :=
        if s.d2_inner = 0 then
          { s with
            d2_inner := (radius_inner_squared : Rat) *
              (((s.x_inner : Rat) + 1 / 2) * ((s.x_inner : Rat) + 1 / 2) +
                (((s.y_inner - 1) * (s.y_inner - 1) : Int) : Rat) -
                (radius_inner_squared : Rat)) }
        else s
      if s.d2_inner > 0 then
        let dy_inner := s.dy_inner - 2 * radius_inner_squared
        some { s with
          y_inner := s.y_inner - 1, dy_inner := dy_inner
          d2_inner := s.d2_inner + ((radius_inner_squared - dy_inner : Int) : Rat) }
      else
        let dx_inner := s.dx_inner + 2 * radius_inner_squared
        let dy_inner := s.dy_inner - 2 * radius_inner_squared
        some { s with
          y_inner := s.y_inner - 1, x_inner := s.x_inner + 1
          dx_inner := dx_inner, dy_inner := dy_inner
          d2_inner := s.d2_inner +
            ((dx_inner - dy_inner + radius_inner_squared : Int) : Rat) }
  else some s

/-- A C loop `while (cond) body` whose body contains further bounded loops and so
may itself yield `none`. -/
def while_loop_opt {σ : Type} (cond : σ → Bool) (body : σ → Option σ) : Nat → σ → Option σ
  | 0, s => if cond s then none else some s
  | fuel + 1, s => if cond s then (body s).bind (while_loop_opt cond body fuel) else some s

/-- The function `draw_circle_bresenham`. -/
def draw_circle_bresenham (surf : Surface) (surf_clip_rect : SDL_Rect)
    (x0 y0 radius thickness : Int) (color : Nat) (drawn_area : DrawnArea) :
    Option (Surface × DrawnArea) :=
  let radius_squared := radius * radius
  let double_radius_squared := 2 * radius_squared
  let radius_inner := radius - thickness + 1
  let radius_inner_squared := radius_inner * radius_inner
  let double_radius_inner_squared := 2 * radius_inner_squared
  let fuel := (abs radius + abs radius_inner + 2).toNat
  let s : RingState :=
    { surf := surf, drawn_area := drawn_area, x := 0, y := radius
      d1 := (radius_squared : Rat) * (5 / 4 - (radius : Rat))
      dx := 0, dy := double_radius_squared * radius, line := true
      x_inner := 0, y_inner := radius_inner
      d1_inner := (radius_inner_squared : Rat) * (5 / 4 - (radius_inner : Rat))
      d2_inner := 0, dx_inner := 0
      dy_inner := double_radius_inner_squared * radius_inner }
  (while_loop_opt (fun s => decide (s.dx < s.dy))
    (draw_circle_bresenham_body1 surf_clip_rect x0 y0 color radius_squared radius_inner
      radius_inner_squared fuel) fuel s).bind fun s =>
  let s := { s with
    d1 := (radius_squared : Rat) *
      (((s.x : Rat) + 1 / 2) * ((s.x : Rat) + 1 / 2) +
        (((s.y - 1) * (s.y - 1) : Int) : Rat) - (radius_squared : Rat)) }
  (while_loop_opt (fun s => decide (s.y ≥ 0))
    (draw_circle_bresenham_body2 surf_clip_rect x0 y0 color radius_squared radius_inner
      radius_inner_squared fuel) fuel s).map
    (fun s => (s.surf, s.drawn_area))

/-- The variables of the loops of `draw_circle_quadrant`. -/
structure QuadrantState where
  surf : Surface
  drawn_area : DrawnArea
  f : Int
  ddF_x : Int
  ddF_y : Int
  x : Int
  y : Int
  i_y : Int
  i_f : Int
  i_ddF_x : Int
  i_ddF_y : Int
  thickness : Int

/-- A loop `for (y1 = lo; y1 < lo + count; y1++) set_and_check_rect(.., x, y1, ..)`
of `draw_circle_quadrant`. -/
def quadrant_column (surf_clip_rect : SDL_Rect) (color : Nat) (x lo : Int) (count : Nat)
    (r : Surface × DrawnArea) : Surface × DrawnArea :=
  for_loop lo count (fun y1 r => set_and_check_rect r.1 surf_clip_rect x y1 color r.2) r

/-- A loop `for (i = 0; i < thickness; i++) { y1 = y - i; if (c1) set_and_check_rect(p1);
if (c2) set_and_check_rect(p2); }` of `draw_circle_quadrant`. -/
def quadrant_stroke (surf_clip_rect : SDL_Rect) (color : Nat) (thickness y : Int)
    (c1 : Int → Bool) (p1 : Int → Int × Int) (c2 : Int → Bool) (p2 : Int → Int × Int)
    (r : Surface × DrawnArea) : Surface × DrawnArea :=
  for_loop 0 thickness.toNat
    (fun i r =>
      let y1 := y - i
      let r := if c1 y1 then
          set_and_check_rect r.1 surf_clip_rect (p1 y1).1 (p1 y1).2 color r.2
        else r
      if c2 y1 then set_and_check_rect r.1 surf_clip_rect (p2 y1).1 (p2 y1).2 color r.2
      else r) r

/-- The body of the loop of `draw_circle_quadrant` for `thickness != 0`. -/
def draw_circle_quadrant_stroke_body (surf_clip_rect : SDL_Rect) (x0 y0 : Int) (color : Nat)
    (top_right top_left bottom_left bottom_right : Int) (s : QuadrantState) :
    QuadrantState :=
  let s := if s.f ≥ 0 then
      { s with y := s.y - 1, ddF_y := s.ddF_y + 2, f := s.f + (s.ddF_y + 2) }
    else s
  let s := if s.i_f ≥ 0 then
      { s with i_y := s.i_y - 1, i_ddF_y := s.i_ddF_y + 2, i_f := s.i_f + (s.i_ddF_y + 2) }
    else s
  let s := { s with x := s.x + 1, ddF_x := s.ddF_x + 2, f := s.f + (s.ddF_x + 2) + 1 }
  let s := { s with i_ddF_x := s.i_ddF_x + 2, i_f := s.i_f + (s.i_ddF_x + 2) + 1 }
  let s := if s.thickness > 1 then { s with thickness := s.y - s.i_y } else s
  let x := s.x
  let r : Surface × DrawnArea := (s.surf, s.drawn_area)
  let r := if top_right > 0 then
      quadrant_stroke surf_clip_rect color s.thickness s.y
        (fun y1 => decide ((y0 - y1) < (y0 - x))) (fun y1 => (x0 + x - 1, y0 - y1))
        (fun y1 => decide ((x0 + y1 - 1) ≥ (x0 + x - 1))) (fun y1 => (x0 + y1 - 1, y0 - x)) r
    else r
  let r := if top_left > 0 then
      quadrant_stroke surf_clip_rect color s.thickness s.y
        (fun y1 => decide ((y0 - y1) ≤ (y0 - x))) (fun y1 => (x0 - x, y0 - y1))
        (fun y1 => decide ((x0 - y1) < (x0 - x))) (fun y1 => (x0 - y1, y0 - x)) r
    else r
  let r := if bottom_left > 0 then
      quadrant_stroke surf_clip_rect color s.thickness s.y
        (fun y1 => decide ((x0 - y1) ≤ (x0 - x))) (fun y1 => (x0 - y1, y0 + x - 1))
        (fun y1 => decide ((y0 + y1 - 1) > (y0 + x - 1))) (fun y1 => (x0 - x, y0 + y1 - 1)) r
    else r
  let r := if bottom_right > 0 then
      quadrant_stroke surf_clip_rect color s.thickness s.y
        (fun y1 => decide ((y0 + y1 - 1) ≥ (y0 + x - 1))) (fun y1 => (x0 + x - 1, y0 + y1 - 1))
        (fun y1 => decide ((x0 + y1 - 1) > (x0 + x - 1))) (fun y1 => (x0 + y1 - 1, y0 + x - 1))
        r
    else r
  { s with surf := r.1, drawn_area := r.2 }

/-- The body of the loop of `draw_circle_quadrant` for `thickness == 0`. -/
def draw_circle_quadrant_fill_body (surf_clip_rect : SDL_Rect) (x0 y0 : Int) (color : Nat)
    (top_right top_left bottom_left bottom_right : Int) (s : QuadrantState) :
    QuadrantState :=
  let s := if s.f ≥ 0 then
      { s with y := s.y - 1, ddF_y := s.ddF_y + 2, f := s.f + (s.ddF_y + 2) }
    else s
  let s := { s with x := s.x + 1, ddF_x := s.ddF_x + 2, f := s.f + (s.ddF_x + 2) + 1 }
  let x := s.x
  let y := s.y
  let r : Surface × DrawnArea := (s.surf, s.drawn_area)
  let r := if top_right > 0 then
      let r := quadrant_column surf_clip_rect color (x0 + y - 1) (y0 - x)
        (y0 + 1 - (y0 - x)).toNat r
      quadrant_column surf_clip_rect color (x0 + x - 1) (y0 - y) (y0 + 1 - (y0 - y)).toNat r
    else r
  let r := if top_left > 0 then
      let r := quadrant_column surf_clip_rect color (x0 - y) (y0 - x)
        (y0 + 1 - (y0 - x)).toNat r
      quadrant_column surf_clip_rect color (x0 - x) (y0 - y) (y0 + 1 - (y0 - y)).toNat r
    else r
  let r := if bottom_left > 0 then
      let r := quadrant_column surf_clip_rect color (x0 - y) y0 (y0 + x - y0).toNat r
      quadrant_column surf_clip_rect color (x0 - x) y0 (y0 + y - y0).toNat r
    else r
  let r := if bottom_right > 0 then
      let r := quadrant_column surf_clip_rect color (x0 + y - 1) y0 (y0 + x - y0).toNat r
      quadrant_column surf_clip_rect color (x0 + x - 1) y0 (y0 + y - y0).toNat r
    else r
  { s with surf := r.1, drawn_area := r.2 }

/-- The function `draw_circle_quadrant`. -/
def draw_circle_quadrant (surf : Surface) (surf_clip_rect : SDL_Rect)
    (x0 y0 radius thickness : Int) (color : Nat)
    (top_right top_left bottom_left bottom_right : Int) (drawn_area : DrawnArea) :
    Option (Surface × DrawnArea) :=
  let i_y := radius - thickness
  let s : QuadrantState :=
    { surf := surf, drawn_area := drawn_area, f := 1 - radius, ddF_x := 0
      ddF_y := -2 * radius, x := 0, y := radius, i_y := i_y, i_f := 1 - i_y
      i_ddF_x := 0, i_ddF_y := -2 * i_y, thickness := thickness }
  if radius = 1 then
    let r : Surface × DrawnArea := (surf, drawn_area)
    let r := if top_right > 0 then
        set_and_check_rect r.1 surf_clip_rect x0 (y0 - 1) color r.2 else r
    let r := if top_left > 0 then
        set_and_check_rect r.1 surf_clip_rect (x0 - 1) (y0 - 1) color r.2 else r
    let r := if bottom_left > 0 then
        set_and_check_rect r.1 surf_clip_rect (x0 - 1) y0 color r.2 else r
    let r := if bottom_right > 0 then
        set_and_check_rect r.1 surf_clip_rect x0 y0 color r.2 else r
    some r
  else if thickness ≠ 0 then
    (while_loop (fun s => decide (s.x < s.y))
      (draw_circle_quadrant_stroke_body surf_clip_rect x0 y0 color top_right top_left
        bottom_left bottom_right)
      (radius + 1).toNat s).map (fun s => (s.surf, s.drawn_area))
  else
    (while_loop (fun s => decide (s.x < s.y))
      (draw_circle_quadrant_fill_body surf_clip_rect x0 y0 color top_right top_left
        bottom_left bottom_right)
      (radius + 1).toNat s).map (fun s => (s.surf, s.drawn_area))

/-! ## Polygon filler -/

/-- The call `qsort(x_intersect, n, sizeof(int), compare_int)`: the first `n`
entries are put in ascending order, the rest of the buffer is untouched. -/
def qsort_ints (x_intersect : List Int) (n : Nat) : List Int :=
  (x_intersect.take n).insertionSort (fun a b => a ≤ b) ++ x_intersect.drop n

/-- The inner loop of `draw_fillpoly` that collects the intersections of scanline
`y` into `x_intersect`; the state is the buffer and `n_intersections`.  The quotient
`(y - y1) * (x2 - x1) / (float)(y2 - y1)` has a positive denominator; its `floor`
and `ceil` are taken of the exact quotient (the `float` value is exact while the
product of the two differences stays below `2^24`). -/
def fillpoly_intersections (point_x point_y : List Int) (num_points : Nat) (maxy y : Int)
    (x_intersect : List Int) : List Int × Nat :=
  for_loop 0 num_points
    (fun i st =>
      let i := i.toNat
      let i_previous := if i ≠ 0 then i - 1 else num_points - 1
      let y1 := point_y.getD i_previous 0
      let y2 := point_y.getD i 0
      if y1 = y2 then st
      else
        let e : Int × Int × Int × Int :=
          if y1 < y2 then (point_x.getD i_previous 0, y1, point_x.getD i 0, y2)
          else (point_x.getD i 0, point_y.getD i 0, point_x.getD i_previous 0,
            point_y.getD i_previous 0)
        let x1 := e.1
        let y1 := e.2.1
        let x2 := e.2.2.1
        let y2 := e.2.2.2
        if (y ≥ y1 ∧ y < y2) ∨ (y = maxy ∧ y2 = maxy) then
          let intersect :=
            if st.2 % 2 = 0 then ((y - y1) * (x2 - x1)) / (y2 - y1)
            else -((-((y - y1) * (x2 - x1))) / (y2 - y1))
          (st.1.set st.2 (intersect + x1), st.2 + 1)
        else st)
    (x_intersect, 0)

/-- The state of the scanline loop of `draw_fillpoly`: surface, accumulator and the
buffer `x_intersect`, which keeps its content from one scanline to the next. -/
structure FillState where
  surf : Surface
  drawn_area : DrawnArea
  x_intersect : List Int

/-- The body of the scanline loop of `draw_fillpoly`.  A read of `x_intersect[i + 1]`
past the end of the buffer yields 0 here. -/
def fillpoly_scanline (surf_clip_rect : SDL_Rect) (point_x point_y : List Int)
    (num_points : Nat) (color : Nat) (maxy y : Int) (s : FillState) : FillState :=
  let c := fillpoly_intersections point_x point_y num_points maxy y s.x_intersect
  let n_intersections := c.2
  let x_intersect := qsort_ints c.1 n_intersections
  let r := for_loop 0 ((n_intersections + 1) / 2)
    (fun k r =>
      let i := (2 * k).toNat
      drawhorzlineclipbounding r.1 surf_clip_rect color (x_intersect.getD i 0) y
        (x_intersect.getD (i + 1) 0) r.2)
    (s.surf, s.drawn_area)
  ⟨r.1, r.2, x_intersect⟩

/-- The function `draw_fillpoly`; `x_intersect` is the freshly allocated,
uninitialised buffer of `num_points` entries. -/
def draw_fillpoly (surf : Surface) (surf_clip_rect : SDL_Rect) (point_x point_y : List Int)
    (num_points : Nat) (color : Nat) (drawn_area : DrawnArea) (x_intersect : List Int) :
    Surface × DrawnArea :=
  let miny := for_loop 1 (num_points - 1) (fun i m => MIN m (point_y.getD i.toNat 0))
    (point_y.getD 0 0)
  let maxy := for_loop 1 (num_points - 1) (fun i m => MAX m (point_y.getD i.toNat 0))
    (point_y.getD 0 0)
  if miny = maxy then
    let minx := for_loop 1 (num_points - 1) (fun i m => MIN m (point_x.getD i.toNat 0))
      (point_x.getD 0 0)
    let maxx := for_loop 1 (num_points - 1) (fun i m => MAX m (point_x.getD i.toNat 0))
      (point_x.getD 0 0)
    drawhorzlineclipbounding surf surf_clip_rect color minx miny maxx drawn_area
  else
    let s := for_loop miny (maxy + 1 - miny).toNat
      (fillpoly_scanline surf_clip_rect point_x point_y num_points color maxy)
      ⟨surf, drawn_area, x_intersect⟩
    for_loop 0 num_points
      (fun i r =>
        let i := i.toNat
        let i_previous := if i ≠ 0 then i - 1 else num_points - 1
        let y := point_y.getD i 0
        if miny < y ∧ point_y.getD i_previous 0 = y ∧ y < maxy then
          drawhorzlineclipbounding r.1 surf_clip_rect color (point_x.getD i 0) y
            (point_x.getD i_previous 0) r.2
        else r)
      (s.surf, s.drawn_area)

/-! ## Arc rasteriser -/

/-- The `double` arithmetic and the `libm` functions `draw_arc` uses, over a type
`D` of `double` values.  They are parameters of the embedding: no property of
floating-point arithmetic is assumed.  `tiny` is the constant `1e-17` of
`draw_filltri` and `toFloat` the conversion to `float` that `draw_filltri` and
`draw_round_rect` apply. -/
structure DoubleOps (D : Type) where
  ofInt : Int → D
  toInt : D → Int
  add : D → D → D
  sub : D → D → D
  mul : D → D → D
  div : D → D → D
  neg : D → D
  lt : D → D → Bool
  le : D → D → Bool
  cos : D → D
  sin : D → D
  sqrt : D → D
  half : D
  one : D
  pi : D
  tiny : D
  toFloat : D → D

/-- The function `check_pixel_in_arc`, as a truth value. -/
def check_pixel_in_arc {D : Type} (ops : DoubleOps D) (x y : Int)
    (min_dotproduct invsqr_radius1 invsqr_radius2 invsqr_inner_radius1
      invsqr_inner_radius2 x_middle y_middle : D) : Bool :=
  let x_adjusted := ops.mul (ops.ofInt (x * x)) invsqr_radius1
  let y_adjusted := ops.mul (ops.ofInt (y * y)) invsqr_radius2
  if ops.lt ops.one (ops.add x_adjusted y_adjusted) then false
  else
    let x_inner_adjusted := ops.mul (ops.ofInt (x * x)) invsqr_inner_radius1
    let y_inner_adjusted := ops.mul (ops.ofInt (y * y)) invsqr_inner_radius2
    if ops.lt (ops.add x_inner_adjusted y_inner_adjusted) ops.one then false
    else
      ops.le (ops.mul min_dotproduct (ops.sqrt (ops.ofInt (x * x + y * y))))
        (ops.add (ops.mul (ops.ofInt x) x_middle) (ops.mul (ops.ofInt y) y_middle))

/-- A loop `for (i = lo; i <= hi; ++i) if (test(i)) { exists = 1; break; }` of
`calc_arc_bounds`: whether some `i` in `lo .. hi` passes the test. -/
def exists_in_range (lo hi : Int) (test : Int → Bool) : Bool :=
  for_loop lo (hi + 1 - lo).toNat (fun i found => found || test i) false

/-- The state of one of the four bound-reducing loops of `calc_arc_bounds`: the
bound being moved, the flag `exists`, and whether the loop has executed `return`. -/
structure BoundState where
  bound : Int
  found : Bool
  returned : Bool

/-- A bound-reducing loop of `calc_arc_bounds`: `while (!exists) { if (stop) return;
exists = (some pixel on the edge is in the arc); bound += step * !exists; }` with
`step = 1` for a lower bound and `step = -1` for an upper bound. -/
def reduce_bound (stop : Int → Bool) (edge : Int → Bool) (step : Int) (fuel : Nat)
    (bound : Int) : Option BoundState :=
  while_loop (fun s => !s.found && !s.returned)
    (fun s =>
      if stop s.bound then { s with returned := true }
      else
        let found := edge s.bound
        { s with found := found, bound := s.bound + step * (if found then 0 else 1) })
    fuel ⟨bound, false, false⟩

/-- The four bounds `minx`, `miny`, `maxx`, `maxy` of `draw_arc`. -/
structure ArcBounds where
  minx : Int
  miny : Int
  maxx : Int
  maxy : Int
  deriving DecidableEq, Repr

/-- The first part of `calc_arc_bounds`: the bounds derived from the corner points
of the sector, clamped to the clip rectangle. -/
def arc_corner_bounds {D : Type} (ops : DoubleOps D) (surf_clip_rect : SDL_Rect)
    (angle_start angle_stop : D) (radius1 radius2 inner_radius1 inner_radius2 : Int)
    (min_dotproduct x_middle y_middle : D) (x_center y_center : Int) : ArcBounds :=
  let x_start := ops.cos angle_start
  let y_start := ops.neg (ops.sin angle_start)
  let x_stop := ops.cos angle_stop
  let y_stop := ops.neg (ops.sin angle_stop)
  let round := fun (c : D) (r : Int) => ops.toInt (ops.add (ops.mul c (ops.ofInt r)) ops.half)
  let x_start_inner := round x_start inner_radius1
  let y_start_inner := round y_start inner_radius2
  let x_stop_inner := round x_stop inner_radius1
  let y_stop_inner := round y_stop inner_radius2
  let x_start_outer := round x_start radius1
  let y_start_outer := round y_start radius2
  let x_stop_outer := round x_stop radius1
  let y_stop_outer := round y_stop radius2
  let minx := if ops.lt (ops.neg x_middle) min_dotproduct then
      MIN (MIN x_start_inner x_stop_inner) (MIN x_start_outer x_stop_outer)
    else -radius1
  let minx := MAX minx (surf_clip_rect.x - x_center)
  let miny := if ops.lt (ops.neg y_middle) min_dotproduct then
      MIN (MIN y_start_inner y_stop_inner) (MIN y_start_outer y_stop_outer)
    else -radius2
  let miny := MAX miny (surf_clip_rect.y - y_center)
  let maxx := if ops.lt x_middle min_dotproduct then
      MAX (MAX x_start_inner x_stop_inner) (MAX x_start_outer x_stop_outer)
    else radius1
  let maxx := MIN maxx (surf_clip_rect.x + surf_clip_rect.w - x_center - 1)
  let maxy := if ops.lt y_middle min_dotproduct then
      MAX (MAX y_start_inner y_stop_inner) (MAX y_start_outer y_stop_outer)
    else radius2
  let maxy := MIN maxy (surf_clip_rect.y + surf_clip_rect.h - y_center - 1)
  ⟨minx, miny, maxx, maxy⟩

/-- The function `calc_arc_bounds`: the bounds it writes through its four output
pointers, or `bounds` unchanged when it returns early. -/
def calc_arc_bounds {D : Type} (ops : DoubleOps D) (surf_clip_rect : SDL_Rect)
    (angle_start angle_stop : D) (radius1 radius2 inner_radius1 inner_radius2 : Int)
    (invsqr_radius1 invsqr_radius2 invsqr_inner_radius1 invsqr_inner_radius2
      min_dotproduct x_middle y_middle : D) (x_center y_center : Int)
    (bounds : ArcBounds) : Option ArcBounds :=
  let b0 := arc_corner_bounds ops surf_clip_rect angle_start angle_stop radius1 radius2
    inner_radius1 inner_radius2 min_dotproduct x_middle y_middle x_center y_center
  let minx := b0.minx
  let miny := b0.miny
  let maxx := b0.maxx
  let maxy := b0.maxy
  if minx ≥ maxx ∨ miny ≥ maxy then some bounds
  else
    let check := fun (x y : Int) =>
      check_pixel_in_arc ops x y min_dotproduct invsqr_radius1 invsqr_radius2
        invsqr_inner_radius1 invsqr_inner_radius2 x_middle y_middle
    let fuel := (abs (maxx - minx) + abs (maxy - miny) + 2).toNat
    (reduce_bound (fun miny => decide (miny ≥ maxy))
      (fun miny => exists_in_range minx maxx (fun x => check x miny)) 1 fuel miny).bind
    fun s1 =>
    if s1.returned then some bounds
    else
      let miny := s1.bound
      (reduce_bound (fun maxy => decide (maxy ≤ miny))
        (fun maxy => exists_in_range minx maxx (fun x => check x maxy)) (-1) fuel maxy).bind
      fun s2 =>
      if s2.returned then some bounds
      else
        let maxy := s2.bound
        (reduce_bound (fun minx => decide (minx ≥ maxx))
          (fun minx => exists_in_range miny maxy (fun y => check minx y)) 1 fuel minx).bind
        fun s3 =>
        if s3.returned then some bounds
        else
          let minx := s3.bound
          (reduce_bound (fun maxx => decide (minx ≥ maxx))
            (fun maxx => exists_in_range miny maxy (fun y => check maxx y)) (-1) fuel
            maxx).bind
          fun s4 =>
          if s4.returned then some bounds
          else some ⟨minx, miny, s4.bound, maxy⟩

/-- The body of the inner loop (over `x`) of the main loop of `draw_arc`. -/
def draw_arc_pixel {D : Type} (ops : DoubleOps D) (x_center y_center : Int) (color : Nat)
    (b : ArcBounds) (min_dotproduct x_middle y_middle : D) (y : Int) (x : Int)
    (surf : Surface) : Surface :=
  let pos_y := decide (y ≥ b.miny) && decide (y ≤ b.maxy)
  let neg_y := decide (-y ≥ b.miny) && decide (-y ≤ b.maxy)
  let y2 := y * y
  let py_offset := y_center + y
  let ny_offset := y_center - y
  let y_dot := ops.mul (ops.ofInt y) y_middle
  let pos_x := decide (x ≥ b.minx) && decide (x ≤ b.maxx)
  let neg_x := decide (-x ≥ b.minx) && decide (-x ≤ b.maxx)
  if !(pos_x || neg_x) then surf
  else
    let px_offset := x_center + x
    let nx_offset := x_center - x
    let cmp := ops.mul min_dotproduct (ops.sqrt (ops.ofInt (x * x + y2)))
    let x_dot := ops.mul (ops.ofInt x) x_middle
    let surf := if pos_y && pos_x && ops.le cmp (ops.add x_dot y_dot) then
        unsafe_set_at surf px_offset py_offset color else surf
    let surf := if pos_y && neg_x && ops.le cmp (ops.add (ops.neg x_dot) y_dot) then
        unsafe_set_at surf nx_offset py_offset color else surf
    let surf := if neg_y && pos_x && ops.le cmp (ops.sub x_dot y_dot) then
        unsafe_set_at surf px_offset ny_offset color else surf
    let surf := if neg_y && neg_x && ops.le cmp (ops.sub (ops.neg x_dot) y_dot) then
        unsafe_set_at surf nx_offset ny_offset color else surf
    surf

/-- The part of `draw_arc` after the call of `calc_arc_bounds`: the early return on
empty bounds, the main loop over `y` and `x`, and the assignment of `drawn_area`. -/
def draw_arc_sweep {D : Type} (ops : DoubleOps D) (surf : Surface)
    (x_center y_center radius1 inner_radius1 inner_radius2 : Int)
    (invsqr_radius2 invsqr_inner_radius2 min_dotproduct x_middle y_middle : D)
    (color : Nat) (drawn_area : DrawnArea) (b : ArcBounds) : Surface × DrawnArea :=
  if b.minx ≥ b.maxx ∨ b.miny ≥ b.maxy then (surf, drawn_area)
  else
    let max_required_y := MAX b.maxy (-b.miny)
    let surf := for_loop 0 (max_required_y + 1).toNat
      (fun y surf =>
        let y2 := y * y
        let x_outer := ops.toInt (ops.mul (ops.ofInt radius1)
          (ops.sqrt (ops.sub ops.one (ops.mul (ops.ofInt y2) invsqr_radius2))))
        let x_inner := if y < inner_radius2 then
            ops.toInt (ops.mul (ops.ofInt inner_radius1)
              (ops.sqrt (ops.sub ops.one (ops.mul (ops.ofInt y2) invsqr_inner_radius2))))
          else 0
        for_loop x_inner (x_outer + 1 - x_inner).toNat
          (draw_arc_pixel ops x_center y_center color b min_dotproduct x_middle
            y_middle y) surf)
      surf
    (surf, ⟨b.minx + x_center, b.miny + y_center, b.maxx + x_center, b.maxy + y_center⟩)

/-- The function `draw_arc`. -/
def draw_arc {D : Type} (ops : DoubleOps D) (surf : Surface) (surf_clip_rect : SDL_Rect)
    (x_center y_center radius1 radius2 width : Int) (angle_start angle_stop : D)
    (color : Nat) (drawn_area : DrawnArea) : Option (Surface × DrawnArea) :=
  if width ≤ 0 then some (surf, drawn_area)
  else
    let angle_stop := if ops.lt angle_stop angle_start then
        ops.add angle_stop (ops.mul (ops.ofInt 2) ops.pi)
      else angle_stop
    if ops.le angle_stop angle_start then some (surf, drawn_area)
    else
      let angle_middle := ops.mul ops.half (ops.add angle_start angle_stop)
      let angle_distance := ops.sub angle_middle angle_start
      let x_middle := ops.cos angle_middle
      let y_middle := ops.neg (ops.sin angle_middle)
      let inner_radius1 := radius1 - width
      let inner_radius2 := radius2 - width
      let invsqr_radius1 := ops.div ops.one (ops.ofInt (radius1 * radius1))
      let invsqr_radius2 := ops.div ops.one (ops.ofInt (radius2 * radius2))
      let invsqr_inner_radius1 := ops.div ops.one (ops.ofInt (inner_radius1 * inner_radius1))
      let invsqr_inner_radius2 := ops.div ops.one (ops.ofInt (inner_radius2 * inner_radius2))
      let min_dotproduct := if ops.lt angle_distance ops.pi then
          ops.cos (ops.sub angle_middle angle_start)
        else ops.neg ops.one
      (calc_arc_bounds ops surf_clip_rect angle_start angle_stop radius1 radius2
        inner_radius1 inner_radius2 invsqr_radius1 invsqr_radius2 invsqr_inner_radius1
        invsqr_inner_radius2 min_dotproduct x_middle y_middle x_center y_center
        ⟨0, 0, -1, -1⟩).map
        (draw_arc_sweep ops surf x_center y_center radius1 inner_radius1 inner_radius2
          invsqr_radius2 invsqr_inner_radius2 min_dotproduct x_middle y_middle color
          drawn_area)

/-! ## Triangles and rectangles -/

/-- The function `draw_filltri`: the three vertices are sorted by `y` with
`swap_coordinates`, then one span per row is drawn between the long edge and the
two short edges.  The slopes `d1`, `d2`, `d3` are `float` values. -/
def draw_filltri {D : Type} (ops : DoubleOps D) (surf : Surface) (surf_clip_rect : SDL_Rect)
    (xlist ylist : List Int) (color : Nat) (draw_area : DrawnArea) : Surface × DrawnArea :=
  let p0 : Int × Int := (xlist.getD 0 0, ylist.getD 0 0)
  let p1 : Int × Int := (xlist.getD 1 0, ylist.getD 1 0)
  let p2 : Int × Int := (xlist.getD 2 0, ylist.getD 2 0)
  let a : (Int × Int) × (Int × Int) := if p1.2 < p0.2 then (p1, p0) else (p0, p1)
  let p0 := a.1
  let p1 := a.2
  let b : (Int × Int) × (Int × Int) × (Int × Int) :=
    if p2.2 < p1.2 then
      if p2.2 < p0.2 then (p2, p0, p1) else (p0, p2, p1)
    else (p0, p1, p2)
  let p0 := b.1
  let p1 := b.2.1
  let p2 := b.2.2
  let c : (Int × Int) × (Int × Int) :=
    if p0.2 = p1.2 ∧ p1.2 = p2.2 ∧ p0.1 = p1.1 ∧ p1.1 ≠ p2.1 then (p2, p1) else (p1, p2)
  let p1 := c.1
  let p2 := c.2
  let d1 := ops.toFloat (ops.div (ops.ofInt (p2.1 - p0.1))
    (ops.add (ops.ofInt (p2.2 - p0.2)) ops.tiny))
  let d2 := ops.toFloat (ops.div (ops.ofInt (p1.1 - p0.1))
    (ops.add (ops.ofInt (p1.2 - p0.2)) ops.tiny))
  let d3 := ops.toFloat (ops.div (ops.ofInt (p2.1 - p1.1))
    (ops.add (ops.ofInt (p2.2 - p1.2)) ops.tiny))
  for_loop p0.2 (p2.2 + 1 - p0.2).toNat
    (fun y r =>
      let x1 := p0.1 + ops.toInt (ops.toFloat (ops.mul (ops.ofInt (y - p0.2)) d1))
      let x2 :=
        if y < p1.2 then p0.1 + ops.toInt (ops.toFloat (ops.mul (ops.ofInt (y - p0.2)) d2))
        else p1.1 + ops.toInt (ops.toFloat (ops.mul (ops.ofInt (y - p1.2)) d3))
      drawhorzlineclipbounding r.1 surf_clip_rect color x1 y x2 r.2)
    (surf, draw_area)

/-- The function `draw_rect`. -/
def draw_rect (surf : Surface) (surf_clip_rect : SDL_Rect) (x1 y1 x2 y2 width : Int)
    (color : Nat) : Surface :=
  let surf := for_loop 0 width.toNat
    (fun i s =>
      let s := drawhorzlineclip s surf_clip_rect color x1 (y1 + i) x2
      drawhorzlineclip s surf_clip_rect color x1 (y2 - i) x2) surf
  for_loop 0 ((y2 - y1) - 2 * width + 1).toNat
    (fun i s =>
      let s := drawhorzlineclip s surf_clip_rect color x1 (y1 + width + i) (x1 + width - 1)
      drawhorzlineclip s surf_clip_rect color (x2 - width + 1) (y1 + width + i) x2) surf

/-- The first part of `draw_round_rect`: a negative corner radius is replaced by
`radius`, and when two adjacent radii overlap all four are scaled by the smallest of
the four `float` quotients `q_top`, `q_left`, `q_bottom`, `q_right`.  The result is
`(top_left, top_right, bottom_left, bottom_right)`. -/
def round_rect_radii {D : Type} (ops : DoubleOps D)
    (x1 y1 x2 y2 radius top_left top_right bottom_left bottom_right : Int) :
    Int × Int × Int × Int :=
  let top_left := if top_left < 0 then radius else top_left
  let top_right := if top_right < 0 then radius else top_right
  let bottom_left := if bottom_left < 0 then radius else bottom_left
  let bottom_right := if bottom_right < 0 then radius else bottom_right
  if (top_left + top_right) > (x2 - x1 + 1) ∨ (bottom_left + bottom_right) > (x2 - x1 + 1) ∨
      (top_left + bottom_left) > (y2 - y1 + 1) ∨
      (top_right + bottom_right) > (y2 - y1 + 1) then
    let q_top := ops.toFloat (ops.div (ops.ofInt (x2 - x1 + 1))
      (ops.toFloat (ops.ofInt (top_left + top_right))))
    let q_left := ops.toFloat (ops.div (ops.ofInt (y2 - y1 + 1))
      (ops.toFloat (ops.ofInt (top_left + bottom_left))))
    let q_bottom := ops.toFloat (ops.div (ops.ofInt (x2 - x1 + 1))
      (ops.toFloat (ops.ofInt (bottom_left + bottom_right))))
    let q_right := ops.toFloat (ops.div (ops.ofInt (y2 - y1 + 1))
      (ops.toFloat (ops.ofInt (top_right + bottom_right))))
    let fmin := fun (a b : D) => if ops.lt a b then a else b
    let f := fmin (fmin (fmin q_top q_left) q_bottom) q_right
    (ops.toInt (ops.toFloat (ops.mul (ops.ofInt top_left) f)),
      ops.toInt (ops.toFloat (ops.mul (ops.ofInt top_right) f)),
      ops.toInt (ops.toFloat (ops.mul (ops.ofInt bottom_left) f)),
      ops.toInt (ops.toFloat (ops.mul (ops.ofInt bottom_right) f)))
  else (top_left, top_right, bottom_left, bottom_right)

/-- One edge of the stroked `draw_round_rect`: the loop of `width` single pixels
from `(gx, gy)` in direction `(sx, sy)` when `gap` holds, else the wide line from
`(px, py)` to `(qx, qy)`. -/
def round_rect_edge (surf_clip_rect : SDL_Rect) (color : Nat) (width : Int) (gap : Bool)
    (gx gy sx sy px py qx qy : Int) (r : Surface × DrawnArea) :
    Option (Surface × DrawnArea) :=
  if gap then
    some (for_loop 0 width.toNat
      (fun i r => set_and_check_rect r.1 surf_clip_rect (gx + sx * i) (gy + sy * i) color r.2)
      r)
  else draw_line_width r.1 surf_clip_rect color px py qx qy width r.2

/-- The function `draw_round_rect`, after the radii have been adjusted by
`round_rect_radii`; `x_intersect` is the uninitialised buffer `draw_fillpoly`
allocates. -/
def draw_round_rect {D : Type} (ops : DoubleOps D) (surf : Surface)
    (surf_clip_rect : SDL_Rect) (x1 y1 x2 y2 radius width : Int) (color : Nat)
    (top_left top_right bottom_left bottom_right : Int) (drawn_area : DrawnArea)
    (x_intersect : List Int) : Option (Surface × DrawnArea) :=
  let rr := round_rect_radii ops x1 y1 x2 y2 radius top_left top_right bottom_left
    bottom_right
  let top_left := rr.1
  let top_right := rr.2.1
  let bottom_left := rr.2.2.1
  let bottom_right := rr.2.2.2
  if width = 0 then
    let pts_x := [x1, x1 + top_left, x2 - top_right, x2, x2, x2 - bottom_right,
      x1 + bottom_left, x1]
    let pts_y := [y1 + top_left, y1, y1, y1 + top_right, y2 - bottom_right, y2, y2,
      y2 - bottom_left]
    let r := draw_fillpoly surf surf_clip_rect pts_x pts_y 8 color drawn_area x_intersect
    (draw_circle_quadrant r.1 surf_clip_rect (x2 - top_right + 1) (y1 + top_right) top_right
      0 color 1 0 0 0 r.2).bind fun r =>
    (draw_circle_quadrant r.1 surf_clip_rect (x1 + top_left) (y1 + top_left) top_left
      0 color 0 1 0 0 r.2).bind fun r =>
    (draw_circle_quadrant r.1 surf_clip_rect (x1 + bottom_left) (y2 - bottom_left + 1)
      bottom_left 0 color 0 0 1 0 r.2).bind fun r =>
    draw_circle_quadrant r.1 surf_clip_rect (x2 - bottom_right + 1) (y2 - bottom_right + 1)
      bottom_right 0 color 0 0 0 1 r.2
  else
    (round_rect_edge surf_clip_rect color width (decide (x2 - top_right = x1 + top_left))
      (x1 + top_left) y1 0 1
      (x1 + top_left) (y1 + cdiv width 2 - 1 + cmod width 2)
      (x2 - top_right) (y1 + cdiv width 2 - 1 + cmod width 2) (surf, drawn_area)).bind fun r =>
    (round_rect_edge surf_clip_rect color width (decide (y2 - bottom_left = y1 + top_left))
      x1 (y1 + top_left) 1 0
      (x1 + cdiv width 2 - 1 + cmod width 2) (y1 + top_left)
      (x1 + cdiv width 2 - 1 + cmod width 2) (y2 - bottom_left) r).bind fun r =>
    (round_rect_edge surf_clip_rect color width
      (decide (x2 - bottom_right = x1 + bottom_left))
      (x1 + bottom_left) y2 0 (-1)
      (x1 + bottom_left) (y2 - cdiv width 2)
      (x2 - bottom_right) (y2 - cdiv width 2) r).bind fun r =>
    (round_rect_edge surf_clip_rect color width (decide (y2 - bottom_right = y1 + top_right))
      x2 (y1 + top_right) (-1) 0
      (x2 - cdiv width 2) (y1 + top_right)
      (x2 - cdiv width 2) (y2 - bottom_right) r).bind fun r =>
    (draw_circle_quadrant r.1 surf_clip_rect (x2 - top_right + 1) (y1 + top_right) top_right
      width color 1 0 0 0 r.2).bind fun r =>
    (draw_circle_quadrant r.1 surf_clip_rect (x1 + top_left) (y1 + top_left) top_left
      width color 0 1 0 0 r.2).bind fun r =>
    (draw_circle_quadrant r.1 surf_clip_rect (x1 + bottom_left) (y2 - bottom_left + 1)
      bottom_left width color 0 0 1 0 r.2).bind fun r =>
    draw_circle_quadrant r.1 surf_clip_rect (x2 - bottom_right + 1) (y2 - bottom_right + 1)
      bottom_right width color 0 0 0 1 r.2

/-! ## Entry points

The entry points are embedded from the check of the surface depth on: their
arguments are already parsed (typed), and locking and allocation succeed. -/

/-- The Python exceptions the embedded part of the entry points can raise. -/
inductive PyExc where
  | ValueError
  | TypeError
  deriving DecidableEq, Repr

/-- The rectangle every entry point computes under `Compute return rect`: the
box of `drawn_area`, or a zero-size rectangle at the anchor `(x, y)` when a
field of `drawn_area` still has its initial value. -/
def return_rect (drawn_area : DrawnArea) (x y : Int) : SDL_Rect :=
  if drawn_area.minx ≠ INT_MAX ∧ drawn_area.miny ≠ INT_MAX ∧
      drawn_area.maxx ≠ INT_MIN ∧ drawn_area.maxy ≠ INT_MIN then
    ⟨drawn_area.minx, drawn_area.miny, drawn_area.maxx - drawn_area.minx + 1,
      drawn_area.maxy - drawn_area.miny + 1⟩
  else ⟨x, y, 0, 0⟩

/-- The test `PG_SURF_BytesPerPixel(surf) <= 0 || PG_SURF_BytesPerPixel(surf) > 4`
that makes every entry point raise `ValueError`. -/
def unsupported_depth (surf : Surface) : Bool :=
  decide (surf.BytesPerPixel ≤ 0 ∨ surf.BytesPerPixel > 4)

/-- The entry point `line`. -/
def line (surf : Surface) (surf_clip_rect : SDL_Rect) (color : Nat)
    (startx starty endx endy width : Int) : Option (Except PyExc (Surface × SDL_Rect)) :=
  if unsupported_depth surf then some (.error .ValueError)
  else if width < 1 then some (.ok (surf, ⟨startx, starty, 0, 0⟩))
  else
    (draw_line_width surf surf_clip_rect color startx starty endx endy width
      DrawnArea.init).map
      (fun r => .ok (r.1, return_rect r.2 startx starty))

/-- The entry point `lines`; `points` is the parsed point sequence, from which
`xlist` and `ylist` are filled. -/
def lines (surf : Surface) (surf_clip_rect : SDL_Rect) (color : Nat) (closed : Bool)
    (points : List (Int × Int)) (width : Int) :
    Option (Except PyExc (Surface × SDL_Rect)) :=
  if unsupported_depth surf then some (.error .ValueError)
  else
    let length := points.length
    if length < 2 then some (.error .ValueError)
    else
      let xlist := points.map Prod.fst
      let ylist := points.map Prod.snd
      let x := xlist.getD 0 0
      let y := ylist.getD 0 0
      if width < 1 then some (.ok (surf, ⟨x, y, 0, 0⟩))
      else
        let r := (List.range (length - 1)).foldlM
          (fun (s : Surface × DrawnArea) k =>
            let loop := k + 1
            draw_line_width s.1 surf_clip_rect color (xlist.getD (loop - 1) 0)
              (ylist.getD (loop - 1) 0) (xlist.getD loop 0) (ylist.getD loop 0) width s.2)
          (surf, DrawnArea.init)
        let r := r.bind fun s =>
          if closed ∧ length > 2 then
            draw_line_width s.1 surf_clip_rect color (xlist.getD (length - 1) 0)
              (ylist.getD (length - 1) 0) (xlist.getD 0 0) (ylist.getD 0 0) width s.2
          else some s
        r.map (fun s => .ok (s.1, return_rect s.2 x y))

/-- The entry point `circle`. -/
def circle (surf : Surface) (surf_clip_rect : SDL_Rect) (color : Nat)
    (posx posy radius width top_right top_left bottom_left bottom_right : Int) :
    Option (Except PyExc (Surface × SDL_Rect)) :=
  if unsupported_depth surf then some (.error .ValueError)
  else if radius < 1 ∨ width < 0 then some (.ok (surf, ⟨posx, posy, 0, 0⟩))
  else
    let width := if width > radius then radius else width
    if posx > surf_clip_rect.x + surf_clip_rect.w + radius ∨
        posx < surf_clip_rect.x - radius ∨
        posy > surf_clip_rect.y + surf_clip_rect.h + radius ∨
        posy < surf_clip_rect.y - radius then
      some (.ok (surf, ⟨posx, posy, 0, 0⟩))
    else
      let r :=
        if top_right = 0 ∧ top_left = 0 ∧ bottom_left = 0 ∧ bottom_right = 0 then
          if width = 0 ∨ width = radius then
            draw_circle_filled surf surf_clip_rect posx posy radius color DrawnArea.init
          else if width = 1 then
            draw_circle_bresenham_thin surf surf_clip_rect posx posy radius color
              DrawnArea.init
          else
            draw_circle_bresenham surf surf_clip_rect posx posy radius width color
              DrawnArea.init
        else
          draw_circle_quadrant surf surf_clip_rect posx posy radius width color top_right
            top_left bottom_left bottom_right DrawnArea.init
      r.map (fun r => .ok (r.1, return_rect r.2 posx posy))

/-- The entry point `arc`. -/
def arc {D : Type} (ops : DoubleOps D) (surf : Surface) (surf_clip_rect : SDL_Rect)
    (color : Nat) (rect : SDL_Rect) (angle_start angle_stop : D) (width : Int) :
    Option (Except PyExc (Surface × SDL_Rect)) :=
  if unsupported_depth surf then some (.error .ValueError)
  else if width < 0 then some (.ok (surf, ⟨rect.x, rect.y, 0, 0⟩))
  else
    let width := if width > cdiv rect.w 2 ∨ width > cdiv rect.h 2 then
        MAX (cdiv rect.w 2) (cdiv rect.h 2)
      else width
    let angle_stop := if ops.lt angle_stop angle_start then
        ops.add angle_stop (ops.mul (ops.ofInt 2) ops.pi)
      else angle_stop
    let width := MIN width (cdiv (MIN rect.w rect.h) 2)
    (draw_arc ops surf surf_clip_rect (rect.x + cdiv rect.w 2) (rect.y + cdiv rect.h 2)
      (cdiv rect.w 2) (cdiv rect.h 2) width angle_start angle_stop color DrawnArea.init).map
      (fun r => .ok (r.1, return_rect r.2 rect.x rect.y))

/-- The entry point `polygon`; `x_intersect` is the uninitialised buffer
`draw_fillpoly` allocates.  A non-zero `width` hands the call over to `lines`
with `closed` set, before any other check. -/
def polygon {D : Type} (ops : DoubleOps D) (surf : Surface) (surf_clip_rect : SDL_Rect)
    (color : Nat) (points : List (Int × Int)) (width : Int) (x_intersect : List Int) :
    Option (Except PyExc (Surface × SDL_Rect)) :=
  if width ≠ 0 then lines surf surf_clip_rect color true points width
  else if unsupported_depth surf then some (.error .ValueError)
  else
    let length := points.length
    if length < 3 then some (.error .ValueError)
    else
      let xlist := points.map Prod.fst
      let ylist := points.map Prod.snd
      let l := xlist.getD 0 0
      let t := ylist.getD 0 0
      let r :=
        if length ≠ 3 then
          draw_fillpoly surf surf_clip_rect xlist ylist length color DrawnArea.init x_intersect
        else draw_filltri ops surf surf_clip_rect xlist ylist color DrawnArea.init
      some (.ok (r.1, return_rect r.2 l t))

/-! ## Vocabulary of the statements -/

/-- The pixels of the span `lo .. lo + n - 1` of row `y`, last one first. -/
def span_log (lo : Int) (n : Nat) (y : Int) : List (Int × Int) :=
  match n with
  | 0 => []
  | n + 1 => (lo + (n : Int), y) :: span_log lo n y

/-- The pixel `p` lies inside the clip rectangle. -/
def inside (clip : SDL_Rect) (p : Int × Int) : Prop :=
  clip.x ≤ p.1 ∧ p.1 < clip.x + clip.w ∧ clip.y ≤ p.2 ∧ p.2 < clip.y + clip.h

instance (clip : SDL_Rect) (p : Int × Int) : Decidable (inside clip p) := by
  unfold inside; infer_instance

/-- The surface depth passes the check of the entry points: 1 to 4 bytes per
pixel. -/
def valid_depth (surf : Surface) : Prop :=
  1 ≤ surf.BytesPerPixel ∧ surf.BytesPerPixel ≤ 4

/-- The surface after the pixels of `log` (most recent first) have been stored in
colour `color`. -/
def replay (color : Nat) (log : List (Int × Int)) (surf : Surface) : Surface :=
  match log with
  | [] => surf
  | p :: log => store_pixel (replay color log surf) surf.BytesPerPixel p.1 p.2 color

/-- The accumulator after the pixels of `log` have been absorbed one by one. -/
def absorb (log : List (Int × Int)) (pts : DrawnArea) : DrawnArea :=
  match log with
  | [] => pts
  | p :: log => add_pixel_to_drawn_list p.1 p.2 (absorb log pts)

/-- The state `s` is reached from `s0` by storing the pixels of some log `new`,
all of them inside the clip rectangle, and absorbing exactly those pixels into
the accumulator. -/
def Drawn (clip : SDL_Rect) (color : Nat) (new : List (Int × Int))
    (s0 s : Surface × DrawnArea) : Prop :=
  s.1 = replay color new s0.1 ∧ s.2 = absorb new s0.2 ∧ ∀ p ∈ new, inside clip p

/-- The pixels of the span `lo .. lo + n - 1` of column `x`, last one first. -/
def vspan_log (x : Int) (lo : Int) (n : Nat) : List (Int × Int) :=
  match n with
  | 0 => []
  | n + 1 => (x, lo + (n : Int)) :: vspan_log x lo n

/-- The position `(x, y)` and error term `err` are those of a Bresenham walk
that started at `(x1, y1)` with error `err0` and has made `k` steps along x and
`j` steps along y; the error term stays in the window of the major axis. -/
def on_line (dx dy sx sy x1 y1 err0 : Int) (x y err : Int) : Prop :=
  ∃ k j : Int, 0 ≤ k ∧ 0 ≤ j ∧ x = x1 + sx * k ∧ y = y1 + sy * j ∧
    err = err0 - k * dy + j * dx ∧
    (dy < dx → 0 ≤ err ∧ err < dx ∧ k ≤ dx) ∧
    (dx ≤ dy → -dy < err ∧ err ≤ 0 ∧ j ≤ dy)

instance (surf : Surface) : Decidable (valid_depth surf) := by
  unfold valid_depth; infer_instance

/-- A little-endian surface of `w` by `_h` pixels with `bpp` bytes per pixel, no
row padding, all bytes zero and an empty log. -/
def Surface.blank (w _h bpp : Nat) : Surface :=
  { pitch := w * bpp, BytesPerPixel := bpp, big_endian := false, pixels := fun _ => 0
    written := [] }

/-- The clip rectangle of a whole surface of `w` by `h` pixels. -/
def SDL_Rect.whole (w h : Nat) : SDL_Rect := ⟨0, 0, w, h⟩

/-- A sample instance of `DoubleOps` over the rationals, to instantiate statements
that hold for every instance: exact field operations, truncation for the cast to
`int`, and crude algebraic stand-ins for `cos`, `sin` and `sqrt`. -/
def rat_ops : DoubleOps Rat :=
  { ofInt := fun n => (n : Rat)
    toInt := fun q => if q < 0 then -Int.floor (-q) else Int.floor q
    add := fun a b => a + b
    sub := fun a b => a - b
    mul := fun a b => a * b
    div := fun a b => a / b
    neg := fun a => -a
    lt := fun a b => decide (a < b)
    le := fun a b => decide (a ≤ b)
    cos := fun a => 1 - a * a / 2
    sin := fun a => a
    sqrt := fun a => (a + 1) / 2
    half := 1 / 2
    one := 1
    pi := 355 / 113
    tiny := 1 / 100000000000000000
    toFloat := fun a => a }

/-- The log of a run of `n` pixel stores at `f 0`, `f 1`, ..., `f (n - 1)`, last
one first. -/
def run_log (f : Int → Int × Int) : Nat → List (Int × Int)
  | 0 => []
  | n + 1 => f n :: run_log f n

/-- The log of the pixels of the horizontal segment from `(x1, y)` to `(x2, y)`,
visited from `x1` to `x2`. -/
def hline_log (x1 x2 y : Int) : List (Int × Int) :=
  run_log (fun k => (x1 + (if x1 < x2 then 1 else -1) * k, y)) (|x2 - x1| + 1).toNat

/-- The segments of a polyline in the words of the specification: the consecutive
pairs `(p[i], p[i + 1])` for `i = 0 .. n - 2`, in that order, followed by the
wrap-around segment `(p[n - 1], p[0])` exactly when the polyline is closed and has
more than two points. -/
def polyline_segments (closed : Bool) (points : List (Int × Int)) :
    List ((Int × Int) × (Int × Int)) :=
  (List.range (points.length - 1)).map
      (fun i => (points.getD i (0, 0), points.getD (i + 1) (0, 0))) ++
    (if closed = true ∧ points.length > 2 then
      [(points.getD (points.length - 1) (0, 0), points.getD 0 (0, 0))]
    else [])

/-- One independent `draw_line_width` call per segment of the list, in order, each
on the surface and accumulator the previous call left. -/
def draw_segments (surf_clip_rect : SDL_Rect) (color : Nat) (width : Int) :
    List ((Int × Int) × (Int × Int)) → Surface × DrawnArea → Option (Surface × DrawnArea)
  | [], s => some s
  | seg :: rest, s =>
    (draw_line_width s.1 surf_clip_rect color seg.1.1 seg.1.2 seg.2.1 seg.2.2 width s.2).bind
      (draw_segments surf_clip_rect color width rest)

/-- The rectangle an entry point returned, if it returned one. -/
def returned_rect (r : Option (Except PyExc (Surface × SDL_Rect))) : Option SDL_Rect :=
  match r with
  | some (.ok v) => some v.2
  | _ => none

/-- The log of the surface an entry point returned, if it returned one. -/
def returned_log (r : Option (Except PyExc (Surface × SDL_Rect))) :
    Option (List (Int × Int)) :=
  match r with
  | some (.ok v) => some v.1.written
  | _ => none

/-- The pixels of row `y` between `x1` and `x2` (in either order) that lie inside
the clip rectangle, last one first. -/
def clipped_span (clip : SDL_Rect) (x1 y x2 : Int) : List (Int × Int) :=
  if clip.y ≤ y ∧ y < clip.y + clip.h then
    span_log (max (min x1 x2) clip.x)
      (min (max x1 x2) (clip.x + clip.w - 1) + 1 - max (min x1 x2) clip.x).toNat y
  else []

/-- An instance of `DoubleOps` with exact arithmetic: the rationals extended by
`+infinity` (`none`).  A quotient with denominator zero is `+infinity`, which is
larger than every rational; the cast to `int` truncates toward zero; the
conversion to `float` is the identity; `cos`, `sin` and `sqrt` are crude
stand-ins. -/
def exact_ops : DoubleOps (Option Rat) :=
  { ofInt := fun n => some (n : Rat)
    toInt := fun q =>
      match q with
      | some q => if q < 0 then -Int.floor (-q) else Int.floor q
      | none => 0
    add := fun a b =>
      match a, b with
      | some a, some b => some (a + b)
      | _, _ => none
    sub := fun a b =>
      match a, b with
      | some a, some b => some (a - b)
      | _, _ => none
    mul := fun a b =>
      match a, b with
      | some a, some b => some (a * b)
      | _, _ => none
    div := fun a b =>
      match a, b with
      | some a, some b => if b = 0 then none else some (a / b)
      | some _, none => some 0
      | none, _ => none
    neg := fun a => a.map (fun q => -q)
    lt := fun a b =>
      match a, b with
      | some a, some b => decide (a < b)
      | some _, none => true
      | none, _ => false
    le := fun a b =>
      match a, b with
      | some a, some b => decide (a ≤ b)
      | _, none => true
      | none, some _ => false
    cos := fun a => a.map (fun q => 1 - q * q / 2)
    sin := fun a => a
    sqrt := fun a => a.map (fun q => (q + 1) / 2)
    half := some (1 / 2)
    one := some 1
    pi := some (355 / 113)
    tiny := some (1 / 100000000000000000)
    toFloat := fun a => a }

/-- An edge-capacity ratio in the words of the specification: the edge length over
the sum of the two radii on that edge, `+infinity` (`none`) when the sum is zero. -/
def capacity_ratio (edge sum : Int) : Option Rat :=
  if sum = 0 then none else some ((edge : Rat) / (sum : Rat))

/-- The smaller of two extended rationals. -/
def min_ratio (a b : Option Rat) : Option Rat :=
  match a, b with
  | some a, some b => some (min a b)
  | some a, none => some a
  | none, b => b

/-- The scale factor in the words of the specification:
`f = min(W/(tl+tr), H/(tl+bl), W/(bl+br), H/(tr+br))`, a ratio with zero
denominator counting as `+infinity`. -/
def scale_factor (W H tl tr bl br : Int) : Option Rat :=
  min_ratio (min_ratio (min_ratio (capacity_ratio W (tl + tr)) (capacity_ratio H (tl + bl)))
    (capacity_ratio W (bl + br))) (capacity_ratio H (tr + br))

/-- The `w`-pixel frame of the rectangle `x1..x2`, `y1..y2` in the words of the
specification: the rectangle minus the inner rectangle
`[x1+w..x2-w] x [y1+w..y2-w]`. -/
def in_frame (x1 y1 x2 y2 w : Int) (p : Int × Int) : Prop :=
  (x1 ≤ p.1 ∧ p.1 ≤ x2 ∧ y1 ≤ p.2 ∧ p.2 ≤ y2) ∧
    ¬ (x1 + w ≤ p.1 ∧ p.1 ≤ x2 - w ∧ y1 + w ≤ p.2 ∧ p.2 ≤ y2 - w)

/-- The distance of the offset `d` from the pixel corner between the offsets `-1`
and `0`: the offsets `0, 1, 2, ...` and `-1, -2, -3, ...` are at distance
`1, 2, 3, ...`. -/
def corner_distance (d : Int) : Int := if d ≥ 0 then d + 1 else -d

/-- The invariant of the loop of `draw_circle_filled`, in corner distances `(a, b)`
of the columns and rows: `U` holds the cells of the spans drawn so far on the rows
at distance `x`, of half-length `y`, and `B` the cells of the spans drawn on the
rows at distance `y`, of half-length `x`, which are drawn only when `f >= 0`. -/
structure disc_invariant (x y f : Int) (U B : Int → Int → Prop) : Prop where
  x_nonneg : 0 ≤ x
  x_le : x ≤ y + 1
  y_pos : 1 ≤ y
  first : x = 0 → f < 0
  U_range : ∀ a b, U a b → 1 ≤ a ∧ 1 ≤ b ∧ b ≤ x
  U_full : ∀ a b, 1 ≤ b → b ≤ x → 1 ≤ a → a ≤ y → U a b
  B_sub : ∀ a b, B a b → U b a
  U_above : ∀ a b, U a b → y < a → B b a
  B_row : f ≥ 0 → ∀ c, 1 ≤ c → c ≤ x → B c y
  U_last : x = y + 1 → ∀ b, 1 ≤ b → b ≤ y → U x b

/-- The log of `s` is the log of `s0` extended by pixels that all satisfy `P`. -/
def Logged (P : Int × Int → Prop) (s0 s : Surface) : Prop :=
  ∃ new, s.written = new ++ s0.written ∧ ∀ p ∈ new, P p

/-- The pixel `p` lies in a quadrant around `(x0, y0)` whose flag is positive. -/
def quadrant_pixel (x0 y0 top_right top_left bottom_left bottom_right : Int)
    (p : Int × Int) : Prop :=
  (top_right > 0 ∧ p.1 ≥ x0 ∧ p.2 ≤ y0) ∨ (top_left > 0 ∧ p.1 < x0 ∧ p.2 ≤ y0) ∨
    (bottom_left > 0 ∧ p.1 < x0 ∧ p.2 ≥ y0) ∨ (bottom_right > 0 ∧ p.1 ≥ x0 ∧ p.2 ≥ y0)



/-- The log of a stroke: the spans `span c` of the centres `c` of the list, most
recent centre first. -/
def stroke_log (span : Int × Int → List (Int × Int)) :
    List (Int × Int) → List (Int × Int)
  | [] => []
  | c :: cs => span c ++ stroke_log span cs

/-- The horizontal span of `N` pixels around the centre `c` in the words of the
specification: the pixels of row `c.2` from `c.1 - N/2 + (1 - N mod 2)` to
`c.1 + N/2`, last one first. -/
def stroke_hspan (N : Int) (c : Int × Int) : List (Int × Int) :=
  span_log (c.1 - N / 2 + (1 - N % 2)) ((c.1 + N / 2) + 1 - (c.1 - N / 2 + (1 - N % 2))).toNat
    c.2

/-- The vertical span of `N` pixels around the centre `c`: the pixels of column
`c.1` from `c.2 - N/2 + (1 - N mod 2)` to `c.2 + N/2`, last one first. -/
def stroke_vspan (N : Int) (c : Int × Int) : List (Int × Int) :=
  vspan_log c.1 (c.2 - N / 2 + (1 - N % 2))
    ((c.2 + N / 2) + 1 - (c.2 - N / 2 + (1 - N % 2))).toNat

/-! ## Antialiased rasterisers

The antialiased rasterisers compute in `float` and `double`.  As for `draw_arc`,
the operations are parameters of the embedding.  The states carry three ghost
logs, never read by the drawing code: the calls of `get_antialiased_color`, the
calls of `draw_eight_symetric_pixels` and the calls of `draw_aaline`. -/

/-- The `float` and `double` operations of the antialiased rasterisers on top of
those of `DoubleOps`: `fabs`, `floor`, `ceil`, `roundf`, the comparison `==`, and
the constant `0.0001` (`small`). -/
structure FloatOps (D : Type) extends DoubleOps D where
  fabs : D → D
  floor : D → D
  ceil : D → D
  roundf : D → D
  eq : D → D → Bool
  small : D

/-- The SDL functions `PG_GetRGBA` and `PG_MapRGBA` for the format and palette of
the surface.  They are not part of `draw.c` and are parameters of the embedding. -/
structure PixelFormat where
  getRGBA : Nat → Nat × Nat × Nat × Nat
  mapRGBA : Nat → Nat → Nat → Nat → Nat

/-- The arguments of a call of `draw_aaline`, as recorded in the ghost log. -/
structure AACall (D : Type) where
  from_x : D
  from_y : D
  to_x : D
  to_y : D
  disable_first_endpoint : Int
  disable_second_endpoint : Int
  extra_pixel_for_aalines : Int
  deriving DecidableEq

/-- The state of the antialiased rasterisers: the surface, the accumulator
`drawn_area`, and the ghost logs (most recent first) of the calls
`get_antialiased_color(.., x, y, .., brightness)`, of the calls
`draw_eight_symetric_pixels(.., x, y, opacity, ..)` and of the calls of
`draw_aaline`. -/
structure AAState (D : Type) where
  surf : Surface
  drawn_area : DrawnArea
  blends : List (Int × Int × D)
  octets : List (Int × Int × D)
  calls : List (AACall D)

/-- The initial state of an antialiased rasteriser on the surface `surf`. -/
def AAState.start {D : Type} (surf : Surface) : AAState D :=
  { surf := surf, drawn_area := DrawnArea.init, blends := [], octets := [], calls := [] }

/-- The pixel value `get_antialiased_color` reads at `pixels + y * pitch + x * bpp`:
1, 2 or 3 bytes, and 4 bytes by default, in host byte order. -/
def load_pixel (surf : Surface) (x y : Int) : Nat :=
  let p := fun (i : Int) => surf.pixels (y * surf.pitch + x * surf.BytesPerPixel + i)
  match surf.BytesPerPixel with
  | 1 => p 0
  | 2 => if surf.big_endian then p 0 * 256 + p 1 else p 0 + p 1 * 256
  | 3 =>
    if surf.big_endian then p 2 + p 1 * 256 + p 0 * 65536
    else p 0 + p 1 * 256 + p 2 * 65536
  | _ =>
    if surf.big_endian then p 0 * 16777216 + p 1 * 65536 + p 2 * 256 + p 3
    else p 0 + p 1 * 256 + p 2 * 65536 + p 3 * 16777216

/-- The function `get_antialiased_color`; the cast to `Uint8` keeps the low byte
of the truncated value. -/
def get_antialiased_color {D : Type} (ops : FloatOps D) (fmt : PixelFormat)
    (surf : Surface) (surf_clip_rect : SDL_Rect) (x y : Int) (original_color : Nat)
    (brightness : D) : Nat :=
  if x < surf_clip_rect.x ∨ x ≥ surf_clip_rect.x + surf_clip_rect.w ∨
      y < surf_clip_rect.y ∨ y ≥ surf_clip_rect.y + surf_clip_rect.h then
    original_color
  else
    let color_part := fmt.getRGBA original_color
    let pixel := load_pixel surf x y
    let background_color := fmt.getRGBA pixel
    let mix := fun (c b : Nat) =>
      (ops.toInt (ops.add (ops.mul brightness (ops.ofInt c))
        (ops.mul (ops.sub ops.one brightness) (ops.ofInt b))) % 256).toNat
    fmt.mapRGBA (mix color_part.1 background_color.1)
      (mix color_part.2.1 background_color.2.1)
      (mix color_part.2.2.1 background_color.2.2.1)
      (mix color_part.2.2.2 background_color.2.2.2)

/-- The statement pair `pixel_color = get_antialiased_color(surf, clip, fmt, gx, gy,
color, brightness); set_and_check_rect(surf, clip, sx, sy, pixel_color, drawn_area);`
of the antialiased rasterisers. -/
def aa_pixel {D : Type} (ops : FloatOps D) (fmt : PixelFormat) (surf_clip_rect : SDL_Rect)
    (color : Nat) (gx gy sx sy : Int) (brightness : D) (s : AAState D) : AAState D :=
  let pixel_color := get_antialiased_color ops fmt s.surf surf_clip_rect gx gy color brightness
  let r := set_and_check_rect s.surf surf_clip_rect sx sy pixel_color s.drawn_area
  { s with surf := r.1, drawn_area := r.2, blends := (gx, gy, brightness) :: s.blends }

/-- The `float` variables of `draw_aaline` and `draw_aaline_width` that the swaps
and the clipping update. -/
structure AALine (D : Type) where
  from_x : D
  from_y : D
  to_x : D
  to_y : D
  dx : D
  dy : D
  clip_left : D
  clip_right : D
  clip_top : D
  clip_bottom : D

/-- The start of `draw_aaline` and `draw_aaline_width` after the single-point case:
the clip bounds one pixel wider than the clip rectangle, the swaps
`if (steep) { swap(..) }` and the swaps `if (dx < 0) { .. }`. -/
def aaline_orient {D : Type} (ops : FloatOps D) (surf_clip_rect : SDL_Rect) (steep : Bool)
    (from_x from_y to_x to_y dx dy : D) : AALine D :=
  let clip_left := ops.sub (ops.ofInt surf_clip_rect.x) ops.one
  let clip_right := ops.add (ops.add clip_left (ops.ofInt surf_clip_rect.w)) ops.one
  let clip_top := ops.sub (ops.ofInt surf_clip_rect.y) ops.one
  let clip_bottom := ops.add (ops.add clip_top (ops.ofInt surf_clip_rect.h)) ops.one
  let v : AALine D :=
    if steep then
      { from_x := from_y, from_y := from_x, to_x := to_y, to_y := to_x, dx := dy, dy := dx
        clip_left := clip_top, clip_top := clip_left
        clip_right := clip_bottom, clip_bottom := clip_right }
    else
      { from_x := from_x, from_y := from_y, to_x := to_x, to_y := to_y, dx := dx, dy := dy
        clip_left := clip_left, clip_top := clip_top
        clip_right := clip_right, clip_bottom := clip_bottom }
  if ops.lt v.dx (ops.ofInt 0) then
    { v with
      from_x := v.to_x, to_x := v.from_x, from_y := v.to_y, to_y := v.from_y
      dx := ops.neg v.dx, dy := ops.neg v.dy }
  else v

/-- An endpoint of `draw_aaline`: the pixel at `(x_pixel, (int)y_endpoint)` (drawn
only when `(int)y_endpoint < y_endpoint`) and the pixel above it, with the
brightness `y_endpoint - (int)y_endpoint` and its complement, both scaled by
`x_gap`; the coordinates are transposed when `steep`. -/
def draw_aaline_endpoint {D : Type} (ops : FloatOps D) (fmt : PixelFormat)
    (surf_clip_rect : SDL_Rect) (color : Nat) (steep : Bool) (x_pixel : Int)
    (y_endpoint x_gap : D) (s : AAState D) : AAState D :=
  let brightness := ops.sub y_endpoint (ops.ofInt (ops.toInt y_endpoint))
  let x := if steep then ops.toInt y_endpoint else x_pixel
  let y := if steep then x_pixel else ops.toInt y_endpoint
  let s :=
    if ops.lt (ops.ofInt (ops.toInt y_endpoint)) y_endpoint then
      aa_pixel ops fmt surf_clip_rect color x y x y (ops.mul brightness x_gap) s
    else s
  let x := if steep then x - 1 else x
  let y := if steep then y else y - 1
  let brightness := ops.sub ops.one brightness
  aa_pixel ops fmt surf_clip_rect color x y x y (ops.mul brightness x_gap) s

/-- The body of the main loop of `draw_aaline` on the pair of the state and
`intersect_y`. -/
def draw_aaline_column {D : Type} (ops : FloatOps D) (fmt : PixelFormat)
    (surf_clip_rect : SDL_Rect) (color : Nat) (steep : Bool) (gradient : D) (x : Int)
    (t : AAState D × D) : AAState D × D :=
  let intersect_y := t.2
  let y := ops.toInt intersect_y
  let brightness := ops.add (ops.sub ops.one intersect_y) (ops.ofInt y)
  let s :=
    if steep then aa_pixel ops fmt surf_clip_rect color (y - 1) x (y - 1) x brightness t.1
    else aa_pixel ops fmt surf_clip_rect color x (y - 1) x (y - 1) brightness t.1
  let s :=
    if ops.lt (ops.ofInt y) intersect_y then
      let brightness := ops.sub ops.one brightness
      if steep then aa_pixel ops fmt surf_clip_rect color y x y x brightness s
      else aa_pixel ops fmt surf_clip_rect color x y x y brightness s
    else s
  (s, ops.add intersect_y gradient)

/-- The part of `draw_aaline` after the clipping: the shift by one pixel, the two
endpoints and the main loop.  `x_pixel_start` and `intersect_y` are assigned by
the first endpoint or by the block `if (disable_first_endpoint)`; one of the two
is always executed. -/
def draw_aaline_rest {D : Type} (ops : FloatOps D) (fmt : PixelFormat)
    (surf_clip_rect : SDL_Rect) (color : Nat) (steep : Bool) (gradient : D) (v : AALine D)
    (disable_first_endpoint disable_second_endpoint extra_pixel_for_aalines : Int)
    (s : AAState D) : AAState D :=
  let from_x := v.from_x
  let to_x := v.to_x
  let from_y := ops.add v.from_y ops.one
  let to_y := ops.add v.to_y ops.one
  let first : AAState D × Int × D :=
    if disable_first_endpoint = 0 ∨ extra_pixel_for_aalines ≠ 0 then
      let x_pixel_start := ops.toInt from_x
      let y_endpoint :=
        ops.add from_y (ops.mul gradient (ops.sub (ops.ofInt x_pixel_start) from_x))
      if ops.lt (ops.add v.clip_left ops.one) to_x then
        let x_gap := ops.sub (ops.ofInt (1 + x_pixel_start)) from_x
        (draw_aaline_endpoint ops fmt surf_clip_rect color steep x_pixel_start y_endpoint
          x_gap s, x_pixel_start + 1, ops.add y_endpoint gradient)
      else (s, x_pixel_start, y_endpoint)
    else (s, 0, ops.ofInt 0)
  let s := first.1
  let start : Int × D :=
    if disable_first_endpoint ≠ 0 then
      let x_pixel_start := ops.toInt (ops.ceil from_x)
      (x_pixel_start,
        ops.add from_y (ops.mul gradient (ops.sub (ops.ofInt x_pixel_start) from_x)))
    else first.2
  let x_pixel_start := start.1
  let intersect_y := start.2
  let x_pixel_end := ops.toInt (ops.ceil to_x)
  let s :=
    if disable_second_endpoint = 0 ∨ extra_pixel_for_aalines ≠ 0 then
      if ops.lt from_x (ops.sub v.clip_right ops.one) then
        let y_endpoint :=
          ops.add to_y (ops.mul gradient (ops.sub (ops.ofInt x_pixel_end) to_x))
        let x_gap := ops.add (ops.ofInt (1 - x_pixel_end)) to_x
        draw_aaline_endpoint ops fmt surf_clip_rect color steep x_pixel_end y_endpoint
          x_gap s
      else s
    else s
  (for_loop x_pixel_start (x_pixel_end - x_pixel_start).toNat
    (draw_aaline_column ops fmt surf_clip_rect color steep gradient) (s, intersect_y)).1

/-- The function `draw_aaline`. -/
def draw_aaline {D : Type} (ops : FloatOps D) (fmt : PixelFormat)
    (surf_clip_rect : SDL_Rect) (color : Nat) (from_x from_y to_x to_y : D)
    (disable_first_endpoint disable_second_endpoint extra_pixel_for_aalines : Int)
    (s : AAState D) : AAState D :=
  let s := { s with
    calls := ⟨from_x, from_y, to_x, to_y, disable_first_endpoint, disable_second_endpoint,
      extra_pixel_for_aalines⟩ :: s.calls }
  let dx := ops.sub to_x from_x
  let dy := ops.sub to_y from_y
  if ops.lt (ops.fabs dx) ops.small && ops.lt (ops.fabs dy) ops.small then
    let px := ops.toInt (ops.floor (ops.add from_x ops.half))
    let py := ops.toInt (ops.floor (ops.add from_y ops.half))
    aa_pixel ops fmt surf_clip_rect color px py px py ops.one s
  else
    let steep := ops.lt (ops.fabs dx) (ops.fabs dy)
    let v := aaline_orient ops surf_clip_rect steep from_x from_y to_x to_y dx dy
    if ops.le v.to_x v.clip_left || ops.le v.clip_right v.from_x then s
    else
      let gradient := ops.div v.dy v.dx
      let v :=
        if ops.lt v.from_x v.clip_left then
          { v with
            from_y := ops.add v.from_y (ops.mul gradient (ops.sub v.clip_left v.from_x))
            from_x := v.clip_left }
        else v
      let v :=
        if ops.lt v.clip_right v.to_x then
          { v with
            to_y := ops.add v.to_y (ops.mul gradient (ops.sub v.clip_right v.to_x))
            to_x := v.clip_right }
        else v
      if ops.lt (ops.ofInt 0) gradient then
        if ops.le v.to_y v.clip_top || ops.le v.clip_bottom v.from_y then s
        else
          let v :=
            if ops.lt v.from_y v.clip_top then
              { v with
                from_x := ops.add v.from_x (ops.div (ops.sub v.clip_top v.from_y) gradient)
                from_y := v.clip_top }
            else v
          let v :=
            if ops.lt v.clip_bottom v.to_y then
              { v with
                to_x := ops.add v.to_x (ops.div (ops.sub v.clip_bottom v.to_y) gradient)
                to_y := v.clip_bottom }
            else v
          draw_aaline_rest ops fmt surf_clip_rect color steep gradient v
            disable_first_endpoint disable_second_endpoint extra_pixel_for_aalines s
      else
        if ops.le v.from_y v.clip_top || ops.le v.clip_bottom v.to_y then s
        else
          let v :=
            if ops.lt v.to_y v.clip_top then
              { v with
                to_x := ops.add v.to_x (ops.div (ops.sub v.clip_top v.to_y) gradient)
                to_y := v.clip_top }
            else v
          let v :=
            if ops.lt v.clip_bottom v.from_y then
              { v with
                from_x := ops.add v.from_x
                  (ops.div (ops.sub v.clip_bottom v.from_y) gradient)
                from_y := v.clip_bottom }
            else v
          draw_aaline_rest ops fmt surf_clip_rect color steep gradient v
            disable_first_endpoint disable_second_endpoint extra_pixel_for_aalines s

/-- A call `drawhorzlineclipbounding(surf, clip, color, x1, y1, x2, drawn_area)` on
the state of an antialiased rasteriser. -/
def aa_hline {D : Type} (surf_clip_rect : SDL_Rect) (color : Nat) (x1 y1 x2 : Int)
    (s : AAState D) : AAState D :=
  let r := drawhorzlineclipbounding s.surf surf_clip_rect color x1 y1 x2 s.drawn_area
  { s with surf := r.1, drawn_area := r.2 }

/-- A call `drawvertlineclipbounding(surf, clip, color, y1, x1, y2, drawn_area)` on
the state of an antialiased rasteriser. -/
def aa_vline {D : Type} (surf_clip_rect : SDL_Rect) (color : Nat) (y1 x1 y2 : Int)
    (s : AAState D) : AAState D :=
  let r := drawvertlineclipbounding s.surf surf_clip_rect color y1 x1 y2 s.drawn_area
  { s with surf := r.1, drawn_area := r.2 }

/-- The first endpoint of `draw_aaline_width`. -/
def draw_aaline_width_first {D : Type} (ops : FloatOps D) (fmt : PixelFormat)
    (surf_clip_rect : SDL_Rect) (color : Nat) (steep : Bool) (width extra_width : Int)
    (x_pixel_start : Int) (y_endpoint : D) (s : AAState D) : AAState D :=
  let brightness := ops.sub y_endpoint (ops.ofInt (ops.toInt y_endpoint))
  let x := if steep then ops.toInt y_endpoint else x_pixel_start
  let y := if steep then x_pixel_start else ops.toInt y_endpoint
  let s :=
    if ops.lt (ops.ofInt (ops.toInt y_endpoint)) y_endpoint then
      if steep then
        aa_pixel ops fmt surf_clip_rect color (x + width) y (x + width) y brightness s
      else aa_pixel ops fmt surf_clip_rect color x (y + width) x (y + width) brightness s
    else s
  let brightness := ops.sub ops.one brightness
  if steep then
    let s := aa_pixel ops fmt surf_clip_rect color (x - width) y
      (x - width + extra_width - 1) y brightness s
    aa_hline surf_clip_rect color (x - width + extra_width) y (x + width - 1) s
  else
    let s := aa_pixel ops fmt surf_clip_rect color x (y - width + extra_width - 1) x
      (y - width + extra_width - 1) brightness s
    aa_vline surf_clip_rect color (y - width + extra_width) x (y + width - 1) s

/-- The second endpoint of `draw_aaline_width`. -/
def draw_aaline_width_second {D : Type} (ops : FloatOps D) (fmt : PixelFormat)
    (surf_clip_rect : SDL_Rect) (color : Nat) (steep : Bool) (width extra_width : Int)
    (x_pixel_end : Int) (y_endpoint : D) (s : AAState D) : AAState D :=
  let brightness := ops.sub y_endpoint (ops.ofInt (ops.toInt y_endpoint))
  let x := if steep then ops.toInt y_endpoint else x_pixel_end
  let y := if steep then x_pixel_end else ops.toInt y_endpoint
  let s :=
    if ops.lt (ops.ofInt (ops.toInt y_endpoint)) y_endpoint then
      if steep then
        aa_pixel ops fmt surf_clip_rect color (x + width) y (x + width) y brightness s
      else aa_pixel ops fmt surf_clip_rect color x (y + width) x (y + width) brightness s
    else s
  let brightness := ops.sub ops.one brightness
  if steep then
    let s := aa_pixel ops fmt surf_clip_rect color (x - width + extra_width - 1) y
      (x - width + extra_width - 1) y brightness s
    aa_hline surf_clip_rect color (x - width) y (x + width - 1) s
  else
    let s := aa_pixel ops fmt surf_clip_rect color x (y - width + extra_width - 1) x
      (y - width + extra_width - 1) brightness s
    aa_vline surf_clip_rect color (y - width + extra_width) x (y + width - 1) s

/-- The body of the main loop of `draw_aaline_width` on the pair of the state and
`intersect_y`. -/
def draw_aaline_width_column {D : Type} (ops : FloatOps D) (fmt : PixelFormat)
    (surf_clip_rect : SDL_Rect) (color : Nat) (steep : Bool) (width extra_width : Int)
    (gradient : D) (x : Int) (t : AAState D × D) : AAState D × D :=
  let intersect_y := t.2
  let y := ops.toInt intersect_y
  let brightness := ops.add (ops.sub ops.one intersect_y) (ops.ofInt y)
  let s :=
    if steep then
      aa_pixel ops fmt surf_clip_rect color (y - width + extra_width - 1) x
        (y - width + extra_width - 1) x brightness t.1
    else
      aa_pixel ops fmt surf_clip_rect color x (y - width + extra_width - 1) x
        (y - width + extra_width - 1) brightness t.1
  let s :=
    if ops.lt (ops.ofInt y) intersect_y then
      let brightness := ops.sub ops.one brightness
      if steep then
        aa_pixel ops fmt surf_clip_rect color (y + width) x (y + width) x brightness s
      else aa_pixel ops fmt surf_clip_rect color x (y + width) x (y + width) brightness s
    else s
  let s :=
    if steep then aa_hline surf_clip_rect color (y - width + extra_width) x (y + width - 1) s
    else aa_vline surf_clip_rect color (y - width + extra_width) x (y + width - 1) s
  (s, ops.add intersect_y gradient)

/-- The part of `draw_aaline_width` after the clipping: the shift by one pixel, the
two endpoints and the main loop. -/
def draw_aaline_width_rest {D : Type} (ops : FloatOps D) (fmt : PixelFormat)
    (surf_clip_rect : SDL_Rect) (color : Nat) (steep : Bool) (width extra_width : Int)
    (gradient : D) (v : AALine D) (s : AAState D) : AAState D :=
  let from_x := v.from_x
  let to_x := v.to_x
  let from_y := ops.add v.from_y ops.one
  let to_y := ops.add v.to_y ops.one
  let x_pixel_start := ops.toInt from_x
  let y_endpoint :=
    ops.add from_y (ops.mul gradient (ops.sub (ops.ofInt x_pixel_start) from_x))
  let first : AAState D × Int × D :=
    if ops.lt (ops.add v.clip_left ops.one) to_x then
      (draw_aaline_width_first ops fmt surf_clip_rect color steep width extra_width
        x_pixel_start y_endpoint s, x_pixel_start + 1, ops.add y_endpoint gradient)
    else (s, x_pixel_start, y_endpoint)
  let s := first.1
  let x_pixel_start := first.2.1
  let intersect_y := first.2.2
  let x_pixel_end := ops.toInt (ops.ceil to_x)
  let s :=
    if ops.lt from_x (ops.sub v.clip_right ops.one) then
      let y_endpoint :=
        ops.add to_y (ops.mul gradient (ops.sub (ops.ofInt x_pixel_end) to_x))
      draw_aaline_width_second ops fmt surf_clip_rect color steep width extra_width
        x_pixel_end y_endpoint s
    else s
  (for_loop x_pixel_start (x_pixel_end - x_pixel_start).toNat
    (draw_aaline_width_column ops fmt surf_clip_rect color steep width extra_width gradient)
    (s, intersect_y)).1

/-- The function `draw_aaline_width`. -/
def draw_aaline_width {D : Type} (ops : FloatOps D) (fmt : PixelFormat)
    (surf_clip_rect : SDL_Rect) (color : Nat) (from_x from_y to_x to_y : D) (width : Int)
    (s : AAState D) : AAState D :=
  let extra_width := 1 - cmod width 2
  let width := cdiv width 2
  let dx := ops.sub to_x from_x
  let dy := ops.sub to_y from_y
  let steep := ops.lt (ops.fabs dx) (ops.fabs dy)
  if ops.lt (ops.fabs dx) ops.small && ops.lt (ops.fabs dy) ops.small then
    let x := ops.toInt (ops.floor (ops.add from_x ops.half))
    let y := ops.toInt (ops.floor (ops.add from_y ops.half))
    let s := aa_pixel ops fmt surf_clip_rect color x y x y ops.one s
    if !ops.eq dx (ops.ofInt 0) && !ops.eq dy (ops.ofInt 0) then
      if steep then
        aa_hline surf_clip_rect color (x - width + extra_width) y (x + width - 1) s
      else aa_vline surf_clip_rect color (y - width + extra_width) x (y + width - 1) s
    else s
  else
    let v := aaline_orient ops surf_clip_rect steep from_x from_y to_x to_y dx dy
    if ops.le v.to_x v.clip_left || ops.le v.clip_right v.from_x then s
    else
      let gradient := ops.div v.dy v.dx
      let v :=
        if ops.lt v.from_x (ops.add v.clip_left ops.one) then
          { v with
            from_y := ops.add v.from_y
              (ops.mul gradient (ops.sub (ops.add v.clip_left ops.one) v.from_x))
            from_x := ops.add v.clip_left ops.one }
        else v
      let v :=
        if ops.lt (ops.sub v.clip_right ops.one) v.to_x then
          { v with
            to_y := ops.add v.to_y
              (ops.mul gradient (ops.sub (ops.sub v.clip_right ops.one) v.to_x))
            to_x := ops.sub v.clip_right ops.one }
        else v
      let top := ops.sub v.clip_top (ops.ofInt width)
      let bottom := ops.add v.clip_bottom (ops.ofInt width)
      if ops.lt (ops.ofInt 0) gradient then
        if ops.lt v.from_x (ops.add v.clip_left ops.one) then
          if ops.le v.to_y v.clip_top || ops.le v.clip_bottom v.from_y then s
          else
            let v :=
              if ops.lt v.from_y top then
                { v with
                  from_x := ops.add v.from_x (ops.div (ops.sub top v.from_y) gradient)
                  from_y := top }
              else v
            let v :=
              if ops.lt bottom v.to_y then
                { v with
                  to_x := ops.add v.to_x (ops.div (ops.sub bottom v.to_y) gradient)
                  to_y := bottom }
              else v
            draw_aaline_width_rest ops fmt surf_clip_rect color steep width extra_width
              gradient v s
        else
          draw_aaline_width_rest ops fmt surf_clip_rect color steep width extra_width
            gradient v s
      else
        if ops.lt (ops.sub v.clip_right ops.one) v.to_x then
          if ops.le v.from_y v.clip_top || ops.le v.clip_bottom v.to_y then s
          else
            let v :=
              if ops.lt v.to_y top then
                { v with
                  to_x := ops.add v.to_x (ops.div (ops.sub top v.to_y) gradient)
                  to_y := top }
              else v
            let v :=
              if ops.lt bottom v.from_y then
                { v with
                  from_x := ops.add v.from_x (ops.div (ops.sub bottom v.from_y) gradient)
                  from_y := bottom }
              else v
            draw_aaline_width_rest ops fmt surf_clip_rect color steep width extra_width
              gradient v s
        else
          draw_aaline_width_rest ops fmt surf_clip_rect color steep width extra_width
            gradient v s

/-- The entry point `aaline`, from the check of the surface depth on. -/
def aaline {D : Type} (ops : FloatOps D) (fmt : PixelFormat) (surf : Surface)
    (surf_clip_rect : SDL_Rect) (color : Nat) (startx starty endx endy : D) (width : Int) :
    Except PyExc (AAState D × SDL_Rect) :=
  let s : AAState D := AAState.start surf
  if unsupported_depth surf then .error .ValueError
  else if width < 1 then .ok (s, ⟨ops.toInt startx, ops.toInt starty, 0, 0⟩)
  else
    let s :=
      if width > 1 then
        draw_aaline_width ops fmt surf_clip_rect color startx starty endx endy width s
      else draw_aaline ops fmt surf_clip_rect color startx starty endx endy 0 0 0 s
    .ok (s, return_rect s.drawn_area (ops.toInt startx) (ops.toInt starty))

/-- The comparison `fabs(x1 - x0) < fabs(y1 - y0)` of `aalines`, as the `int` it
is assigned to. -/
def steep_flag {D : Type} (ops : FloatOps D) (x0 y0 x1 y1 : D) : Int :=
  if ops.lt (ops.fabs (ops.sub x1 x0)) (ops.fabs (ops.sub y1 y0)) then 1 else 0

/-- The expression `!((roundf(x) == x) && (roundf(y) == y))` of `aalines`. -/
def disable_flag {D : Type} (ops : FloatOps D) (x y : D) : Int :=
  if ops.eq (ops.roundf x) x && ops.eq (ops.roundf y) y then 0 else 1

/-- The body of the loop `for (loop = 2; loop < length - 1; ++loop)` of `aalines`
on the pair of the state and `pts_prev`. -/
def aalines_body {D : Type} (ops : FloatOps D) (fmt : PixelFormat)
    (surf_clip_rect : SDL_Rect) (color : Nat) (xlist ylist : Int → D) (loop : Int)
    (r : AAState D × (D × D × D × D)) : AAState D × (D × D × D × D) :=
  let pts0 := xlist (loop - 1)
  let pts1 := ylist (loop - 1)
  let pts2 := xlist loop
  let pts3 := ylist loop
  let steep_prev := steep_flag ops r.2.1 r.2.2.1 r.2.2.2.1 r.2.2.2.2
  let steep_curr := steep_flag ops pts0 pts1 pts2 pts3
  let extra_px : Int := if steep_prev ≠ steep_curr then 1 else 0
  let disable_endpoints := disable_flag ops pts2 pts3
  (draw_aaline ops fmt surf_clip_rect color pts0 pts1 pts2 pts3 disable_endpoints
    disable_endpoints extra_px r.1, (pts0, pts1, pts2, pts3))

/-- The entry point `aalines`, from the check of the surface depth on.  `points`
is the parsed point sequence; `xlist` and `ylist` are the two halves of the one
buffer `points_buf` of `2 * length` floats, and a read past the end of the buffer
yields `garbage`. -/
def aalines {D : Type} (ops : FloatOps D) (fmt : PixelFormat) (surf : Surface)
    (surf_clip_rect : SDL_Rect) (color : Nat) (closed : Bool) (points : List (D × D))
    (garbage : D) : Except PyExc (AAState D × SDL_Rect) :=
  let s : AAState D := AAState.start surf
  if unsupported_depth surf then .error .ValueError
  else
    let length : Int := points.length
    if length < 2 then .error .ValueError
    else
      let points_buf := points.map Prod.fst ++ points.map Prod.snd
      let xlist := fun (i : Int) => points_buf.getD i.toNat garbage
      let ylist := fun (i : Int) => points_buf.getD (length + i).toNat garbage
      let l := ops.toInt (xlist 0)
      let t := ops.toInt (ylist 0)
      let pts0 := xlist 0
      let pts1 := ylist 0
      let pts2 := xlist 1
      let pts3 := ylist 1
      let steep_prev := steep_flag ops pts0 pts1 pts2 pts3
      let steep_curr := steep_flag ops pts2 pts1 (xlist 2) (ylist 2)
      let extra_px : Int := if steep_prev > steep_curr then 1 else 0
      let disable_endpoints := disable_flag ops pts2 pts3
      let s :=
        if closed then
          draw_aaline ops fmt surf_clip_rect color pts0 pts1 pts2 pts3 disable_endpoints
            disable_endpoints extra_px s
        else
          draw_aaline ops fmt surf_clip_rect color pts0 pts1 pts2 pts3 0 disable_endpoints
            extra_px s
      let r := for_loop 2 (length - 1 - 2).toNat
        (aalines_body ops fmt surf_clip_rect color xlist ylist) (s, (pts0, pts1, pts2, pts3))
      let s := r.1
      let pts0 := xlist (length - 2)
      let pts1 := ylist (length - 2)
      let pts2 := xlist (length - 1)
      let pts3 := ylist (length - 1)
      let steep_prev := steep_flag ops r.2.1 r.2.2.1 r.2.2.2.1 r.2.2.2.2
      let steep_curr := steep_flag ops pts0 pts1 pts2 pts3
      let extra_px : Int := if steep_prev ≠ steep_curr then 1 else 0
      let disable_endpoints := disable_flag ops pts2 pts3
      let s :=
        if closed then
          draw_aaline ops fmt surf_clip_rect color pts0 pts1 pts2 pts3 disable_endpoints
            disable_endpoints extra_px s
        else
          draw_aaline ops fmt surf_clip_rect color pts0 pts1 pts2 pts3 disable_endpoints 0
            extra_px s
      let s :=
        if closed ∧ length > 2 then
          let steep_prev := steep_flag ops pts0 pts1 pts2 pts3
          let steep_curr := steep_flag ops (xlist (length - 1)) (ylist (length - 1))
            (xlist 0) (ylist 0)
          let extra_px : Int := if steep_prev ≠ steep_curr then 1 else 0
          let disable_endpoints := disable_flag ops (xlist 0) (ylist 0)
          draw_aaline ops fmt surf_clip_rect color (xlist (length - 1)) (ylist (length - 1))
            (xlist 0) (ylist 0) disable_endpoints disable_endpoints extra_px s
        else s
      .ok (s, return_rect s.drawn_area l t)

/-- The function `draw_eight_symetric_pixels`. -/
def draw_eight_symetric_pixels {D : Type} (ops : FloatOps D) (fmt : PixelFormat)
    (surf_clip_rect : SDL_Rect) (x0 y0 : Int) (color : Nat) (x y : Int) (opacity : D)
    (top_right top_left bottom_left bottom_right : Int) (s : AAState D) : AAState D :=
  let s := { s with octets := (x, y, opacity) :: s.octets }
  let opacity := ops.div opacity (ops.ofInt 255)
  let s :=
    if top_right = 1 then
      let s := aa_pixel ops fmt surf_clip_rect color (x0 + x) (y0 - y) (x0 + x) (y0 - y)
        opacity s
      aa_pixel ops fmt surf_clip_rect color (x0 + y) (y0 - x) (x0 + y) (y0 - x) opacity s
    else s
  let s :=
    if top_left = 1 then
      let s := aa_pixel ops fmt surf_clip_rect color (x0 - x) (y0 - y) (x0 - x) (y0 - y)
        opacity s
      aa_pixel ops fmt surf_clip_rect color (x0 - y) (y0 - x) (x0 - y) (y0 - x) opacity s
    else s
  let s :=
    if bottom_left = 1 then
      let s := aa_pixel ops fmt surf_clip_rect color (x0 - x) (y0 + y) (x0 - x) (y0 + y)
        opacity s
      aa_pixel ops fmt surf_clip_rect color (x0 - y) (y0 + x) (x0 - y) (y0 + x) opacity s
    else s
  if bottom_right = 1 then
    let s := aa_pixel ops fmt surf_clip_rect color (x0 + x) (y0 + y) (x0 + x) (y0 + y)
      opacity s
    aa_pixel ops fmt surf_clip_rect color (x0 + y) (y0 + x) (x0 + y) (y0 + x) opacity s
  else s

/-- The variables of the `while (x < y)` loops of the Xiaolin Wu circles. -/
structure WuState (D : Type) where
  s : AAState D
  x : Int
  y : Int
  prev_opacity : D

/-- The body of the `while (x < y)` loops of `draw_circle_xiaolinwu` and
`draw_circle_xiaolinwu_thin`.  The loops differ only in the two opacities they pass
to `draw_eight_symetric_pixels`, for `(x, y)` and for `(x, y - 1)`; `pair` maps
`opacity` to these two. -/
def xiaolinwu_body {D : Type} (ops : FloatOps D) (fmt : PixelFormat)
    (surf_clip_rect : SDL_Rect) (x0 y0 : Int) (color : Nat)
    (top_right top_left bottom_left bottom_right : Int) (pow_r : D) (pair : D → D × D)
    (w : WuState D) : WuState D :=
  let height := ops.sqrt (ops.sub pow_r (ops.mul (ops.ofInt w.x) (ops.ofInt w.x)))
  let opacity := ops.mul (ops.ofInt 255) (ops.sub (ops.ceil height) height)
  let y := if ops.lt opacity w.prev_opacity then w.y - 1 else w.y
  let s := draw_eight_symetric_pixels ops fmt surf_clip_rect x0 y0 color w.x y
    (pair opacity).1 top_right top_left bottom_left bottom_right w.s
  let s := draw_eight_symetric_pixels ops fmt surf_clip_rect x0 y0 color w.x (y - 1)
    (pair opacity).2 top_right top_left bottom_left bottom_right s
  { s := s, x := w.x + 1, y := y, prev_opacity := opacity }

/-- One `while (x < y)` loop of the Xiaolin Wu circles, for the radius
`layer_radius`. -/
def xiaolinwu_layer {D : Type} (ops : FloatOps D) (fmt : PixelFormat)
    (surf_clip_rect : SDL_Rect) (x0 y0 : Int) (color : Nat)
    (top_right top_left bottom_left bottom_right : Int) (layer_radius : Int)
    (pair : D → D × D) (s : AAState D) : Option (AAState D) :=
  (while_loop (fun w : WuState D => decide (w.x < w.y))
    (xiaolinwu_body ops fmt surf_clip_rect x0 y0 color top_right top_left bottom_left
      bottom_right (ops.mul (ops.ofInt layer_radius) (ops.ofInt layer_radius)) pair)
    (layer_radius + 1).toNat ⟨s, 0, layer_radius, ops.ofInt 0⟩).map (fun w => w.s)

/-- The function `draw_circle_xiaolinwu`: the innermost layer passes `255.0f` and
`(float)opacity`, the outermost `255.0f - (float)opacity` and `255.0f`, the layers
between `255.0f` twice. -/
def draw_circle_xiaolinwu {D : Type} (ops : FloatOps D) (fmt : PixelFormat)
    (surf_clip_rect : SDL_Rect) (x0 y0 radius thickness : Int) (color : Nat)
    (top_right top_left bottom_left bottom_right : Int) (s : AAState D) :
    Option (AAState D) :=
  for_loop (radius - thickness) (radius + 1 - (radius - thickness)).toNat
    (fun layer_radius (r : Option (AAState D)) =>
      r.bind fun s =>
        xiaolinwu_layer ops fmt surf_clip_rect x0 y0 color top_right top_left bottom_left
          bottom_right layer_radius
          (if layer_radius = radius - thickness then
            fun opacity => (ops.ofInt 255, ops.toFloat opacity)
          else if layer_radius = radius then
            fun opacity => (ops.sub (ops.ofInt 255) (ops.toFloat opacity), ops.ofInt 255)
          else fun _ => (ops.ofInt 255, ops.ofInt 255)) s)
    (some s)

/-- The function `draw_circle_xiaolinwu_thin`. -/
def draw_circle_xiaolinwu_thin {D : Type} (ops : FloatOps D) (fmt : PixelFormat)
    (surf_clip_rect : SDL_Rect) (x0 y0 radius : Int) (color : Nat)
    (top_right top_left bottom_left bottom_right : Int) (s : AAState D) :
    Option (AAState D) :=
  xiaolinwu_layer ops fmt surf_clip_rect x0 y0 color top_right top_left bottom_left
    bottom_right radius
    (fun opacity => (ops.sub (ops.ofInt 255) (ops.toFloat opacity), ops.toFloat opacity)) s

/-- A sample instance of `FloatOps` over the rationals: the operations of `rat_ops`,
the exact `fabs`, `floor` and `ceil`, rounding half away from zero, and equality. -/
def rat_fops : FloatOps Rat :=
  { rat_ops with
    fabs := fun a => if a < 0 then -a else a
    floor := fun a => (Int.floor a : Rat)
    ceil := fun a => (Int.ceil a : Rat)
    roundf := fun a =>
      if a < 0 then (Int.ceil (a - 1 / 2) : Rat) else (Int.floor (a + 1 / 2) : Rat)
    eq := fun a b => decide (a = b)
    small := 1 / 10000 }

/-- A pixel format with 8-bit channels packed as `r + 256 g + 65536 b + 16777216 a`. -/
def rgba_format : PixelFormat :=
  { getRGBA := fun c => (c % 256, c / 256 % 256, c / 65536 % 256, c / 16777216 % 256)
    mapRGBA := fun r g b a => r + 256 * g + 65536 * b + 16777216 * a }



/-- The calls of `draw_aaline` an entry point made, in the order in which it made
them, if it returned normally. -/
def drawn_calls {D : Type} (r : Except PyExc (AAState D × SDL_Rect)) :
    Option (List (AACall D)) :=
  match r with
  | .ok v => some v.1.calls.reverse
  | .error _ => none

/-- The operations `ops` compute over the exact reals: `val` maps every value of `D`
to the real number it stands for, the arithmetic operations and comparisons are
those of the reals, and the cast to `int` truncates toward zero. -/
structure exact_arith {D : Type} (ops : DoubleOps D) (val : D → ℝ) : Prop where
  ofInt : ∀ n : Int, val (ops.ofInt n) = n
  one : val ops.one = 1
  half : val ops.half = 1 / 2
  add : ∀ a b, val (ops.add a b) = val a + val b
  sub : ∀ a b, val (ops.sub a b) = val a - val b
  mul : ∀ a b, val (ops.mul a b) = val a * val b
  div : ∀ a b, val b ≠ 0 → val (ops.div a b) = val a / val b
  neg : ∀ a, val (ops.neg a) = -val a
  lt : ∀ a b, ops.lt a b = true ↔ val a < val b
  le : ∀ a b, ops.le a b = true ↔ val a ≤ val b
  toInt_nonneg : ∀ a, 0 ≤ val a → ops.toInt a = ⌊val a⌋
  toInt_neg : ∀ a, val a < 0 → ops.toInt a = ⌈val a⌉
  toFloat : ∀ a, val (ops.toFloat a) = val a

/-- The log of the calls of `draw_eight_symetric_pixels` for a list of sampled
columns `(x, y, a, b)`, most recent column first: the call for `(x, y)` with opacity
`a`, then the call for `(x, y - 1)` with opacity `b`. -/
def octet_pairs {D : Type} : List (Int × Int × D × D) → List (Int × Int × D)
  | [] => []
  | c :: cs => (c.1, c.2.1 - 1, c.2.2.2) :: (c.1, c.2.1, c.2.2.1) :: octet_pairs cs

/-- A column sampled by the main loop of `draw_aaline`: the column `x`, the value
`v` of `intersect_y`, the row `y = (int)v`, the brightness `w1` of the first pixel
`(x, y - 1)` and the brightness `w2` of its neighbour `(x, y)`, if that is drawn. -/
structure AAColumn (D : Type) where
  x : Int
  y : Int
  v : D
  w1 : D
  w2 : Option D

/-- The calls of `get_antialiased_color` for one column, most recent first: the
neighbour, if drawn, after the first pixel; coordinates are transposed for a steep
line. -/
def column_blends {D : Type} (steep : Bool) (c : AAColumn D) : List (Int × Int × D) :=
  (match c.w2 with
    | some w => [if steep then (c.y, c.x, w) else (c.x, c.y, w)]
    | none => []) ++
  [if steep then (c.y - 1, c.x, c.w1) else (c.x, c.y - 1, c.w1)]

/-- The calls of `get_antialiased_color` for a list of columns, most recent column
first. -/
def main_blends {D : Type} (steep : Bool) : List (AAColumn D) → List (Int × Int × D)
  | [] => []
  | c :: cs => column_blends steep c ++ main_blends steep cs

/-- The column that the body of the main loop of `draw_aaline` samples at `x` when
`intersect_y` is `v`. -/
def sampled_column {D : Type} (ops : FloatOps D) (x : Int) (v : D) : AAColumn D :=
  { x := x, y := ops.toInt v, v := v
    w1 := ops.add (ops.sub ops.one v) (ops.ofInt (ops.toInt v))
    w2 := if ops.lt (ops.ofInt (ops.toInt v)) v then
        some (ops.sub ops.one (ops.add (ops.sub ops.one v) (ops.ofInt (ops.toInt v))))
      else none }

/-- The `libm` functions and the constant `M_PI` of `ops` are those of the exact
reals (`sqrt` on the non-negative values, where the C function is defined). -/
structure exact_libm {D : Type} (ops : DoubleOps D) (val : D → ℝ) : Prop where
  cos : ∀ a, val (ops.cos a) = Real.cos (val a)
  sin : ∀ a, val (ops.sin a) = Real.sin (val a)
  sqrt : ∀ a, 0 ≤ val a → val (ops.sqrt a) = Real.sqrt (val a)
  pi : val ops.pi = Real.pi

/-! ## Invariants of the ring rasteriser -/

/-- Four times the decision function of the first region of the midpoint walk for the
circle with squared radius `A`, at the midpoint `(x + 1, y - 1/2)`:
`4 ((x + 1)^2 + (y - 1/2)^2 - A)`. -/
def ring_f1 (A x y : Int) : Int := 4 * (x + 1) * (x + 1) + (2 * y - 1) * (2 * y - 1) - 4 * A

/-- Four times the decision function of the second region, at the midpoint
`(x + 1/2, y - 1)`: `4 ((x + 1/2)^2 + (y - 1)^2 - A)`. -/
def ring_f2 (A x y : Int) : Int := (2 * x + 1) * (2 * x + 1) + 4 * (y - 1) * (y - 1) - 4 * A

/-- The value a decision variable of `draw_circle_bresenham` holds when four times the
decision function is `f`: `radius_squared * f / 4`. -/
def ring_decision (A f : Int) : Rat := (A : Rat) * (f : Rat) / 4

/-- The invariant of the outer trace of `draw_circle_bresenham` at the head of its
first loop (`first = true`) and of its second loop (`first = false`), on the values
of `x`, `y`, `dx`, `dy` and `d1`. -/
structure RingOuter (R : Int) (first : Bool) (x y dx dy : Int) (d1 : Rat) : Prop where
  x_nonneg : 0 ≤ x
  x_le : x ≤ R
  y_le : y ≤ R
  sum_le : x + y ≤ 2 * R - 1
  y_ge : -1 ≤ y
  dx_eq : dx = 2 * (R * R) * x
  dy_eq : dy = 2 * (R * R) * y
  d1_first : first = true → d1 = ring_decision (R * R) (ring_f1 (R * R) x y)
  lower_first : first = true → 0 ≤ ring_f1 (R * R) (x - 1) (y + 1)
  d1_second : first = false → d1 = ring_decision (R * R) (ring_f2 (R * R) x y)
  lower_second : first = false → y ≤ x ∧ 0 < ring_f2 (R * R) x (y + 1)

/-- The invariant of the inner trace of `draw_circle_bresenham`, on the values of
`line`, `x`, `y` and the variables of the inner trace: while `line` is set the inner
trace rests at its start `(0, radius_inner)`, afterwards it is in the row of the
outer trace and not outside it. -/
structure RingInner (Ri : Int) (line : Bool) (x y xi yi dxi dyi : Int) (d1i d2i : Rat) :
    Prop where
  resting : line = true → Ri ≤ y ∧ xi = 0 ∧ yi = Ri ∧ d2i = 0
  row : line = false → yi = y
  x_nonneg : 0 ≤ xi
  x_le_outer : xi ≤ x
  x_le : xi ≤ Ri
  y_le : yi ≤ Ri
  dx_eq : dxi = 2 * (Ri * Ri) * xi
  dy_eq : dyi = 2 * (Ri * Ri) * yi
  mode : (d2i = 0 ∧ d1i = ring_decision (Ri * Ri) (ring_f1 (Ri * Ri) xi yi)) ∨
    (yi ≤ xi ∧ d2i = ring_decision (Ri * Ri) (ring_f2 (Ri * Ri) xi yi))
  lower : 0 ≤ ring_f1 (Ri * Ri) (xi - 1) (yi + 1) ∨
    (yi ≤ xi ∧ 0 < ring_f2 (Ri * Ri) xi (yi + 1))

/-- The state of `draw_circle_bresenham` after the spans of the current row are
drawn. -/
def ring_draw (surf_clip_rect : SDL_Rect) (x0 y0 : Int) (color : Nat) (s : RingState) :
    RingState :=
  let r := ring_spans surf_clip_rect x0 y0 color s
  { s with surf := r.1, drawn_area := r.2 }

/-- The step `x++; y--; dx += double_radius_squared; dy -= double_radius_squared;
d1 += dx - dy + radius_squared;` of the outer trace, in both loops. -/
def ring_diagonal (radius_squared : Int) (s : RingState) : RingState :=
  let dx := s.dx + 2 * radius_squared
  let dy := s.dy - 2 * radius_squared
  { s with
    x := s.x + 1, y := s.y - 1, dx := dx, dy := dy
    d1 := s.d1 + ((dx - dy + radius_squared : Int) : Rat) }

/-- The step `y--; dy -= double_radius_squared; d1 += radius_squared - dy;` of the
outer trace in the second loop. -/
def ring_down (radius_squared : Int) (s : RingState) : RingState :=
  let dy := s.dy - 2 * radius_squared
  { s with y := s.y - 1, dy := dy, d1 := s.d1 + ((radius_squared - dy : Int) : Rat) }

/-- The statement `if (line && y < radius_inner) line = 0;`. -/
def ring_line_check (radius_inner : Int) (s : RingState) : RingState :=
  { s with line := s.line && !decide (s.y < radius_inner) }

/-- The value of `d2_inner` after `if (!d2_inner) d2_inner = ...;`. -/
def ring_d2_inner (radius_inner_squared : Int) (s : RingState) : Rat :=
  if s.d2_inner = 0 then
    (radius_inner_squared : Rat) *
      (((s.x_inner : Rat) + 1 / 2) * ((s.x_inner : Rat) + 1 / 2) +
        (((s.y_inner - 1) * (s.y_inner - 1) : Int) : Rat) - (radius_inner_squared : Rat))
  else s.d2_inner

/-- The advance of the inner trace in its second region, in the second loop. -/
def ring_inner_region2 (radius_inner_squared : Int) (s : RingState) : RingState :=
  let d2 := ring_d2_inner radius_inner_squared s
  if d2 > 0 then
    let dy_inner := s.dy_inner - 2 * radius_inner_squared
    { s with
      y_inner := s.y_inner - 1, dy_inner := dy_inner
      d2_inner := d2 + ((radius_inner_squared - dy_inner : Int) : Rat) }
  else
    let dx_inner := s.dx_inner + 2 * radius_inner_squared
    let dy_inner := s.dy_inner - 2 * radius_inner_squared
    { s with
      y_inner := s.y_inner - 1, x_inner := s.x_inner + 1
      dx_inner := dx_inner, dy_inner := dy_inner
      d2_inner := d2 + ((dx_inner - dy_inner + radius_inner_squared : Int) : Rat) }

/-- The advance of the inner trace at the end of the body of the second loop:
nothing while `line` is set, else a step in the region `dx_inner < dy_inner`
selects. -/
def ring_inner_advance (radius_inner_squared : Int) (fuel : Nat) (s : RingState) :
    Option RingState :=
  if s.line then some s
  else if s.dx_inner < s.dy_inner then ring_inner_region1 radius_inner_squared fuel s
  else some (ring_inner_region2 radius_inner_squared s)

/-- The pixel `p` lies in one of the two runs of `t` pixels at the ends of the row of
width `2 R` centred at `x0`. -/
def ring_ends (x0 R t : Int) (p : Int × Int) : Prop :=
  (x0 - R ≤ p.1 ∧ p.1 ≤ x0 - R + t - 1) ∨ (x0 + R - t ≤ p.1 ∧ p.1 ≤ x0 + R - 1)

/-- The invariant of the log of `draw_circle_bresenham` when the outer trace is in row
`y`: as long as `y >= 1` the rows `y0 - y .. y0 + y - 1` are untouched, and from
`y = 0` on the two centre rows hold exactly the two runs `ring_ends`. -/
def ring_rows (x0 y0 R t : Int) (new : List (Int × Int)) (y : Int) : Prop :=
  (1 ≤ y → ∀ p ∈ new, p.2 < y0 - y ∨ y0 + y - 1 < p.2) ∧
  (y ≤ 0 → ∀ p : Int × Int, (p.2 = y0 - 1 ∨ p.2 = y0) → (p ∈ new ↔ ring_ends x0 R t p))

/-- The invariant of both loops of `draw_circle_bresenham` for the radius `R`, the
thickness `t` and the state `(surf, drawn_area)` at the call. -/
def ring_invariant (clip : SDL_Rect) (x0 y0 R t : Int) (color : Nat)
    (start : Surface × DrawnArea) (first : Bool) (s : RingState) : Prop :=
  RingOuter R first s.x s.y s.dx s.dy s.d1 ∧
  RingInner (R - t + 1) s.line s.x s.y s.x_inner s.y_inner s.dx_inner s.dy_inner
    s.d1_inner s.d2_inner ∧
  ∃ new, Drawn clip color new start (s.surf, s.drawn_area) ∧ ring_rows x0 y0 R t new s.y

/-- One call that updates the accumulator `drawn_area`: a call of
`add_pixel_to_drawn_list` or a call of `add_line_to_drawn_list`. -/
inductive DrawnCall where
  | pixel (x y : Int)
  | span (x1 y1 x2 y2 : Int)
  deriving DecidableEq, Repr

/-- The accumulator after the call. -/
def DrawnCall.run : DrawnCall → DrawnArea → DrawnArea
  | .pixel x y, pts => add_pixel_to_drawn_list x y pts
  | .span x1 y1 x2 y2, pts => add_line_to_drawn_list x1 y1 x2 y2 pts

/-- The accumulator after a sequence of calls, the first call of the list first. -/
def run_calls (calls : List DrawnCall) (pts : DrawnArea) : DrawnArea :=
  calls.foldl (fun pts c => c.run pts) pts

/-- The points a call absorbs: the pixel, or the two endpoints of the span. -/
def DrawnCall.points : DrawnCall → List (Int × Int)
  | .pixel x y => [(x, y)]
  | .span x1 y1 x2 y2 => [(x1, y1), (x2, y2)]

/-- The precondition of `add_line_to_drawn_list`: `x1 <= x2` and `y1 <= y2`. -/
def DrawnCall.ordered : DrawnCall → Prop
  | .pixel _ _ => True
  | .span x1 y1 x2 y2 => x1 ≤ x2 ∧ y1 ≤ y2

/-- The value `v` is a C `int`. -/
def is_int (v : Int) : Prop := INT_MIN ≤ v ∧ v ≤ INT_MAX

instance (v : Int) : Decidable (is_int v) := by
  unfold is_int; infer_instance



/-- The states in which the body of a C loop `while (cond) body` is executed, in
order, for at most `fuel` executions of the body. -/
def while_states {σ : Type} (cond : σ → Bool) (body : σ → σ) : Nat → σ → List σ
  | 0, _ => []
  | fuel + 1, s => if cond s then s :: while_states cond body fuel (body s) else []

/-- The closed form of the `k`-th position of the Bresenham walk from `(x1, y1)` to
`(x2, y2)`: `k` steps along the major axis (x when `|dx| > |dy|`, else y) and the
ideal offset `k * minor / major` along the minor axis, rounded to the nearest
integer, a half being rounded toward the start. -/
def line_pixel (x1 y1 x2 y2 : Int) (k : Int) : Int × Int :=
  let dx := |x2 - x1|
  let dy := |y2 - y1|
  let sx : Int := if x1 < x2 then 1 else -1
  let sy : Int := if y1 < y2 then 1 else -1
  if dx > dy then (x1 + sx * k, y1 + sy * ((2 * (k * dy) + dx - 1) / (2 * dx)))
  else (x1 + sx * ((2 * (k * dx) + dy - 1) / (2 * dy)), y1 + sy * k)

/-- The log of the calls `set_and_check_rect(f 0)`, ..., `set_and_check_rect(f (n - 1))`
under the clip rectangle `clip`, last one first. -/
def clipped_run (clip : SDL_Rect) (f : Int → Int × Int) : Nat → List (Int × Int)
  | 0 => []
  | n + 1 => (if inside clip (f n) then [f n] else []) ++ clipped_run clip f n

/-- The C `int` arithmetic of `draw_line` between the two endpoints does not
overflow: the endpoints are C `int`s and `|x2 - x1| + |y2 - y1| < INT_MAX`.  This
bounds the differences `dx` and `dy`, the counter of the loops of the horizontal and
the vertical line (which ends at `|x2 - x1| + 1` or `|y2 - y1| + 1`) and every value
the error term of the Bresenham loop takes (it stays between `-dx - dy` and
`dx + dy`); the positions of the walk stay in the box of the endpoints. -/
def line_in_int_range (x1 y1 x2 y2 : Int) : Prop :=
  is_int x1 ∧ is_int y1 ∧ is_int x2 ∧ is_int y2 ∧ |x2 - x1| + |y2 - y1| < INT_MAX

instance (x1 y1 x2 y2 : Int) : Decidable (line_in_int_range x1 y1 x2 y2) := by
  unfold line_in_int_range; infer_instance

/-- The C `int` arithmetic of the Bresenham loops of `draw_line_width` does not
overflow: as for `draw_line`, and every endpoint coordinate can be moved by `width`
in both directions (the loops step one position past the end point, and the spans
and `clip_line` reach `width / 2` to both sides of a position). -/
def line_width_in_int_range (x1 y1 x2 y2 width : Int) : Prop :=
  is_int (x1 - width) ∧ is_int (x1 + width) ∧ is_int (y1 - width) ∧ is_int (y1 + width) ∧
  is_int (x2 - width) ∧ is_int (x2 + width) ∧ is_int (y2 - width) ∧ is_int (y2 + width) ∧
  |x2 - x1| + |y2 - y1| < INT_MAX

instance (x1 y1 x2 y2 width : Int) : Decidable (line_width_in_int_range x1 y1 x2 y2 width) := by
  unfold line_width_in_int_range; infer_instance

/-- The span one iteration of a Bresenham loop of `draw_line_width` draws at the
position `c` of its walk, before the error update: in the first loop (`xinc` set)
the pixels `(c.1 - width) + extra_width .. c.1 + width` of row `c.2`, in the second
loop the pixels `(c.2 - width) + extra_width .. c.2 + width` of column `c.1`, cut at
the clip rectangle. -/
def draw_line_width_span (surf_clip_rect : SDL_Rect) (color : Nat) (width extra_width : Int)
    (xinc : Bool) (c : Int × Int) (r : Surface × DrawnArea) : Surface × DrawnArea :=
  let end_x := surf_clip_rect.x + surf_clip_rect.w - 1
  let end_y := surf_clip_rect.y + surf_clip_rect.h - 1
  if xinc then
    if surf_clip_rect.y ≤ c.2 ∧ c.2 ≤ end_y then
      let start_draw := MAX ((c.1 - width) + extra_width) surf_clip_rect.x
      let end_draw := MIN end_x (c.1 + width)
      if start_draw ≤ end_draw then
        (drawhorzline r.1 color start_draw c.2 end_draw,
          add_line_to_drawn_list start_draw c.2 end_draw c.2 r.2)
      else r
    else r
  else
    if surf_clip_rect.x ≤ c.1 ∧ c.1 ≤ end_x then
      let start_draw := MAX ((c.2 - width) + extra_width) surf_clip_rect.y
      let end_draw := MIN end_y (c.2 + width)
      if start_draw ≤ end_draw then
        (drawvertline r.1 color start_draw c.1 end_draw,
          add_line_to_drawn_list c.1 start_draw c.1 end_draw r.2)
      else r
    else r

/-- The C `int` arithmetic of `draw_ellipse_filled` on the rectangle
`(x0, y0, width, height)` does not overflow: the corners of the rectangle are C
`int`s, and so are the products `2 * width * width`, `2 * height * height` and
`width * width * height` of the halved `width` and `height`, which the function
computes in `int`.  Its `long long` variables then cannot overflow, and its `double`
variables hold multiples of 1/4 that are small enough to be exact. -/
def ellipse_in_int_range (x0 y0 width height : Int) : Prop :=
  is_int x0 ∧ is_int y0 ∧ is_int (x0 + width) ∧ is_int (y0 + height) ∧
  2 * cdiv width 2 * cdiv width 2 ≤ INT_MAX ∧ 2 * cdiv height 2 * cdiv height 2 ≤ INT_MAX ∧
  cdiv width 2 * cdiv width 2 * cdiv height 2 ≤ INT_MAX

instance (x0 y0 width height : Int) : Decidable (ellipse_in_int_range x0 y0 width height) := by
  unfold ellipse_in_int_range; infer_instance

/-- The variables of the two loops of `draw_ellipse_filled`.  The `long long`
variables are integers; the `double` decision variable (`d1` in the first loop,
`d2` in the second) only ever holds integer multiples of 1/4 and is embedded as a
rational. -/
structure EllipseState where
  surf : Surface
  drawn_area : DrawnArea
  x : Int
  y : Int
  dx : Int
  dy : Int
  d : Rat

/-- The two spans every iteration of both loops of `draw_ellipse_filled` draws. -/
def ellipse_spans (surf_clip_rect : SDL_Rect) (x0 y0 x_offset y_offset : Int) (color : Nat)
    (s : EllipseState) : Surface × DrawnArea :=
  let r := drawhorzlineclipbounding s.surf surf_clip_rect color (x0 - s.x) (y0 - s.y)
    (x0 + s.x - x_offset) s.drawn_area
  drawhorzlineclipbounding r.1 surf_clip_rect color (x0 - s.x) (y0 + s.y - y_offset)
    (x0 + s.x - x_offset) r.2

/-- The body of the loop `while (dx < dy)` of `draw_ellipse_filled`.  The products
`2 * height * height` and `2 * width * width`, which the source computes in `int`,
are integers here: the embedding follows the source as long as they are C `int`s
(`ellipse_in_int_range`). -/
def draw_ellipse_filled_body1 (surf_clip_rect : SDL_Rect) (x0 y0 x_offset y_offset : Int)
    (color : Nat) (width height : Int) (s : EllipseState) : EllipseState :=
  let r := ellipse_spans surf_clip_rect x0 y0 x_offset y_offset color s
  if s.d < 0 then
    let dx := s.dx + 2 * height * height
    { s with
      surf := r.1, drawn_area := r.2, x := s.x + 1, dx := dx
      d := s.d + (dx : Rat) + ((height * height : Int) : Rat) }
  else
    let dx := s.dx + 2 * height * height
    let dy := s.dy - 2 * width * width
    { s with
      surf := r.1, drawn_area := r.2, x := s.x + 1, y := s.y - 1, dx := dx, dy := dy
      d := s.d + (dx : Rat) - (dy : Rat) + ((height * height : Int) : Rat) }

/-- The body of the loop `while (y >= 0)` of `draw_ellipse_filled`, with the `int`
products as integers, as in the first loop. -/
def draw_ellipse_filled_body2 (surf_clip_rect : SDL_Rect) (x0 y0 x_offset y_offset : Int)
    (color : Nat) (width height : Int) (s : EllipseState) : EllipseState :=
  let r := ellipse_spans surf_clip_rect x0 y0 x_offset y_offset color s
  if s.d > 0 then
    let dy := s.dy - 2 * width * width
    { s with
      surf := r.1, drawn_area := r.2, y := s.y - 1, dy := dy
      d := s.d + ((width * width : Int) : Rat) - (dy : Rat) }
  else
    let dx := s.dx + 2 * height * height
    let dy := s.dy - 2 * width * width
    { s with
      surf := r.1, drawn_area := r.2, y := s.y - 1, x := s.x + 1, dx := dx, dy := dy
      d := s.d + (dx : Rat) - (dy : Rat) + ((width * width : Int) : Rat) }

/-- The function `draw_ellipse_filled`.  The first loop is bounded by `width + 1`
and the second by `height + 1` executions of the body, for the halved `width` and
`height`.  The products `height * height`, `width * width * height`,
`2 * height * height` and `2 * width * width`, which the source computes in `int`,
are integers here: the embedding follows the source as long as they are C `int`s,
which `ellipse_in_int_range` states. -/
def draw_ellipse_filled (surf : Surface) (surf_clip_rect : SDL_Rect) (x0 y0 width height : Int)
    (color : Nat) (drawn_area : DrawnArea) : Option (Surface × DrawnArea) :=
  if width = 1 then draw_line surf surf_clip_rect x0 y0 x0 (y0 + height - 1) color drawn_area
  else if height = 1 then
    some (drawhorzlineclipbounding surf surf_clip_rect color x0 y0 (x0 + width - 1) drawn_area)
  else
    let x0 := x0 + cdiv width 2
    let y0 := y0 + cdiv height 2
    let x_offset := cmod (width + 1) 2
    let y_offset := cmod (height + 1) 2
    let width := cdiv width 2
    let height := cdiv height 2
    let x : Int := 0
    let y := height
    let d1 : Rat := ((height * height - width * width * height : Int) : Rat) +
      (1 / 4 : Rat) * (width : Rat) * (width : Rat)
    let dx := 2 * height * height * x
    let dy := 2 * width * width * y
    (while_loop (fun s => decide (s.dx < s.dy))
      (draw_ellipse_filled_body1 surf_clip_rect x0 y0 x_offset y_offset color width height)
      (width + 1).toNat ⟨surf, drawn_area, x, y, dx, dy, d1⟩).bind fun s =>
    let d2 : Rat := ((height : Rat) * (height : Rat)) *
        (((s.x : Rat) + 1 / 2) * ((s.x : Rat) + 1 / 2)) +
      ((width : Rat) * (width : Rat)) * (((s.y - 1) * (s.y - 1) : Int) : Rat) -
      (width : Rat) * (width : Rat) * (height : Rat) * (height : Rat)
    (while_loop (fun s => decide (s.y ≥ 0))
      (draw_ellipse_filled_body2 surf_clip_rect x0 y0 x_offset y_offset color width height)
      (height + 1).toNat { s with d := d2 }).map (fun s => (s.surf, s.drawn_area))

/-- Four times the decision function of the first loop of `draw_ellipse_filled` for
the half-axes `W` and `H`, at the midpoint `(x + 1, y - 1/2)`:
`4 (H^2 (x + 1)^2 + W^2 (y - 1/2)^2 - W^2 H^2)`. -/
def ellipse_f1 (W H x y : Int) : Int :=
  4 * (H * H) * ((x + 1) * (x + 1)) + (W * W) * ((2 * y - 1) * (2 * y - 1)) -
    4 * (W * W) * (H * H)

/-- Four times the decision function of the second loop, at the midpoint
`(x + 1/2, y - 1)`: `4 (H^2 (x + 1/2)^2 + W^2 (y - 1)^2 - W^2 H^2)`. -/
def ellipse_f2 (W H x y : Int) : Int :=
  (H * H) * ((2 * x + 1) * (2 * x + 1)) + 4 * (W * W) * ((y - 1) * (y - 1)) -
    4 * (W * W) * (H * H)

/-- The invariant of the first loop of `draw_ellipse_filled` on the values of its
variables: the decision variable is the decision function at the next midpoint, and
the point `(x, y - 1/2)` lies inside the ellipse unless the loop is about to end. -/
structure EllipseFirst (W H : Int) (x y dx dy : Int) (d : Rat) : Prop where
  x_nonneg : 0 ≤ x
  x_le : x ≤ W
  y_nonneg : 0 ≤ y
  y_le : y ≤ H
  dx_eq : dx = 2 * H * H * x
  dy_eq : dy = 2 * W * W * y
  d_eq : d = ((ellipse_f1 W H x y : Int) : Rat) / 4
  inner : 4 * (H * H) * (x * x) + (W * W) * ((2 * y - 1) * (2 * y - 1)) <
      4 * (W * W) * (H * H) ∨ W * W * y ≤ H * H * x

/-- The invariant of the second loop of `draw_ellipse_filled` on the values of its
variables. -/
structure EllipseSecond (W H : Int) (x y dx dy : Int) (d : Rat) : Prop where
  x_nonneg : 0 ≤ x
  x_le : x ≤ W
  y_ge : -1 ≤ y
  y_le : y ≤ H
  dx_eq : dx = 2 * H * H * x
  dy_eq : dy = 2 * W * W * y
  d_eq : d = ((ellipse_f2 W H x y : Int) : Rat) / 4

/-- The pixel `p` lies in the box `[x0 - R, x0 + R - 1] x [y0 - R, y0 + R - 1]` of the
circle of radius `R` around `(x0, y0)`. -/
def circle_box (x0 y0 R : Int) (p : Int × Int) : Prop :=
  x0 - R ≤ p.1 ∧ p.1 ≤ x0 + R - 1 ∧ y0 - R ≤ p.2 ∧ p.2 ≤ y0 + R - 1

/-! # Verified properties -/

/-! ## Pixel access -/

theorem set_at_inside (surf : Surface) (clip : SDL_Rect) (x y : Int) (color : Nat)
    (h : clip.x ≤ x ∧ x < clip.x + clip.w ∧ clip.y ≤ y ∧ y < clip.y + clip.h) :
    set_at surf clip x y color = (store_pixel surf (set_at_bytes surf) x y color, 1) := by
  unfold set_at
  rw [if_neg]
  omega

theorem set_at_outside (surf : Surface) (clip : SDL_Rect) (x y : Int) (color : Nat)
    (h : ¬ (clip.x ≤ x ∧ x < clip.x + clip.w ∧ clip.y ≤ y ∧ y < clip.y + clip.h)) :
    set_at surf clip x y color = (surf, 0) := by
  unfold set_at
  rw [if_pos]
  omega

theorem set_and_check_rect_inside (surf : Surface) (clip : SDL_Rect) (x y : Int) (color : Nat)
    (da : DrawnArea)
    (h : clip.x ≤ x ∧ x < clip.x + clip.w ∧ clip.y ≤ y ∧ y < clip.y + clip.h) :
    set_and_check_rect surf clip x y color da =
      (store_pixel surf (set_at_bytes surf) x y color, add_pixel_to_drawn_list x y da) := by
  simp [set_and_check_rect, set_at_inside surf clip x y color h]

theorem set_and_check_rect_outside (surf : Surface) (clip : SDL_Rect) (x y : Int)
    (color : Nat) (da : DrawnArea)
    (h : ¬ (clip.x ≤ x ∧ x < clip.x + clip.w ∧ clip.y ≤ y ∧ y < clip.y + clip.h)) :
    set_and_check_rect surf clip x y color da = (surf, da) := by
  simp [set_and_check_rect, set_at_outside surf clip x y color h]

/-- C1: `set_at` returns 1 exactly when `(x, y)` is inside the clip rectangle, and
then it has stored the bytes of the colour at `y * pitch + x * n` (and nowhere
else); otherwise it returns 0 and the surface is unchanged.  `set_and_check_rect`
folds `(x, y)` into the accumulator exactly when that store happened. -/
theorem set_at_contract (surf : Surface) (clip : SDL_Rect) (x y : Int) (color : Nat)
    (da : DrawnArea) :
    ((set_at surf clip x y color).2 = 1 ↔
      (clip.x ≤ x ∧ x < clip.x + clip.w ∧ clip.y ≤ y ∧ y < clip.y + clip.h)) ∧
    ((set_at surf clip x y color).2 = 0 ↔
      ¬ (clip.x ≤ x ∧ x < clip.x + clip.w ∧ clip.y ≤ y ∧ y < clip.y + clip.h)) ∧
    ((set_at surf clip x y color).2 = 1 →
      (∀ a : Int, (set_at surf clip x y color).1.pixels a =
        if y * surf.pitch + x * (set_at_bytes surf) ≤ a ∧
            a < y * surf.pitch + x * (set_at_bytes surf) + set_at_bytes surf then
          color_byte surf.big_endian (set_at_bytes surf) color
            (a - (y * surf.pitch + x * (set_at_bytes surf))).toNat
        else surf.pixels a) ∧
      (set_at surf clip x y color).1.written = (x, y) :: surf.written) ∧
    ((set_at surf clip x y color).2 = 0 → (set_at surf clip x y color).1 = surf) ∧
    set_and_check_rect surf clip x y color da =
      (if (set_at surf clip x y color).2 = 1 then
        ((set_at surf clip x y color).1, add_pixel_to_drawn_list x y da)
      else (surf, da)) := by
  by_cases h : clip.x ≤ x ∧ x < clip.x + clip.w ∧ clip.y ≤ y ∧ y < clip.y + clip.h
  · rw [set_and_check_rect_inside surf clip x y color da h, set_at_inside surf clip x y color h]
    simp [h, store_pixel]
  · rw [set_and_check_rect_outside surf clip x y color da h, set_at_outside surf clip x y color h]
    simp [h]

/-! ## Loops -/

theorem for_loop_zero {σ : Type} (lo : Int) (body : Int → σ → σ) (s : σ) :
    for_loop lo 0 body s = s := rfl

theorem for_loop_cons {σ : Type} (lo : Int) (n : Nat) (body : Int → σ → σ) (s : σ) :
    for_loop lo (n + 1) body s = for_loop (lo + 1) n body (body lo s) := rfl

theorem for_loop_one {σ : Type} (lo : Int) (body : Int → σ → σ) (s : σ) :
    for_loop lo 1 body s = body lo s := rfl

theorem for_loop_succ {σ : Type} (lo : Int) (n : Nat) (body : Int → σ → σ) (s : σ) :
    for_loop lo (n + 1) body s = body (lo + (n : Int)) (for_loop lo n body s) := by
  induction n generalizing lo s with
  | zero => simp [for_loop]
  | succ n ih =>
    rw [for_loop_cons, ih, for_loop_cons]
    congr 1
    push_cast
    ring

@[simp] theorem store_pixel_written (surf : Surface) (m : Nat) (x y : Int) (color : Nat) :
    (store_pixel surf m x y color).written = (x, y) :: surf.written := rfl

@[simp] theorem store_pixel_pitch (surf : Surface) (m : Nat) (x y : Int) (color : Nat) :
    (store_pixel surf m x y color).pitch = surf.pitch := rfl

@[simp] theorem store_pixel_bpp (surf : Surface) (m : Nat) (x y : Int) (color : Nat) :
    (store_pixel surf m x y color).BytesPerPixel = surf.BytesPerPixel := rfl

@[simp] theorem store_pixel_big_endian (surf : Surface) (m : Nat) (x y : Int) (color : Nat) :
    (store_pixel surf m x y color).big_endian = surf.big_endian := rfl

theorem written_span (surf : Surface) (m : Nat) (color : Nat) (lo y : Int) (n : Nat) :
    (for_loop lo n (fun x s => store_pixel s m x y color) surf).written =
      span_log lo n y ++ surf.written := by
  induction n with
  | zero => simp [for_loop_zero, span_log]
  | succ n ih =>
    rw [for_loop_succ, store_pixel_written, ih]
    simp [span_log]

/-! ## Bresenham walk -/

theorem bresenham_step_frame (dx dy sx sy : Int) (s : LineState) :
    (bresenham_step dx dy sx sy s).surf = s.surf ∧
    (bresenham_step dx dy sx sy s).drawn_area = s.drawn_area := by
  unfold bresenham_step
  by_cases h1 : s.err > -dx <;> by_cases h2 : s.err < dy <;> simp [h1, h2]

theorem bresenham_step_eq (dx dy sx sy : Int) (s : LineState) :
    (bresenham_step dx dy sx sy s).x1 = (if s.err > -dx then s.x1 + sx else s.x1) ∧
    (bresenham_step dx dy sx sy s).y1 = (if s.err < dy then s.y1 + sy else s.y1) ∧
    (bresenham_step dx dy sx sy s).err =
      (if s.err > -dx then s.err - dy else s.err) + (if s.err < dy then dx else 0) := by
  unfold bresenham_step
  by_cases h1 : s.err > -dx <;> by_cases h2 : s.err < dy <;> simp [h1, h2]

theorem on_line_start (dx dy sx sy x1 y1 : Int) (hdx : 0 < dx) (hdy : 0 < dy) :
    on_line dx dy sx sy x1 y1 (cdiv (if dx > dy then dx else -dy) 2) x1 y1
      (cdiv (if dx > dy then dx else -dy) 2) := by
  refine ⟨0, 0, le_refl _, le_refl _, by ring, by ring, by ring, ?_, ?_⟩
  · intro h
    have : dx > dy := h
    rw [if_pos this, cdiv, Int.tdiv_eq_ediv (by omega) (by omega)]
    omega
  · intro h
    have : ¬ dx > dy := by omega
    rw [if_neg this, cdiv, Int.neg_tdiv, Int.tdiv_eq_ediv (by omega) (by omega)]
    omega

theorem on_line_end (dx dy sx sy x1 y1 err0 x y err : Int) (hdx : 0 < dx) (hdy : 0 < dy)
    (hsx : sx = 1 ∨ sx = -1) (hsy : sy = 1 ∨ sy = -1)
    (h0 : on_line dx dy sx sy x1 y1 err0 x1 y1 err0)
    (h : on_line dx dy sx sy x1 y1 err0 x y err)
    (hc : x ≠ x1 + sx * dx ∨ y ≠ y1 + sy * dy) :
    (dy < dx → x ≠ x1 + sx * dx ∧ 0 ≤ err) ∧ (dx ≤ dy → y ≠ y1 + sy * dy ∧ err ≤ 0) := by
  obtain ⟨k, j, hk, hj, hx, hy, he, hxm, hym⟩ := h
  obtain ⟨k0, j0, hk0, hj0, hx0, hy0, he0, hxm0, hym0⟩ := h0
  have hk00 : k0 = 0 := by rcases hsx with h | h <;> subst h <;> omega
  have hj00 : j0 = 0 := by rcases hsy with h | h <;> subst h <;> omega
  subst hk00 hj00
  constructor
  · intro hlt
    obtain ⟨e1, e2, e3⟩ := hxm hlt
    obtain ⟨f1, f2, _⟩ := hxm0 hlt
    refine ⟨?_, e1⟩
    intro hxe
    have hkd : k = dx := by rcases hsx with h | h <;> subst h <;> omega
    subst hkd
    have hjd : j = dy := by
      by_contra hne
      rcases lt_or_gt_of_ne hne with hl | hg
      · have : (dy - j) * k ≥ 1 * k := by
          apply mul_le_mul_of_nonneg_right <;> omega
        nlinarith
      · have : (j - dy) * k ≥ 1 * k := by
          apply mul_le_mul_of_nonneg_right <;> omega
        nlinarith
    subst hjd
    rcases hc with hc | hc
    · exact hc hxe
    · exact hc hy
  · intro hle
    obtain ⟨e1, e2, e3⟩ := hym hle
    obtain ⟨f1, f2, _⟩ := hym0 hle
    refine ⟨?_, e2⟩
    intro hye
    have hjd : j = dy := by rcases hsy with h | h <;> subst h <;> omega
    subst hjd
    have hkd : k = dx := by
      by_contra hne
      rcases lt_or_gt_of_ne hne with hl | hg
      · have : (dx - k) * j ≥ 1 * j := by
          apply mul_le_mul_of_nonneg_right <;> omega
        nlinarith
      · have : (k - dx) * j ≥ 1 * j := by
          apply mul_le_mul_of_nonneg_right <;> omega
        nlinarith
    subst hkd
    rcases hc with hc | hc
    · exact hc hx
    · exact hc hye

theorem on_line_step (dx dy sx sy x1 y1 err0 : Int) (s : LineState) (hdx : 0 < dx)
    (hdy : 0 < dy) (hsx : sx = 1 ∨ sx = -1) (hsy : sy = 1 ∨ sy = -1)
    (h0 : on_line dx dy sx sy x1 y1 err0 x1 y1 err0)
    (h : on_line dx dy sx sy x1 y1 err0 s.x1 s.y1 s.err)
    (hc : s.x1 ≠ x1 + sx * dx ∨ s.y1 ≠ y1 + sy * dy) :
    on_line dx dy sx sy x1 y1 err0 (bresenham_step dx dy sx sy s).x1
      (bresenham_step dx dy sx sy s).y1 (bresenham_step dx dy sx sy s).err := by
  have hend := on_line_end dx dy sx sy x1 y1 err0 s.x1 s.y1 s.err hdx hdy hsx hsy h0 h hc
  obtain ⟨k, j, hk, hj, hx, hy, he, hxm, hym⟩ := h
  obtain ⟨bx, by1, be⟩ := bresenham_step_eq dx dy sx sy s
  rw [bx, by1, be]
  by_cases hlt : dy < dx
  · obtain ⟨e1, e2, e3⟩ := hxm hlt
    obtain ⟨g1, _⟩ := hend.1 hlt
    have hk1 : k < dx := by
      rcases lt_or_eq_of_le e3 with h | h
      · exact h
      · exfalso; apply g1; rw [hx, h]
    have c1 : s.err > -dx := by omega
    rw [if_pos c1, if_pos c1]
    by_cases c2 : s.err < dy
    · rw [if_pos c2, if_pos c2]
      refine ⟨k + 1, j + 1, by omega, by omega, by rw [hx]; ring, by rw [hy]; ring,
        by rw [he]; ring, fun _ => ⟨by omega, by omega, by omega⟩, fun _ => by omega⟩
    · rw [if_neg c2, if_neg c2]
      refine ⟨k + 1, j, by omega, by omega, by rw [hx]; ring, hy,
        by rw [he]; ring, fun _ => ⟨by omega, by omega, by omega⟩, fun _ => by omega⟩
  · have hle : dx ≤ dy := by omega
    obtain ⟨e1, e2, e3⟩ := hym hle
    obtain ⟨g1, _⟩ := hend.2 hle
    have hj1 : j < dy := by
      rcases lt_or_eq_of_le e3 with h | h
      · exact h
      · exfalso; apply g1; rw [hy, h]
    have c2 : s.err < dy := by omega
    rw [if_pos c2, if_pos c2]
    by_cases c1 : s.err > -dx
    · rw [if_pos c1, if_pos c1]
      refine ⟨k + 1, j + 1, by omega, by omega, by rw [hx]; ring, by rw [hy]; ring,
        by rw [he]; ring, fun _ => by omega, fun _ => ⟨by omega, by omega, by omega⟩⟩
    · rw [if_neg c1, if_neg c1]
      refine ⟨k, j + 1, by omega, by omega, hx, by rw [hy]; ring,
        by rw [he]; ring, fun _ => by omega, fun _ => ⟨by omega, by omega, by omega⟩⟩

/-! ## Horizontal spans -/

theorem MIN_eq (a b : Int) : MIN a b = min a b := by
  unfold MIN; split <;> omega

theorem MAX_eq (a b : Int) : MAX a b = max a b := by
  unfold MAX; split <;> omega

theorem add_pixel_to_drawn_list_eq (x y : Int) (pts : DrawnArea) :
    add_pixel_to_drawn_list x y pts =
      ⟨min pts.minx x, min pts.miny y, max pts.maxx x, max pts.maxy y⟩ := by
  rcases pts with ⟨a, b, c, d⟩
  simp only [add_pixel_to_drawn_list]
  by_cases h1 : x < a <;> by_cases h2 : y < b <;> by_cases h3 : x > c <;>
    by_cases h4 : y > d <;> simp [h1, h2, h3, h4] <;> omega

theorem add_line_to_drawn_list_eq (x1 y1 x2 y2 : Int) (pts : DrawnArea) :
    add_line_to_drawn_list x1 y1 x2 y2 pts =
      ⟨min pts.minx x1, min pts.miny y1, max pts.maxx x2, max pts.maxy y2⟩ := by
  rcases pts with ⟨a, b, c, d⟩
  simp only [add_line_to_drawn_list]
  by_cases h1 : x1 < a <;> by_cases h2 : y1 < b <;> by_cases h3 : x2 > c <;>
    by_cases h4 : y2 > d <;> simp [h1, h2, h3, h4] <;> omega

/-! ## Logs, replay and the accumulator -/

theorem while_loop_inv {σ : Type} (cond : σ → Bool) (body : σ → σ) (P : σ → Prop)
    (hP : ∀ s, P s → cond s = true → P (body s)) :
    ∀ (fuel : Nat) (s r : σ), P s → while_loop cond body fuel s = some r →
      P r ∧ cond r = false := by
  intro fuel
  induction fuel with
  | zero =>
    intro s r hs h
    rw [while_loop] at h
    by_cases hc : cond s = true
    · rw [if_pos hc] at h; cases h
    · rw [if_neg hc] at h
      cases h
      exact ⟨hs, by simpa using hc⟩
  | succ fuel ih =>
    intro s r hs h
    rw [while_loop] at h
    by_cases hc : cond s = true
    · rw [if_pos hc] at h
      exact ih (body s) r (hP s hs hc) h
    · rw [if_neg hc] at h
      cases h
      exact ⟨hs, by simpa using hc⟩

theorem while_loop_terminates {σ : Type} (cond : σ → Bool) (body : σ → σ) (P : σ → Prop)
    (m : σ → Nat) (hP : ∀ s, P s → cond s = true → P (body s))
    (hm : ∀ s, P s → cond s = true → m (body s) < m s) :
    ∀ (fuel : Nat) (s : σ), P s → m s ≤ fuel →
      ∃ r, while_loop cond body fuel s = some r ∧ P r ∧ cond r = false := by
  intro fuel
  induction fuel with
  | zero =>
    intro s hs hlt
    rw [while_loop]
    by_cases hc : cond s = true
    · have := hm s hs hc
      omega
    · rw [if_neg hc]
      exact ⟨s, rfl, hs, by simpa using hc⟩
  | succ fuel ih =>
    intro s hs hlt
    rw [while_loop]
    by_cases hc : cond s = true
    · rw [if_pos hc]
      have := hm s hs hc
      exact ih (body s) (hP s hs hc) (by omega)
    · rw [if_neg hc]
      exact ⟨s, rfl, hs, by simpa using hc⟩

@[simp] theorem replay_bpp (color : Nat) (log : List (Int × Int)) (surf : Surface) :
    (replay color log surf).BytesPerPixel = surf.BytesPerPixel := by
  induction log with
  | nil => rfl
  | cons p log ih => simp only [replay, store_pixel_bpp, ih]

@[simp] theorem replay_written (color : Nat) (log : List (Int × Int)) (surf : Surface) :
    (replay color log surf).written = log ++ surf.written := by
  induction log with
  | nil => rfl
  | cons p log ih => simp [replay, ih]

theorem replay_append (color : Nat) (l1 l2 : List (Int × Int)) (surf : Surface) :
    replay color (l1 ++ l2) surf = replay color l1 (replay color l2 surf) := by
  induction l1 with
  | nil => rfl
  | cons p l1 ih => simp [replay, ih]

theorem absorb_append (l1 l2 : List (Int × Int)) (pts : DrawnArea) :
    absorb (l1 ++ l2) pts = absorb l1 (absorb l2 pts) := by
  induction l1 with
  | nil => rfl
  | cons p l1 ih => simp [absorb, ih]

theorem valid_depth_replay (color : Nat) (log : List (Int × Int)) (surf : Surface)
    (h : valid_depth surf) : valid_depth (replay color log surf) := by
  unfold valid_depth at *
  simpa using h

theorem set_at_bytes_eq (surf : Surface) (h : valid_depth surf) :
    set_at_bytes surf = surf.BytesPerPixel := by
  obtain ⟨h1, h2⟩ := h
  unfold set_at_bytes
  have : surf.BytesPerPixel = 1 ∨ surf.BytesPerPixel = 2 ∨ surf.BytesPerPixel = 3 ∨
      surf.BytesPerPixel = 4 := by omega
  rcases this with h | h | h | h <;> rw [h]

theorem line_bytes_eq (surf : Surface) (h : valid_depth surf) :
    line_bytes surf = surf.BytesPerPixel := by
  obtain ⟨h1, h2⟩ := h
  unfold line_bytes
  have : surf.BytesPerPixel = 1 ∨ surf.BytesPerPixel = 2 ∨ surf.BytesPerPixel = 3 ∨
      surf.BytesPerPixel = 4 := by omega
  rcases this with h | h | h | h <;> rw [h]

theorem Drawn.refl (clip : SDL_Rect) (color : Nat) (s : Surface × DrawnArea) :
    Drawn clip color [] s s :=
  ⟨rfl, rfl, by simp⟩

theorem Drawn.trans {clip : SDL_Rect} {color : Nat} {n1 n2 : List (Int × Int)}
    {s0 s1 s2 : Surface × DrawnArea} (h1 : Drawn clip color n1 s0 s1)
    (h2 : Drawn clip color n2 s1 s2) : Drawn clip color (n2 ++ n1) s0 s2 := by
  obtain ⟨a1, b1, c1⟩ := h1
  obtain ⟨a2, b2, c2⟩ := h2
  refine ⟨?_, ?_, ?_⟩
  · rw [a2, a1, replay_append]
  · rw [b2, b1, absorb_append]
  · intro p hp
    rcases List.mem_append.mp hp with h | h
    · exact c2 p h
    · exact c1 p h

theorem Drawn.valid {clip : SDL_Rect} {color : Nat} {new : List (Int × Int)}
    {s0 s : Surface × DrawnArea} (h : Drawn clip color new s0 s) (hv : valid_depth s0.1) :
    valid_depth s.1 := by
  rw [h.1]
  exact valid_depth_replay _ _ _ hv

theorem set_and_check_rect_drawn (surf : Surface) (clip : SDL_Rect) (x y : Int)
    (color : Nat) (da : DrawnArea) (hv : valid_depth surf) :
    Drawn clip color (if inside clip (x, y) then [(x, y)] else []) (surf, da)
      (set_and_check_rect surf clip x y color da) := by
  classical
  by_cases h : inside clip (x, y)
  · rw [if_pos h, set_and_check_rect_inside surf clip x y color da h, set_at_bytes_eq surf hv]
    refine ⟨rfl, rfl, ?_⟩
    intro p hp
    simp at hp
    rw [hp]; exact h
  · rw [if_neg h, set_and_check_rect_outside surf clip x y color da h]
    exact Drawn.refl _ _ _

theorem span_replay (surf : Surface) (color : Nat) (lo y : Int) (n : Nat) :
    for_loop lo n (fun x s => store_pixel s surf.BytesPerPixel x y color) surf =
      replay color (span_log lo n y) surf := by
  induction n with
  | zero => rfl
  | succ n ih => rw [for_loop_succ, ih]; rfl

theorem vspan_replay (surf : Surface) (color : Nat) (x lo : Int) (n : Nat) :
    for_loop lo n (fun y s => store_pixel s surf.BytesPerPixel x y color) surf =
      replay color (vspan_log x lo n) surf := by
  induction n with
  | zero => rfl
  | succ n ih => rw [for_loop_succ, ih]; rfl

theorem absorb_span (lo y : Int) (n : Nat) (pts : DrawnArea) :
    absorb (span_log lo (n + 1) y) pts = add_line_to_drawn_list lo y (lo + n) y pts := by
  induction n with
  | zero =>
    simp [span_log, absorb, add_pixel_to_drawn_list_eq, add_line_to_drawn_list_eq]
  | succ n ih =>
    rw [span_log, absorb, ih]
    simp only [add_pixel_to_drawn_list_eq, add_line_to_drawn_list_eq]
    push_cast
    congr 1 <;> omega

theorem absorb_vspan (x lo : Int) (n : Nat) (pts : DrawnArea) :
    absorb (vspan_log x lo (n + 1)) pts = add_line_to_drawn_list x lo x (lo + n) pts := by
  induction n with
  | zero =>
    simp [vspan_log, absorb, add_pixel_to_drawn_list_eq, add_line_to_drawn_list_eq]
  | succ n ih =>
    rw [vspan_log, absorb, ih]
    simp only [add_pixel_to_drawn_list_eq, add_line_to_drawn_list_eq]
    push_cast
    congr 1 <;> omega

theorem mem_span_log (lo y : Int) (n : Nat) (p : Int × Int) :
    p ∈ span_log lo n y ↔ p.2 = y ∧ lo ≤ p.1 ∧ p.1 < lo + n := by
  induction n with
  | zero => simp [span_log]
  | succ n ih =>
    rw [span_log, List.mem_cons, ih]
    rcases p with ⟨a, b⟩
    simp only [Prod.mk.injEq]
    push_cast
    constructor
    · rintro (⟨h1, h2⟩ | ⟨h1, h2, h3⟩) <;> omega
    · intro ⟨h1, h2, h3⟩
      by_cases h : a = lo + n
      · exact Or.inl ⟨h, h1⟩
      · exact Or.inr ⟨h1, h2, by omega⟩

theorem mem_vspan_log (x lo : Int) (n : Nat) (p : Int × Int) :
    p ∈ vspan_log x lo n ↔ p.1 = x ∧ lo ≤ p.2 ∧ p.2 < lo + n := by
  induction n with
  | zero => simp [vspan_log]
  | succ n ih =>
    rw [vspan_log, List.mem_cons, ih]
    rcases p with ⟨a, b⟩
    simp only [Prod.mk.injEq]
    push_cast
    constructor
    · rintro (⟨h1, h2⟩ | ⟨h1, h2, h3⟩) <;> omega
    · intro ⟨h1, h2, h3⟩
      by_cases h : b = lo + n
      · exact Or.inl ⟨h1, h⟩
      · exact Or.inr ⟨h1, h2, by omega⟩

theorem drawhorzlineclipbounding_eq (surf : Surface) (clip : SDL_Rect) (color : Nat)
    (x1 y1 x2 : Int) (pts : DrawnArea) :
    drawhorzlineclipbounding surf clip color x1 y1 x2 pts =
      if y1 < clip.y ∨ y1 ≥ clip.y + clip.h then (surf, pts)
      else if min (max x1 x2) (clip.x + clip.w - 1) < clip.x ∨
          max (min x1 x2) clip.x ≥ clip.x + clip.w then (surf, pts)
      else if max (min x1 x2) clip.x = min (max x1 x2) (clip.x + clip.w - 1) then
        set_and_check_rect surf clip (max (min x1 x2) clip.x) y1 color pts
      else
        (drawhorzline surf color (max (min x1 x2) clip.x) y1
            (min (max x1 x2) (clip.x + clip.w - 1)),
          add_line_to_drawn_list (max (min x1 x2) clip.x) y1
            (min (max x1 x2) (clip.x + clip.w - 1)) y1 pts) := by
  unfold drawhorzlineclipbounding
  by_cases h : x2 < x1
  · have e1 : min x1 x2 = x2 := by omega
    have e2 : max x1 x2 = x1 := by omega
    simp only [h, if_true, MIN_eq, MAX_eq, e1, e2]
  · have e1 : min x1 x2 = x1 := by omega
    have e2 : max x1 x2 = x2 := by omega
    simp only [h, if_false, MIN_eq, MAX_eq, e1, e2]

/-- C2: `drawhorzlineclipbounding` stores exactly the pixels `(x, y1)` with
`max (min x1 x2) clip.x <= x <= min (max x1 x2) (clip.x + clip.w - 1)`, in
ascending order, when `y1` is a clip row and that range is not empty, and nothing
otherwise; the accumulator is merged with the box of exactly that span, which lies
inside the clip rectangle, and is unchanged when nothing is stored. -/
theorem drawhorzlineclipbounding_exact (surf : Surface) (clip : SDL_Rect) (color : Nat)
    (x1 y1 x2 : Int) (pts : DrawnArea) :
    (if clip.y ≤ y1 ∧ y1 < clip.y + clip.h ∧
        max (min x1 x2) clip.x ≤ min (max x1 x2) (clip.x + clip.w - 1) then
      (drawhorzlineclipbounding surf clip color x1 y1 x2 pts).1 =
          for_loop (max (min x1 x2) clip.x)
            (min (max x1 x2) (clip.x + clip.w - 1) + 1 - max (min x1 x2) clip.x).toNat
            (fun x s => store_pixel s
              (if max (min x1 x2) clip.x = min (max x1 x2) (clip.x + clip.w - 1)
                then set_at_bytes surf else line_bytes surf) x y1 color) surf ∧
        (drawhorzlineclipbounding surf clip color x1 y1 x2 pts).1.written =
          span_log (max (min x1 x2) clip.x)
            (min (max x1 x2) (clip.x + clip.w - 1) + 1 - max (min x1 x2) clip.x).toNat y1
            ++ surf.written ∧
        (drawhorzlineclipbounding surf clip color x1 y1 x2 pts).2 =
          ⟨min pts.minx (max (min x1 x2) clip.x), min pts.miny y1,
            max pts.maxx (min (max x1 x2) (clip.x + clip.w - 1)), max pts.maxy y1⟩ ∧
        clip.x ≤ max (min x1 x2) clip.x ∧
        min (max x1 x2) (clip.x + clip.w - 1) < clip.x + clip.w
    else drawhorzlineclipbounding surf clip color x1 y1 x2 pts = (surf, pts)) := by
  rw [drawhorzlineclipbounding_eq]
  generalize hlo : max (min x1 x2) clip.x = lo
  generalize hhi : min (max x1 x2) (clip.x + clip.w - 1) = hi
  have hlo1 : clip.x ≤ lo := by omega
  have hhi1 : hi < clip.x + clip.w := by omega
  by_cases hc : clip.y ≤ y1 ∧ y1 < clip.y + clip.h ∧ lo ≤ hi
  · obtain ⟨hy1, hy2, hle⟩ := hc
    have hrow : ¬ (y1 < clip.y ∨ y1 ≥ clip.y + clip.h) := by omega
    have hx : ¬ (hi < clip.x ∨ lo ≥ clip.x + clip.w) := by omega
    rw [if_pos ⟨hy1, hy2, hle⟩, if_neg hrow, if_neg hx]
    by_cases he : lo = hi
    · subst he
      have hin : clip.x ≤ lo ∧ lo < clip.x + clip.w ∧ clip.y ≤ y1 ∧ y1 < clip.y + clip.h :=
        ⟨hlo1, hhi1, hy1, hy2⟩
      rw [if_pos rfl, set_and_check_rect_inside surf clip lo y1 color pts hin]
      have hn : (lo + 1 - lo).toNat = 1 := by
        have : lo + 1 - lo = 1 := by ring
        rw [this]; rfl
      simp only [hn, for_loop_one, if_true, store_pixel_written, span_log,
        add_pixel_to_drawn_list_eq]
      refine ⟨trivial, ?_, trivial, hlo1, hhi1⟩
      simp
    · rw [if_neg he]
      simp only [if_neg he, drawhorzline, written_span, add_line_to_drawn_list_eq]
      exact ⟨trivial, trivial, trivial, hlo1, hhi1⟩
  · rw [if_neg hc]
    by_cases hrow : y1 < clip.y ∨ y1 ≥ clip.y + clip.h
    · rw [if_pos hrow]
    · rw [if_neg hrow, if_pos]
      omega

/-! ## Thin lines -/

theorem for_loop_drawn (clip : SDL_Rect) (color : Nat)
    (body : Int → Surface × DrawnArea → Surface × DrawnArea)
    (hb : ∀ i s, valid_depth s.1 → ∃ new, Drawn clip color new s (body i s)) :
    ∀ (n : Nat) (lo : Int) (s : Surface × DrawnArea), valid_depth s.1 →
      ∃ new, Drawn clip color new s (for_loop lo n body s) := by
  intro n
  induction n with
  | zero => intro lo s _; exact ⟨[], Drawn.refl _ _ _⟩
  | succ n ih =>
    intro lo s hv
    rw [for_loop_cons]
    obtain ⟨n1, h1⟩ := hb lo s hv
    obtain ⟨n2, h2⟩ := ih (lo + 1) (body lo s) (h1.valid hv)
    exact ⟨n2 ++ n1, h1.trans h2⟩

theorem abs_eq (a : Int) : abs a = |a| := by
  unfold abs
  split
  · rw [abs_of_neg (by assumption)]
  · rw [abs_of_nonneg (by omega)]

theorem draw_line_general (surf : Surface) (clip : SDL_Rect) (x1 y1 x2 y2 : Int)
    (color : Nat) (da : DrawnArea) (hv : valid_depth surf) (hx : x1 ≠ x2) (hy : y1 ≠ y2) :
    ∃ new r,
      while_loop (fun s => decide (s.x1 ≠ x2 ∨ s.y1 ≠ y2))
        (fun s =>
          bresenham_step (abs (x2 - x1)) (abs (y2 - y1)) (if x1 < x2 then 1 else -1)
            (if y1 < y2 then 1 else -1)
            { s with
              surf := (set_and_check_rect s.surf clip s.x1 s.y1 color s.drawn_area).1
              drawn_area := (set_and_check_rect s.surf clip s.x1 s.y1 color s.drawn_area).2 })
        (abs (x2 - x1) + abs (y2 - y1) + 1).toNat
        ⟨surf, da, x1, y1,
          cdiv (if abs (x2 - x1) > abs (y2 - y1) then abs (x2 - x1) else -abs (y2 - y1)) 2⟩
        = some r ∧
      Drawn clip color new (surf, da) (r.surf, r.drawn_area) ∧ r.x1 = x2 ∧ r.y1 = y2 := by
  generalize hdx : abs (x2 - x1) = dx
  generalize hdy : abs (y2 - y1) = dy
  generalize hsx : (if x1 < x2 then (1 : Int) else -1) = sx
  generalize hsy : (if y1 < y2 then (1 : Int) else -1) = sy
  generalize herr : cdiv (if dx > dy then dx else -dy) 2 = err0
  have hdx0 : 0 < dx := by rw [← hdx]; unfold abs; split <;> omega
  have hdy0 : 0 < dy := by rw [← hdy]; unfold abs; split <;> omega
  have hsx1 : sx = 1 ∨ sx = -1 := by rw [← hsx]; split <;> simp
  have hsy1 : sy = 1 ∨ sy = -1 := by rw [← hsy]; split <;> simp
  have hx2 : x2 = x1 + sx * dx := by
    rw [← hsx, ← hdx]; unfold abs; split <;> split <;> omega
  have hy2 : y2 = y1 + sy * dy := by
    rw [← hsy, ← hdy]; unfold abs; split <;> split <;> omega
  have h0 : on_line dx dy sx sy x1 y1 err0 x1 y1 err0 := by
    rw [← herr]; exact on_line_start dx dy sx sy x1 y1 hdx0 hdy0
  have key := while_loop_terminates
    (fun s : LineState => decide (s.x1 ≠ x2 ∨ s.y1 ≠ y2))
    (fun s =>
      bresenham_step dx dy sx sy
        { s with
          surf := (set_and_check_rect s.surf clip s.x1 s.y1 color s.drawn_area).1
          drawn_area := (set_and_check_rect s.surf clip s.x1 s.y1 color s.drawn_area).2 })
    (fun s => valid_depth s.surf ∧
      (∃ new, Drawn clip color new (surf, da) (s.surf, s.drawn_area)) ∧
      on_line dx dy sx sy x1 y1 err0 s.x1 s.y1 s.err)
    (fun s => (if dy < dx then dx - (s.x1 - x1) * sx else dy - (s.y1 - y1) * sy).toNat)
    (by
      intro s ⟨hvs, ⟨new, hd⟩, hl⟩ hc
      have hc1 : s.x1 ≠ x1 + sx * dx ∨ s.y1 ≠ y1 + sy * dy := by
        rw [← hx2, ← hy2]; simpa using hc
      have hd1 := set_and_check_rect_drawn s.surf clip s.x1 s.y1 color s.drawn_area hvs
      have hd2 := hd.trans hd1
      obtain ⟨f1, f2⟩ := bresenham_step_frame dx dy sx sy
        { s with
          surf := (set_and_check_rect s.surf clip s.x1 s.y1 color s.drawn_area).1
          drawn_area := (set_and_check_rect s.surf clip s.x1 s.y1 color s.drawn_area).2 }
      refine ⟨?_, ⟨(if inside clip (s.x1, s.y1) then [(s.x1, s.y1)] else []) ++ new, ?_⟩, ?_⟩
      · rw [f1]; exact hd1.valid hvs
      · rw [f1, f2]; exact hd2
      · exact on_line_step dx dy sx sy x1 y1 err0
          { s with
            surf := (set_and_check_rect s.surf clip s.x1 s.y1 color s.drawn_area).1
            drawn_area := (set_and_check_rect s.surf clip s.x1 s.y1 color s.drawn_area).2 }
          hdx0 hdy0 hsx1 hsy1 h0 hl hc1)
    (by
      intro s ⟨hvs, _, hl⟩ hc
      have hc1 : s.x1 ≠ x1 + sx * dx ∨ s.y1 ≠ y1 + sy * dy := by
        rw [← hx2, ← hy2]; simpa using hc
      have hend := on_line_end dx dy sx sy x1 y1 err0 s.x1 s.y1 s.err hdx0 hdy0 hsx1 hsy1
        h0 hl hc1
      obtain ⟨bx, by1, be⟩ := bresenham_step_eq dx dy sx sy
        { s with
          surf := (set_and_check_rect s.surf clip s.x1 s.y1 color s.drawn_area).1
          drawn_area := (set_and_check_rect s.surf clip s.x1 s.y1 color s.drawn_area).2 }
      obtain ⟨k, j, hk, hj, hxk, hyj, he, hxm, hym⟩ := hl
      simp only at bx by1 be ⊢
      rw [bx, by1]
      by_cases hlt : dy < dx
      · obtain ⟨e1, e2, e3⟩ := hxm hlt
        obtain ⟨g1, _⟩ := hend.1 hlt
        have hk1 : k ≠ dx := by intro h; apply g1; rw [hxk, h]
        have c1 : s.err > -dx := by omega
        rw [if_pos hlt, if_pos c1, hxk]
        rcases hsx1 with h | h <;> subst h <;> omega
      · have hle : dx ≤ dy := by omega
        obtain ⟨e1, e2, e3⟩ := hym hle
        obtain ⟨g1, _⟩ := hend.2 hle
        have hj1 : j ≠ dy := by intro h; apply g1; rw [hyj, h]
        have c2 : s.err < dy := by omega
        rw [if_neg hlt, if_pos c2, hyj]
        rcases hsy1 with h | h <;> subst h <;> omega)
    (dx + dy + 1).toNat ⟨surf, da, x1, y1, err0⟩
    ⟨hv, ⟨[], Drawn.refl _ _ _⟩, h0⟩
    (by
      simp only
      split <;> simp <;> omega)
  obtain ⟨r, hr, ⟨_, ⟨new, hd⟩, _⟩, hc⟩ := key
  refine ⟨new, r, hr, hd, ?_⟩
  simp only [decide_eq_false_iff_not, not_or, not_not] at hc
  exact hc

theorem draw_line_drawn (surf : Surface) (clip : SDL_Rect) (x1 y1 x2 y2 : Int)
    (color : Nat) (da : DrawnArea) (hv : valid_depth surf) :
    ∃ new r, draw_line surf clip x1 y1 x2 y2 color da = some r ∧
      Drawn clip color new (surf, da) r := by
  by_cases h1 : x1 = x2 ∧ y1 = y2
  · exact ⟨_, _, by simp only [draw_line, if_pos h1],
      set_and_check_rect_drawn surf clip x1 y1 color da hv⟩
  · by_cases h2 : y1 = y2
    · obtain ⟨new, hd⟩ := for_loop_drawn clip color
        (fun sx s => set_and_check_rect s.1 clip (x1 + (if x1 < x2 then 1 else -1) * sx) y1
          color s.2)
        (fun i s hs => ⟨_, set_and_check_rect_drawn s.1 clip _ _ color s.2 hs⟩)
        (abs (x1 - x2) + 1).toNat 0 (surf, da) hv
      exact ⟨new, _, by simp only [draw_line, if_neg h1, if_pos h2], hd⟩
    · by_cases h3 : x1 = x2
      · obtain ⟨new, hd⟩ := for_loop_drawn clip color
          (fun sy s => set_and_check_rect s.1 clip x1 (y1 + (if y1 < y2 then 1 else -1) * sy)
            color s.2)
          (fun i s hs => ⟨_, set_and_check_rect_drawn s.1 clip _ _ color s.2 hs⟩)
          (abs (y1 - y2) + 1).toNat 0 (surf, da) hv
        exact ⟨new, _, by simp only [draw_line, if_neg h1, if_neg h2, if_pos h3], hd⟩
      · obtain ⟨new, r, hr, hd, _, _⟩ :=
          draw_line_general surf clip x1 y1 x2 y2 color da hv h3 h2
        have hd1 := set_and_check_rect_drawn r.surf clip x2 y2 color r.drawn_area
          (hd.valid hv)
        refine ⟨_, set_and_check_rect r.surf clip x2 y2 color r.drawn_area, ?_, hd.trans hd1⟩
        simp only [draw_line, if_neg h1, if_neg h2, if_neg h3, hr, Option.map_some']

/-! ## Wide lines -/

theorem drawhorzline_drawn (surf : Surface) (clip : SDL_Rect) (color : Nat) (a y b : Int)
    (da : DrawnArea) (hv : valid_depth surf) (hab : a ≤ b) (ha : clip.x ≤ a)
    (hb : b < clip.x + clip.w) (hy : clip.y ≤ y ∧ y < clip.y + clip.h) :
    Drawn clip color (span_log a (b + 1 - a).toNat y) (surf, da)
      (drawhorzline surf color a y b, add_line_to_drawn_list a y b y da) := by
  obtain ⟨n, hn⟩ : ∃ n : Nat, (b + 1 - a).toNat = n + 1 := ⟨(b - a).toNat, by omega⟩
  have hbn : b = a + n := by omega
  refine ⟨?_, ?_, ?_⟩
  · simp only [drawhorzline, line_bytes_eq surf hv, span_replay]
  · subst hbn
    rw [hn, absorb_span]
  · intro p hp
    rw [mem_span_log] at hp
    unfold inside
    omega

theorem drawvertline_drawn (surf : Surface) (clip : SDL_Rect) (color : Nat) (a x b : Int)
    (da : DrawnArea) (hv : valid_depth surf) (hab : a ≤ b) (ha : clip.y ≤ a)
    (hb : b < clip.y + clip.h) (hx : clip.x ≤ x ∧ x < clip.x + clip.w) :
    Drawn clip color (vspan_log x a (b + 1 - a).toNat) (surf, da)
      (drawvertline surf color a x b, add_line_to_drawn_list x a x b da) := by
  obtain ⟨n, hn⟩ : ∃ n : Nat, (b + 1 - a).toNat = n + 1 := ⟨(b - a).toNat, by omega⟩
  have hbn : b = a + n := by omega
  refine ⟨?_, ?_, ?_⟩
  · simp only [drawvertline, line_bytes_eq surf hv, vspan_replay]
  · subst hbn
    rw [hn, absorb_vspan]
  · intro p hp
    rw [mem_vspan_log] at hp
    unfold inside
    omega

theorem draw_line_width_xinc_body_spec (clip : SDL_Rect) (color : Nat)
    (width extra_width dx dy sx sy : Int) (s : LineState) (hv : valid_depth s.surf) :
    ∃ new s1, Drawn clip color new (s.surf, s.drawn_area) (s1.surf, s1.drawn_area) ∧
      s1.x1 = s.x1 ∧ s1.y1 = s.y1 ∧ s1.err = s.err ∧
      draw_line_width_xinc_body clip color width extra_width dx dy sx sy s =
        bresenham_step dx dy sx sy s1 := by
  unfold draw_line_width_xinc_body
  simp only [MIN_eq, MAX_eq]
  by_cases h1 : clip.y ≤ s.y1 ∧ s.y1 ≤ clip.y + clip.h - 1
  · by_cases h2 : max (s.x1 - width + extra_width) clip.x ≤
        min (clip.x + clip.w - 1) (s.x1 + width)
    · rw [if_pos h1, if_pos h2]
      refine ⟨span_log (max (s.x1 - width + extra_width) clip.x)
        (min (clip.x + clip.w - 1) (s.x1 + width) + 1 -
          max (s.x1 - width + extra_width) clip.x).toNat s.y1, _, ?_, ?_, ?_, ?_, rfl⟩
      · exact drawhorzline_drawn s.surf clip color _ s.y1 _ s.drawn_area hv h2
          (by omega) (by omega) (by omega)
      · rfl
      · rfl
      · rfl
    · rw [if_pos h1, if_neg h2]
      exact ⟨[], s, Drawn.refl _ _ _, rfl, rfl, rfl, rfl⟩
  · rw [if_neg h1]
    exact ⟨[], s, Drawn.refl _ _ _, rfl, rfl, rfl, rfl⟩

theorem draw_line_width_yinc_body_spec (clip : SDL_Rect) (color : Nat)
    (width extra_width dx dy sx sy : Int) (s : LineState) (hv : valid_depth s.surf) :
    ∃ new s1, Drawn clip color new (s.surf, s.drawn_area) (s1.surf, s1.drawn_area) ∧
      s1.x1 = s.x1 ∧ s1.y1 = s.y1 ∧ s1.err = s.err ∧
      draw_line_width_yinc_body clip color width extra_width dx dy sx sy s =
        bresenham_step dx dy sx sy s1 := by
  unfold draw_line_width_yinc_body
  simp only [MIN_eq, MAX_eq]
  by_cases h1 : clip.x ≤ s.x1 ∧ s.x1 ≤ clip.x + clip.w - 1
  · by_cases h2 : max (s.y1 - width + extra_width) clip.y ≤
        min (clip.y + clip.h - 1) (s.y1 + width)
    · rw [if_pos h1, if_pos h2]
      refine ⟨vspan_log s.x1 (max (s.y1 - width + extra_width) clip.y)
        (min (clip.y + clip.h - 1) (s.y1 + width) + 1 -
          max (s.y1 - width + extra_width) clip.y).toNat, _, ?_, ?_, ?_, ?_, rfl⟩
      · exact drawvertline_drawn s.surf clip color _ s.x1 _ s.drawn_area hv h2
          (by omega) (by omega) (by omega)
      · rfl
      · rfl
      · rfl
    · rw [if_pos h1, if_neg h2]
      exact ⟨[], s, Drawn.refl _ _ _, rfl, rfl, rfl, rfl⟩
  · rw [if_neg h1]
    exact ⟨[], s, Drawn.refl _ _ _, rfl, rfl, rfl, rfl⟩

theorem draw_line_width_xinc_loop (surf : Surface) (clip : SDL_Rect) (color : Nat)
    (x1 y1 y2 width extra_width dx dy sx sy err0 : Int) (da : DrawnArea)
    (hv : valid_depth surf) (hd : dx ≤ dy) (hdy : 0 < dy) (hdx : 0 ≤ dx) (he : err0 ≤ 0)
    (hsy : sy = 1 ∨ sy = -1) (hy2 : y2 = y1 + sy * dy) :
    ∃ new r,
      while_loop (fun s => decide (s.y1 ≠ y2 + sy))
        (draw_line_width_xinc_body clip color width extra_width dx dy sx sy)
        (dx + dy + 2).toNat ⟨surf, da, x1, y1, err0⟩ = some r ∧
      Drawn clip color new (surf, da) (r.surf, r.drawn_area) := by
  have key := while_loop_terminates
    (fun s : LineState => decide (s.y1 ≠ y2 + sy))
    (draw_line_width_xinc_body clip color width extra_width dx dy sx sy)
    (fun s => valid_depth s.surf ∧
      (∃ new, Drawn clip color new (surf, da) (s.surf, s.drawn_area)) ∧
      s.err ≤ 0 ∧ ∃ j : Int, 0 ≤ j ∧ j ≤ dy + 1 ∧ s.y1 = y1 + sy * j)
    (fun s => (dy + 1 - (s.y1 - y1) * sy).toNat)
    (by
      intro s ⟨hvs, ⟨new, hdr⟩, hle, j, hj0, hj1, hyj⟩ hc
      obtain ⟨n1, s1, hd1, e1, e2, e3, heq⟩ :=
        draw_line_width_xinc_body_spec clip color width extra_width dx dy sx sy s hvs
      obtain ⟨f1, f2⟩ := bresenham_step_frame dx dy sx sy s1
      obtain ⟨bx, by1, be⟩ := bresenham_step_eq dx dy sx sy s1
      rw [heq, f1, f2, by1, be, e2, e3]
      have hjne : j ≠ dy + 1 := by
        intro h
        simp only [decide_eq_true_eq] at hc
        apply hc
        rw [hyj, hy2, h]; ring
      have c2 : s.err < dy := by omega
      refine ⟨hd1.valid hvs, ⟨_, hdr.trans hd1⟩, ?_, j + 1, by omega, by omega, ?_⟩
      · rw [if_pos c2]; split <;> omega
      · rw [if_pos c2, hyj]; ring)
    (by
      intro s ⟨hvs, _, hle, j, hj0, hj1, hyj⟩ hc
      obtain ⟨n1, s1, hd1, e1, e2, e3, heq⟩ :=
        draw_line_width_xinc_body_spec clip color width extra_width dx dy sx sy s hvs
      obtain ⟨bx, by1, be⟩ := bresenham_step_eq dx dy sx sy s1
      have hjne : j ≠ dy + 1 := by
        intro h
        simp only [decide_eq_true_eq] at hc
        apply hc
        rw [hyj, hy2, h]; ring
      have c2 : s.err < dy := by omega
      simp only
      rw [heq, by1, e2, e3, if_pos c2, hyj]
      rcases hsy with h | h <;> subst h <;> omega)
    (dx + dy + 2).toNat ⟨surf, da, x1, y1, err0⟩
    ⟨hv, ⟨[], Drawn.refl _ _ _⟩, he, 0, le_refl _, by omega, by ring⟩
    (by simp only; omega)
  obtain ⟨r, hr, ⟨_, ⟨new, hdr⟩, _⟩, _⟩ := key
  exact ⟨new, r, hr, hdr⟩

theorem draw_line_width_yinc_loop (surf : Surface) (clip : SDL_Rect) (color : Nat)
    (x1 y1 x2 width extra_width dx dy sx sy err0 : Int) (da : DrawnArea)
    (hv : valid_depth surf) (hd : dy < dx) (hdy : 0 ≤ dy) (he : 0 ≤ err0)
    (hsx : sx = 1 ∨ sx = -1) (hx2 : x2 = x1 + sx * dx) :
    ∃ new r,
      while_loop (fun s => decide (s.x1 ≠ x2 + sx))
        (draw_line_width_yinc_body clip color width extra_width dx dy sx sy)
        (dx + dy + 2).toNat ⟨surf, da, x1, y1, err0⟩ = some r ∧
      Drawn clip color new (surf, da) (r.surf, r.drawn_area) := by
  have key := while_loop_terminates
    (fun s : LineState => decide (s.x1 ≠ x2 + sx))
    (draw_line_width_yinc_body clip color width extra_width dx dy sx sy)
    (fun s => valid_depth s.surf ∧
      (∃ new, Drawn clip color new (surf, da) (s.surf, s.drawn_area)) ∧
      0 ≤ s.err ∧ ∃ k : Int, 0 ≤ k ∧ k ≤ dx + 1 ∧ s.x1 = x1 + sx * k)
    (fun s => (dx + 1 - (s.x1 - x1) * sx).toNat)
    (by
      intro s ⟨hvs, ⟨new, hdr⟩, hle, k, hk0, hk1, hxk⟩ hc
      obtain ⟨n1, s1, hd1, e1, e2, e3, heq⟩ :=
        draw_line_width_yinc_body_spec clip color width extra_width dx dy sx sy s hvs
      obtain ⟨f1, f2⟩ := bresenham_step_frame dx dy sx sy s1
      obtain ⟨bx, by1, be⟩ := bresenham_step_eq dx dy sx sy s1
      rw [heq, f1, f2, bx, be, e1, e3]
      have hkne : k ≠ dx + 1 := by
        intro h
        simp only [decide_eq_true_eq] at hc
        apply hc
        rw [hxk, hx2, h]; ring
      have c1 : s.err > -dx := by omega
      refine ⟨hd1.valid hvs, ⟨_, hdr.trans hd1⟩, ?_, k + 1, by omega, by omega, ?_⟩
      · rw [if_pos c1]; split <;> omega
      · rw [if_pos c1, hxk]; ring)
    (by
      intro s ⟨hvs, _, hle, k, hk0, hk1, hxk⟩ hc
      obtain ⟨n1, s1, hd1, e1, e2, e3, heq⟩ :=
        draw_line_width_yinc_body_spec clip color width extra_width dx dy sx sy s hvs
      obtain ⟨bx, by1, be⟩ := bresenham_step_eq dx dy sx sy s1
      have hkne : k ≠ dx + 1 := by
        intro h
        simp only [decide_eq_true_eq] at hc
        apply hc
        rw [hxk, hx2, h]; ring
      have c1 : s.err > -dx := by omega
      simp only
      rw [heq, bx, e1, e3, if_pos c1, hxk]
      rcases hsx with h | h <;> subst h <;> omega)
    (dx + dy + 2).toNat ⟨surf, da, x1, y1, err0⟩
    ⟨hv, ⟨[], Drawn.refl _ _ _⟩, he, 0, le_refl _, by omega, by ring⟩
    (by simp only; omega)
  obtain ⟨r, hr, ⟨_, ⟨new, hdr⟩, _⟩, _⟩ := key
  exact ⟨new, r, hr, hdr⟩

theorem draw_line_width_drawn (surf : Surface) (clip : SDL_Rect) (color : Nat)
    (x1 y1 x2 y2 width : Int) (da : DrawnArea) (hv : valid_depth surf) :
    ∃ new r, draw_line_width surf clip color x1 y1 x2 y2 width da = some r ∧
      Drawn clip color new (surf, da) r := by
  by_cases hw : width < 1
  · exact ⟨[], (surf, da), by simp only [draw_line_width, if_pos hw], Drawn.refl _ _ _⟩
  by_cases hw1 : width = 1
  · obtain ⟨new, r, hr, hd⟩ := draw_line_drawn surf clip x1 y1 x2 y2 color da hv
    exact ⟨new, r, by simp only [draw_line_width, if_neg hw, if_pos hw1, hr], hd⟩
  by_cases hcl : clip_line clip x1 y1 x2 y2 (cdiv width 2)
      (decide (abs (x1 - x2) ≤ abs (y1 - y2))) = 0
  · exact ⟨[], (surf, da), by simp only [draw_line_width, if_neg hw, if_neg hw1, if_pos hcl],
      Drawn.refl _ _ _⟩
  by_cases hpt : x1 = x2 ∧ y1 = y2
  · by_cases hse : MAX ((x1 - cdiv width 2) + (1 - cmod width 2)) clip.x ≤
        MIN (clip.x + clip.w - 1) (x1 + cdiv width 2)
    · have hrow : clip.y ≤ y1 ∧ y1 < clip.y + clip.h := by
        obtain ⟨hx, hy⟩ := hpt
        subst hx hy
        unfold clip_line at hcl
        simp only [MIN_eq, MAX_eq, sub_self, le_refl, decide_True, if_true, min_self,
          max_self] at hcl
        split at hcl
        · exact absurd rfl hcl
        · omega
      have hd := drawhorzline_drawn surf clip color
        (MAX ((x1 - cdiv width 2) + (1 - cmod width 2)) clip.x) y1
        (MIN (clip.x + clip.w - 1) (x1 + cdiv width 2)) da hv hse
        (by rw [MAX_eq]; omega) (by rw [MIN_eq]; omega) hrow
      exact ⟨_, _, by simp only [draw_line_width, if_neg hw, if_neg hw1, if_neg hcl,
        if_pos hpt, if_pos hse], hd⟩
    · exact ⟨[], (surf, da), by simp only [draw_line_width, if_neg hw, if_neg hw1, if_neg hcl,
        if_pos hpt, if_neg hse], Drawn.refl _ _ _⟩
  by_cases hxinc : abs (x1 - x2) ≤ abs (y1 - y2)
  · have hdxy : abs (x2 - x1) ≤ abs (y2 - y1) := by
      unfold abs at hxinc ⊢; split at hxinc <;> split at hxinc <;> split <;> split <;> omega
    have hdy : 0 < abs (y2 - y1) := by
      unfold abs at hxinc ⊢; split at hxinc <;> split at hxinc <;> split <;> omega
    have hdx : 0 ≤ abs (x2 - x1) := by unfold abs; split <;> omega
    have herr : cdiv (if abs (x2 - x1) > abs (y2 - y1) then abs (x2 - x1)
        else -abs (y2 - y1)) 2 ≤ 0 := by
      rw [if_neg (by omega), cdiv, Int.neg_tdiv, Int.tdiv_eq_ediv (by omega) (by omega)]
      omega
    obtain ⟨new, r, hr, hd⟩ := draw_line_width_xinc_loop surf clip color x1 y1 y2
      (cdiv width 2) (1 - cmod width 2) (abs (x2 - x1)) (abs (y2 - y1))
      (if x2 > x1 then 1 else -1) (if y2 > y1 then 1 else -1) _ da hv hdxy hdy hdx herr
      (by split <;> simp) (by unfold abs; split <;> split <;> omega)
    refine ⟨new, (r.surf, r.drawn_area), ?_, hd⟩
    simp only [hxinc, decide_True] at hcl
    simp only [draw_line_width, if_neg hw, if_neg hw1, if_neg hcl, if_neg hpt, hxinc,
      decide_True, if_true, hr, Option.map_some']
  · have hdxy : abs (y2 - y1) < abs (x2 - x1) := by
      unfold abs at hxinc ⊢; split at hxinc <;> split at hxinc <;> split <;> split <;> omega
    have hdy : 0 ≤ abs (y2 - y1) := by unfold abs; split <;> omega
    have herr : 0 ≤ cdiv (if abs (x2 - x1) > abs (y2 - y1) then abs (x2 - x1)
        else -abs (y2 - y1)) 2 := by
      rw [if_pos (by omega), cdiv, Int.tdiv_eq_ediv (by omega) (by omega)]
      omega
    obtain ⟨new, r, hr, hd⟩ := draw_line_width_yinc_loop surf clip color x1 y1 x2
      (cdiv width 2) (1 - cmod width 2) (abs (x2 - x1)) (abs (y2 - y1))
      (if x2 > x1 then 1 else -1) (if y2 > y1 then 1 else -1) _ da hv hdxy hdy herr
      (by split <;> simp) (by unfold abs; split <;> split <;> omega)
    refine ⟨new, (r.surf, r.drawn_area), ?_, hd⟩
    simp only [hxinc, decide_False] at hcl
    simp only [draw_line_width, if_neg hw, if_neg hw1, if_neg hcl, if_neg hpt, hxinc,
      decide_False, if_false, Bool.false_eq_true, hr, Option.map_some']

/-! ## Returned rectangle -/

theorem absorb_cons (p : Int × Int) (log : List (Int × Int)) (pts : DrawnArea) :
    absorb (p :: log) pts =
      ⟨min (absorb log pts).minx p.1, min (absorb log pts).miny p.2,
        max (absorb log pts).maxx p.1, max (absorb log pts).maxy p.2⟩ := by
  rw [absorb, add_pixel_to_drawn_list_eq]

theorem absorb_mono (log : List (Int × Int)) (pts : DrawnArea) :
    (absorb log pts).minx ≤ pts.minx ∧ (absorb log pts).miny ≤ pts.miny ∧
      pts.maxx ≤ (absorb log pts).maxx ∧ pts.maxy ≤ (absorb log pts).maxy := by
  induction log with
  | nil => simp [absorb]
  | cons p log ih =>
    rw [absorb_cons]
    simp only
    omega

theorem absorb_bounds (log : List (Int × Int)) (pts : DrawnArea) :
    ∀ p ∈ log, (absorb log pts).minx ≤ p.1 ∧ p.1 ≤ (absorb log pts).maxx ∧
      (absorb log pts).miny ≤ p.2 ∧ p.2 ≤ (absorb log pts).maxy := by
  induction log with
  | nil => intro p hp; simp at hp
  | cons q log ih =>
    intro p hp
    rw [absorb_cons]
    simp only
    rcases List.mem_cons.mp hp with h | h
    · subst h; omega
    · have := ih p h
      omega

theorem absorb_attained (log : List (Int × Int)) (pts : DrawnArea) :
    ((absorb log pts).minx = pts.minx ∨ ∃ p ∈ log, p.1 = (absorb log pts).minx) ∧
    ((absorb log pts).miny = pts.miny ∨ ∃ p ∈ log, p.2 = (absorb log pts).miny) ∧
    ((absorb log pts).maxx = pts.maxx ∨ ∃ p ∈ log, p.1 = (absorb log pts).maxx) ∧
    ((absorb log pts).maxy = pts.maxy ∨ ∃ p ∈ log, p.2 = (absorb log pts).maxy) := by
  induction log with
  | nil => simp [absorb]
  | cons q log ih =>
    obtain ⟨h1, h2, h3, h4⟩ := ih
    rw [absorb_cons]
    simp only [List.mem_cons, exists_eq_or_imp]
    refine ⟨?_, ?_, ?_, ?_⟩
    · rcases le_total (absorb log pts).minx q.1 with h | h
      · rw [min_eq_left h]
        rcases h1 with h1 | ⟨p, hp, hq⟩
        · exact Or.inl h1
        · exact Or.inr (Or.inr ⟨p, hp, hq⟩)
      · rw [min_eq_right h]; exact Or.inr (Or.inl rfl)
    · rcases le_total (absorb log pts).miny q.2 with h | h
      · rw [min_eq_left h]
        rcases h2 with h2 | ⟨p, hp, hq⟩
        · exact Or.inl h2
        · exact Or.inr (Or.inr ⟨p, hp, hq⟩)
      · rw [min_eq_right h]; exact Or.inr (Or.inl rfl)
    · rcases le_total (absorb log pts).maxx q.1 with h | h
      · rw [max_eq_right h]; exact Or.inr (Or.inl rfl)
      · rw [max_eq_left h]
        rcases h3 with h3 | ⟨p, hp, hq⟩
        · exact Or.inl h3
        · exact Or.inr (Or.inr ⟨p, hp, hq⟩)
    · rcases le_total (absorb log pts).maxy q.2 with h | h
      · rw [max_eq_right h]; exact Or.inr (Or.inl rfl)
      · rw [max_eq_left h]
        rcases h4 with h4 | ⟨p, hp, hq⟩
        · exact Or.inl h4
        · exact Or.inr (Or.inr ⟨p, hp, hq⟩)

/-- The rectangle computed from an accumulator that started at its initial value
and absorbed the log `new` of in-clip pixels: the zero-size rectangle at the
anchor for an empty log, and otherwise the tightest box around the log. -/
theorem return_rect_absorb (clip : SDL_Rect) (new : List (Int × Int)) (ax ay : Int)
    (hclip : INT_MIN < clip.x ∧ INT_MIN < clip.y ∧ clip.x + clip.w ≤ INT_MAX ∧
      clip.y + clip.h ≤ INT_MAX)
    (hin : ∀ p ∈ new, inside clip p) :
    (new = [] → return_rect (absorb new DrawnArea.init) ax ay = ⟨ax, ay, 0, 0⟩) ∧
    (new ≠ [] →
      (∀ p ∈ new,
        (return_rect (absorb new DrawnArea.init) ax ay).x ≤ p.1 ∧
        p.1 ≤ (return_rect (absorb new DrawnArea.init) ax ay).x +
          (return_rect (absorb new DrawnArea.init) ax ay).w - 1 ∧
        (return_rect (absorb new DrawnArea.init) ax ay).y ≤ p.2 ∧
        p.2 ≤ (return_rect (absorb new DrawnArea.init) ax ay).y +
          (return_rect (absorb new DrawnArea.init) ax ay).h - 1) ∧
      (∃ p ∈ new, p.1 = (return_rect (absorb new DrawnArea.init) ax ay).x) ∧
      (∃ p ∈ new, p.1 = (return_rect (absorb new DrawnArea.init) ax ay).x +
          (return_rect (absorb new DrawnArea.init) ax ay).w - 1) ∧
      (∃ p ∈ new, p.2 = (return_rect (absorb new DrawnArea.init) ax ay).y) ∧
      (∃ p ∈ new, p.2 = (return_rect (absorb new DrawnArea.init) ax ay).y +
          (return_rect (absorb new DrawnArea.init) ax ay).h - 1)) := by
  constructor
  · intro h
    subst h
    simp [absorb, return_rect, DrawnArea.init]
  · intro hne
    obtain ⟨q, hq⟩ := List.exists_mem_of_ne_nil new hne
    have hb := absorb_bounds new DrawnArea.init
    obtain ⟨a1, a2, a3, a4⟩ := absorb_attained new DrawnArea.init
    have hq1 := hb q hq
    have hq2 := hin q hq
    unfold inside at hq2
    obtain ⟨c1, c2, c3, c4⟩ := hclip
    have e1 : (absorb new DrawnArea.init).minx ≠ INT_MAX := by omega
    have e2 : (absorb new DrawnArea.init).miny ≠ INT_MAX := by omega
    have e3 : (absorb new DrawnArea.init).maxx ≠ INT_MIN := by omega
    have e4 : (absorb new DrawnArea.init).maxy ≠ INT_MIN := by omega
    have hr : return_rect (absorb new DrawnArea.init) ax ay =
        ⟨(absorb new DrawnArea.init).minx, (absorb new DrawnArea.init).miny,
          (absorb new DrawnArea.init).maxx - (absorb new DrawnArea.init).minx + 1,
          (absorb new DrawnArea.init).maxy - (absorb new DrawnArea.init).miny + 1⟩ := by
      unfold return_rect
      rw [if_pos ⟨e1, e2, e3, e4⟩]
    rw [hr]
    simp only
    have i1 : DrawnArea.init.minx = INT_MAX := rfl
    have i2 : DrawnArea.init.miny = INT_MAX := rfl
    have i3 : DrawnArea.init.maxx = INT_MIN := rfl
    have i4 : DrawnArea.init.maxy = INT_MIN := rfl
    refine ⟨?_, ?_, ?_, ?_, ?_⟩
    · intro p hp
      have := hb p hp
      omega
    · rcases a1 with h | h
      · exact absurd (h.trans i1) e1
      · exact h
    · rcases a3 with h | ⟨p, hp, h⟩
      · exact absurd (h.trans i3) e3
      · exact ⟨p, hp, by omega⟩
    · rcases a2 with h | h
      · exact absurd (h.trans i2) e2
      · exact h
    · rcases a4 with h | ⟨p, hp, h⟩
      · exact absurd (h.trans i4) e4
      · exact ⟨p, hp, by omega⟩

/-- C3: a `line` call with `width >= 1` returns; the surface afterwards is the old
one with a log `new` of in-clip pixels stored.  If `new` is empty the returned
rectangle is `(startx, starty, 0, 0)`; otherwise the rectangle contains every
pixel of `new` and each of its four sides passes through a pixel of `new`, so it
is `(minx, miny, maxx - minx + 1, maxy - miny + 1)` for the extrema of `new`.
The clip rectangle is one of C `int`s above `INT_MIN`, as every clip rectangle
of a surface is. -/
theorem line_returns_bounding_box (surf : Surface) (clip : SDL_Rect) (color : Nat)
    (startx starty endx endy width : Int) (hv : valid_depth surf) (hw : 1 ≤ width)
    (hclip : INT_MIN < clip.x ∧ INT_MIN < clip.y ∧ clip.x + clip.w ≤ INT_MAX ∧
      clip.y + clip.h ≤ INT_MAX) :
    ∃ (new : List (Int × Int)) (rect : SDL_Rect),
      line surf clip color startx starty endx endy width =
        some (.ok (replay color new surf, rect)) ∧
      (∀ p ∈ new, inside clip p) ∧
      (new = [] → rect = ⟨startx, starty, 0, 0⟩) ∧
      (new ≠ [] →
        (∀ p ∈ new, rect.x ≤ p.1 ∧ p.1 ≤ rect.x + rect.w - 1 ∧
          rect.y ≤ p.2 ∧ p.2 ≤ rect.y + rect.h - 1) ∧
        (∃ p ∈ new, p.1 = rect.x) ∧ (∃ p ∈ new, p.1 = rect.x + rect.w - 1) ∧
        (∃ p ∈ new, p.2 = rect.y) ∧ (∃ p ∈ new, p.2 = rect.y + rect.h - 1)) := by
  obtain ⟨new, r, hr, h1, h2, h3⟩ :=
    draw_line_width_drawn surf clip color startx starty endx endy width DrawnArea.init hv
  have hu : unsupported_depth surf = false := by
    unfold unsupported_depth valid_depth at *
    simp only [decide_eq_false_iff_not]
    omega
  have hw' : ¬ width < 1 := by omega
  obtain ⟨k1, k2⟩ := return_rect_absorb clip new startx starty hclip h3
  refine ⟨new, return_rect r.2 startx starty, ?_, h3, ?_, ?_⟩
  · simp only [line, hu, Bool.false_eq_true, if_false, if_neg hw', hr, Option.map_some']
    simp only at h1
    rw [h1]
  · rw [h2]; exact k1
  · rw [h2]; exact k2

/-! ## Spans, circles and polygons stay inside the clip rectangle -/

theorem for_loop_inv {σ : Type} (P : σ → Prop) (body : Int → σ → σ)
    (hb : ∀ i s, P s → P (body i s)) :
    ∀ (n : Nat) (lo : Int) (s : σ), P s → P (for_loop lo n body s) := by
  intro n
  induction n with
  | zero => intro lo s hs; exact hs
  | succ n ih =>
    intro lo s hs
    rw [for_loop_cons]
    exact ih (lo + 1) (body lo s) (hb lo s hs)

theorem drawhorzlineclipbounding_drawn (surf : Surface) (clip : SDL_Rect) (color : Nat)
    (x1 y1 x2 : Int) (pts : DrawnArea) (hv : valid_depth surf) :
    ∃ new, Drawn clip color new (surf, pts)
      (drawhorzlineclipbounding surf clip color x1 y1 x2 pts) := by
  rw [drawhorzlineclipbounding_eq]
  by_cases hrow : y1 < clip.y ∨ y1 ≥ clip.y + clip.h
  · rw [if_pos hrow]; exact ⟨[], Drawn.refl _ _ _⟩
  rw [if_neg hrow]
  by_cases hx : min (max x1 x2) (clip.x + clip.w - 1) < clip.x ∨
      max (min x1 x2) clip.x ≥ clip.x + clip.w
  · rw [if_pos hx]; exact ⟨[], Drawn.refl _ _ _⟩
  rw [if_neg hx]
  by_cases he : max (min x1 x2) clip.x = min (max x1 x2) (clip.x + clip.w - 1)
  · rw [if_pos he]
    exact ⟨_, set_and_check_rect_drawn surf clip _ y1 color pts hv⟩
  · rw [if_neg he]
    exact ⟨_, drawhorzline_drawn surf clip color _ y1 _ pts hv (by omega) (by omega)
      (by omega) (by omega)⟩

/-- The states reachable from `s0` by stores inside the clip rectangle that are
all absorbed into the accumulator, on a surface of valid depth. -/
theorem reach_step (clip : SDL_Rect) (color : Nat) (s0 s s1 : Surface × DrawnArea)
    (h : valid_depth s.1 ∧ ∃ new, Drawn clip color new s0 s)
    (h1 : ∃ new, Drawn clip color new s s1) :
    valid_depth s1.1 ∧ ∃ new, Drawn clip color new s0 s1 := by
  obtain ⟨hv, n0, hd0⟩ := h
  obtain ⟨n1, hd1⟩ := h1
  exact ⟨hd1.valid hv, _, hd0.trans hd1⟩

theorem reach_hline (clip : SDL_Rect) (color : Nat) (s0 s : Surface × DrawnArea)
    (x1 y1 x2 : Int) (h : valid_depth s.1 ∧ ∃ new, Drawn clip color new s0 s) :
    valid_depth (drawhorzlineclipbounding s.1 clip color x1 y1 x2 s.2).1 ∧
      ∃ new, Drawn clip color new s0 (drawhorzlineclipbounding s.1 clip color x1 y1 x2 s.2) :=
  reach_step clip color s0 s _ h
    (drawhorzlineclipbounding_drawn s.1 clip color x1 y1 x2 s.2 h.1)

theorem reach_pixel (clip : SDL_Rect) (color : Nat) (s0 s : Surface × DrawnArea)
    (x y : Int) (h : valid_depth s.1 ∧ ∃ new, Drawn clip color new s0 s) :
    valid_depth (set_and_check_rect s.1 clip x y color s.2).1 ∧
      ∃ new, Drawn clip color new s0 (set_and_check_rect s.1 clip x y color s.2) :=
  reach_step clip color s0 s _ h ⟨_, set_and_check_rect_drawn s.1 clip x y color s.2 h.1⟩

theorem midpoint_step_eq (s : CircleState) :
    (midpoint_step s).surf = s.surf ∧ (midpoint_step s).drawn_area = s.drawn_area ∧
    (midpoint_step s).x = s.x + 1 ∧
    (midpoint_step s).y = (if s.f ≥ 0 then s.y - 1 else s.y) := by
  unfold midpoint_step
  by_cases h : s.f ≥ 0 <;> simp [h]

theorem draw_circle_filled_spans_reach (clip : SDL_Rect) (x0 y0 xmax : Int) (color : Nat)
    (f x y : Int) (s0 r : Surface × DrawnArea)
    (h : valid_depth r.1 ∧ ∃ new, Drawn clip color new s0 r) :
    valid_depth (draw_circle_filled_spans clip x0 y0 xmax color f x y r).1 ∧
      ∃ new, Drawn clip color new s0 (draw_circle_filled_spans clip x0 y0 xmax color f x y r) := by
  unfold draw_circle_filled_spans
  by_cases hf : f ≥ 0
  · simp only [if_pos hf]
    exact reach_hline clip color s0 _ _ _ _ (reach_hline clip color s0 _ _ _ _
      (reach_hline clip color s0 _ _ _ _ (reach_hline clip color s0 _ _ _ _ h)))
  · simp only [if_neg hf]
    exact reach_hline clip color s0 _ _ _ _ (reach_hline clip color s0 _ _ _ _ h)

theorem draw_circle_filled_body_spec (clip : SDL_Rect) (x0 y0 xmax : Int) (color : Nat)
    (s0 : Surface × DrawnArea) (s : CircleState)
    (h : valid_depth s.surf ∧ ∃ new, Drawn clip color new s0 (s.surf, s.drawn_area)) :
    (valid_depth (draw_circle_filled_body clip x0 y0 xmax color s).surf ∧
      ∃ new, Drawn clip color new s0
        ((draw_circle_filled_body clip x0 y0 xmax color s).surf,
          (draw_circle_filled_body clip x0 y0 xmax color s).drawn_area)) ∧
    (draw_circle_filled_body clip x0 y0 xmax color s).x = s.x + 1 ∧
    (draw_circle_filled_body clip x0 y0 xmax color s).y ≤ s.y := by
  obtain ⟨m1, m2, m3, m4⟩ := midpoint_step_eq s
  have h0 : valid_depth ((midpoint_step s).surf, (midpoint_step s).drawn_area).1 ∧
      ∃ new, Drawn clip color new s0 ((midpoint_step s).surf, (midpoint_step s).drawn_area) := by
    rw [m1, m2]; exact h
  refine ⟨?_, ?_, ?_⟩
  · exact draw_circle_filled_spans_reach clip x0 y0 xmax color _ _ _ s0 _ h0
  · exact m3
  · show (midpoint_step s).y ≤ s.y
    rw [m4]; split <;> omega

theorem draw_circle_filled_drawn (surf : Surface) (clip : SDL_Rect) (x0 y0 radius : Int)
    (color : Nat) (da : DrawnArea) (hv : valid_depth surf) :
    ∃ new r, draw_circle_filled surf clip x0 y0 radius color da = some r ∧
      Drawn clip color new (surf, da) r := by
  have key := while_loop_terminates (fun s : CircleState => decide (s.x < s.y))
    (draw_circle_filled_body clip x0 y0
      (if x0 < 0 then x0 + INT_MAX + 1 else INT_MAX - x0) color)
    (fun s => valid_depth s.surf ∧
      ∃ new, Drawn clip color new (surf, da) (s.surf, s.drawn_area))
    (fun s => (s.y - s.x).toNat)
    (fun s hs _ => (draw_circle_filled_body_spec clip x0 y0 _ color (surf, da) s hs).1)
    (by
      intro s hs hc
      obtain ⟨_, e1, e2⟩ := draw_circle_filled_body_spec clip x0 y0
        (if x0 < 0 then x0 + INT_MAX + 1 else INT_MAX - x0) color (surf, da) s hs
      simp only [decide_eq_true_eq] at hc
      simp only
      omega)
    (radius + 1).toNat ⟨surf, da, 1 - radius, 0, -2 * radius, 0, radius⟩
    ⟨hv, [], Drawn.refl _ _ _⟩ (by simp only; omega)
  obtain ⟨r, hr, ⟨_, new, hd⟩, _⟩ := key
  exact ⟨new, (r.surf, r.drawn_area), by simp only [draw_circle_filled, hr, Option.map_some'],
    hd⟩

theorem fillpoly_scanline_reach (clip : SDL_Rect) (point_x point_y : List Int)
    (num_points : Nat) (color : Nat) (maxy y : Int) (s0 : Surface × DrawnArea)
    (s : FillState)
    (h : valid_depth s.surf ∧ ∃ new, Drawn clip color new s0 (s.surf, s.drawn_area)) :
    valid_depth (fillpoly_scanline clip point_x point_y num_points color maxy y s).surf ∧
      ∃ new, Drawn clip color new s0
        ((fillpoly_scanline clip point_x point_y num_points color maxy y s).surf,
          (fillpoly_scanline clip point_x point_y num_points color maxy y s).drawn_area) := by
  unfold fillpoly_scanline
  exact for_loop_inv
    (fun r : Surface × DrawnArea => valid_depth r.1 ∧ ∃ new, Drawn clip color new s0 r) _
    (fun k r hr => reach_hline clip color s0 r _ _ _ hr) _ _ _ h

theorem draw_fillpoly_drawn (surf : Surface) (clip : SDL_Rect) (point_x point_y : List Int)
    (num_points : Nat) (color : Nat) (da : DrawnArea) (x_intersect : List Int)
    (hv : valid_depth surf) :
    ∃ new, Drawn clip color new (surf, da)
      (draw_fillpoly surf clip point_x point_y num_points color da x_intersect) := by
  have base : valid_depth (surf, da).1 ∧ ∃ new, Drawn clip color new (surf, da) (surf, da) :=
    ⟨hv, [], Drawn.refl _ _ _⟩
  unfold draw_fillpoly
  lift_lets
  intro miny maxy minx maxx s
  by_cases hm : miny = maxy
  · rw [if_pos hm]
    exact (reach_hline clip color (surf, da) (surf, da) _ _ _ base).2
  · rw [if_neg hm]
    refine (for_loop_inv
      (fun r : Surface × DrawnArea =>
        valid_depth r.1 ∧ ∃ new, Drawn clip color new (surf, da) r) _ ?_ _ _ _ ?_).2
    · intro i r hr
      by_cases hb : miny < point_y.getD i.toNat 0 ∧
          point_y.getD (if i.toNat ≠ 0 then i.toNat - 1 else num_points - 1) 0 =
            point_y.getD i.toNat 0 ∧ point_y.getD i.toNat 0 < maxy
      · simp only [if_pos hb]
        exact reach_hline clip color (surf, da) r _ _ _ hr
      · simp only [if_neg hb]
        exact hr
    · exact for_loop_inv
        (fun s : FillState =>
          valid_depth s.surf ∧ ∃ new, Drawn clip color new (surf, da) (s.surf, s.drawn_area)) _
        (fun y s hs => fillpoly_scanline_reach clip point_x point_y num_points color _ y
          (surf, da) s hs) _ _ _ base

theorem Drawn.eq_of_empty {clip : SDL_Rect} {color : Nat} {new : List (Int × Int)}
    {s0 s : Surface × DrawnArea} (h : Drawn clip color new s0 s)
    (hc : clip.w = 0 ∨ clip.h = 0) : s = s0 := by
  obtain ⟨h1, h2, h3⟩ := h
  have : new = [] := by
    cases new with
    | nil => rfl
    | cons p l =>
      have := h3 p (List.mem_cons_self _ _)
      unfold inside at this
      omega
  subst this
  exact Prod.ext h1 h2

theorem arc_corner_bounds_clip {D : Type} (ops : DoubleOps D) (clip : SDL_Rect)
    (angle_start angle_stop : D) (radius1 radius2 inner_radius1 inner_radius2 : Int)
    (min_dotproduct x_middle y_middle : D) (x_center y_center : Int) :
    clip.x - x_center ≤ (arc_corner_bounds ops clip angle_start angle_stop radius1 radius2
      inner_radius1 inner_radius2 min_dotproduct x_middle y_middle x_center y_center).minx ∧
    clip.y - y_center ≤ (arc_corner_bounds ops clip angle_start angle_stop radius1 radius2
      inner_radius1 inner_radius2 min_dotproduct x_middle y_middle x_center y_center).miny ∧
    (arc_corner_bounds ops clip angle_start angle_stop radius1 radius2
      inner_radius1 inner_radius2 min_dotproduct x_middle y_middle x_center y_center).maxx ≤
      clip.x + clip.w - x_center - 1 ∧
    (arc_corner_bounds ops clip angle_start angle_stop radius1 radius2
      inner_radius1 inner_radius2 min_dotproduct x_middle y_middle x_center y_center).maxy ≤
      clip.y + clip.h - y_center - 1 := by
  unfold arc_corner_bounds
  simp only [MIN_eq, MAX_eq]
  exact ⟨le_max_right _ _, le_max_right _ _, min_le_right _ _, min_le_right _ _⟩

theorem calc_arc_bounds_empty {D : Type} (ops : DoubleOps D) (clip : SDL_Rect)
    (angle_start angle_stop : D) (radius1 radius2 inner_radius1 inner_radius2 : Int)
    (i1 i2 i3 i4 min_dotproduct x_middle y_middle : D) (x_center y_center : Int)
    (bounds : ArcBounds) (hc : clip.w = 0 ∨ clip.h = 0) :
    calc_arc_bounds ops clip angle_start angle_stop radius1 radius2 inner_radius1
      inner_radius2 i1 i2 i3 i4 min_dotproduct x_middle y_middle x_center y_center bounds =
      some bounds := by
  obtain ⟨h1, h2, h3, h4⟩ := arc_corner_bounds_clip ops clip angle_start angle_stop radius1
    radius2 inner_radius1 inner_radius2 min_dotproduct x_middle y_middle x_center y_center
  unfold calc_arc_bounds
  generalize arc_corner_bounds ops clip angle_start angle_stop radius1 radius2 inner_radius1
    inner_radius2 min_dotproduct x_middle y_middle x_center y_center = b0 at *
  simp only
  rw [if_pos]
  omega

theorem draw_arc_sweep_initial {D : Type} (ops : DoubleOps D) (surf : Surface)
    (x_center y_center radius1 inner_radius1 inner_radius2 : Int)
    (i2 i4 min_dotproduct x_middle y_middle : D) (color : Nat) (da : DrawnArea) :
    draw_arc_sweep ops surf x_center y_center radius1 inner_radius1 inner_radius2 i2 i4
      min_dotproduct x_middle y_middle color da ⟨0, 0, -1, -1⟩ = (surf, da) := by
  unfold draw_arc_sweep
  rw [if_pos]
  simp

theorem draw_arc_empty {D : Type} (ops : DoubleOps D) (surf : Surface) (clip : SDL_Rect)
    (x_center y_center radius1 radius2 width : Int) (angle_start angle_stop : D)
    (color : Nat) (da : DrawnArea) (hc : clip.w = 0 ∨ clip.h = 0) :
    draw_arc ops surf clip x_center y_center radius1 radius2 width angle_start angle_stop
      color da = some (surf, da) := by
  unfold draw_arc
  simp only [calc_arc_bounds_empty ops clip _ _ _ _ _ _ _ _ _ _ _ _ _ _ _ _ hc,
    Option.map_some', draw_arc_sweep_initial, ite_self]

/-! ## Empty clip rectangle -/

/-- C4: with an empty clip rectangle (`w = 0` or `h = 0`) none of `set_at`,
`drawhorzlineclipbounding`, `draw_line`, `draw_line_width` (any width),
`draw_circle_filled`, `draw_fillpoly` and `draw_arc` stores a pixel: each returns,
and leaves the surface (memory and log) and the accumulator as they were, whatever
the geometry and whatever the floating-point operations return. -/
theorem empty_clip_writes_nothing {D : Type} (ops : DoubleOps D) (surf : Surface)
    (clip : SDL_Rect) (color : Nat) (da : DrawnArea) (hc : clip.w = 0 ∨ clip.h = 0)
    (hv : valid_depth surf) :
    (∀ x y, set_at surf clip x y color = (surf, 0)) ∧
    (∀ x1 y1 x2, drawhorzlineclipbounding surf clip color x1 y1 x2 da = (surf, da)) ∧
    (∀ x1 y1 x2 y2, draw_line surf clip x1 y1 x2 y2 color da = some (surf, da)) ∧
    (∀ x1 y1 x2 y2 width,
      draw_line_width surf clip color x1 y1 x2 y2 width da = some (surf, da)) ∧
    (∀ x0 y0 radius, draw_circle_filled surf clip x0 y0 radius color da = some (surf, da)) ∧
    (∀ point_x point_y num_points x_intersect,
      draw_fillpoly surf clip point_x point_y num_points color da x_intersect = (surf, da)) ∧
    (∀ x_center y_center radius1 radius2 width angle_start angle_stop,
      draw_arc ops surf clip x_center y_center radius1 radius2 width angle_start angle_stop
        color da = some (surf, da)) := by
  refine ⟨?_, ?_, ?_, ?_, ?_, ?_, ?_⟩
  · intro x y
    apply set_at_outside
    omega
  · intro x1 y1 x2
    obtain ⟨new, hd⟩ := drawhorzlineclipbounding_drawn surf clip color x1 y1 x2 da hv
    exact hd.eq_of_empty hc
  · intro x1 y1 x2 y2
    obtain ⟨new, r, hr, hd⟩ := draw_line_drawn surf clip x1 y1 x2 y2 color da hv
    rw [hr, hd.eq_of_empty hc]
  · intro x1 y1 x2 y2 width
    obtain ⟨new, r, hr, hd⟩ := draw_line_width_drawn surf clip color x1 y1 x2 y2 width da hv
    rw [hr, hd.eq_of_empty hc]
  · intro x0 y0 radius
    obtain ⟨new, r, hr, hd⟩ := draw_circle_filled_drawn surf clip x0 y0 radius color da hv
    rw [hr, hd.eq_of_empty hc]
  · intro point_x point_y num_points x_intersect
    obtain ⟨new, hd⟩ := draw_fillpoly_drawn surf clip point_x point_y num_points color da
      x_intersect hv
    exact hd.eq_of_empty hc
  · intro x_center y_center radius1 radius2 width angle_start angle_stop
    exact draw_arc_empty ops surf clip x_center y_center radius1 radius2 width angle_start
      angle_stop color da hc

theorem empty_clip_writes_nothing_witness :
    ((⟨2, 3, 0, 5⟩ : SDL_Rect).w = 0 ∨ (⟨2, 3, 0, 5⟩ : SDL_Rect).h = 0) ∧
    valid_depth (Surface.blank 10 10 4) ∧
    draw_line_width (Surface.blank 10 10 4) ⟨2, 3, 0, 5⟩ 7 0 0 9 9 3 DrawnArea.init =
      some (Surface.blank 10 10 4, DrawnArea.init) ∧
    draw_arc rat_ops (Surface.blank 10 10 4) ⟨2, 3, 0, 5⟩ 5 5 5 5 2 0 3 7 DrawnArea.init =
      some (Surface.blank 10 10 4, DrawnArea.init) :=
  ⟨Or.inl rfl, by decide,
    (empty_clip_writes_nothing rat_ops (Surface.blank 10 10 4) ⟨2, 3, 0, 5⟩ 7 DrawnArea.init
      (Or.inl rfl) (by decide)).2.2.2.1 0 0 9 9 3,
    (empty_clip_writes_nothing rat_ops (Surface.blank 10 10 4) ⟨2, 3, 0, 5⟩ 7 DrawnArea.init
      (Or.inl rfl) (by decide)).2.2.2.2.2.2 5 5 5 5 2 0 3⟩

theorem line_returns_bounding_box_witness :
    valid_depth (Surface.blank 10 10 4) ∧ (1 : Int) ≤ 3 ∧
    (INT_MIN < (SDL_Rect.whole 10 10).x ∧ INT_MIN < (SDL_Rect.whole 10 10).y ∧
      (SDL_Rect.whole 10 10).x + (SDL_Rect.whole 10 10).w ≤ INT_MAX ∧
      (SDL_Rect.whole 10 10).y + (SDL_Rect.whole 10 10).h ≤ INT_MAX) ∧
    ∃ (new : List (Int × Int)) (rect : SDL_Rect),
      line (Surface.blank 10 10 4) (SDL_Rect.whole 10 10) 7 2 1 8 6 3 =
        some (.ok (replay 7 new (Surface.blank 10 10 4), rect)) ∧
      (∀ p ∈ new, inside (SDL_Rect.whole 10 10) p) ∧
      (new = [] → rect = ⟨2, 1, 0, 0⟩) ∧
      (new ≠ [] →
        (∀ p ∈ new, rect.x ≤ p.1 ∧ p.1 ≤ rect.x + rect.w - 1 ∧
          rect.y ≤ p.2 ∧ p.2 ≤ rect.y + rect.h - 1) ∧
        (∃ p ∈ new, p.1 = rect.x) ∧ (∃ p ∈ new, p.1 = rect.x + rect.w - 1) ∧
        (∃ p ∈ new, p.2 = rect.y) ∧ (∃ p ∈ new, p.2 = rect.y + rect.h - 1)) :=
  ⟨by decide, by decide, by decide,
    line_returns_bounding_box (Surface.blank 10 10 4) (SDL_Rect.whole 10 10) 7 2 1 8 6 3
      (by decide) (by decide) (by decide)⟩

/-! ## Horizontal lines and points of width 1 -/

theorem mem_run_log (f : Int → Int × Int) (n : Nat) (p : Int × Int) :
    p ∈ run_log f n ↔ ∃ k : Nat, k < n ∧ p = f k := by
  induction n with
  | zero => simp [run_log]
  | succ n ih =>
    rw [run_log, List.mem_cons, ih]
    constructor
    · rintro (h | ⟨k, hk, h⟩)
      · exact ⟨n, by omega, h⟩
      · exact ⟨k, by omega, h⟩
    · rintro ⟨k, hk, h⟩
      by_cases hkn : k = n
      · subst hkn; exact Or.inl h
      · exact Or.inr ⟨k, by omega, h⟩

theorem length_run_log (f : Int → Int × Int) (n : Nat) : (run_log f n).length = n := by
  induction n with
  | zero => rfl
  | succ n ih => simp [run_log, ih]

theorem nodup_run_log (f : Int → Int × Int) (n : Nat)
    (hf : ∀ i j : Nat, i < n → j < n → f i = f j → i = j) : (run_log f n).Nodup := by
  induction n with
  | zero => simp [run_log]
  | succ n ih =>
    rw [run_log, List.nodup_cons]
    constructor
    · rw [mem_run_log]
      rintro ⟨k, hk, h⟩
      have := hf n k (by omega) (by omega) h
      omega
    · exact ih (fun i j hi hj h => hf i j (by omega) (by omega) h)

theorem for_loop_pixels (clip : SDL_Rect) (color : Nat) (f : Int → Int × Int) (n : Nat)
    (surf : Surface) (da : DrawnArea) (hv : valid_depth surf)
    (hin : ∀ k : Nat, k < n → inside clip (f k)) :
    for_loop 0 n (fun i s => set_and_check_rect s.1 clip (f i).1 (f i).2 color s.2) (surf, da) =
      (replay color (run_log f n) surf, absorb (run_log f n) da) := by
  induction n with
  | zero => rfl
  | succ n ih =>
    rw [for_loop_succ, ih (fun k hk => hin k (by omega))]
    simp only [zero_add]
    rw [set_and_check_rect_inside _ clip _ _ color _ (hin n (by omega)),
      set_at_bytes_eq _ (valid_depth_replay _ _ _ hv), replay_bpp]
    rfl

theorem abs_sub_cases (x1 x2 : Int) :
    (x1 < x2 ∧ |x2 - x1| = x2 - x1) ∨ (x2 ≤ x1 ∧ |x2 - x1| = x1 - x2) := by
  rcases lt_or_le x1 x2 with h | h
  · exact Or.inl ⟨h, abs_of_nonneg (by omega)⟩
  · exact Or.inr ⟨h, by rw [abs_of_nonpos (by omega)]; omega⟩

theorem mem_hline_log (x1 x2 y : Int) (p : Int × Int) :
    p ∈ hline_log x1 x2 y ↔ p.2 = y ∧ min x1 x2 ≤ p.1 ∧ p.1 ≤ max x1 x2 := by
  unfold hline_log
  rw [mem_run_log]
  rcases p with ⟨a, b⟩
  simp only [Prod.mk.injEq]
  rcases abs_sub_cases x1 x2 with ⟨hlt, ha⟩ | ⟨hge, ha⟩
  · rw [ha, if_pos hlt]
    constructor
    · rintro ⟨k, hk, h1, h2⟩
      omega
    · rintro ⟨h1, h2, h3⟩
      exact ⟨(a - x1).toNat, by omega, by omega, h1⟩
  · rw [ha, if_neg (by omega)]
    constructor
    · rintro ⟨k, hk, h1, h2⟩
      omega
    · rintro ⟨h1, h2, h3⟩
      exact ⟨(x1 - a).toNat, by omega, by omega, h1⟩

theorem nodup_hline_log (x1 x2 y : Int) : (hline_log x1 x2 y).Nodup := by
  unfold hline_log
  apply nodup_run_log
  intro i j _ _ h
  simp only [Prod.mk.injEq, and_true] at h
  split at h <;> omega

theorem length_hline_log (x1 x2 y : Int) :
    ((hline_log x1 x2 y).length : Int) = |x2 - x1| + 1 := by
  unfold hline_log
  rw [length_run_log]
  rcases abs_sub_cases x1 x2 with ⟨hlt, ha⟩ | ⟨hge, ha⟩ <;> rw [ha] <;> omega

/-- C5: a `line` call of width 1 along a horizontal segment whose endpoints are
inside the clip rectangle returns; it stores exactly the pixels of the segment, from
`x1` to `x2`, each once: the `|x2 - x1| + 1` pixels `(x, y)` with
`min x1 x2 <= x <= max x1 x2`; and it returns `(min x1 x2, y, |x2 - x1| + 1, 1)`. -/
theorem line_horizontal (surf : Surface) (clip : SDL_Rect) (color : Nat) (x1 x2 y : Int)
    (hv : valid_depth surf)
    (hclip : INT_MIN < clip.x ∧ INT_MIN < clip.y ∧ clip.x + clip.w ≤ INT_MAX ∧
      clip.y + clip.h ≤ INT_MAX)
    (h1 : inside clip (x1, y)) (h2 : inside clip (x2, y)) :
    line surf clip color x1 y x2 y 1 =
      some (.ok (replay color (hline_log x1 x2 y) surf,
        ⟨min x1 x2, y, |x2 - x1| + 1, 1⟩)) ∧
    (∀ p, p ∈ hline_log x1 x2 y ↔ p.2 = y ∧ min x1 x2 ≤ p.1 ∧ p.1 ≤ max x1 x2) ∧
    (hline_log x1 x2 y).Nodup ∧
    ((hline_log x1 x2 y).length : Int) = |x2 - x1| + 1 := by
  have hlen := length_hline_log x1 x2 y
  refine ⟨?_, mem_hline_log x1 x2 y, nodup_hline_log x1 x2 y, hlen⟩
  have hin : ∀ p ∈ hline_log x1 x2 y, inside clip p := by
    intro p hp
    rw [mem_hline_log] at hp
    unfold inside at *
    simp only at h1 h2
    omega
  have hdraw : draw_line surf clip x1 y x2 y color DrawnArea.init =
      some (replay color (hline_log x1 x2 y) surf, absorb (hline_log x1 x2 y) DrawnArea.init) := by
    unfold draw_line
    by_cases hx : x1 = x2
    · subst hx
      rw [if_pos ⟨rfl, rfl⟩, set_and_check_rect_inside surf clip x1 y color _ h1,
        set_at_bytes_eq surf hv]
      simp [hline_log, run_log, replay, absorb]
    · rw [if_neg (fun h => hx h.1), if_pos rfl]
      have hn : (abs (x1 - x2) + 1).toNat = (|x2 - x1| + 1).toNat := by
        rw [abs_eq, abs_sub_comm]
      simp only [hn]
      have := for_loop_pixels clip color
        (fun k => (x1 + (if x1 < x2 then 1 else -1) * k, y)) (|x2 - x1| + 1).toNat surf
        DrawnArea.init hv
        (fun k hk => hin _ ((mem_run_log _ _ _).mpr ⟨k, hk, rfl⟩))
      simp only at this
      rw [this]
      rfl
  have hne : hline_log x1 x2 y ≠ [] := by
    intro h
    rw [h] at hlen
    simp only [List.length_nil, Nat.cast_zero] at hlen
    rcases abs_sub_cases x1 x2 with ⟨_, ha⟩ | ⟨_, ha⟩ <;> rw [ha] at hlen <;> omega
  obtain ⟨hb, ⟨p1, hp1, e1⟩, ⟨p2, hp2, e2⟩, ⟨p3, hp3, e3⟩, ⟨p4, hp4, e4⟩⟩ :=
    (return_rect_absorb clip (hline_log x1 x2 y) x1 y hclip hin).2 hne
  have hmin := hb (min x1 x2, y) ((mem_hline_log _ _ _ _).mpr ⟨rfl, le_refl _, by omega⟩)
  have hmax := hb (max x1 x2, y) ((mem_hline_log _ _ _ _).mpr ⟨rfl, by omega, le_refl _⟩)
  rw [mem_hline_log] at hp1 hp2 hp3 hp4
  simp only at hmin hmax
  have hrect : return_rect (absorb (hline_log x1 x2 y) DrawnArea.init) x1 y =
      ⟨min x1 x2, y, |x2 - x1| + 1, 1⟩ := by
    generalize return_rect (absorb (hline_log x1 x2 y) DrawnArea.init) x1 y = r at *
    rcases r with ⟨rx, ry, rw, rh⟩
    simp only at hmin hmax e1 e2 e3 e4
    simp only [SDL_Rect.mk.injEq]
    rcases abs_sub_cases x1 x2 with ⟨_, ha⟩ | ⟨_, ha⟩ <;> rw [ha] <;>
      exact ⟨by omega, by omega, by omega, by omega⟩
  have hu : unsupported_depth surf = false := by
    unfold unsupported_depth valid_depth at *
    simp only [decide_eq_false_iff_not]
    omega
  simp only [line, hu, Bool.false_eq_true, if_false, draw_line_width, hdraw,
    Option.map_some', hrect]
  simp [hrect]

theorem line_horizontal_witness :
    valid_depth (Surface.blank 10 10 4) ∧
    (INT_MIN < (SDL_Rect.whole 10 10).x ∧ INT_MIN < (SDL_Rect.whole 10 10).y ∧
      (SDL_Rect.whole 10 10).x + (SDL_Rect.whole 10 10).w ≤ INT_MAX ∧
      (SDL_Rect.whole 10 10).y + (SDL_Rect.whole 10 10).h ≤ INT_MAX) ∧
    inside (SDL_Rect.whole 10 10) (0, 0) ∧ inside (SDL_Rect.whole 10 10) (9, 0) ∧
    line (Surface.blank 10 10 4) (SDL_Rect.whole 10 10) 7 0 0 9 0 1 =
      some (.ok (replay 7
        [(9, 0), (8, 0), (7, 0), (6, 0), (5, 0), (4, 0), (3, 0), (2, 0), (1, 0), (0, 0)]
        (Surface.blank 10 10 4), ⟨0, 0, 10, 1⟩)) := by
  refine ⟨by decide, by decide, by decide, by decide, ?_⟩
  have h := (line_horizontal (Surface.blank 10 10 4) (SDL_Rect.whole 10 10) 7 0 9 0
    (by decide) (by decide) (by decide) (by decide)).1
  have e1 : hline_log 0 9 0 =
      [(9, 0), (8, 0), (7, 0), (6, 0), (5, 0), (4, 0), (3, 0), (2, 0), (1, 0), (0, 0)] := by
    decide
  have e2 : (⟨min 0 9, 0, |9 - 0| + 1, 1⟩ : SDL_Rect) = ⟨0, 0, 10, 1⟩ := by decide
  rw [e1, e2] at h
  exact h

theorem unsupported_depth_eq_false (surf : Surface) (hv : valid_depth surf) :
    unsupported_depth surf = false := by
  unfold unsupported_depth valid_depth at *
  simp only [decide_eq_false_iff_not]
  omega

/-- C6: a `line` call of width 1 from a point `(x, y)` inside the clip rectangle to
itself returns, stores exactly that one pixel, and returns the box `(x, y, 1, 1)`. -/
theorem line_point (surf : Surface) (clip : SDL_Rect) (color : Nat) (x y : Int)
    (hv : valid_depth surf)
    (hclip : INT_MIN < clip.x ∧ INT_MIN < clip.y ∧ clip.x + clip.w ≤ INT_MAX ∧
      clip.y + clip.h ≤ INT_MAX)
    (hp : inside clip (x, y)) :
    line surf clip color x y x y 1 =
      some (.ok (store_pixel surf surf.BytesPerPixel x y color, ⟨x, y, 1, 1⟩)) ∧
    (store_pixel surf surf.BytesPerPixel x y color).written = (x, y) :: surf.written := by
  refine ⟨?_, rfl⟩
  have hdraw : draw_line surf clip x y x y color DrawnArea.init =
      some (store_pixel surf surf.BytesPerPixel x y color,
        add_pixel_to_drawn_list x y DrawnArea.init) := by
    unfold draw_line
    rw [if_pos ⟨rfl, rfl⟩, set_and_check_rect_inside surf clip x y color _ hp,
      set_at_bytes_eq surf hv]
  have hrect : return_rect (add_pixel_to_drawn_list x y DrawnArea.init) x y = ⟨x, y, 1, 1⟩ := by
    unfold inside at hp
    simp only at hp
    obtain ⟨c1, c2, c3, c4⟩ := hclip
    have i1 : DrawnArea.init.minx = INT_MAX := rfl
    have i2 : DrawnArea.init.miny = INT_MAX := rfl
    have i3 : DrawnArea.init.maxx = INT_MIN := rfl
    have i4 : DrawnArea.init.maxy = INT_MIN := rfl
    have hmm : INT_MIN < INT_MAX := by decide
    rw [add_pixel_to_drawn_list_eq, i1, i2, i3, i4]
    have e1 : min INT_MAX x = x := by omega
    have e2 : min INT_MAX y = y := by omega
    have e3 : max INT_MIN x = x := by omega
    have e4 : max INT_MIN y = y := by omega
    rw [e1, e2, e3, e4]
    unfold return_rect
    rw [if_pos (by simp only; omega)]
    simp
  simp only [line, unsupported_depth_eq_false surf hv, Bool.false_eq_true, if_false,
    draw_line_width, hdraw, Option.map_some', hrect]
  simp [hrect]

theorem line_point_witness :
    valid_depth (Surface.blank 10 10 3) ∧
    (INT_MIN < (SDL_Rect.whole 10 10).x ∧ INT_MIN < (SDL_Rect.whole 10 10).y ∧
      (SDL_Rect.whole 10 10).x + (SDL_Rect.whole 10 10).w ≤ INT_MAX ∧
      (SDL_Rect.whole 10 10).y + (SDL_Rect.whole 10 10).h ≤ INT_MAX) ∧
    inside (SDL_Rect.whole 10 10) (4, 6) ∧
    line (Surface.blank 10 10 3) (SDL_Rect.whole 10 10) 7 4 6 4 6 1 =
      some (.ok (store_pixel (Surface.blank 10 10 3) 3 4 6 7, ⟨4, 6, 1, 1⟩)) :=
  ⟨by decide, by decide, by decide,
    (line_point (Surface.blank 10 10 3) (SDL_Rect.whole 10 10) 7 4 6
      (by decide) (by decide) (by decide)).1⟩

/-- C7: `draw_line_width` with `width = 1` is `draw_line` with the same arguments:
the same surface and the same accumulator result (and on a surface of valid depth
both do return). -/
theorem draw_line_width_one (surf : Surface) (clip : SDL_Rect) (color : Nat)
    (x1 y1 x2 y2 : Int) (da : DrawnArea) :
    draw_line_width surf clip color x1 y1 x2 y2 1 da =
      draw_line surf clip x1 y1 x2 y2 color da ∧
    (valid_depth surf →
      ∃ r, draw_line_width surf clip color x1 y1 x2 y2 1 da = some r ∧
        draw_line surf clip x1 y1 x2 y2 color da = some r) := by
  have h : draw_line_width surf clip color x1 y1 x2 y2 1 da =
      draw_line surf clip x1 y1 x2 y2 color da := by
    unfold draw_line_width
    rw [if_neg (by decide), if_pos rfl]
  refine ⟨h, fun hv => ?_⟩
  obtain ⟨new, r, hr, _⟩ := draw_line_drawn surf clip x1 y1 x2 y2 color da hv
  exact ⟨r, h.trans hr, hr⟩

/-- C8: for `width < 1`, `line` stores no pixel and returns the zero-size rectangle
`(startx, starty, 0, 0)`, and `draw_line_width` returns with the surface and the
accumulator unchanged. -/
theorem line_width_below_one (surf : Surface) (clip : SDL_Rect) (color : Nat)
    (startx starty endx endy width : Int) (da : DrawnArea) (hw : width < 1)
    (hv : valid_depth surf) :
    line surf clip color startx starty endx endy width =
      some (.ok (surf, ⟨startx, starty, 0, 0⟩)) ∧
    draw_line_width surf clip color startx starty endx endy width da = some (surf, da) := by
  constructor
  · simp only [line, unsupported_depth_eq_false surf hv, Bool.false_eq_true, if_false,
      if_pos hw]
  · unfold draw_line_width
    rw [if_pos hw]

theorem line_width_below_one_witness :
    (0 : Int) < 1 ∧ valid_depth (Surface.blank 10 10 4) ∧
    line (Surface.blank 10 10 4) (SDL_Rect.whole 10 10) 7 2 3 8 5 0 =
      some (.ok (Surface.blank 10 10 4, ⟨2, 3, 0, 0⟩)) ∧
    draw_line_width (Surface.blank 10 10 4) (SDL_Rect.whole 10 10) 7 2 3 8 5 0
      DrawnArea.init = some (Surface.blank 10 10 4, DrawnArea.init) :=
  ⟨by decide, by decide,
    line_width_below_one (Surface.blank 10 10 4) (SDL_Rect.whole 10 10) 7 2 3 8 5 0
      DrawnArea.init (by decide) (by decide)⟩

/-! ## Polylines -/

theorem draw_segments_append (clip : SDL_Rect) (color : Nat) (width : Int)
    (l1 l2 : List ((Int × Int) × (Int × Int))) (s : Surface × DrawnArea) :
    draw_segments clip color width (l1 ++ l2) s =
      (draw_segments clip color width l1 s).bind (draw_segments clip color width l2) := by
  induction l1 generalizing s with
  | nil => rfl
  | cons seg l1 ih =>
    simp only [List.cons_append, draw_segments]
    cases draw_line_width s.1 clip color seg.1.1 seg.1.2 seg.2.1 seg.2.2 width s.2 with
    | none => rfl
    | some r =>
      simp only [Option.some_bind]
      exact ih r

theorem foldlM_draw_segments {κ : Type} (clip : SDL_Rect) (color : Nat) (width : Int)
    (g : κ → (Int × Int) × (Int × Int)) (ks : List κ) (s : Surface × DrawnArea) :
    ks.foldlM
        (fun (s : Surface × DrawnArea) k =>
          draw_line_width s.1 clip color (g k).1.1 (g k).1.2 (g k).2.1 (g k).2.2 width s.2) s =
      draw_segments clip color width (ks.map g) s := by
  induction ks generalizing s with
  | nil => rfl
  | cons k ks ih =>
    simp only [List.foldlM_cons, List.map_cons, draw_segments, Option.bind_eq_bind]
    congr 1
    funext r
    exact ih r

theorem draw_segments_drawn (clip : SDL_Rect) (color : Nat) (width : Int)
    (segs : List ((Int × Int) × (Int × Int))) (s : Surface × DrawnArea)
    (hv : valid_depth s.1) :
    ∃ new r, draw_segments clip color width segs s = some r ∧ Drawn clip color new s r := by
  induction segs generalizing s with
  | nil => exact ⟨[], s, rfl, Drawn.refl _ _ _⟩
  | cons seg rest ih =>
    obtain ⟨n1, r1, h1, d1⟩ :=
      draw_line_width_drawn s.1 clip color seg.1.1 seg.1.2 seg.2.1 seg.2.2 width s.2 hv
    obtain ⟨n2, r2, h2, d2⟩ := ih r1 (d1.valid hv)
    refine ⟨n2 ++ n1, r2, ?_, d1.trans d2⟩
    simp only [draw_segments, h1, Option.some_bind, h2]

theorem getD_map_fst (points : List (Int × Int)) (k : Nat) :
    (points.map Prod.fst).getD k 0 = (points.getD k (0, 0)).1 :=
  List.getD_map points ((0 : Int), (0 : Int)) Prod.fst

theorem getD_map_snd (points : List (Int × Int)) (k : Nat) :
    (points.map Prod.snd).getD k 0 = (points.getD k (0, 0)).2 :=
  List.getD_map points ((0 : Int), (0 : Int)) Prod.snd

/-- C9: for a point list of `n >= 2` points and `width >= 1`, `lines` is exactly one
`draw_line_width` call per segment of `polyline_segments`, in order: the segments
`(p[i - 1], p[i])` for `i = 1 .. n - 1`, then the wrap-around segment `(p[n - 1], p[0])`
if and only if `closed` and `n > 2`, and nothing else; every call returns, and the
rectangle is computed from the accumulator they leave, anchored at `p[0]`. -/
theorem lines_draws_segments (surf : Surface) (clip : SDL_Rect) (color : Nat)
    (closed : Bool) (points : List (Int × Int)) (width : Int) (hv : valid_depth surf)
    (hn : 2 ≤ points.length) (hw : 1 ≤ width) :
    ∃ r, draw_segments clip color width (polyline_segments closed points)
        (surf, DrawnArea.init) = some r ∧
      lines surf clip color closed points width =
        some (.ok (r.1, return_rect r.2 (points.getD 0 (0, 0)).1 (points.getD 0 (0, 0)).2)) := by
  obtain ⟨new, r, hr, _⟩ := draw_segments_drawn clip color width
    (polyline_segments closed points) (surf, DrawnArea.init) hv
  refine ⟨r, hr, ?_⟩
  have hloop := foldlM_draw_segments clip color width
    (fun i => (points.getD i (0, 0), points.getD (i + 1) (0, 0)))
    (List.range (points.length - 1)) (surf, DrawnArea.init)
  simp only at hloop
  unfold polyline_segments at hr
  rw [draw_segments_append] at hr
  simp only [lines, unsupported_depth_eq_false surf hv, Bool.false_eq_true, if_false,
    if_neg (show ¬ points.length < 2 by omega), if_neg (show ¬ width < 1 by omega),
    getD_map_fst, getD_map_snd, Nat.add_sub_cancel, hloop]
  by_cases hcl : closed = true ∧ points.length > 2
  · rw [if_pos hcl] at hr
    simp only [if_pos hcl]
    simp only [draw_segments] at hr
    cases hseg : draw_segments clip color width
        (List.map (fun i => (points.getD i (0, 0), points.getD (i + 1) (0, 0)))
          (List.range (points.length - 1))) (surf, DrawnArea.init) with
    | none => rw [hseg] at hr; simp at hr
    | some r1 =>
      rw [hseg] at hr
      simp only [Option.some_bind] at hr ⊢
      cases hlast : draw_line_width r1.1 clip color (points.getD (points.length - 1) (0, 0)).1
          (points.getD (points.length - 1) (0, 0)).2 (points.getD 0 (0, 0)).1
          (points.getD 0 (0, 0)).2 width r1.2 with
      | none => rw [hlast] at hr; simp at hr
      | some r2 =>
        rw [hlast] at hr
        simp only [Option.some_bind, Option.some.injEq] at hr
        subst hr
        simp
  · rw [if_neg hcl] at hr
    simp only [if_neg hcl]
    simp only [draw_segments] at hr
    cases hseg : draw_segments clip color width
        (List.map (fun i => (points.getD i (0, 0), points.getD (i + 1) (0, 0)))
          (List.range (points.length - 1))) (surf, DrawnArea.init) with
    | none => rw [hseg] at hr; simp at hr
    | some r1 =>
      rw [hseg] at hr
      simp only [Option.some_bind, Option.some.injEq] at hr
      subst hr
      simp

theorem lines_draws_segments_witness :
    valid_depth (Surface.blank 10 10 4) ∧
    2 ≤ [((0 : Int), (0 : Int)), (3, 0), (3, 3)].length ∧ (1 : Int) ≤ 1 ∧
    polyline_segments true [(0, 0), (3, 0), (3, 3)] =
      [((0, 0), (3, 0)), ((3, 0), (3, 3)), ((3, 3), (0, 0))] ∧
    polyline_segments false [(0, 0), (3, 0), (3, 3)] = [((0, 0), (3, 0)), ((3, 0), (3, 3))] ∧
    polyline_segments true [(0, 0), (3, 0)] = [((0, 0), (3, 0))] ∧
    ∃ r, draw_segments (SDL_Rect.whole 10 10) 7 1
        (polyline_segments true [(0, 0), (3, 0), (3, 3)])
        (Surface.blank 10 10 4, DrawnArea.init) = some r ∧
      lines (Surface.blank 10 10 4) (SDL_Rect.whole 10 10) 7 true [(0, 0), (3, 0), (3, 3)] 1 =
        some (.ok (r.1, return_rect r.2
          (([(0, 0), (3, 0), (3, 3)] : List (Int × Int)).getD 0 (0, 0)).1
          (([(0, 0), (3, 0), (3, 3)] : List (Int × Int)).getD 0 (0, 0)).2)) :=
  ⟨by decide, by decide, by decide, by decide, by decide, by decide,
    lines_draws_segments (Surface.blank 10 10 4) (SDL_Rect.whole 10 10) 7 true
      [(0, 0), (3, 0), (3, 3)] 1 (by decide) (by decide) (by decide)⟩

/-! ## Circles -/

/-- C10: with no quadrant flag set and `radius >= 1`, `circle` with `width = radius`,
and likewise with any `width > radius`, is the same call as `circle` with `width = 0`:
the same surface and the same returned rectangle, those of `draw_circle_filled`; and
on a surface of valid depth that call returns. -/
theorem circle_width_radius_is_filled (surf : Surface) (clip : SDL_Rect) (color : Nat)
    (posx posy radius width : Int) (hr : 1 ≤ radius) (hw : radius ≤ width) :
    circle surf clip color posx posy radius width 0 0 0 0 =
      circle surf clip color posx posy radius 0 0 0 0 0 ∧
    (valid_depth surf →
      ∃ res, circle surf clip color posx posy radius 0 0 0 0 0 = some (.ok res)) := by
  constructor
  · unfold circle
    have h1 : ¬ (radius < 1 ∨ width < 0) := by omega
    have h2 : ¬ (radius < 1 ∨ (0 : Int) < 0) := by omega
    have h3 : (if width > radius then radius else width) = radius := by
      split <;> omega
    have h4 : (if (0 : Int) > radius then radius else 0) = 0 := by
      rw [if_neg (by omega)]
    simp only [h1, h2, h3, h4, if_false, and_self, if_true, or_true, true_or]
  · intro hv
    unfold circle
    rw [unsupported_depth_eq_false surf hv]
    simp only [Bool.false_eq_true, if_false]
    split
    · exact ⟨_, rfl⟩
    · split
      · exact ⟨_, rfl⟩
      · obtain ⟨new, r, hr1, _⟩ :=
          draw_circle_filled_drawn surf clip posx posy radius color DrawnArea.init hv
        simp only [if_neg (show ¬ (0 : Int) > radius by omega), and_self, if_true, true_or,
          hr1, Option.map_some']
        exact ⟨_, rfl⟩

theorem circle_width_radius_is_filled_witness :
    (1 : Int) ≤ 5 ∧ (5 : Int) ≤ 8 ∧
    circle (Surface.blank 20 20 4) (SDL_Rect.whole 20 20) 7 10 10 5 8 0 0 0 0 =
      circle (Surface.blank 20 20 4) (SDL_Rect.whole 20 20) 7 10 10 5 0 0 0 0 0 :=
  ⟨by decide, by decide,
    (circle_width_radius_is_filled (Surface.blank 20 20 4) (SDL_Rect.whole 20 20) 7 10 10 5 8
      (by decide) (by decide)).1⟩

/-! ## Entry points: degenerate arguments -/

/-- C13: on a surface of valid depth, `circle` with `radius < 1` or `width < 0`
returns normally with the surface (its log included) unchanged and the zero-size
rectangle `(posx, posy, 0, 0)`. -/
theorem circle_degenerate (surf : Surface) (clip : SDL_Rect) (color : Nat)
    (posx posy radius width top_right top_left bottom_left bottom_right : Int)
    (hv : valid_depth surf) (h : radius < 1 ∨ width < 0) :
    circle surf clip color posx posy radius width top_right top_left bottom_left
      bottom_right = some (.ok (surf, ⟨posx, posy, 0, 0⟩)) := by
  unfold circle
  rw [unsupported_depth_eq_false surf hv]
  simp only [Bool.false_eq_true, if_false]
  rw [if_pos h]

theorem circle_degenerate_witness :
    valid_depth (Surface.blank 20 20 4) ∧ ((0 : Int) < 1 ∨ (3 : Int) < 0) ∧
    circle (Surface.blank 20 20 4) (SDL_Rect.whole 20 20) 7 10 10 0 3 0 0 0 0 =
      some (.ok (Surface.blank 20 20 4, ⟨10, 10, 0, 0⟩)) :=
  ⟨by decide, by decide,
    circle_degenerate (Surface.blank 20 20 4) (SDL_Rect.whole 20 20) 7 10 10 0 3 0 0 0 0
      (by decide) (by decide)⟩

/-- C20: on a surface of valid depth, an `arc` call whose start and stop angle are
the same value `a` (a value that compares equal to itself, so not a NaN) returns
with the surface (its log included) unchanged and the zero-size rectangle
`(rect.x, rect.y, 0, 0)`, and `draw_arc` itself returns the surface and the
accumulator it was given. -/
theorem arc_equal_angles {D : Type} (ops : DoubleOps D) (surf : Surface) (clip : SDL_Rect)
    (color : Nat) (rect : SDL_Rect) (a : D) (width : Int)
    (x_center y_center radius1 radius2 : Int) (da : DrawnArea)
    (hv : valid_depth surf) (hlt : ops.lt a a = false) (hle : ops.le a a = true) :
    arc ops surf clip color rect a a width = some (.ok (surf, ⟨rect.x, rect.y, 0, 0⟩)) ∧
    draw_arc ops surf clip x_center y_center radius1 radius2 width a a color da =
      some (surf, da) := by
  have hd : ∀ (xc yc r1 r2 w : Int) (d : DrawnArea),
      draw_arc ops surf clip xc yc r1 r2 w a a color d = some (surf, d) := by
    intro xc yc r1 r2 w d
    unfold draw_arc
    by_cases hw : w ≤ 0
    · rw [if_pos hw]
    · rw [if_neg hw]
      simp only [hlt, hle, Bool.false_eq_true, if_false, if_true]
  refine ⟨?_, hd _ _ _ _ _ _⟩
  unfold arc
  rw [unsupported_depth_eq_false surf hv]
  simp only [Bool.false_eq_true, if_false, hlt]
  by_cases hw : width < 0
  · rw [if_pos hw]
  · rw [if_neg hw, hd]
    have hr : return_rect DrawnArea.init rect.x rect.y = ⟨rect.x, rect.y, 0, 0⟩ := by
      unfold return_rect
      rw [if_neg (by decide)]
    simp [hr]

theorem arc_equal_angles_witness :
    valid_depth (Surface.blank 20 20 4) ∧ rat_ops.lt 1 1 = false ∧ rat_ops.le 1 1 = true ∧
    arc rat_ops (Surface.blank 20 20 4) (SDL_Rect.whole 20 20) 7 ⟨2, 3, 10, 8⟩ 1 1 2 =
      some (.ok (Surface.blank 20 20 4, ⟨2, 3, 0, 0⟩)) ∧
    draw_arc rat_ops (Surface.blank 20 20 4) (SDL_Rect.whole 20 20) 7 7 5 4 2 1 1 7
      DrawnArea.init = some (Surface.blank 20 20 4, DrawnArea.init) :=
  ⟨by decide, by decide, by decide,
    arc_equal_angles rat_ops (Surface.blank 20 20 4) (SDL_Rect.whole 20 20) 7 ⟨2, 3, 10, 8⟩ 1
      2 7 7 5 4 DrawnArea.init (by decide) (by decide) (by decide)⟩

/-- C17, as stated, fails: a polyline of one point and a filled polygon of two
points raise `ValueError` instead of returning a rectangle. -/
theorem too_few_points_counterexample :
    lines (Surface.blank 10 10 4) (SDL_Rect.whole 10 10) 7 false [(1, 1)] 1 =
      some (.error .ValueError) ∧
    polygon rat_ops (Surface.blank 10 10 4) (SDL_Rect.whole 10 10) 7 [(1, 1), (2, 2)] 0 [] =
      some (.error .ValueError) ∧
    returned_rect (lines (Surface.blank 10 10 4) (SDL_Rect.whole 10 10) 7 false [(1, 1)] 1) ≠
      some ⟨1, 1, 0, 0⟩ :=
  ⟨rfl, rfl, by decide⟩

/-- C17, amended: `lines` given fewer than 2 points raises `ValueError`, whatever the
width; `polygon` with width 0 given fewer than 3 points raises `ValueError`; and
`polygon` with a non-zero width, which is handed to `lines`, raises `ValueError`
when given fewer than 2 points.  No surface is produced in any of these cases. -/
theorem too_few_points_is_value_error {D : Type} (ops : DoubleOps D) (surf : Surface)
    (clip : SDL_Rect) (color : Nat) (closed : Bool) (points : List (Int × Int))
    (width : Int) (x_intersect : List Int) :
    (points.length < 2 → lines surf clip color closed points width =
      some (.error .ValueError)) ∧
    (points.length < 3 → polygon ops surf clip color points 0 x_intersect =
      some (.error .ValueError)) ∧
    (points.length < 2 → polygon ops surf clip color points width x_intersect =
      some (.error .ValueError)) := by
  have hl : ∀ c w, points.length < 2 → lines surf clip color c points w =
      some (.error .ValueError) := by
    intro c w h
    unfold lines
    by_cases hd : unsupported_depth surf = true
    · rw [if_pos hd]
    · rw [if_neg hd]
      simp only [h, if_true]
  have hp : points.length < 3 → polygon ops surf clip color points 0 x_intersect =
      some (.error .ValueError) := by
    intro h
    unfold polygon
    rw [if_neg (by simp)]
    by_cases hd : unsupported_depth surf = true
    · rw [if_pos hd]
    · rw [if_neg hd]
      simp only [h, if_true]
  refine ⟨hl closed width, hp, fun h => ?_⟩
  by_cases hw : width = 0
  · subst hw
    exact hp (by omega)
  · unfold polygon
    rw [if_pos hw]
    exact hl true width h

theorem too_few_points_is_value_error_witness :
    ([(1, 1)] : List (Int × Int)).length < 2 ∧
    lines (Surface.blank 10 10 4) (SDL_Rect.whole 10 10) 7 false [(1, 1)] 1 =
      some (.error .ValueError) :=
  ⟨by decide,
    (too_few_points_is_value_error rat_ops (Surface.blank 10 10 4) (SDL_Rect.whole 10 10) 7
      false [(1, 1)] 1 []).1 (by decide)⟩

set_option maxRecDepth 100000 in
/-- C11, as stated, fails: on a 20x20 buffer clipped to the whole buffer,
`circle(center=(10,10), radius=5, width=0)` does not return `(5, 5, 11, 11)`. -/
theorem circle_radius5_rect_counterexample :
    returned_rect (circle (Surface.blank 20 20 4) (SDL_Rect.whole 20 20) 7 10 10 5 0 0 0 0 0) ≠
      some ⟨5, 5, 11, 11⟩ := by
  decide

set_option maxRecDepth 100000 in
/-- C11, amended: on a 20x20 buffer clipped to the whole buffer,
`circle(center=(10,10), radius=5, width=0)` returns the rectangle `(5, 5, 10, 10)`:
the disc covers columns and rows 5 to 14, and pixel `(15, 10)` is not stored while
`(5, 10)` and `(14, 10)` are. -/
theorem circle_radius5_rect :
    returned_rect (circle (Surface.blank 20 20 4) (SDL_Rect.whole 20 20) 7 10 10 5 0 0 0 0 0) =
      some ⟨5, 5, 10, 10⟩ ∧
    ∃ log, returned_log
        (circle (Surface.blank 20 20 4) (SDL_Rect.whole 20 20) 7 10 10 5 0 0 0 0 0) =
      some log ∧ (5, 10) ∈ log ∧ (14, 10) ∈ log ∧ (15, 10) ∉ log ∧ (10, 15) ∉ log ∧
      ∀ p ∈ log, 5 ≤ p.1 ∧ p.1 ≤ 14 ∧ 5 ≤ p.2 ∧ p.2 ≤ 14 := by
  refine ⟨by decide, _, rfl, ?_⟩
  decide

/-! ## Exact logs of clipped spans -/

theorem mem_clipped_span (clip : SDL_Rect) (x1 y x2 : Int) (p : Int × Int) :
    p ∈ clipped_span clip x1 y x2 ↔
      p.2 = y ∧ min x1 x2 ≤ p.1 ∧ p.1 ≤ max x1 x2 ∧ inside clip p := by
  unfold clipped_span inside
  by_cases hrow : clip.y ≤ y ∧ y < clip.y + clip.h
  · rw [if_pos hrow, mem_span_log]
    constructor
    · intro h; omega
    · intro h; omega
  · rw [if_neg hrow]
    simp only [List.not_mem_nil, false_iff]
    intro h; omega

theorem drawhorzlineclipbounding_log (surf : Surface) (clip : SDL_Rect) (color : Nat)
    (x1 y1 x2 : Int) (pts : DrawnArea) (hv : valid_depth surf) :
    Drawn clip color (clipped_span clip x1 y1 x2) (surf, pts)
      (drawhorzlineclipbounding surf clip color x1 y1 x2 pts) := by
  rw [drawhorzlineclipbounding_eq]
  unfold clipped_span
  by_cases hrow : y1 < clip.y ∨ y1 ≥ clip.y + clip.h
  · rw [if_pos hrow, if_neg (by omega)]; exact Drawn.refl _ _ _
  rw [if_neg hrow, if_pos (by omega)]
  by_cases hx : min (max x1 x2) (clip.x + clip.w - 1) < clip.x ∨
      max (min x1 x2) clip.x ≥ clip.x + clip.w
  · rw [if_pos hx]
    have h0 : (min (max x1 x2) (clip.x + clip.w - 1) + 1 - max (min x1 x2) clip.x).toNat = 0 := by
      omega
    rw [h0]
    exact Drawn.refl _ _ _
  rw [if_neg hx]
  by_cases he : max (min x1 x2) clip.x = min (max x1 x2) (clip.x + clip.w - 1)
  · rw [if_pos he]
    have h1 : (min (max x1 x2) (clip.x + clip.w - 1) + 1 - max (min x1 x2) clip.x).toNat = 1 := by
      omega
    rw [h1]
    have h := set_and_check_rect_drawn surf clip (max (min x1 x2) clip.x) y1 color pts hv
    rw [if_pos (by unfold inside; simp only; omega)] at h
    simpa [span_log] using h
  · rw [if_neg he]
    exact drawhorzline_drawn surf clip color _ y1 _ pts hv (by omega) (by omega)
      (by omega) (by omega)

theorem Drawn.hline {clip : SDL_Rect} {color : Nat} {new : List (Int × Int)}
    {s0 s : Surface × DrawnArea} (h : Drawn clip color new s0 s) (hv : valid_depth s0.1)
    (x1 y x2 : Int) :
    Drawn clip color (clipped_span clip x1 y x2 ++ new) s0
      (drawhorzlineclipbounding s.1 clip color x1 y x2 s.2) :=
  h.trans (drawhorzlineclipbounding_log s.1 clip color x1 y x2 s.2 (h.valid hv))

theorem drawhorzlineclip_log (surf : Surface) (clip : SDL_Rect) (color : Nat)
    (x1 y1 x2 : Int) (hv : valid_depth surf) :
    drawhorzlineclip surf clip color x1 y1 x2 =
      replay color (clipped_span clip x1 y1 x2) surf := by
  have h := (drawhorzlineclipbounding_log surf clip color x1 y1 x2 DrawnArea.init hv).1
  rw [← h]
  unfold drawhorzlineclip drawhorzlineclipbounding set_and_check_rect
  by_cases hrow : y1 < clip.y ∨ y1 ≥ clip.y + clip.h
  · rw [if_pos hrow, if_pos hrow]
  rw [if_neg hrow, if_neg hrow]
  by_cases hsw : x2 < x1
  · simp only [if_pos hsw]
    split_ifs <;> rfl
  · simp only [if_neg hsw]
    split_ifs <;> rfl

theorem clipped_span_inside (clip : SDL_Rect) (a y b : Int) (hab : a ≤ b)
    (ha : inside clip (a, y)) (hb : inside clip (b, y)) :
    clipped_span clip a y b = span_log a (b + 1 - a).toNat y := by
  unfold inside at ha hb
  unfold clipped_span
  rw [if_pos ⟨ha.2.2.1, ha.2.2.2⟩]
  have h1 : max (min a b) clip.x = a := by omega
  have h2 : min (max a b) (clip.x + clip.w - 1) = b := by omega
  rw [h1, h2]

/-! ## Filled polygons -/

theorem fillpoly_scanline_square (clip : SDL_Rect) (color : Nat) (y : Int)
    (hy : y = 0 ∨ y = 1 ∨ y = 2 ∨ y = 3 ∨ y = 4) (surf : Surface) (da : DrawnArea)
    (a b c d : Int) :
    fillpoly_scanline clip [0, 4, 4, 0] [0, 0, 4, 4] 4 color 4 y ⟨surf, da, [a, b, c, d]⟩ =
      ⟨(drawhorzlineclipbounding surf clip color 0 y 4 da).1,
        (drawhorzlineclipbounding surf clip color 0 y 4 da).2, [0, 4, c, d]⟩ := by
  have hi : fillpoly_intersections [0, 4, 4, 0] [0, 0, 4, 4] 4 4 y [a, b, c, d] =
      ([0, 4, c, d], 2) := by
    rcases hy with h | h | h | h | h <;> subst h <;> rfl
  have hq : qsort_ints [0, 4, c, d] 2 = [0, 4, c, d] := rfl
  unfold fillpoly_scanline
  simp only [hi, hq]
  rfl

theorem draw_fillpoly_square (surf : Surface) (clip : SDL_Rect) (color : Nat)
    (da : DrawnArea) (a b c d : Int) (hv : valid_depth surf) :
    Drawn clip color
      (clipped_span clip 0 4 4 ++ (clipped_span clip 0 3 4 ++ (clipped_span clip 0 2 4 ++
        (clipped_span clip 0 1 4 ++ (clipped_span clip 0 0 4 ++ [])))))
      (surf, da)
      (draw_fillpoly surf clip [0, 4, 4, 0] [0, 0, 4, 4] 4 color da [a, b, c, d]) := by
  have hmin : for_loop 1 (4 - 1) (fun i m => MIN m (([0, 0, 4, 4] : List Int).getD i.toNat 0))
      (([0, 0, 4, 4] : List Int).getD 0 0) = 0 := rfl
  have hmax : for_loop 1 (4 - 1) (fun i m => MAX m (([0, 0, 4, 4] : List Int).getD i.toNat 0))
      (([0, 0, 4, 4] : List Int).getD 0 0) = 4 := rfl
  have h5 : ((4 : Int) + 1 - 0).toNat = 5 := rfl
  obtain ⟨X, hXdef, hX⟩ : ∃ X : Surface × DrawnArea,
      for_loop 0 5 (fillpoly_scanline clip [0, 4, 4, 0] [0, 0, 4, 4] 4 color 4)
        ⟨surf, da, [a, b, c, d]⟩ = ⟨X.1, X.2, [0, 4, c, d]⟩ ∧
      Drawn clip color
        (clipped_span clip 0 4 4 ++ (clipped_span clip 0 3 4 ++ (clipped_span clip 0 2 4 ++
          (clipped_span clip 0 1 4 ++ (clipped_span clip 0 0 4 ++ []))))) (surf, da) X := by
    refine ⟨_, ?_, (((((Drawn.refl clip color (surf, da)).hline hv 0 0 4).hline hv 0 1 4).hline
      hv 0 2 4).hline hv 0 3 4).hline hv 0 4 4⟩
    simp only [for_loop_cons, for_loop_zero]
    norm_num
    simp only [fillpoly_scanline_square clip color 0 (by decide),
      fillpoly_scanline_square clip color 1 (by decide),
      fillpoly_scanline_square clip color 2 (by decide),
      fillpoly_scanline_square clip color 3 (by decide),
      fillpoly_scanline_square clip color 4 (by decide)]
  unfold draw_fillpoly
  simp only [hmin, hmax]
  rw [if_neg (by decide), h5, hXdef]
  exact hX

set_option maxRecDepth 100000 in
/-- C14, as stated, fails: on a 20x20 buffer clipped to the whole buffer,
`polygon(points=[(0,0),(4,0),(4,4),(0,4)], width=0)` does not return `(0, 0, 4, 4)`,
and it stores the pixel `(4, 4)`, which lies outside a 4x4 box at the origin. -/
theorem polygon_square_counterexample :
    returned_rect (polygon rat_ops (Surface.blank 20 20 4) (SDL_Rect.whole 20 20) 7
      [(0, 0), (4, 0), (4, 4), (0, 4)] 0 [0, 0, 0, 0]) ≠ some ⟨0, 0, 4, 4⟩ ∧
    ∃ log, returned_log (polygon rat_ops (Surface.blank 20 20 4) (SDL_Rect.whole 20 20) 7
      [(0, 0), (4, 0), (4, 4), (0, 4)] 0 [0, 0, 0, 0]) = some log ∧ (4, 4) ∈ log := by
  refine ⟨by decide, _, rfl, ?_⟩
  decide

set_option maxRecDepth 100000 in
/-- C14, amended: on a surface of valid depth and with a clip rectangle containing
the points, `polygon(points=[(0,0),(4,0),(4,4),(0,4)], width=0)` stores exactly the
25 pixels of the 5x5 block `0 <= x <= 4`, `0 <= y <= 4` (the vertices are
inclusive) and returns the rectangle `(0, 0, 5, 5)`, whatever the initial content
of the intersection buffer. -/
theorem polygon_square {D : Type} (ops : DoubleOps D) (surf : Surface) (clip : SDL_Rect)
    (color : Nat) (x_intersect : List Int) (hv : valid_depth surf)
    (h0 : inside clip (0, 0)) (h4 : inside clip (4, 4)) (hx : x_intersect.length = 4) :
    ∃ log, polygon ops surf clip color [(0, 0), (4, 0), (4, 4), (0, 4)] 0 x_intersect =
        some (.ok (replay color log surf, ⟨0, 0, 5, 5⟩)) ∧
      ∀ p : Int × Int, p ∈ log ↔ (0 ≤ p.1 ∧ p.1 ≤ 4 ∧ 0 ≤ p.2 ∧ p.2 ≤ 4) := by
  obtain ⟨a, b, c, d, rfl⟩ : ∃ a b c d, x_intersect = [a, b, c, d] := by
    match x_intersect, hx with
    | [a, b, c, d], _ => exact ⟨a, b, c, d, rfl⟩
  have hd := draw_fillpoly_square surf clip color DrawnArea.init a b c d hv
  have hs : ∀ y : Int, 0 ≤ y → y ≤ 4 → clipped_span clip 0 y 4 = span_log 0 5 y := by
    intro y hy0 hy4
    unfold inside at h0 h4
    simp only at h0 h4
    rw [clipped_span_inside clip 0 y 4 (by decide) (by unfold inside; simp only; omega)
      (by unfold inside; simp only; omega)]
    rfl
  rw [hs 0 (by decide) (by decide), hs 1 (by decide) (by decide),
    hs 2 (by decide) (by decide), hs 3 (by decide) (by decide),
    hs 4 (by decide) (by decide)] at hd
  obtain ⟨hd1, hd2, -⟩ := hd
  refine ⟨span_log 0 5 4 ++ (span_log 0 5 3 ++ (span_log 0 5 2 ++ (span_log 0 5 1 ++
    (span_log 0 5 0 ++ [])))), ?_, ?_⟩
  · unfold polygon
    rw [if_neg (by simp), unsupported_depth_eq_false surf hv]
    simp only [Bool.false_eq_true, if_false, List.length_cons, List.length_nil, List.map]
    rw [if_neg (by decide), if_pos (by decide)]
    simp only at hd1 hd2
    rw [hd1, hd2]
    rfl
  · intro p
    simp only [List.mem_append, mem_span_log, List.not_mem_nil, or_false]
    constructor
    · intro h; omega
    · intro h; omega

theorem polygon_square_witness :
    valid_depth (Surface.blank 20 20 4) ∧ inside (SDL_Rect.whole 20 20) (0, 0) ∧
    inside (SDL_Rect.whole 20 20) (4, 4) ∧ ([0, 0, 0, 0] : List Int).length = 4 ∧
    ∃ log, polygon rat_ops (Surface.blank 20 20 4) (SDL_Rect.whole 20 20) 7
        [(0, 0), (4, 0), (4, 4), (0, 4)] 0 [0, 0, 0, 0] =
        some (.ok (replay 7 log (Surface.blank 20 20 4), ⟨0, 0, 5, 5⟩)) ∧
      ∀ p : Int × Int, p ∈ log ↔ (0 ≤ p.1 ∧ p.1 ≤ 4 ∧ 0 ≤ p.2 ∧ p.2 ≤ 4) :=
  ⟨by decide, by decide, by decide, by decide,
    polygon_square rat_ops (Surface.blank 20 20 4) (SDL_Rect.whole 20 20) 7 [0, 0, 0, 0]
      (by decide) (by decide) (by decide) (by decide)⟩

/-! ## Corner radii of rounded rectangles -/

theorem exact_ops_quotient (n d : Int) :
    exact_ops.toFloat (exact_ops.div (exact_ops.ofInt n)
      (exact_ops.toFloat (exact_ops.ofInt d))) = capacity_ratio n d := by
  unfold capacity_ratio
  simp only [exact_ops, Int.cast_eq_zero]

theorem exact_ops_min (a b : Option Rat) :
    (if exact_ops.lt a b then a else b) = min_ratio a b := by
  cases a with
  | none => cases b <;> simp [exact_ops, min_ratio]
  | some a =>
    cases b with
    | none => simp [exact_ops, min_ratio]
    | some b =>
      simp only [exact_ops, min_ratio, decide_eq_true_eq]
      by_cases h : a < b
      · rw [if_pos h, min_eq_left h.le]
      · rw [if_neg h, min_eq_right (not_lt.mp h)]

theorem exact_ops_scaled (n : Int) (q : Rat) (hn : 0 ≤ n) (hq : 0 ≤ q) :
    exact_ops.toInt (exact_ops.toFloat (exact_ops.mul (exact_ops.ofInt n) (some q))) =
      Int.floor ((n : Rat) * q) := by
  have h : ¬ ((n : Rat) * q < 0) := not_lt.mpr (mul_nonneg (by exact_mod_cast hn) hq)
  simp only [exact_ops, if_neg h]

theorem capacity_ratio_pos (edge sum : Int) (he : 1 ≤ edge) (hs : 0 ≤ sum) (q : Rat)
    (h : capacity_ratio edge sum = some q) : 0 < q := by
  unfold capacity_ratio at h
  by_cases h0 : sum = 0
  · rw [if_pos h0] at h; cases h
  · rw [if_neg h0] at h
    injection h with h
    rw [← h]
    have h1 : (0 : Rat) < (edge : Rat) := by exact_mod_cast (by omega : (0 : Int) < edge)
    have h2 : (0 : Rat) < (sum : Rat) := by exact_mod_cast (by omega : (0 : Int) < sum)
    exact div_pos h1 h2

theorem min_ratio_pos (a b : Option Rat) (ha : ∀ q, a = some q → 0 < q)
    (hb : ∀ q, b = some q → 0 < q) (q : Rat) (h : min_ratio a b = some q) : 0 < q := by
  cases a with
  | none => exact hb q h
  | some a =>
    cases b with
    | none => exact ha q h
    | some b =>
      simp only [min_ratio, Option.some.injEq] at h
      rw [← h]
      exact lt_min (ha a rfl) (hb b rfl)

theorem min_ratio_le (a b : Option Rat) (q : Rat) (h : min_ratio a b = some q) :
    (∀ r, a = some r → q ≤ r) ∧ (∀ r, b = some r → q ≤ r) := by
  cases a with
  | none =>
    refine ⟨fun r hr => (by cases hr), fun r hr => ?_⟩
    simp only [min_ratio] at h
    rw [h] at hr
    injection hr with hr
    exact hr.le
  | some a =>
    cases b with
    | none =>
      refine ⟨fun r hr => ?_, fun r hr => (by cases hr)⟩
      simp only [min_ratio] at h
      rw [h] at hr
      injection hr with hr
      exact hr.le
    | some b =>
      simp only [min_ratio, Option.some.injEq] at h
      refine ⟨fun r hr => ?_, fun r hr => ?_⟩
      · injection hr with hr
        rw [← h, ← hr]; exact min_le_left _ _
      · injection hr with hr
        rw [← h, ← hr]; exact min_le_right _ _

theorem min_ratio_some_left (a b : Option Rat) (r : Rat) (h : a = some r) :
    ∃ q, min_ratio a b = some q := by
  subst h
  cases b with
  | none => exact ⟨_, rfl⟩
  | some b => exact ⟨_, rfl⟩

theorem min_ratio_some_right (a b : Option Rat) (r : Rat) (h : b = some r) :
    ∃ q, min_ratio a b = some q := by
  subst h
  cases a with
  | none => exact ⟨_, rfl⟩
  | some a => exact ⟨_, rfl⟩

/-- Two radii scaled by a factor that is at most the capacity ratio of their edge
fit on the edge after truncation. -/
theorem scaled_pair_fits (edge a b : Int) (q : Rat) (he : 1 ≤ edge) (ha : 0 ≤ a) (hb : 0 ≤ b)
    (h : ∀ r, capacity_ratio edge (a + b) = some r → q ≤ r) :
    Int.floor ((a : Rat) * q) + Int.floor ((b : Rat) * q) ≤ edge := by
  by_cases h0 : a + b = 0
  · have ha0 : a = 0 := by omega
    have hb0 : b = 0 := by omega
    subst ha0 hb0
    simp
    omega
  · have hs : (0 : Rat) < ((a + b : Int) : Rat) := by
      exact_mod_cast (by omega : (0 : Int) < a + b)
    have hle := h _ (by unfold capacity_ratio; rw [if_neg h0])
    have h1 : q * ((a + b : Int) : Rat) ≤ (edge : Rat) := (le_div_iff₀ hs).mp hle
    have h2 : ((Int.floor ((a : Rat) * q) + Int.floor ((b : Rat) * q) : Int) : Rat) ≤
        (edge : Rat) := by
      push_cast
      have f1 := Int.floor_le ((a : Rat) * q)
      have f2 := Int.floor_le ((b : Rat) * q)
      push_cast at h1
      linarith
    exact_mod_cast h2

theorem round_rect_radii_exact (x1 y1 x2 y2 radius tl tr bl br : Int)
    (htl : 0 ≤ tl) (htr : 0 ≤ tr) (hbl : 0 ≤ bl) (hbr : 0 ≤ br) :
    round_rect_radii exact_ops x1 y1 x2 y2 radius tl tr bl br =
      if tl + tr > x2 - x1 + 1 ∨ bl + br > x2 - x1 + 1 ∨ tl + bl > y2 - y1 + 1 ∨
          tr + br > y2 - y1 + 1 then
        (exact_ops.toInt (exact_ops.toFloat (exact_ops.mul (exact_ops.ofInt tl)
            (scale_factor (x2 - x1 + 1) (y2 - y1 + 1) tl tr bl br))),
          exact_ops.toInt (exact_ops.toFloat (exact_ops.mul (exact_ops.ofInt tr)
            (scale_factor (x2 - x1 + 1) (y2 - y1 + 1) tl tr bl br))),
          exact_ops.toInt (exact_ops.toFloat (exact_ops.mul (exact_ops.ofInt bl)
            (scale_factor (x2 - x1 + 1) (y2 - y1 + 1) tl tr bl br))),
          exact_ops.toInt (exact_ops.toFloat (exact_ops.mul (exact_ops.ofInt br)
            (scale_factor (x2 - x1 + 1) (y2 - y1 + 1) tl tr bl br))))
      else (tl, tr, bl, br) := by
  unfold round_rect_radii scale_factor
  simp only [if_neg (not_lt.mpr htl), if_neg (not_lt.mpr htr), if_neg (not_lt.mpr hbl),
    if_neg (not_lt.mpr hbr), exact_ops_quotient, exact_ops_min]

theorem min_ratio_lower (a b : Option Rat) (q : Rat)
    (h : ∀ r, min_ratio a b = some r → q ≤ r) :
    (∀ r, a = some r → q ≤ r) ∧ (∀ r, b = some r → q ≤ r) := by
  constructor
  · intro r hr
    obtain ⟨m, hm⟩ := min_ratio_some_left a b r hr
    exact (h m hm).trans ((min_ratio_le a b m hm).1 r hr)
  · intro r hr
    obtain ⟨m, hm⟩ := min_ratio_some_right a b r hr
    exact (h m hm).trans ((min_ratio_le a b m hm).2 r hr)

theorem capacity_ratio_some (edge sum : Int) (h : sum ≠ 0) :
    capacity_ratio edge sum = some ((edge : Rat) / (sum : Rat)) := by
  unfold capacity_ratio
  rw [if_neg h]

/-- C19: in exact arithmetic, for a rectangle of width `W >= 1` and height `H >= 1`
and corner radii `tl`, `tr`, `bl`, `br` that are non-negative once a negative one
has been replaced by `radius`: if two adjacent radii sum to more than their edge,
the code returns the four radii multiplied by the factor
`f = min(W/(tl+tr), H/(tl+bl), W/(bl+br), H/(tr+br))` of the specification (finite
in that case) and truncated, and the truncated radii fit on all four edges;
otherwise it returns the radii unchanged. -/
theorem round_rect_radii_scaled
    (x1 y1 x2 y2 radius top_left top_right bottom_left bottom_right tl tr bl br : Int)
    (hW : 1 ≤ x2 - x1 + 1) (hH : 1 ≤ y2 - y1 + 1)
    (etl : tl = if top_left < 0 then radius else top_left)
    (etr : tr = if top_right < 0 then radius else top_right)
    (ebl : bl = if bottom_left < 0 then radius else bottom_left)
    (ebr : br = if bottom_right < 0 then radius else bottom_right)
    (htl : 0 ≤ tl) (htr : 0 ≤ tr) (hbl : 0 ≤ bl) (hbr : 0 ≤ br) :
    (tl + tr > x2 - x1 + 1 ∨ bl + br > x2 - x1 + 1 ∨ tl + bl > y2 - y1 + 1 ∨
        tr + br > y2 - y1 + 1 →
      ∃ f : Rat, scale_factor (x2 - x1 + 1) (y2 - y1 + 1) tl tr bl br = some f ∧
        round_rect_radii exact_ops x1 y1 x2 y2 radius top_left top_right bottom_left
            bottom_right =
          (Int.floor ((tl : Rat) * f), Int.floor ((tr : Rat) * f),
            Int.floor ((bl : Rat) * f), Int.floor ((br : Rat) * f)) ∧
        Int.floor ((tl : Rat) * f) + Int.floor ((tr : Rat) * f) ≤ x2 - x1 + 1 ∧
        Int.floor ((bl : Rat) * f) + Int.floor ((br : Rat) * f) ≤ x2 - x1 + 1 ∧
        Int.floor ((tl : Rat) * f) + Int.floor ((bl : Rat) * f) ≤ y2 - y1 + 1 ∧
        Int.floor ((tr : Rat) * f) + Int.floor ((br : Rat) * f) ≤ y2 - y1 + 1) ∧
    (¬ (tl + tr > x2 - x1 + 1 ∨ bl + br > x2 - x1 + 1 ∨ tl + bl > y2 - y1 + 1 ∨
        tr + br > y2 - y1 + 1) →
      round_rect_radii exact_ops x1 y1 x2 y2 radius top_left top_right bottom_left
        bottom_right = (tl, tr, bl, br)) := by
  have hn : round_rect_radii exact_ops x1 y1 x2 y2 radius top_left top_right bottom_left
      bottom_right = round_rect_radii exact_ops x1 y1 x2 y2 radius tl tr bl br := by
    unfold round_rect_radii
    simp only [← etl, ← etr, ← ebl, ← ebr, if_neg (not_lt.mpr htl), if_neg (not_lt.mpr htr),
      if_neg (not_lt.mpr hbl), if_neg (not_lt.mpr hbr)]
  rw [hn, round_rect_radii_exact x1 y1 x2 y2 radius tl tr bl br htl htr hbl hbr]
  constructor
  · intro hov
    rw [if_pos hov]
    obtain ⟨f, hf⟩ : ∃ f, scale_factor (x2 - x1 + 1) (y2 - y1 + 1) tl tr bl br = some f := by
      unfold scale_factor
      rcases hov with h | h | h | h
      · obtain ⟨m1, h1⟩ := min_ratio_some_left _ (capacity_ratio (y2 - y1 + 1) (tl + bl)) _
          (capacity_ratio_some (x2 - x1 + 1) (tl + tr) (by omega))
        obtain ⟨m2, h2⟩ := min_ratio_some_left _ (capacity_ratio (x2 - x1 + 1) (bl + br)) _ h1
        exact min_ratio_some_left _ _ _ h2
      · obtain ⟨m2, h2⟩ := min_ratio_some_right
          (min_ratio (capacity_ratio (x2 - x1 + 1) (tl + tr))
            (capacity_ratio (y2 - y1 + 1) (tl + bl))) _ _
          (capacity_ratio_some (x2 - x1 + 1) (bl + br) (by omega))
        exact min_ratio_some_left _ _ _ h2
      · obtain ⟨m1, h1⟩ := min_ratio_some_right (capacity_ratio (x2 - x1 + 1) (tl + tr)) _ _
          (capacity_ratio_some (y2 - y1 + 1) (tl + bl) (by omega))
        obtain ⟨m2, h2⟩ := min_ratio_some_left _ (capacity_ratio (x2 - x1 + 1) (bl + br)) _ h1
        exact min_ratio_some_left _ _ _ h2
      · exact min_ratio_some_right _ _ _
          (capacity_ratio_some (y2 - y1 + 1) (tr + br) (by omega))
    have hpos : 0 < f := by
      unfold scale_factor at hf
      refine min_ratio_pos _ _ (min_ratio_pos _ _ (min_ratio_pos _ _ ?_ ?_) ?_) ?_ f hf
      · exact capacity_ratio_pos _ _ hW (by omega)
      · exact capacity_ratio_pos _ _ hH (by omega)
      · exact capacity_ratio_pos _ _ hW (by omega)
      · exact capacity_ratio_pos _ _ hH (by omega)
    have hlow : ∀ r, scale_factor (x2 - x1 + 1) (y2 - y1 + 1) tl tr bl br = some r → f ≤ r := by
      intro r hr
      rw [hf] at hr
      injection hr with hr
      exact hr.le
    unfold scale_factor at hlow
    obtain ⟨h123, h4⟩ := min_ratio_lower _ _ f hlow
    obtain ⟨h12, h3⟩ := min_ratio_lower _ _ f h123
    obtain ⟨h1, h2⟩ := min_ratio_lower _ _ f h12
    refine ⟨f, hf, ?_, scaled_pair_fits _ tl tr f hW htl htr h1,
      scaled_pair_fits _ bl br f hW hbl hbr h3, scaled_pair_fits _ tl bl f hH htl hbl h2,
      scaled_pair_fits _ tr br f hH htr hbr h4⟩
    rw [hf, exact_ops_scaled tl f htl hpos.le, exact_ops_scaled tr f htr hpos.le,
      exact_ops_scaled bl f hbl hpos.le, exact_ops_scaled br f hbr hpos.le]
  · intro hov
    rw [if_neg hov]

theorem round_rect_radii_scaled_witness :
    (1 : Int) ≤ 9 - 0 + 1 ∧ (1 : Int) ≤ 5 - 0 + 1 ∧
    round_rect_radii exact_ops 0 0 9 5 4 (-1) 8 0 (-1) = (2, 4, 0, 2) :=
  ⟨by decide, by decide,
    ((round_rect_radii_scaled 0 0 9 5 4 (-1) 8 0 (-1) 4 8 0 4 (by decide) (by decide)
      (by decide) (by decide) (by decide) (by decide) (by decide) (by decide) (by decide)
      (by decide)).1 (by decide)).elim (fun f hf => by
        have h : scale_factor (9 - 0 + 1) (5 - 0 + 1) 4 8 0 4 = some (1 / 2) := by
          norm_num [scale_factor, capacity_ratio, min_ratio]
        rw [h] at hf
        obtain ⟨h1, h2, -⟩ := hf
        injection h1 with h1
        subst h1
        rw [h2]
        norm_num)⟩

/-! ## Polygons on one row -/

/-- On three points of one row `draw_filltri` draws one span, from the first point
to the second one, or to the third one when the first two coincide and the third
differs; the only property of the `float` operations used is that `0 * d`
converts to the integer 0. -/
theorem draw_filltri_flat {D : Type} (ops : DoubleOps D)
    (hz : ∀ d, ops.toInt (ops.toFloat (ops.mul (ops.ofInt 0) d)) = 0)
    (surf : Surface) (clip : SDL_Rect) (color : Nat) (da : DrawnArea) (x0 x1 x2 y : Int) :
    draw_filltri ops surf clip [x0, x1, x2] [y, y, y] color da =
      drawhorzlineclipbounding surf clip color x0 y
        (if x0 = x1 ∧ x1 ≠ x2 then x2 else x1) da := by
  unfold draw_filltri
  have h1 : (y + 1 - y).toNat = 1 := by omega
  by_cases hd : x0 = x1 ∧ x1 ≠ x2
  · simp [hd, h1, for_loop, hz]
  · simp [hd, h1, for_loop, hz]

theorem rat_ops_zero_mul (d : Rat) :
    rat_ops.toInt (rat_ops.toFloat (rat_ops.mul (rat_ops.ofInt 0) d)) = 0 := by
  simp [rat_ops]

set_option maxRecDepth 100000 in
/-- C16 at the failing input: on a 20x20 buffer clipped to the whole buffer, the
filled polygon `[(0,0),(5,0),(10,0)]`, three points on row 0, is routed to
`draw_filltri`, which stores only the pixels `(0,0)` to `(5,0)` and returns the
rectangle `(0, 0, 6, 1)`: the pixels `(6,0)` to `(10,0)` of the span from the
smallest to the largest x are missing.  The same row given as the four points
`[(0,0),(5,0),(10,0),(5,0)]` is routed to `draw_fillpoly`, which stores the whole
span `(0,0)` to `(10,0)`. -/
theorem polygon_flat_triangle :
    returned_log (polygon rat_ops (Surface.blank 20 20 4) (SDL_Rect.whole 20 20) 7
      [(0, 0), (5, 0), (10, 0)] 0 [0, 0, 0]) =
      some [(5, 0), (4, 0), (3, 0), (2, 0), (1, 0), (0, 0)] ∧
    returned_rect (polygon rat_ops (Surface.blank 20 20 4) (SDL_Rect.whole 20 20) 7
      [(0, 0), (5, 0), (10, 0)] 0 [0, 0, 0]) = some ⟨0, 0, 6, 1⟩ ∧
    returned_log (polygon rat_ops (Surface.blank 20 20 4) (SDL_Rect.whole 20 20) 7
      [(0, 0), (5, 0), (10, 0), (5, 0)] 0 [0, 0, 0, 0]) =
      some [(10, 0), (9, 0), (8, 0), (7, 0), (6, 0), (5, 0), (4, 0), (3, 0), (2, 0), (1, 0),
        (0, 0)] := by
  have h : polygon rat_ops (Surface.blank 20 20 4) (SDL_Rect.whole 20 20) 7
      [(0, 0), (5, 0), (10, 0)] 0 [0, 0, 0] =
      some (.ok ((drawhorzlineclipbounding (Surface.blank 20 20 4) (SDL_Rect.whole 20 20) 7 0 0
          5 DrawnArea.init).1,
        return_rect (drawhorzlineclipbounding (Surface.blank 20 20 4) (SDL_Rect.whole 20 20) 7
          0 0 5 DrawnArea.init).2 0 0)) := by
    have ht := draw_filltri_flat rat_ops rat_ops_zero_mul (Surface.blank 20 20 4)
      (SDL_Rect.whole 20 20) 7 DrawnArea.init 0 5 10 0
    rw [if_neg (by decide)] at ht
    unfold polygon
    rw [if_neg (by decide), if_neg (by decide), if_neg (by decide)]
    simp only [List.map, List.length_cons, List.length_nil]
    rw [if_neg (by decide), ht]
    rfl
  rw [h]
  decide

/-! ## Intersections of a scanline with a polygon -/

/-- A loop that adds one to its counter exactly at the indices `i` where a
two-valued labelling `a` of the vertices changes between vertex `i - 1` (cyclically)
and vertex `i` ends with an even counter: after `k >= 1` iterations the parity of
the counter tells whether the labels of vertex `n - 1` and vertex `k - 1` differ. -/
theorem cyclic_change_count {α : Type} (n : Nat) (a : Nat → Bool)
    (body : Int → α × Nat → α × Nat)
    (hstep : ∀ (i : Nat) (st : α × Nat), i < n →
      (body (i : Int) st).2 =
        st.2 + (if a (if i ≠ 0 then i - 1 else n - 1) = a i then 0 else 1))
    (s0 : α) :
    ∀ k, k ≤ n → (for_loop 0 k body (s0, 0)).2 ≤ k ∧
      (1 ≤ k → (for_loop 0 k body (s0, 0)).2 % 2 = if a (n - 1) = a (k - 1) then 0 else 1) := by
  intro k
  induction k with
  | zero =>
    intro _
    exact ⟨Nat.le_refl _, fun h => absurd h (by decide)⟩
  | succ k ih =>
    intro hk
    obtain ⟨ih1, ih2⟩ := ih (by omega)
    rw [for_loop_succ, Int.zero_add, hstep k _ (by omega)]
    constructor
    · split_ifs <;> omega
    · intro _
      by_cases hk0 : k = 0
      · subst hk0
        simp only [for_loop_zero, ne_eq, not_true_eq_false, if_false, Nat.zero_add,
          Nat.sub_self]
        split_ifs <;> rfl
      · have ih2 := ih2 (by omega)
        simp only [ne_eq, hk0, not_false_eq_true, if_true, Nat.add_sub_cancel]
        cases h1 : a (n - 1) <;> cases h2 : a (k - 1) <;> cases h3 : a k <;>
          simp [h1, h2] at ih2 ⊢ <;> omega

theorem for_loop_max_ge (f : Nat → Int) (k : Nat) :
    f 0 ≤ for_loop 1 k (fun i m => MAX m (f i.toNat)) (f 0) ∧
    ∀ j, 1 ≤ j → j ≤ k → f j ≤ for_loop 1 k (fun i m => MAX m (f i.toNat)) (f 0) := by
  induction k with
  | zero => exact ⟨le_refl _, fun j h1 h2 => by omega⟩
  | succ k ih =>
    rw [for_loop_succ]
    have h : ((1 : Int) + (k : Int)).toNat = k + 1 := by omega
    rw [h, MAX_eq]
    refine ⟨le_trans ih.1 (le_max_left _ _), fun j h1 h2 => ?_⟩
    by_cases hj : j = k + 1
    · subst hj; exact le_max_right _ _
    · exact le_trans (ih.2 j h1 (by omega)) (le_max_left _ _)

/-- The body of the loop of `fillpoly_intersections`, in normal form: for edge `i`
and counter `c` it either leaves the state alone or stores one value at index `c`
and increments the counter; which of the two depends only on whether vertex
`i - 1` (cyclically) and vertex `i` lie on different sides of the scanline, where
the side of a vertex is `y < point_y` for a scanline below `maxy` and
`maxy <= point_y` for the scanline `maxy`. -/
theorem fillpoly_edge_normal_form (point_x point_y : List Int) (n : Nat) (maxy y : Int)
    (hmax : ∀ j, j < n → point_y.getD j 0 ≤ maxy) :
    ∃ body : Int → List Int × Nat → List Int × Nat,
      (∀ xi, fillpoly_intersections point_x point_y n maxy y xi = for_loop 0 n body (xi, 0)) ∧
      ∀ (i c : Nat), i < n → ∃ v : Int, ∀ l : List Int,
        body (i : Int) (l, c) =
          if decide (if y = maxy then maxy ≤ point_y.getD (if i ≠ 0 then i - 1 else n - 1) 0
              else y < point_y.getD (if i ≠ 0 then i - 1 else n - 1) 0) =
            decide (if y = maxy then maxy ≤ point_y.getD i 0 else y < point_y.getD i 0)
          then (l, c) else (l.set c v, c + 1) := by
  refine ⟨_, fun xi => rfl, ?_⟩
  intro i c hi
  have h1 := hmax (if i ≠ 0 then i - 1 else n - 1) (by split_ifs <;> omega)
  have h2 := hmax i hi
  simp only [Int.toNat_ofNat]
  generalize point_y.getD (if i ≠ 0 then i - 1 else n - 1) 0 = y1 at h1 ⊢
  generalize point_y.getD i 0 = y2 at h2 ⊢
  generalize point_x.getD (if i ≠ 0 then i - 1 else n - 1) 0 = x1
  generalize point_x.getD i 0 = x2
  have ha : (decide (if y = maxy then maxy ≤ y1 else y < y1) =
      decide (if y = maxy then maxy ≤ y2 else y < y2)) ↔
      ¬ ((y1 < y2 ∧ ((y ≥ y1 ∧ y < y2) ∨ (y = maxy ∧ y2 = maxy))) ∨
        (y2 < y1 ∧ ((y ≥ y2 ∧ y < y1) ∨ (y = maxy ∧ y1 = maxy)))) := by
    rw [decide_eq_decide]
    by_cases hy : y = maxy
    · rw [if_pos hy, if_pos hy]; omega
    · rw [if_neg hy, if_neg hy]; omega
  by_cases he : y1 = y2
  · refine ⟨0, fun l => ?_⟩
    subst he
    simp
  · by_cases hlt : y1 < y2
    · by_cases hc : (y ≥ y1 ∧ y < y2) ∨ (y = maxy ∧ y2 = maxy)
      · refine ⟨(if c % 2 = 0 then ((y - y1) * (x2 - x1)) / (y2 - y1)
          else -((-((y - y1) * (x2 - x1))) / (y2 - y1))) + x1, fun l => ?_⟩
        simp only [if_neg he, if_pos hlt, if_pos hc]
        rw [if_neg (fun h => ha.mp h (Or.inl ⟨hlt, hc⟩))]
      · refine ⟨0, fun l => ?_⟩
        simp only [if_neg he, if_pos hlt, if_neg hc]
        rw [if_pos (ha.mpr (by omega))]
    · by_cases hc : (y ≥ y2 ∧ y < y1) ∨ (y = maxy ∧ y1 = maxy)
      · refine ⟨(if c % 2 = 0 then ((y - y2) * (x1 - x2)) / (y1 - y2)
          else -((-((y - y2) * (x1 - x2))) / (y1 - y2))) + x2, fun l => ?_⟩
        simp only [if_neg he, if_neg hlt, if_pos hc]
        rw [if_neg (fun h => ha.mp h (Or.inr ⟨by omega, hc⟩))]
      · refine ⟨0, fun l => ?_⟩
        simp only [if_neg he, if_neg hlt, if_neg hc]
        rw [if_pos (ha.mpr (by omega))]

theorem take_succ_set (l : List Int) (c : Nat) (v : Int) (h : c < l.length) :
    (l.set c v).take (c + 1) = l.take c ++ [v] := by
  rw [List.take_succ, List.getElem?_set_self h, List.set_take,
    List.set_eq_of_length_le (by simp)]
  rfl

/-- A loop whose body either leaves its buffer alone or stores a value at the
index given by its counter and increments the counter, the choice and the value
not depending on the buffer: started on two buffers of `n` entries it ends with
the same counter and the same entries below the counter. -/
theorem for_loop_buffer_independent (n : Nat) (body : Int → List Int × Nat → List Int × Nat)
    (skip : Nat → Prop) [DecidablePred skip]
    (hstep : ∀ (i c : Nat), i < n → ∃ v : Int, ∀ l : List Int,
      body (i : Int) (l, c) = if skip i then (l, c) else (l.set c v, c + 1))
    (xi xi2 : List Int) (hl : xi.length = n) (hl2 : xi2.length = n) :
    ∀ k, k ≤ n →
      (for_loop 0 k body (xi2, 0)).2 = (for_loop 0 k body (xi, 0)).2 ∧
      (for_loop 0 k body (xi, 0)).2 ≤ k ∧
      (for_loop 0 k body (xi, 0)).1.length = n ∧
      (for_loop 0 k body (xi2, 0)).1.length = n ∧
      (for_loop 0 k body (xi2, 0)).1.take (for_loop 0 k body (xi, 0)).2 =
        (for_loop 0 k body (xi, 0)).1.take (for_loop 0 k body (xi, 0)).2 := by
  intro k
  induction k with
  | zero =>
    intro _
    exact ⟨rfl, Nat.le_refl _, hl, hl2, rfl⟩
  | succ k ih =>
    intro hk
    obtain ⟨e, hle, h1, h2, ht⟩ := ih (by omega)
    rw [for_loop_succ, for_loop_succ, Int.zero_add]
    generalize for_loop 0 k body (xi, 0) = s at *
    generalize for_loop 0 k body (xi2, 0) = s2 at *
    obtain ⟨l, c⟩ := s
    obtain ⟨l2, c2⟩ := s2
    simp only at e hle h1 h2 ht
    subst e
    obtain ⟨v, hv⟩ := hstep k c2 (by omega)
    rw [hv l, hv l2]
    by_cases hs : skip k
    · rw [if_pos hs, if_pos hs]
      exact ⟨rfl, by simp only; omega, h1, h2, ht⟩
    · rw [if_neg hs, if_neg hs]
      refine ⟨rfl, by simp only; omega, by simp [h1], by simp [h2], ?_⟩
      simp only
      rw [take_succ_set l2 c2 v (by omega), take_succ_set l c2 v (by omega), ht]

/-- C15: for every vertex list and every scanline `y`, with `maxy` the largest
vertex y that `draw_fillpoly` computes, the number of intersections the inner loop
of `draw_fillpoly` collects is even and at most `n`; hence the pairing loop, which
reads the entries `i` and `i + 1` for even `i` below that number, stays below it,
and on a buffer of `n` entries those entries do not depend on what the buffer held
before the scanline: they were all stored for this scanline. -/
theorem fillpoly_intersections_even (point_x point_y : List Int) (n : Nat) (y : Int)
    (x_intersect other : List Int) (hl : x_intersect.length = n) (hl2 : other.length = n) :
    (fillpoly_intersections point_x point_y n
      (for_loop 1 (n - 1) (fun i m => MAX m (point_y.getD i.toNat 0)) (point_y.getD 0 0))
      y x_intersect).2 % 2 = 0 ∧
    (fillpoly_intersections point_x point_y n
      (for_loop 1 (n - 1) (fun i m => MAX m (point_y.getD i.toNat 0)) (point_y.getD 0 0))
      y x_intersect).2 ≤ n ∧
    (∀ i, i % 2 = 0 → i < (fillpoly_intersections point_x point_y n
      (for_loop 1 (n - 1) (fun i m => MAX m (point_y.getD i.toNat 0)) (point_y.getD 0 0))
      y x_intersect).2 → i + 1 < (fillpoly_intersections point_x point_y n
      (for_loop 1 (n - 1) (fun i m => MAX m (point_y.getD i.toNat 0)) (point_y.getD 0 0))
      y x_intersect).2) ∧
    (fillpoly_intersections point_x point_y n
      (for_loop 1 (n - 1) (fun i m => MAX m (point_y.getD i.toNat 0)) (point_y.getD 0 0))
      y other).2 = (fillpoly_intersections point_x point_y n
      (for_loop 1 (n - 1) (fun i m => MAX m (point_y.getD i.toNat 0)) (point_y.getD 0 0))
      y x_intersect).2 ∧
    (fillpoly_intersections point_x point_y n
      (for_loop 1 (n - 1) (fun i m => MAX m (point_y.getD i.toNat 0)) (point_y.getD 0 0))
      y other).1.take (fillpoly_intersections point_x point_y n
      (for_loop 1 (n - 1) (fun i m => MAX m (point_y.getD i.toNat 0)) (point_y.getD 0 0))
      y x_intersect).2 = (fillpoly_intersections point_x point_y n
      (for_loop 1 (n - 1) (fun i m => MAX m (point_y.getD i.toNat 0)) (point_y.getD 0 0))
      y x_intersect).1.take (fillpoly_intersections point_x point_y n
      (for_loop 1 (n - 1) (fun i m => MAX m (point_y.getD i.toNat 0)) (point_y.getD 0 0))
      y x_intersect).2 := by
  have hmax : ∀ j, j < n → point_y.getD j 0 ≤
      for_loop 1 (n - 1) (fun i m => MAX m (point_y.getD i.toNat 0)) (point_y.getD 0 0) := by
    intro j hj
    have h := for_loop_max_ge (fun i => point_y.getD i 0) (n - 1)
    by_cases h0 : j = 0
    · subst h0; exact h.1
    · exact h.2 j (by omega) (by omega)
  generalize for_loop 1 (n - 1) (fun i m => MAX m (point_y.getD i.toNat 0))
    (point_y.getD 0 0) = maxy at hmax ⊢
  obtain ⟨body, hbody, hstep⟩ := fillpoly_edge_normal_form point_x point_y n maxy y hmax
  rw [hbody x_intersect, hbody other]
  have hpar := cyclic_change_count n
    (fun j => decide (if y = maxy then maxy ≤ point_y.getD j 0 else y < point_y.getD j 0))
    body (fun i st hi => by
      obtain ⟨v, hv⟩ := hstep i st.2 hi
      have h := hv st.1
      simp only [Prod.mk.eta] at h
      rw [h]
      split_ifs <;> rfl) x_intersect n (Nat.le_refl _)
  have hind := for_loop_buffer_independent n body _ hstep x_intersect other hl hl2 n
    (Nat.le_refl _)
  have heven : (for_loop 0 n body (x_intersect, 0)).2 % 2 = 0 := by
    by_cases hn : n = 0
    · subst hn; rfl
    · have h := hpar.2 (by omega)
      rw [h, if_pos rfl]
  refine ⟨heven, hpar.1, fun i hi hlt => by omega, hind.1, hind.2.2.2.2⟩

theorem fillpoly_intersections_even_witness :
    ([0, 0, 0, 0] : List Int).length = 4 ∧ ([9, 8, 7, 6] : List Int).length = 4 ∧
    (fillpoly_intersections [0, 4, 4, 0] [0, 0, 4, 4] 4
      (for_loop 1 (4 - 1) (fun i m => MAX m (([0, 0, 4, 4] : List Int).getD i.toNat 0))
        (([0, 0, 4, 4] : List Int).getD 0 0))
      2 [0, 0, 0, 0]).2 % 2 = 0 :=
  ⟨by decide, by decide,
    (fillpoly_intersections_even [0, 4, 4, 0] [0, 0, 4, 4] 4 2 [0, 0, 0, 0] [9, 8, 7, 6]
      (by decide) (by decide)).1⟩

/-! ## Exact logs of loops -/

theorem for_loop_drawn_exact (clip : SDL_Rect) (color : Nat)
    (body : Int → Surface × DrawnArea → Surface × DrawnArea)
    (logf : Int → List (Int × Int))
    (hb : ∀ i s, valid_depth s.1 → Drawn clip color (logf i) s (body i s)) :
    ∀ (n : Nat) (lo : Int) (s : Surface × DrawnArea), valid_depth s.1 →
      ∃ log, Drawn clip color log s (for_loop lo n body s) ∧
        ∀ p, p ∈ log ↔ ∃ k : Nat, k < n ∧ p ∈ logf (lo + k) := by
  intro n
  induction n with
  | zero =>
    intro lo s _
    exact ⟨[], Drawn.refl _ _ _, fun p => by simp⟩
  | succ n ih =>
    intro lo s hv
    obtain ⟨log, hd, hm⟩ := ih lo s hv
    rw [for_loop_succ]
    refine ⟨logf (lo + n) ++ log, hd.trans (hb _ _ (hd.valid hv)), fun p => ?_⟩
    rw [List.mem_append, hm]
    constructor
    · rintro (h | ⟨k, hk, h⟩)
      · exact ⟨n, by omega, h⟩
      · exact ⟨k, by omega, h⟩
    · rintro ⟨k, hk, h⟩
      by_cases hkn : k = n
      · subst hkn; exact Or.inl h
      · exact Or.inr ⟨k, by omega, h⟩

theorem for_loop_replay_exact (color : Nat) (body : Int → Surface → Surface)
    (logf : Int → List (Int × Int))
    (hb : ∀ i s, valid_depth s → body i s = replay color (logf i) s) :
    ∀ (n : Nat) (lo : Int) (s : Surface), valid_depth s →
      ∃ log, for_loop lo n body s = replay color log s ∧
        ∀ p, p ∈ log ↔ ∃ k : Nat, k < n ∧ p ∈ logf (lo + k) := by
  intro n
  induction n with
  | zero =>
    intro lo s _
    exact ⟨[], rfl, fun p => by simp⟩
  | succ n ih =>
    intro lo s hv
    obtain ⟨log, hd, hm⟩ := ih lo s hv
    rw [for_loop_succ, hd, hb _ _ (valid_depth_replay color log s hv), ← replay_append]
    refine ⟨logf (lo + n) ++ log, rfl, fun p => ?_⟩
    rw [List.mem_append, hm]
    constructor
    · rintro (h | ⟨k, hk, h⟩)
      · exact ⟨n, by omega, h⟩
      · exact ⟨k, by omega, h⟩
    · rintro ⟨k, hk, h⟩
      by_cases hkn : k = n
      · subst hkn; exact Or.inl h
      · exact Or.inr ⟨k, by omega, h⟩

/-! ## Rectangle frames -/

/-- The function `draw_rect` stores exactly the pixels of the `width`-pixel frame
that lie inside the clip rectangle. -/
theorem draw_rect_log (surf : Surface) (clip : SDL_Rect) (x1 y1 x2 y2 width : Int)
    (color : Nat) (hv : valid_depth surf) (hx : x1 ≤ x2) (hw : 1 ≤ width)
    (hwx : 2 * width ≤ x2 - x1 + 1) (hwy : 2 * width ≤ y2 - y1 + 1) :
    ∃ log, draw_rect surf clip x1 y1 x2 y2 width color = replay color log surf ∧
      ∀ p, p ∈ log ↔ in_frame x1 y1 x2 y2 width p ∧ inside clip p := by
  unfold draw_rect
  obtain ⟨log1, h1, hm1⟩ := for_loop_replay_exact color
    (fun i s =>
      let s := drawhorzlineclip s clip color x1 (y1 + i) x2
      drawhorzlineclip s clip color x1 (y2 - i) x2)
    (fun i => clipped_span clip x1 (y2 - i) x2 ++ clipped_span clip x1 (y1 + i) x2)
    (fun i s hs => by
      simp only
      rw [drawhorzlineclip_log s clip color x1 (y1 + i) x2 hs,
        drawhorzlineclip_log _ clip color x1 (y2 - i) x2 (valid_depth_replay _ _ _ hs),
        ← replay_append])
    width.toNat 0 surf hv
  obtain ⟨log2, h2, hm2⟩ := for_loop_replay_exact color
    (fun i s =>
      let s := drawhorzlineclip s clip color x1 (y1 + width + i) (x1 + width - 1)
      drawhorzlineclip s clip color (x2 - width + 1) (y1 + width + i) x2)
    (fun i => clipped_span clip (x2 - width + 1) (y1 + width + i) x2 ++
      clipped_span clip x1 (y1 + width + i) (x1 + width - 1))
    (fun i s hs => by
      simp only
      rw [drawhorzlineclip_log s clip color x1 (y1 + width + i) (x1 + width - 1) hs,
        drawhorzlineclip_log _ clip color (x2 - width + 1) (y1 + width + i) x2
          (valid_depth_replay _ _ _ hs),
        ← replay_append])
    ((y2 - y1) - 2 * width + 1).toNat 0 (replay color log1 surf)
    (valid_depth_replay _ _ _ hv)
  simp only at h1 h2 ⊢
  rw [h1, h2, ← replay_append]
  refine ⟨log2 ++ log1, rfl, fun p => ?_⟩
  rw [List.mem_append, hm1, hm2]
  unfold in_frame inside
  constructor
  · rintro (⟨k, hk, h⟩ | ⟨k, hk, h⟩)
    · rw [List.mem_append, mem_clipped_span, mem_clipped_span] at h
      unfold inside at h
      omega
    · rw [List.mem_append, mem_clipped_span, mem_clipped_span] at h
      unfold inside at h
      omega
  · intro h
    by_cases hband : y1 + width ≤ p.2 ∧ p.2 ≤ y2 - width
    · refine Or.inl ⟨(p.2 - (y1 + width)).toNat, by omega, ?_⟩
      rw [List.mem_append, mem_clipped_span, mem_clipped_span]
      unfold inside
      omega
    · by_cases htop : p.2 < y1 + width
      · refine Or.inr ⟨(p.2 - y1).toNat, by omega, ?_⟩
        rw [List.mem_append, mem_clipped_span, mem_clipped_span]
        unfold inside
        omega
      · refine Or.inr ⟨(y2 - p.2).toNat, by omega, ?_⟩
        rw [List.mem_append, mem_clipped_span, mem_clipped_span]
        unfold inside
        omega

/-! ## Axis-aligned wide lines -/

theorem draw_line_width_xinc_body_exact (clip : SDL_Rect) (color : Nat)
    (width extra_width dx dy sx sy : Int) (s : LineState) (hv : valid_depth s.surf) :
    ∃ new s1, Drawn clip color new (s.surf, s.drawn_area) (s1.surf, s1.drawn_area) ∧
      s1.x1 = s.x1 ∧ s1.y1 = s.y1 ∧ s1.err = s.err ∧
      draw_line_width_xinc_body clip color width extra_width dx dy sx sy s =
        bresenham_step dx dy sx sy s1 ∧
      ∀ p : Int × Int, p ∈ new ↔ (p.2 = s.y1 ∧ s.x1 - width + extra_width ≤ p.1 ∧
        p.1 ≤ s.x1 + width ∧ inside clip p) := by
  unfold draw_line_width_xinc_body
  simp only [MIN_eq, MAX_eq]
  by_cases h1 : clip.y ≤ s.y1 ∧ s.y1 ≤ clip.y + clip.h - 1
  · by_cases h2 : max (s.x1 - width + extra_width) clip.x ≤
        min (clip.x + clip.w - 1) (s.x1 + width)
    · rw [if_pos h1, if_pos h2]
      refine ⟨span_log (max (s.x1 - width + extra_width) clip.x)
        (min (clip.x + clip.w - 1) (s.x1 + width) + 1 -
          max (s.x1 - width + extra_width) clip.x).toNat s.y1, _, ?_, ?_, ?_, ?_, rfl, ?_⟩
      · exact drawhorzline_drawn s.surf clip color _ s.y1 _ s.drawn_area hv h2
          (by omega) (by omega) (by omega)
      · rfl
      · rfl
      · rfl
      · intro p
        rw [mem_span_log]
        unfold inside
        constructor
        · intro h; omega
        · intro h; omega
    · rw [if_pos h1, if_neg h2]
      refine ⟨[], s, Drawn.refl _ _ _, rfl, rfl, rfl, rfl, fun p => ?_⟩
      simp only [List.not_mem_nil, false_iff]
      unfold inside
      intro h; omega
  · rw [if_neg h1]
    refine ⟨[], s, Drawn.refl _ _ _, rfl, rfl, rfl, rfl, fun p => ?_⟩
    simp only [List.not_mem_nil, false_iff]
    unfold inside
    intro h; omega

theorem draw_line_width_yinc_body_exact (clip : SDL_Rect) (color : Nat)
    (width extra_width dx dy sx sy : Int) (s : LineState) (hv : valid_depth s.surf) :
    ∃ new s1, Drawn clip color new (s.surf, s.drawn_area) (s1.surf, s1.drawn_area) ∧
      s1.x1 = s.x1 ∧ s1.y1 = s.y1 ∧ s1.err = s.err ∧
      draw_line_width_yinc_body clip color width extra_width dx dy sx sy s =
        bresenham_step dx dy sx sy s1 ∧
      ∀ p : Int × Int, p ∈ new ↔ (p.1 = s.x1 ∧ s.y1 - width + extra_width ≤ p.2 ∧
        p.2 ≤ s.y1 + width ∧ inside clip p) := by
  unfold draw_line_width_yinc_body
  simp only [MIN_eq, MAX_eq]
  by_cases h1 : clip.x ≤ s.x1 ∧ s.x1 ≤ clip.x + clip.w - 1
  · by_cases h2 : max (s.y1 - width + extra_width) clip.y ≤
        min (clip.y + clip.h - 1) (s.y1 + width)
    · rw [if_pos h1, if_pos h2]
      refine ⟨vspan_log s.x1 (max (s.y1 - width + extra_width) clip.y)
        (min (clip.y + clip.h - 1) (s.y1 + width) + 1 -
          max (s.y1 - width + extra_width) clip.y).toNat, _, ?_, ?_, ?_, ?_, rfl, ?_⟩
      · exact drawvertline_drawn s.surf clip color _ s.x1 _ s.drawn_area hv h2
          (by omega) (by omega) (by omega)
      · rfl
      · rfl
      · rfl
      · intro p
        rw [mem_vspan_log]
        unfold inside
        constructor
        · intro h; omega
        · intro h; omega
    · rw [if_pos h1, if_neg h2]
      refine ⟨[], s, Drawn.refl _ _ _, rfl, rfl, rfl, rfl, fun p => ?_⟩
      simp only [List.not_mem_nil, false_iff]
      unfold inside
      intro h; omega
  · rw [if_neg h1]
    refine ⟨[], s, Drawn.refl _ _ _, rfl, rfl, rfl, rfl, fun p => ?_⟩
    simp only [List.not_mem_nil, false_iff]
    unfold inside
    intro h; omega

/-- The second loop of `draw_line_width` on a horizontal line from left to right:
it returns and stores exactly the pixels of the band around row `y` that lie inside
the clip rectangle. -/
theorem draw_line_width_hband_loop (surf : Surface) (clip : SDL_Rect) (color : Nat)
    (x1 y x2 width extra_width dx sy err0 : Int) (da : DrawnArea) (fuel : Nat)
    (hv : valid_depth surf) (hdx : 0 < dx) (he : 0 ≤ err0) (hx2 : x2 = x1 + dx)
    (hf : (dx + 1).toNat ≤ fuel) :
    ∃ new r,
      while_loop (fun s => decide (s.x1 ≠ x2 + 1))
        (draw_line_width_yinc_body clip color width extra_width dx 0 1 sy)
        fuel ⟨surf, da, x1, y, err0⟩ = some r ∧
      Drawn clip color new (surf, da) (r.surf, r.drawn_area) ∧
      ∀ p : Int × Int, p ∈ new ↔ (x1 ≤ p.1 ∧ p.1 ≤ x2 ∧ y - width + extra_width ≤ p.2 ∧
        p.2 ≤ y + width ∧ inside clip p) := by
  have key := while_loop_terminates
    (fun s : LineState => decide (s.x1 ≠ x2 + 1))
    (draw_line_width_yinc_body clip color width extra_width dx 0 1 sy)
    (fun s => valid_depth s.surf ∧ s.y1 = y ∧ s.err = err0 ∧ x1 ≤ s.x1 ∧ s.x1 ≤ x2 + 1 ∧
      ∃ new, Drawn clip color new (surf, da) (s.surf, s.drawn_area) ∧
        ∀ p : Int × Int, p ∈ new ↔ (x1 ≤ p.1 ∧ p.1 < s.x1 ∧ y - width + extra_width ≤ p.2 ∧
          p.2 ≤ y + width ∧ inside clip p))
    (fun s => (x2 + 1 - s.x1).toNat)
    (by
      intro s ⟨hvs, hy, herr, hlo, hhi, new, hdr, hm⟩ hc
      obtain ⟨n1, s1, hd1, e1, e2, e3, heq, hm1⟩ :=
        draw_line_width_yinc_body_exact clip color width extra_width dx 0 1 sy s hvs
      obtain ⟨f1, f2⟩ := bresenham_step_frame dx 0 1 sy s1
      obtain ⟨bx, by1, be⟩ := bresenham_step_eq dx 0 1 sy s1
      simp only [decide_eq_true_eq] at hc
      have c1 : s.err > -dx := by omega
      have c2 : ¬ s.err < 0 := by omega
      rw [heq, f1, f2, bx, by1, be, e1, e2, e3, if_pos c1, if_neg c2]
      refine ⟨hd1.valid hvs, hy, by omega, by omega, by omega, n1 ++ new, hdr.trans hd1,
        fun p => ?_⟩
      rw [List.mem_append, hm, hm1, hy]
      unfold inside
      constructor
      · intro h; omega
      · intro h; omega)
    (by
      intro s ⟨hvs, hy, herr, hlo, hhi, _⟩ hc
      obtain ⟨n1, s1, hd1, e1, e2, e3, heq, hm1⟩ :=
        draw_line_width_yinc_body_exact clip color width extra_width dx 0 1 sy s hvs
      obtain ⟨bx, by1, be⟩ := bresenham_step_eq dx 0 1 sy s1
      simp only [decide_eq_true_eq] at hc
      have c1 : s.err > -dx := by omega
      simp only
      rw [heq, bx, e1, e3, if_pos c1]
      omega)
    fuel ⟨surf, da, x1, y, err0⟩
    ⟨hv, rfl, rfl, le_refl _, by simp only; omega, [], Drawn.refl _ _ _, fun p => by
      simp only [List.not_mem_nil, false_iff]; intro h; omega⟩
    (by simp only; omega)
  obtain ⟨r, hr, ⟨_, _, _, _, _, new, hdr, hm⟩, hc⟩ := key
  simp only [decide_eq_false_iff_not, not_not] at hc
  refine ⟨new, r, hr, hdr, fun p => ?_⟩
  rw [hm, hc]
  unfold inside
  constructor
  · intro h; omega
  · intro h; omega

/-- The first loop of `draw_line_width` on a vertical line from top to bottom: it
returns and stores exactly the pixels of the band around column `x` that lie inside
the clip rectangle. -/
theorem draw_line_width_vband_loop (surf : Surface) (clip : SDL_Rect) (color : Nat)
    (x y1 y2 width extra_width dy sx err0 : Int) (da : DrawnArea) (fuel : Nat)
    (hv : valid_depth surf) (hdy : 0 < dy) (he : err0 ≤ 0) (he2 : -dy < err0)
    (hy2 : y2 = y1 + dy) (hf : (dy + 1).toNat ≤ fuel) :
    ∃ new r,
      while_loop (fun s => decide (s.y1 ≠ y2 + 1))
        (draw_line_width_xinc_body clip color width extra_width 0 dy sx 1)
        fuel ⟨surf, da, x, y1, err0⟩ = some r ∧
      Drawn clip color new (surf, da) (r.surf, r.drawn_area) ∧
      ∀ p : Int × Int, p ∈ new ↔ (y1 ≤ p.2 ∧ p.2 ≤ y2 ∧ x - width + extra_width ≤ p.1 ∧
        p.1 ≤ x + width ∧ inside clip p) := by
  have key := while_loop_terminates
    (fun s : LineState => decide (s.y1 ≠ y2 + 1))
    (draw_line_width_xinc_body clip color width extra_width 0 dy sx 1)
    (fun s => valid_depth s.surf ∧ s.x1 = x ∧ s.err = err0 ∧ y1 ≤ s.y1 ∧ s.y1 ≤ y2 + 1 ∧
      ∃ new, Drawn clip color new (surf, da) (s.surf, s.drawn_area) ∧
        ∀ p : Int × Int, p ∈ new ↔ (y1 ≤ p.2 ∧ p.2 < s.y1 ∧ x - width + extra_width ≤ p.1 ∧
          p.1 ≤ x + width ∧ inside clip p))
    (fun s => (y2 + 1 - s.y1).toNat)
    (by
      intro s ⟨hvs, hx, herr, hlo, hhi, new, hdr, hm⟩ hc
      obtain ⟨n1, s1, hd1, e1, e2, e3, heq, hm1⟩ :=
        draw_line_width_xinc_body_exact clip color width extra_width 0 dy sx 1 s hvs
      obtain ⟨f1, f2⟩ := bresenham_step_frame 0 dy sx 1 s1
      obtain ⟨bx, by1, be⟩ := bresenham_step_eq 0 dy sx 1 s1
      simp only [decide_eq_true_eq] at hc
      have c1 : ¬ s.err > -0 := by omega
      have c2 : s.err < dy := by omega
      rw [heq, f1, f2, bx, by1, be, e1, e2, e3, if_neg c1, if_pos c2]
      refine ⟨hd1.valid hvs, hx, by omega, by omega, by omega, n1 ++ new, hdr.trans hd1,
        fun p => ?_⟩
      rw [List.mem_append, hm, hm1, hx]
      unfold inside
      constructor
      · intro h; omega
      · intro h; omega)
    (by
      intro s ⟨hvs, hx, herr, hlo, hhi, _⟩ hc
      obtain ⟨n1, s1, hd1, e1, e2, e3, heq, hm1⟩ :=
        draw_line_width_xinc_body_exact clip color width extra_width 0 dy sx 1 s hvs
      obtain ⟨bx, by1, be⟩ := bresenham_step_eq 0 dy sx 1 s1
      simp only [decide_eq_true_eq] at hc
      have c2 : s.err < dy := by omega
      simp only
      rw [heq, by1, e2, e3, if_pos c2]
      omega)
    fuel ⟨surf, da, x, y1, err0⟩
    ⟨hv, rfl, rfl, le_refl _, by simp only; omega, [], Drawn.refl _ _ _, fun p => by
      simp only [List.not_mem_nil, false_iff]; intro h; omega⟩
    (by simp only; omega)
  obtain ⟨r, hr, ⟨_, _, _, _, _, new, hdr, hm⟩, hc⟩ := key
  simp only [decide_eq_false_iff_not, not_not] at hc
  refine ⟨new, r, hr, hdr, fun p => ?_⟩
  rw [hm, hc]
  unfold inside
  constructor
  · intro h; omega
  · intro h; omega

theorem cdiv_cmod_two (w : Int) (h : 0 ≤ w) : cdiv w 2 = w / 2 ∧ cmod w 2 = w % 2 := by
  unfold cdiv cmod
  rw [Int.tdiv_eq_ediv h (by omega), Int.tmod_eq_emod h (by omega)]
  exact ⟨rfl, rfl⟩

theorem cdiv_neg_two (d : Int) (h : 0 ≤ d) : cdiv (-d) 2 = -(d / 2) := by
  unfold cdiv
  rw [Int.neg_tdiv, Int.tdiv_eq_ediv h (by omega)]

/-- On a horizontal line from left to right `draw_line_width` returns and stores
exactly the pixels of the band of `width` rows around row `y` that lie inside the
clip rectangle. -/
theorem draw_line_width_hband (surf : Surface) (clip : SDL_Rect) (color : Nat)
    (x1 y x2 width : Int) (da : DrawnArea) (hv : valid_depth surf) (hx : x1 < x2)
    (hw : 1 ≤ width) :
    ∃ new r, draw_line_width surf clip color x1 y x2 y width da = some r ∧
      Drawn clip color new (surf, da) r ∧
      ∀ p : Int × Int, p ∈ new ↔ (x1 ≤ p.1 ∧ p.1 ≤ x2 ∧
        y - width / 2 + (1 - width % 2) ≤ p.2 ∧ p.2 ≤ y + width / 2 ∧ inside clip p) := by
  obtain ⟨hcd, hcm⟩ := cdiv_cmod_two width (by omega)
  unfold draw_line_width
  rw [if_neg (by omega)]
  by_cases hw1 : width = 1
  · rw [if_pos hw1]
    subst hw1
    unfold draw_line
    rw [if_neg (by omega), if_pos rfl, if_pos hx]
    obtain ⟨log, hd, hm⟩ := for_loop_drawn_exact clip color
      (fun sx s => set_and_check_rect s.1 clip (x1 + 1 * sx) y color s.2)
      (fun i => if inside clip (x1 + 1 * i, y) then [(x1 + 1 * i, y)] else [])
      (fun i s hs => set_and_check_rect_drawn s.1 clip (x1 + 1 * i) y color s.2 hs)
      (abs (x1 - x2) + 1).toNat 0 (surf, da) hv
    refine ⟨log, _, rfl, hd, fun p => ?_⟩
    rw [hm]
    have habs : abs (x1 - x2) = x2 - x1 := by unfold abs; split <;> omega
    rw [habs]
    constructor
    · rintro ⟨k, hk, h⟩
      by_cases hin : inside clip (x1 + 1 * (0 + (k : Int)), y)
      · rw [if_pos hin] at h
        simp only [List.mem_singleton] at h
        subst h
        refine ⟨by simp only; omega, by simp only; omega, by simp only; omega,
          by simp only; omega, hin⟩
      · rw [if_neg hin] at h
        cases h
    · rintro ⟨h1, h2, h3, h4, hin⟩
      refine ⟨(p.1 - x1).toNat, by omega, ?_⟩
      have hp : (x1 + 1 * (0 + ((p.1 - x1).toNat : Int)), y) = p := by
        apply Prod.ext
        · simp only; omega
        · simp only; omega
      rw [hp, if_pos hin]
      exact List.mem_singleton_self p
  · rw [if_neg hw1]
    have habs1 : abs (x1 - x2) = x2 - x1 := by unfold abs; split <;> omega
    have habs2 : abs (x2 - x1) = x2 - x1 := by unfold abs; split <;> omega
    have habs0 : abs (y - y) = 0 := by unfold abs; split <;> omega
    simp only [habs1, habs2, habs0]
    have hxinc : decide (x2 - x1 ≤ 0) = false := by
      rw [decide_eq_false_iff_not]; omega
    rw [hxinc, hcd, hcm]
    by_cases hcl : clip_line clip x1 y x2 y (width / 2) false = 0
    · rw [if_pos hcl]
      refine ⟨[], _, rfl, Drawn.refl _ _ _, fun p => ?_⟩
      simp only [List.not_mem_nil, false_iff]
      unfold clip_line at hcl
      simp only [Bool.false_eq_true, if_false, MIN_eq, MAX_eq] at hcl
      unfold inside
      intro h
      split at hcl
      · omega
      · exact absurd hcl (by decide)
    · rw [if_neg hcl, if_neg (by omega)]
      simp only [Bool.false_eq_true, if_false]
      rw [if_pos hx, if_pos (by omega : x2 - x1 > 0), if_neg (by omega : ¬ y > y)]
      obtain ⟨new, r, hr, hd, hm⟩ := draw_line_width_hband_loop surf clip color x1 y x2
        (width / 2) (1 - width % 2) (x2 - x1) (-1) (cdiv (x2 - x1) 2) da
        (x2 - x1 + 0 + 2).toNat hv (by omega)
        (by rw [(cdiv_cmod_two (x2 - x1) (by omega)).1]; omega) (by omega) (by omega)
      rw [hr]
      exact ⟨new, _, rfl, hd, hm⟩

/-- On a vertical line from top to bottom `draw_line_width` returns and stores
exactly the pixels of the band of `width` columns around column `x` that lie inside
the clip rectangle. -/
theorem draw_line_width_vband (surf : Surface) (clip : SDL_Rect) (color : Nat)
    (x y1 y2 width : Int) (da : DrawnArea) (hv : valid_depth surf) (hy : y1 < y2)
    (hw : 1 ≤ width) :
    ∃ new r, draw_line_width surf clip color x y1 x y2 width da = some r ∧
      Drawn clip color new (surf, da) r ∧
      ∀ p : Int × Int, p ∈ new ↔ (y1 ≤ p.2 ∧ p.2 ≤ y2 ∧
        x - width / 2 + (1 - width % 2) ≤ p.1 ∧ p.1 ≤ x + width / 2 ∧ inside clip p) := by
  obtain ⟨hcd, hcm⟩ := cdiv_cmod_two width (by omega)
  unfold draw_line_width
  rw [if_neg (by omega)]
  by_cases hw1 : width = 1
  · rw [if_pos hw1]
    subst hw1
    unfold draw_line
    rw [if_neg (by omega), if_neg (by omega), if_pos rfl, if_pos hy]
    obtain ⟨log, hd, hm⟩ := for_loop_drawn_exact clip color
      (fun sy s => set_and_check_rect s.1 clip x (y1 + 1 * sy) color s.2)
      (fun i => if inside clip (x, y1 + 1 * i) then [(x, y1 + 1 * i)] else [])
      (fun i s hs => set_and_check_rect_drawn s.1 clip x (y1 + 1 * i) color s.2 hs)
      (abs (y1 - y2) + 1).toNat 0 (surf, da) hv
    refine ⟨log, _, rfl, hd, fun p => ?_⟩
    rw [hm]
    have habs : abs (y1 - y2) = y2 - y1 := by unfold abs; split <;> omega
    rw [habs]
    constructor
    · rintro ⟨k, hk, h⟩
      by_cases hin : inside clip (x, y1 + 1 * (0 + (k : Int)))
      · rw [if_pos hin] at h
        simp only [List.mem_singleton] at h
        subst h
        refine ⟨by simp only; omega, by simp only; omega, by simp only; omega,
          by simp only; omega, hin⟩
      · rw [if_neg hin] at h
        cases h
    · rintro ⟨h1, h2, h3, h4, hin⟩
      refine ⟨(p.2 - y1).toNat, by omega, ?_⟩
      have hp : (x, y1 + 1 * (0 + ((p.2 - y1).toNat : Int))) = p := by
        apply Prod.ext
        · simp only; omega
        · simp only; omega
      rw [hp, if_pos hin]
      exact List.mem_singleton_self p
  · rw [if_neg hw1]
    have habs1 : abs (y1 - y2) = y2 - y1 := by unfold abs; split <;> omega
    have habs2 : abs (y2 - y1) = y2 - y1 := by unfold abs; split <;> omega
    have habs0 : abs (x - x) = 0 := by unfold abs; split <;> omega
    simp only [habs1, habs2, habs0]
    have hxinc : decide (0 ≤ y2 - y1) = true := by
      rw [decide_eq_true_eq]; omega
    rw [hxinc, hcd, hcm]
    by_cases hcl : clip_line clip x y1 x y2 (width / 2) true = 0
    · rw [if_pos hcl]
      refine ⟨[], _, rfl, Drawn.refl _ _ _, fun p => ?_⟩
      simp only [List.not_mem_nil, false_iff]
      unfold clip_line at hcl
      simp only [if_true, MIN_eq, MAX_eq] at hcl
      unfold inside
      intro h
      split at hcl
      · omega
      · exact absurd hcl (by decide)
    · rw [if_neg hcl, if_neg (by omega)]
      simp only [if_true]
      rw [if_neg (by omega : ¬ x > x), if_pos hy, if_neg (by omega : ¬ (0 : Int) > y2 - y1)]
      obtain ⟨new, r, hr, hd, hm⟩ := draw_line_width_vband_loop surf clip color x y1 y2
        (width / 2) (1 - width % 2) (y2 - y1) (-1) (cdiv (-(y2 - y1)) 2) da
        (0 + (y2 - y1) + 2).toNat hv (by omega)
        (by rw [cdiv_neg_two _ (by omega)]; omega)
        (by rw [cdiv_neg_two _ (by omega)]; omega) (by omega) (by omega)
      rw [hr]
      exact ⟨new, _, rfl, hd, hm⟩

/-! ## Rounded rectangles without corners -/

theorem draw_circle_quadrant_zero (surf : Surface) (clip : SDL_Rect) (x0 y0 thickness : Int)
    (color : Nat) (top_right top_left bottom_left bottom_right : Int) (da : DrawnArea) :
    draw_circle_quadrant surf clip x0 y0 0 thickness color top_right top_left bottom_left
      bottom_right da = some (surf, da) := by
  unfold draw_circle_quadrant
  rw [if_neg (by decide)]
  by_cases ht : thickness ≠ 0
  · rw [if_pos ht]
    rfl
  · rw [if_neg ht]
    rfl

theorem round_rect_radii_zero {D : Type} (ops : DoubleOps D)
    (x1 y1 x2 y2 top_left top_right bottom_left bottom_right : Int)
    (hx : x1 ≤ x2) (hy : y1 ≤ y2) (htl : top_left ≤ 0) (htr : top_right ≤ 0)
    (hbl : bottom_left ≤ 0) (hbr : bottom_right ≤ 0) :
    round_rect_radii ops x1 y1 x2 y2 0 top_left top_right bottom_left bottom_right =
      (0, 0, 0, 0) := by
  have h : ∀ r : Int, r ≤ 0 → (if r < 0 then 0 else r) = 0 := by
    intro r hr; split <;> omega
  unfold round_rect_radii
  simp only [h _ htl, h _ htr, h _ hbl, h _ hbr]
  rw [if_neg (by omega)]

/-- C18: on a surface of valid depth, for a rectangle `x1..x2`, `y1..y2` at least 2
pixels wide and tall, a stroke width `w >= 1` with `2*w` smaller than both
dimensions and every clip rectangle, `draw_round_rect` with radius 0 and corner
radii that are unspecified (negative) or 0 returns, and both it and `draw_rect`
store exactly the pixels of the `w`-pixel frame that lie inside the clip
rectangle. -/
theorem round_rect_zero_radii_is_rect {D : Type} (ops : DoubleOps D) (surf : Surface)
    (clip : SDL_Rect) (x1 y1 x2 y2 w : Int) (color : Nat)
    (top_left top_right bottom_left bottom_right : Int) (da : DrawnArea)
    (x_intersect : List Int) (hv : valid_depth surf) (hx : x1 < x2) (hy : y1 < y2)
    (hw : 1 ≤ w) (hwx : 2 * w < x2 - x1 + 1) (hwy : 2 * w < y2 - y1 + 1)
    (htl : top_left ≤ 0) (htr : top_right ≤ 0) (hbl : bottom_left ≤ 0)
    (hbr : bottom_right ≤ 0) :
    ∃ round plain r,
      draw_round_rect ops surf clip x1 y1 x2 y2 0 w color top_left top_right bottom_left
        bottom_right da x_intersect = some r ∧
      r.1 = replay color round surf ∧
      draw_rect surf clip x1 y1 x2 y2 w color = replay color plain surf ∧
      (∀ p, p ∈ round ↔ p ∈ plain) ∧
      ∀ p, p ∈ plain ↔ in_frame x1 y1 x2 y2 w p ∧ inside clip p := by
  obtain ⟨plain, hplain, hmp⟩ := draw_rect_log surf clip x1 y1 x2 y2 w color hv (by omega) hw
    (by omega) (by omega)
  obtain ⟨hcd, hcm⟩ := cdiv_cmod_two w (by omega)
  obtain ⟨n1, r1, e1, d1, m1⟩ := draw_line_width_hband surf clip color (x1 + 0)
    (y1 + cdiv w 2 - 1 + cmod w 2) (x2 - 0) w da hv (by omega) hw
  have v1 := d1.valid hv
  obtain ⟨n2, r2, e2, d2, m2⟩ := draw_line_width_vband r1.1 clip color
    (x1 + cdiv w 2 - 1 + cmod w 2) (y1 + 0) (y2 - 0) w r1.2 v1 (by omega) hw
  have v2 := d2.valid v1
  obtain ⟨n3, r3, e3, d3, m3⟩ := draw_line_width_hband r2.1 clip color (x1 + 0)
    (y2 - cdiv w 2) (x2 - 0) w r2.2 v2 (by omega) hw
  have v3 := d3.valid v2
  obtain ⟨n4, r4, e4, d4, m4⟩ := draw_line_width_vband r3.1 clip color
    (x2 - cdiv w 2) (y1 + 0) (y2 - 0) w r3.2 v3 (by omega) hw
  have hall := ((d1.trans d2).trans d3).trans d4
  have hne1 : decide (x2 - 0 = x1 + 0) = false := by
    rw [decide_eq_false_iff_not]; omega
  have hne2 : decide (y2 - 0 = y1 + 0) = false := by
    rw [decide_eq_false_iff_not]; omega
  refine ⟨n4 ++ (n3 ++ (n2 ++ n1)), plain, r4, ?_, hall.1, hplain, fun p => ?_, hmp⟩
  · unfold draw_round_rect
    rw [round_rect_radii_zero ops x1 y1 x2 y2 top_left top_right bottom_left bottom_right
      (by omega) (by omega) htl htr hbl hbr]
    simp only [if_neg (by omega : ¬ w = 0), hne1, hne2, round_rect_edge, Bool.false_eq_true,
      if_false, e1, Option.some_bind, e2, e3, e4, draw_circle_quadrant_zero]
  · rw [hmp, List.mem_append, List.mem_append, List.mem_append, m1, m2, m3, m4, hcd, hcm]
    unfold in_frame inside
    constructor
    · intro h; omega
    · intro h; omega

theorem round_rect_zero_radii_is_rect_witness :
    valid_depth (Surface.blank 20 20 4) ∧ (2 : Int) < 12 ∧ (3 : Int) < 10 ∧ (1 : Int) ≤ 2 ∧
    ∃ round plain r,
      draw_round_rect rat_ops (Surface.blank 20 20 4) ⟨4, 4, 6, 5⟩ 2 3 12 10 0 2 7 (-1) (-1) 0 0
        DrawnArea.init [] = some r ∧
      r.1 = replay 7 round (Surface.blank 20 20 4) ∧
      draw_rect (Surface.blank 20 20 4) ⟨4, 4, 6, 5⟩ 2 3 12 10 2 7 =
        replay 7 plain (Surface.blank 20 20 4) ∧
      (∀ p, p ∈ round ↔ p ∈ plain) ∧
      ∀ p, p ∈ plain ↔ in_frame 2 3 12 10 2 p ∧ inside ⟨4, 4, 6, 5⟩ p :=
  ⟨by decide, by decide, by decide, by decide,
    round_rect_zero_radii_is_rect rat_ops (Surface.blank 20 20 4) ⟨4, 4, 6, 5⟩ 2 3 12 10 2 7
      (-1) (-1) 0 0 DrawnArea.init [] (by decide) (by decide) (by decide) (by decide)
      (by decide) (by decide) (by decide) (by decide) (by decide) (by decide)⟩

/-! ## The quarter-turn symmetry of the filled circle -/

theorem corner_distance_turn (d : Int) : corner_distance (-d - 1) = corner_distance d := by
  unfold corner_distance
  split <;> split <;> omega

theorem corner_distance_pos (d : Int) : 1 ≤ corner_distance d := by
  unfold corner_distance
  split <;> omega

theorem disc_invariant_init (radius : Int) (h : 2 ≤ radius) :
    disc_invariant 0 radius (1 - radius) (fun _ _ => False) (fun _ _ => False) where
  x_nonneg := le_refl _
  x_le := by omega
  y_pos := by omega
  first := fun _ => by omega
  U_range := fun _ _ h => h.elim
  U_full := fun _ b h1 h2 _ _ => by omega
  B_sub := fun _ _ h => h.elim
  U_above := fun _ _ h => h.elim
  B_row := fun h0 => by omega
  U_last := fun h0 => by omega

theorem disc_invariant_step (x y f f1 : Int) (U B : Int → Int → Prop)
    (h : disc_invariant x y f U B) (hc : x < y) :
    disc_invariant (x + 1) (if f ≥ 0 then y - 1 else y) f1
      (fun a b => U a b ∨ (b = x + 1 ∧ 1 ≤ a ∧ a ≤ (if f ≥ 0 then y - 1 else y)))
      (fun a b => B a b ∨
        (f1 ≥ 0 ∧ b = (if f ≥ 0 then y - 1 else y) ∧ 1 ≤ a ∧ a ≤ x + 1)) := by
  have hx0 := h.x_nonneg
  have hy1 : 1 ≤ (if f ≥ 0 then y - 1 else y) := by
    have := h.y_pos
    have := h.first
    split <;> omega
  have hyle : (if f ≥ 0 then y - 1 else y) ≤ y := by split <;> omega
  have hxle : x ≤ (if f ≥ 0 then y - 1 else y) := by split <;> omega
  have hfull : ∀ a b, 1 ≤ b → b ≤ x + 1 → 1 ≤ a → a ≤ (if f ≥ 0 then y - 1 else y) →
      (U a b ∨ (b = x + 1 ∧ 1 ≤ a ∧ a ≤ (if f ≥ 0 then y - 1 else y))) := by
    intro a b hb1 hb2 ha1 ha2
    by_cases hb : b = x + 1
    · exact Or.inr ⟨hb, ha1, ha2⟩
    · exact Or.inl (h.U_full a b hb1 (by omega) ha1 (by omega))
  refine ⟨by omega, by omega, hy1, fun h0 => by omega, ?_, hfull, ?_, ?_, ?_, ?_⟩
  · rintro a b (hU | ⟨hb, ha1, ha2⟩)
    · have := h.U_range a b hU
      omega
    · omega
  · rintro a b (hB | ⟨hf1, hb, ha1, ha2⟩)
    · exact Or.inl (h.B_sub a b hB)
    · exact hfull b a ha1 ha2 (by omega) (by omega)
  · rintro a b (hU | ⟨hb, ha1, ha2⟩) hya
    · by_cases hy : y < a
      · exact Or.inl (h.U_above a b hU hy)
      · have hf : f ≥ 0 := by
          by_contra hf
          rw [if_neg hf] at hya
          omega
        rw [if_pos hf] at hya
        have hay : a = y := by omega
        have hr := h.U_range a b hU
        subst hay
        exact Or.inl (h.B_row hf b hr.2.1 hr.2.2)
    · omega
  · intro hf1 c hc1 hc2
    exact Or.inr ⟨hf1, rfl, hc1, hc2⟩
  · intro hlast b hb1 hb2
    have hf : f ≥ 0 := by
      by_contra hf
      rw [if_neg hf] at hlast
      omega
    rw [if_pos hf] at hlast hb2
    exact Or.inl (h.U_full (x + 1) b hb1 (by omega) (by omega) (by omega))

/-- When the loop has ended the cells drawn are symmetric under the exchange of
columns and rows. -/
theorem disc_invariant_symm (x y f : Int) (U B : Int → Int → Prop)
    (h : disc_invariant x y f U B) (hc : ¬ x < y) (a b : Int) :
    (U a b ∨ B a b) → (U b a ∨ B b a) := by
  rintro (hU | hB)
  · have hr := h.U_range a b hU
    have := h.x_le
    by_cases hy : y < a
    · exact Or.inr (h.U_above a b hU hy)
    · by_cases hb : b ≤ y
      · exact Or.inl (h.U_full b a hr.1 (by omega) hr.2.1 hb)
      · have hbx : b = x := by omega
        subst hbx
        exact Or.inl (h.U_last (by omega) a hr.1 (by omega))
  · exact Or.inl (h.B_sub a b hB)

theorem corner_distance_cases (d : Int) :
    (0 ≤ d ∧ corner_distance d = d + 1) ∨ (d < 0 ∧ corner_distance d = -d) := by
  unfold corner_distance
  by_cases h : d ≥ 0
  · rw [if_pos h]; exact Or.inl ⟨h, rfl⟩
  · rw [if_neg h]; exact Or.inr ⟨by omega, rfl⟩

theorem corner_distance_eq (d y : Int) (hy : 1 ≤ y) :
    corner_distance d = y ↔ (d = y - 1 ∨ d = -y) := by
  rcases corner_distance_cases d with ⟨h, e⟩ | ⟨h, e⟩ <;> rw [e] <;> omega

theorem corner_distance_le (d x : Int) :
    corner_distance d ≤ x ↔ (-x ≤ d ∧ d ≤ x - 1) := by
  rcases corner_distance_cases d with ⟨h, e⟩ | ⟨h, e⟩ <;> rw [e] <;> omega

theorem mem_clipped_span_le (clip : SDL_Rect) (a y b : Int) (p : Int × Int) (h : a ≤ b) :
    p ∈ clipped_span clip a y b ↔ p.2 = y ∧ a ≤ p.1 ∧ p.1 ≤ b ∧ inside clip p := by
  rw [mem_clipped_span, min_eq_left h, max_eq_right h]

/-- The spans of one iteration of `draw_circle_filled`, under any clip rectangle: in
corner distances they are the cells of the rows at distance `y` up to column
distance `x`, when `f >= 0`, and of the rows at distance `x` up to column distance
`y`. -/
theorem draw_circle_filled_spans_log (clip : SDL_Rect) (x0 y0 xmax : Int) (color : Nat)
    (f x y : Int) (s0 r : Surface × DrawnArea) (new : List (Int × Int))
    (hd : Drawn clip color new s0 r) (hv : valid_depth s0.1) (hx : 1 ≤ x) (hy : 1 ≤ y)
    (hxm : x - 1 ≤ xmax) (hym : y - 1 ≤ xmax) :
    ∃ new1, Drawn clip color (new1 ++ new) s0
        (draw_circle_filled_spans clip x0 y0 xmax color f x y r) ∧
      ∀ p : Int × Int, p ∈ new1 ↔ inside clip p ∧
        ((f ≥ 0 ∧ corner_distance (p.2 - y0) = y ∧ corner_distance (p.1 - x0) ≤ x) ∨
          (corner_distance (p.2 - y0) = x ∧ corner_distance (p.1 - x0) ≤ y)) := by
  unfold draw_circle_filled_spans
  have hmx : MIN (x - 1) xmax = x - 1 := by rw [MIN_eq]; omega
  have hmy : MIN (y - 1) xmax = y - 1 := by rw [MIN_eq]; omega
  rw [hmx, hmy]
  by_cases hf : f ≥ 0
  · simp only [if_pos hf]
    refine ⟨clipped_span clip (x0 - y) (y0 - x) (x0 + (y - 1)) ++
      (clipped_span clip (x0 - y) (y0 + x - 1) (x0 + (y - 1)) ++
      (clipped_span clip (x0 - x) (y0 - y) (x0 + (x - 1)) ++
      clipped_span clip (x0 - x) (y0 + y - 1) (x0 + (x - 1)))), ?_, fun p => ?_⟩
    · have h := (((hd.hline hv (x0 - x) (y0 + y - 1) (x0 + (x - 1))).hline hv (x0 - x) (y0 - y)
        (x0 + (x - 1))).hline hv (x0 - y) (y0 + x - 1) (x0 + (y - 1))).hline hv (x0 - y)
        (y0 - x) (x0 + (y - 1))
      simpa only [List.append_assoc] using h
    · simp only [List.mem_append, mem_clipped_span_le clip (x0 - y) _ (x0 + (y - 1)) p (by omega),
        mem_clipped_span_le clip (x0 - x) _ (x0 + (x - 1)) p (by omega)]
      rw [corner_distance_eq _ _ hx, corner_distance_eq _ _ hy, corner_distance_le,
        corner_distance_le]
      unfold inside
      constructor
      · intro h; omega
      · intro h; omega
  · simp only [if_neg hf]
    refine ⟨clipped_span clip (x0 - y) (y0 - x) (x0 + (y - 1)) ++
      clipped_span clip (x0 - y) (y0 + x - 1) (x0 + (y - 1)), ?_, fun p => ?_⟩
    · have h := (hd.hline hv (x0 - y) (y0 + x - 1) (x0 + (y - 1))).hline hv (x0 - y)
        (y0 - x) (x0 + (y - 1))
      simpa only [List.append_assoc] using h
    · simp only [List.mem_append, mem_clipped_span_le clip (x0 - y) _ (x0 + (y - 1)) p (by omega),
        mem_clipped_span_le clip (x0 - x) _ (x0 + (x - 1)) p (by omega)]
      rw [corner_distance_eq _ _ hx, corner_distance_eq _ _ hy, corner_distance_le,
        corner_distance_le]
      unfold inside
      constructor
      · intro h; omega
      · intro h; omega

/-- For a radius of at least 2 and a clip rectangle with `int` coordinates,
`draw_circle_filled` returns, and the pixels it stores are those inside the clip
rectangle whose corner distances form a cell of a set that is symmetric under the
exchange of columns and rows and lies within distance `radius`. -/
theorem draw_circle_filled_cells (surf : Surface) (clip : SDL_Rect) (x0 y0 radius : Int)
    (color : Nat) (da : DrawnArea) (hv : valid_depth surf) (hr : 2 ≤ radius)
    (hxm : radius - 1 ≤ (if x0 < 0 then x0 + INT_MAX + 1 else INT_MAX - x0)) :
    ∃ (T : Int → Int → Prop) (new : List (Int × Int)) (r : Surface × DrawnArea),
      draw_circle_filled surf clip x0 y0 radius color da = some r ∧
      Drawn clip color new (surf, da) r ∧
      (∀ p : Int × Int, p ∈ new ↔ inside clip p ∧
        T (corner_distance (p.1 - x0)) (corner_distance (p.2 - y0))) ∧
      (∀ a b, T a b → T b a) ∧ (∀ a b, T a b → 1 ≤ a ∧ a ≤ radius ∧ 1 ≤ b ∧ b ≤ radius) := by
  have key := while_loop_terminates (fun s : CircleState => decide (s.x < s.y))
    (draw_circle_filled_body clip x0 y0
      (if x0 < 0 then x0 + INT_MAX + 1 else INT_MAX - x0) color)
    (fun s => valid_depth s.surf ∧ s.y ≤ radius ∧
      ∃ (U B : Int → Int → Prop) (new : List (Int × Int)),
        disc_invariant s.x s.y s.f U B ∧
        Drawn clip color new (surf, da) (s.surf, s.drawn_area) ∧
        (∀ p : Int × Int, p ∈ new ↔ inside clip p ∧
          (U (corner_distance (p.1 - x0)) (corner_distance (p.2 - y0)) ∨
            B (corner_distance (p.1 - x0)) (corner_distance (p.2 - y0)))) ∧
        ∀ a b, U a b ∨ B a b → 1 ≤ a ∧ a ≤ radius ∧ 1 ≤ b ∧ b ≤ radius)
    (fun s => (s.y - s.x).toNat)
    (by
      intro s ⟨hvs, hyr, U, B, new, hinv, hd, hm, hb⟩ hc
      simp only [decide_eq_true_eq] at hc
      obtain ⟨m1, m2, m3, m4⟩ := midpoint_step_eq s
      have hx0 := hinv.x_nonneg
      have hy1 : 1 ≤ (if s.f ≥ 0 then s.y - 1 else s.y) := by
        have := hinv.y_pos
        have := hinv.first
        split <;> omega
      have hyle : (if s.f ≥ 0 then s.y - 1 else s.y) ≤ s.y := by split <;> omega
      have hd0 : Drawn clip color new (surf, da)
          ((midpoint_step s).surf, (midpoint_step s).drawn_area) := by
        rw [m1, m2]; exact hd
      obtain ⟨new1, hd1, hm1⟩ := draw_circle_filled_spans_log clip x0 y0
        (if x0 < 0 then x0 + INT_MAX + 1 else INT_MAX - x0) color (midpoint_step s).f
        (midpoint_step s).x (midpoint_step s).y (surf, da) _ new hd0 hv
        (by rw [m3]; omega) (by rw [m4]; exact hy1) (by rw [m3]; omega) (by rw [m4]; omega)
      have hstep := disc_invariant_step s.x s.y s.f (midpoint_step s).f U B hinv hc
      refine ⟨hd1.valid hv, ?_,
        (fun a b => U a b ∨ (b = s.x + 1 ∧ 1 ≤ a ∧ a ≤ (if s.f ≥ 0 then s.y - 1 else s.y))),
        (fun a b => B a b ∨ ((midpoint_step s).f ≥ 0 ∧
          b = (if s.f ≥ 0 then s.y - 1 else s.y) ∧ 1 ≤ a ∧ a ≤ s.x + 1)),
        new1 ++ new, ?_, hd1, ?_, ?_⟩
      · show (midpoint_step s).y ≤ radius
        rw [m4]; omega
      · show disc_invariant (midpoint_step s).x (midpoint_step s).y (midpoint_step s).f _ _
        rw [m3, m4]
        exact hstep
      · intro p
        rw [List.mem_append, hm1, hm, m3, m4]
        have hp1 := corner_distance_pos (p.1 - x0)
        constructor
        · rintro (⟨hin, h | h⟩ | ⟨hin, h | h⟩)
          · exact ⟨hin, Or.inr (Or.inr ⟨h.1, h.2.1, hp1, h.2.2⟩)⟩
          · exact ⟨hin, Or.inl (Or.inr ⟨h.1, hp1, h.2⟩)⟩
          · exact ⟨hin, Or.inl (Or.inl h)⟩
          · exact ⟨hin, Or.inr (Or.inl h)⟩
        · rintro ⟨hin, (h | h) | (h | h)⟩
          · exact Or.inr ⟨hin, Or.inl h⟩
          · exact Or.inl ⟨hin, Or.inr ⟨h.1, h.2.2⟩⟩
          · exact Or.inr ⟨hin, Or.inr h⟩
          · exact Or.inl ⟨hin, Or.inl ⟨h.1, h.2.1, h.2.2.2⟩⟩
      · rintro a b ((h | h) | (h | h))
        · exact hb a b (Or.inl h)
        · omega
        · exact hb a b (Or.inr h)
        · omega)
    (by
      intro s ⟨_, _, _⟩ hc
      obtain ⟨m1, m2, m3, m4⟩ := midpoint_step_eq s
      simp only [decide_eq_true_eq] at hc
      show ((midpoint_step s).y - (midpoint_step s).x).toNat < (s.y - s.x).toNat
      rw [m3, m4]
      split <;> omega)
    (radius + 1).toNat ⟨surf, da, 1 - radius, 0, -2 * radius, 0, radius⟩
    ⟨hv, le_refl _, (fun _ _ => False), (fun _ _ => False), [],
      disc_invariant_init radius hr, Drawn.refl _ _ _,
      fun p => by simp, fun a b h => by simp at h⟩
    (by simp only; omega)
  obtain ⟨r, hr1, ⟨_, _, U, B, new, hinv, hd, hm, hb⟩, hc⟩ := key
  simp only [decide_eq_false_iff_not] at hc
  refine ⟨fun a b => U a b ∨ B a b, new, (r.surf, r.drawn_area), ?_, hd, hm, ?_, hb⟩
  · simp only [draw_circle_filled, hr1, Option.map_some']
  · intro a b h
    exact disc_invariant_symm r.x r.y r.f U B hinv hc a b h

/-- For radius 1 `draw_circle_filled` runs its loop once, with `x = 1` and `y = 0`,
and stores the pixels of the 2x2 block around the pixel corner that lie inside the
clip rectangle. -/
theorem draw_circle_filled_one (surf : Surface) (clip : SDL_Rect) (x0 y0 : Int)
    (color : Nat) (da : DrawnArea) (hv : valid_depth surf)
    (hxm : 0 ≤ (if x0 < 0 then x0 + INT_MAX + 1 else INT_MAX - x0)) :
    ∃ (new : List (Int × Int)) (r : Surface × DrawnArea),
      draw_circle_filled surf clip x0 y0 1 color da = some r ∧
      Drawn clip color new (surf, da) r ∧
      ∀ p : Int × Int, p ∈ new ↔ inside clip p ∧
        (corner_distance (p.1 - x0) = 1 ∧ corner_distance (p.2 - y0) = 1) := by
  generalize hxmax : (if x0 < 0 then x0 + INT_MAX + 1 else INT_MAX - x0) = xmax at hxm
  have hm0 : MIN (1 - 1) xmax = 0 := by rw [MIN_eq]; omega
  have hm1 : MIN (0 - 1) xmax = -1 := by rw [MIN_eq]; omega
  have he : draw_circle_filled surf clip x0 y0 1 color da =
      some (draw_circle_filled_spans clip x0 y0 xmax color 3 1 0 (surf, da)) := by
    unfold draw_circle_filled
    rw [hxmax]
    rfl
  rw [he]
  unfold draw_circle_filled_spans
  rw [if_pos (by decide), hm0, hm1]
  have h := ((((Drawn.refl clip color (surf, da)).hline hv (x0 - 1) (y0 + 0 - 1)
    (x0 + 0)).hline hv (x0 - 1) (y0 - 0) (x0 + 0)).hline hv (x0 - 0) (y0 + 1 - 1)
    (x0 + -1)).hline hv (x0 - 0) (y0 - 1) (x0 + -1)
  refine ⟨_, _, rfl, h, fun p => ?_⟩
  simp only [List.mem_append, mem_clipped_span, List.not_mem_nil, or_false]
  unfold inside
  rcases corner_distance_cases (p.1 - x0) with ⟨h1, e1⟩ | ⟨h1, e1⟩ <;>
    rcases corner_distance_cases (p.2 - y0) with ⟨h2, e2⟩ | ⟨h2, e2⟩ <;>
    rw [e1, e2] <;> constructor <;> intro h <;> omega

/-- For every radius of at least 1 the pixels `draw_circle_filled` stores are those
inside the clip rectangle whose corner distances form a cell of a symmetric set
within distance `radius`. -/
theorem draw_circle_filled_symmetric_cells (surf : Surface) (clip : SDL_Rect)
    (x0 y0 radius : Int) (color : Nat) (da : DrawnArea) (hv : valid_depth surf)
    (hr : 1 ≤ radius)
    (hxm : radius - 1 ≤ (if x0 < 0 then x0 + INT_MAX + 1 else INT_MAX - x0)) :
    ∃ (T : Int → Int → Prop) (new : List (Int × Int)) (r : Surface × DrawnArea),
      draw_circle_filled surf clip x0 y0 radius color da = some r ∧
      Drawn clip color new (surf, da) r ∧
      (∀ p : Int × Int, p ∈ new ↔ inside clip p ∧
        T (corner_distance (p.1 - x0)) (corner_distance (p.2 - y0))) ∧
      (∀ a b, T a b → T b a) ∧ (∀ a b, T a b → 1 ≤ a ∧ a ≤ radius ∧ 1 ≤ b ∧ b ≤ radius) := by
  by_cases h1 : radius = 1
  · subst h1
    obtain ⟨new, r, hr1, hd, hm⟩ := draw_circle_filled_one surf clip x0 y0 color da hv
      (by simpa using hxm)
    exact ⟨fun a b => a = 1 ∧ b = 1, new, r, hr1, hd, hm, fun a b h => ⟨h.2, h.1⟩,
      fun a b h => by omega⟩
  · exact draw_circle_filled_cells surf clip x0 y0 radius color da hv (by omega) hxm

set_option maxRecDepth 100000 in
/-- C12, as stated, fails: the disc of radius 5 around `(10, 10)` on a 20x20 buffer
contains the pixel `(10, 5)`, the centre moved by `(0, -5)`, but not its image
`(15, 10)` under the quarter turn about the centre. -/
theorem draw_circle_filled_rotation_counterexample :
    ∃ r, draw_circle_filled (Surface.blank 20 20 4) (SDL_Rect.whole 20 20) 10 10 5 7
        DrawnArea.init = some r ∧
      ((10 : Int) + 0, (10 : Int) + -5) ∈ r.1.written ∧
      ((10 : Int) - -5, (10 : Int) + 0) ∉ r.1.written := by
  refine ⟨_, rfl, ?_, ?_⟩ <;> decide

/-- C12, amended: for every centre `(x0, y0)` and radius `R >= 1`, on a surface of
valid depth and with the disc's box `x0-R .. x0+R-1`, `y0-R .. y0+R-1` inside a clip
rectangle with `int` coordinates, `draw_circle_filled` returns and the set of
pixels it stores is invariant under the quarter turn about the pixel corner
`(x0 - 1/2, y0 - 1/2)`: `(x0 + dx, y0 + dy)` is stored if and only if
`(x0 - dy - 1, y0 + dx)` is. -/
theorem draw_circle_filled_quarter_turn (surf : Surface) (clip : SDL_Rect)
    (x0 y0 radius : Int) (color : Nat) (da : DrawnArea) (hv : valid_depth surf)
    (hr : 1 ≤ radius) (hlo : INT_MIN ≤ clip.x) (hhi : clip.x + clip.w ≤ INT_MAX + 1)
    (h1 : inside clip (x0 - radius, y0 - radius))
    (h2 : inside clip (x0 + radius - 1, y0 + radius - 1)) :
    ∃ (new : List (Int × Int)) (r : Surface × DrawnArea),
      draw_circle_filled surf clip x0 y0 radius color da = some r ∧
      Drawn clip color new (surf, da) r ∧
      ∀ dx dy : Int, (x0 + dx, y0 + dy) ∈ new ↔ (x0 - dy - 1, y0 + dx) ∈ new := by
  unfold inside at h1 h2
  simp only at h1 h2
  have hxm : radius - 1 ≤ (if x0 < 0 then x0 + INT_MAX + 1 else INT_MAX - x0) := by
    unfold INT_MIN at hlo
    unfold INT_MAX at hhi ⊢
    split <;> omega
  obtain ⟨T, new, r, hr1, hd, hm, hsym, hb⟩ :=
    draw_circle_filled_symmetric_cells surf clip x0 y0 radius color da hv hr hxm
  have hin : ∀ dx dy : Int, T (corner_distance dx) (corner_distance dy) →
      inside clip (x0 + dx, y0 + dy) := by
    intro dx dy h
    have hb1 := hb _ _ h
    unfold inside
    simp only
    rcases corner_distance_cases dx with ⟨c1, e1⟩ | ⟨c1, e1⟩ <;>
      rcases corner_distance_cases dy with ⟨c2, e2⟩ | ⟨c2, e2⟩ <;>
      rw [e1, e2] at hb1 <;> omega
  have hmem : ∀ dx dy : Int, (x0 + dx, y0 + dy) ∈ new ↔
      T (corner_distance dx) (corner_distance dy) := by
    intro dx dy
    rw [hm]
    have e1 : x0 + dx - x0 = dx := by omega
    have e2 : y0 + dy - y0 = dy := by omega
    simp only [e1, e2]
    exact ⟨fun h => h.2, fun h => ⟨hin dx dy h, h⟩⟩
  refine ⟨new, r, hr1, hd, fun dx dy => ?_⟩
  have e3 : x0 - dy - 1 = x0 + (-dy - 1) := by omega
  rw [e3, hmem, hmem, corner_distance_turn]
  exact ⟨hsym _ _, hsym _ _⟩

theorem draw_circle_filled_quarter_turn_witness :
    valid_depth (Surface.blank 20 20 4) ∧ (1 : Int) ≤ 5 ∧
    inside (SDL_Rect.whole 20 20) (10 - 5, 10 - 5) ∧
    inside (SDL_Rect.whole 20 20) (10 + 5 - 1, 10 + 5 - 1) ∧
    ∃ (new : List (Int × Int)) (r : Surface × DrawnArea),
      draw_circle_filled (Surface.blank 20 20 4) (SDL_Rect.whole 20 20) 10 10 5 7
        DrawnArea.init = some r ∧
      Drawn (SDL_Rect.whole 20 20) 7 new (Surface.blank 20 20 4, DrawnArea.init) r ∧
      ∀ dx dy : Int, (10 + dx, 10 + dy) ∈ new ↔ (10 - dy - 1, 10 + dx) ∈ new :=
  ⟨by decide, by decide, by decide, by decide,
    draw_circle_filled_quarter_turn (Surface.blank 20 20 4) (SDL_Rect.whole 20 20) 10 10 5 7
      DrawnArea.init (by decide) (by decide) (by decide) (by decide) (by decide)
      (by decide)⟩

/-! ## Logs whose pixels satisfy a predicate -/

theorem Logged.same (P : Int × Int → Prop) (s : Surface) : Logged P s s :=
  ⟨[], rfl, by simp⟩

theorem Logged.chain {P : Int × Int → Prop} {s0 s1 s2 : Surface} (h1 : Logged P s0 s1)
    (h2 : Logged P s1 s2) : Logged P s0 s2 := by
  obtain ⟨n1, e1, p1⟩ := h1
  obtain ⟨n2, e2, p2⟩ := h2
  refine ⟨n2 ++ n1, by rw [e2, e1, List.append_assoc], ?_⟩
  intro p hp
  rcases List.mem_append.mp hp with h | h
  · exact p2 p h
  · exact p1 p h

theorem Logged.store {P : Int × Int → Prop} {s0 s : Surface} (h : Logged P s0 s)
    (n : Nat) (x y : Int) (color : Nat) (hp : P (x, y)) :
    Logged P s0 (store_pixel s n x y color) := by
  obtain ⟨n1, e1, p1⟩ := h
  refine ⟨(x, y) :: n1, by simp [store_pixel, e1], ?_⟩
  intro p hp1
  rcases List.mem_cons.mp hp1 with h | h
  · rw [h]; exact hp
  · exact p1 p h

theorem Logged.pixel {P : Int × Int → Prop} {s0 : Surface} {r : Surface × DrawnArea}
    (h : Logged P s0 r.1) (clip : SDL_Rect) (x y : Int) (color : Nat)
    (hp : inside clip (x, y) → P (x, y)) :
    Logged P s0 (set_and_check_rect r.1 clip x y color r.2).1 := by
  by_cases hin : inside clip (x, y)
  · rw [set_and_check_rect_inside r.1 clip x y color r.2 hin]
    exact h.store _ x y color (hp hin)
  · rw [set_and_check_rect_outside r.1 clip x y color r.2 hin]
    exact h

theorem Logged.nil {s0 s : Surface} (h : Logged (fun _ => False) s0 s) :
    s.written = s0.written := by
  obtain ⟨n, e, p⟩ := h
  cases n with
  | nil => simpa using e
  | cons a n => exact (p a (List.mem_cons_self a n)).elim

theorem for_loop_inv_range {σ : Type} (P : σ → Prop) (body : Int → σ → σ) :
    ∀ (n : Nat) (lo : Int) (s : σ),
      (∀ i s, lo ≤ i → i < lo + n → P s → P (body i s)) → P s →
      P (for_loop lo n body s) := by
  intro n
  induction n with
  | zero => intro lo s _ hs; exact hs
  | succ n ih =>
    intro lo s hb hs
    rw [for_loop_cons]
    refine ih (lo + 1) (body lo s) ?_ (hb lo s (le_refl _) (by push_cast; omega) hs)
    intro i s1 h1 h2 hs1
    exact hb i s1 (by omega) (by push_cast; omega) hs1

theorem quadrant_column_logged {P : Int × Int → Prop} {s0 : Surface} (clip : SDL_Rect)
    (color : Nat) (x lo : Int) (count : Nat) (r : Surface × DrawnArea)
    (hp : ∀ y1, lo ≤ y1 → y1 < lo + count → P (x, y1)) (h : Logged P s0 r.1) :
    Logged P s0 (quadrant_column clip color x lo count r).1 := by
  unfold quadrant_column
  refine for_loop_inv_range (fun r => Logged P s0 r.1) _ count lo r ?_ h
  intro i s h1 h2 hs
  exact hs.pixel clip x i color (fun _ => hp i h1 h2)

theorem quadrant_stroke_logged {P : Int × Int → Prop} {s0 : Surface} (clip : SDL_Rect)
    (color : Nat) (thickness y : Int) (c1 : Int → Bool) (p1 : Int → Int × Int)
    (c2 : Int → Bool) (p2 : Int → Int × Int) (r : Surface × DrawnArea)
    (h1 : ∀ y1, c1 y1 = true → P (p1 y1)) (h2 : ∀ y1, c2 y1 = true → P (p2 y1))
    (h : Logged P s0 r.1) :
    Logged P s0 (quadrant_stroke clip color thickness y c1 p1 c2 p2 r).1 := by
  unfold quadrant_stroke
  refine for_loop_inv (fun r => Logged P s0 r.1) _ ?_ _ 0 r h
  intro i s hs
  dsimp only
  split_ifs with a b b
  · exact @Logged.pixel P s0 (set_and_check_rect s.1 clip _ _ color s.2)
      (hs.pixel clip _ _ color (fun _ => h1 _ b)) clip _ _ color (fun _ => h2 _ a)
  · exact hs.pixel clip _ _ color (fun _ => h2 _ a)
  · exact hs.pixel clip _ _ color (fun _ => h1 _ b)
  · exact hs

/-! ## Quadrants of `draw_circle_quadrant` -/

theorem quadrant_stroke_chain (clip : SDL_Rect) (x0 y0 : Int) (color : Nat)
    (top_right top_left bottom_left bottom_right : Int) (s0 : Surface)
    (thickness x y : Int) (r : Surface × DrawnArea) (hx : 1 ≤ x)
    (h : Logged (quadrant_pixel x0 y0 top_right top_left bottom_left bottom_right) s0 r.1) :
    Logged (quadrant_pixel x0 y0 top_right top_left bottom_left bottom_right) s0
      (let r := if top_right > 0 then
          quadrant_stroke clip color thickness y
            (fun y1 => decide ((y0 - y1) < (y0 - x))) (fun y1 => (x0 + x - 1, y0 - y1))
            (fun y1 => decide ((x0 + y1 - 1) ≥ (x0 + x - 1))) (fun y1 => (x0 + y1 - 1, y0 - x)) r
        else r
      let r := if top_left > 0 then
          quadrant_stroke clip color thickness y
            (fun y1 => decide ((y0 - y1) ≤ (y0 - x))) (fun y1 => (x0 - x, y0 - y1))
            (fun y1 => decide ((x0 - y1) < (x0 - x))) (fun y1 => (x0 - y1, y0 - x)) r
        else r
      let r := if bottom_left > 0 then
          quadrant_stroke clip color thickness y
            (fun y1 => decide ((x0 - y1) ≤ (x0 - x))) (fun y1 => (x0 - y1, y0 + x - 1))
            (fun y1 => decide ((y0 + y1 - 1) > (y0 + x - 1))) (fun y1 => (x0 - x, y0 + y1 - 1)) r
        else r
      let r := if bottom_right > 0 then
          quadrant_stroke clip color thickness y
            (fun y1 => decide ((y0 + y1 - 1) ≥ (y0 + x - 1))) (fun y1 => (x0 + x - 1, y0 + y1 - 1))
            (fun y1 => decide ((x0 + y1 - 1) > (x0 + x - 1))) (fun y1 => (x0 + y1 - 1, y0 + x - 1))
            r
        else r
      r).1 := by
  dsimp only
  have h1 : Logged (quadrant_pixel x0 y0 top_right top_left bottom_left bottom_right) s0
      (if top_right > 0 then
          quadrant_stroke clip color thickness y
            (fun y1 => decide ((y0 - y1) < (y0 - x))) (fun y1 => (x0 + x - 1, y0 - y1))
            (fun y1 => decide ((x0 + y1 - 1) ≥ (x0 + x - 1))) (fun y1 => (x0 + y1 - 1, y0 - x)) r
        else r).1 := by
    by_cases hf : top_right > 0
    · rw [if_pos hf]
      refine quadrant_stroke_logged clip color thickness y _ _ _ _ r ?_ ?_ h
      · intro y1 hc
        have hc := of_decide_eq_true hc
        exact Or.inl ⟨hf, by show x0 + x - 1 ≥ x0; omega, by show y0 - y1 ≤ y0; omega⟩
      · intro y1 hc
        have hc := of_decide_eq_true hc
        exact Or.inl ⟨hf, by show x0 + y1 - 1 ≥ x0; omega, by show y0 - x ≤ y0; omega⟩
    · rw [if_neg hf]; exact h
  generalize (if top_right > 0 then
          quadrant_stroke clip color thickness y
            (fun y1 => decide ((y0 - y1) < (y0 - x))) (fun y1 => (x0 + x - 1, y0 - y1))
            (fun y1 => decide ((x0 + y1 - 1) ≥ (x0 + x - 1))) (fun y1 => (x0 + y1 - 1, y0 - x)) r
        else r) = r1 at h1 ⊢
  have h2 : Logged (quadrant_pixel x0 y0 top_right top_left bottom_left bottom_right) s0
      (if top_left > 0 then
          quadrant_stroke clip color thickness y
            (fun y1 => decide ((y0 - y1) ≤ (y0 - x))) (fun y1 => (x0 - x, y0 - y1))
            (fun y1 => decide ((x0 - y1) < (x0 - x))) (fun y1 => (x0 - y1, y0 - x)) r1
        else r1).1 := by
    by_cases hf : top_left > 0
    · rw [if_pos hf]
      refine quadrant_stroke_logged clip color thickness y _ _ _ _ r1 ?_ ?_ h1
      · intro y1 hc
        have hc := of_decide_eq_true hc
        exact Or.inr (Or.inl ⟨hf, by show x0 - x < x0; omega, by show y0 - y1 ≤ y0; omega⟩)
      · intro y1 hc
        have hc := of_decide_eq_true hc
        exact Or.inr (Or.inl ⟨hf, by show x0 - y1 < x0; omega, by show y0 - x ≤ y0; omega⟩)
    · rw [if_neg hf]; exact h1
  generalize (if top_left > 0 then
          quadrant_stroke clip color thickness y
            (fun y1 => decide ((y0 - y1) ≤ (y0 - x))) (fun y1 => (x0 - x, y0 - y1))
            (fun y1 => decide ((x0 - y1) < (x0 - x))) (fun y1 => (x0 - y1, y0 - x)) r1
        else r1) = r2 at h2 ⊢
  have h3 : Logged (quadrant_pixel x0 y0 top_right top_left bottom_left bottom_right) s0
      (if bottom_left > 0 then
          quadrant_stroke clip color thickness y
            (fun y1 => decide ((x0 - y1) ≤ (x0 - x))) (fun y1 => (x0 - y1, y0 + x - 1))
            (fun y1 => decide ((y0 + y1 - 1) > (y0 + x - 1))) (fun y1 => (x0 - x, y0 + y1 - 1)) r2
        else r2).1 := by
    by_cases hf : bottom_left > 0
    · rw [if_pos hf]
      refine quadrant_stroke_logged clip color thickness y _ _ _ _ r2 ?_ ?_ h2
      · intro y1 hc
        have hc := of_decide_eq_true hc
        exact Or.inr (Or.inr (Or.inl
          ⟨hf, by show x0 - y1 < x0; omega, by show y0 + x - 1 ≥ y0; omega⟩))
      · intro y1 hc
        have hc := of_decide_eq_true hc
        exact Or.inr (Or.inr (Or.inl
          ⟨hf, by show x0 - x < x0; omega, by show y0 + y1 - 1 ≥ y0; omega⟩))
    · rw [if_neg hf]; exact h2
  generalize (if bottom_left > 0 then
          quadrant_stroke clip color thickness y
            (fun y1 => decide ((x0 - y1) ≤ (x0 - x))) (fun y1 => (x0 - y1, y0 + x - 1))
            (fun y1 => decide ((y0 + y1 - 1) > (y0 + x - 1))) (fun y1 => (x0 - x, y0 + y1 - 1)) r2
        else r2) = r3 at h3 ⊢
  by_cases hf : bottom_right > 0
  · rw [if_pos hf]
    refine quadrant_stroke_logged clip color thickness y _ _ _ _ r3 ?_ ?_ h3
    · intro y1 hc
      have hc := of_decide_eq_true hc
      exact Or.inr (Or.inr (Or.inr
        ⟨hf, by show x0 + x - 1 ≥ x0; omega, by show y0 + y1 - 1 ≥ y0; omega⟩))
    · intro y1 hc
      have hc := of_decide_eq_true hc
      exact Or.inr (Or.inr (Or.inr
        ⟨hf, by show x0 + y1 - 1 ≥ x0; omega, by show y0 + x - 1 ≥ y0; omega⟩))
  · rw [if_neg hf]; exact h3

theorem quadrant_fill_chain (clip : SDL_Rect) (x0 y0 : Int) (color : Nat)
    (top_right top_left bottom_left bottom_right : Int) (s0 : Surface)
    (x y : Int) (r : Surface × DrawnArea) (hx : 1 ≤ x) (hy : 1 ≤ y)
    (h : Logged (quadrant_pixel x0 y0 top_right top_left bottom_left bottom_right) s0 r.1) :
    Logged (quadrant_pixel x0 y0 top_right top_left bottom_left bottom_right) s0
      (let r := if top_right > 0 then
          let r := quadrant_column clip color (x0 + y - 1) (y0 - x) (y0 + 1 - (y0 - x)).toNat r
          quadrant_column clip color (x0 + x - 1) (y0 - y) (y0 + 1 - (y0 - y)).toNat r
        else r
      let r := if top_left > 0 then
          let r := quadrant_column clip color (x0 - y) (y0 - x) (y0 + 1 - (y0 - x)).toNat r
          quadrant_column clip color (x0 - x) (y0 - y) (y0 + 1 - (y0 - y)).toNat r
        else r
      let r := if bottom_left > 0 then
          let r := quadrant_column clip color (x0 - y) (y0) (y0 + x - y0).toNat r
          quadrant_column clip color (x0 - x) (y0) (y0 + y - y0).toNat r
        else r
      let r := if bottom_right > 0 then
          let r := quadrant_column clip color (x0 + y - 1) (y0) (y0 + x - y0).toNat r
          quadrant_column clip color (x0 + x - 1) (y0) (y0 + y - y0).toNat r
        else r
      r).1 := by
  dsimp only
  have h1 : Logged (quadrant_pixel x0 y0 top_right top_left bottom_left bottom_right) s0
      (if top_right > 0 then
          quadrant_column clip color (x0 + x - 1) (y0 - y) (y0 + 1 - (y0 - y)).toNat (quadrant_column clip color (x0 + y - 1) (y0 - x) (y0 + 1 - (y0 - x)).toNat r)
        else r).1 := by
    by_cases hf : top_right > 0
    · rw [if_pos hf]
      refine quadrant_column_logged clip color _ _ _ _ ?_
        (quadrant_column_logged clip color _ _ _ r ?_ h)
      · intro y1 a b
        exact Or.inl ⟨hf, by dsimp only; omega, by dsimp only; omega⟩
      · intro y1 a b
        exact Or.inl ⟨hf, by dsimp only; omega, by dsimp only; omega⟩
    · rw [if_neg hf]; exact h
  generalize (if top_right > 0 then
          quadrant_column clip color (x0 + x - 1) (y0 - y) (y0 + 1 - (y0 - y)).toNat (quadrant_column clip color (x0 + y - 1) (y0 - x) (y0 + 1 - (y0 - x)).toNat r)
        else r) = r1 at h1 ⊢
  have h2 : Logged (quadrant_pixel x0 y0 top_right top_left bottom_left bottom_right) s0
      (if top_left > 0 then
          quadrant_column clip color (x0 - x) (y0 - y) (y0 + 1 - (y0 - y)).toNat (quadrant_column clip color (x0 - y) (y0 - x) (y0 + 1 - (y0 - x)).toNat r1)
        else r1).1 := by
    by_cases hf : top_left > 0
    · rw [if_pos hf]
      refine quadrant_column_logged clip color _ _ _ _ ?_
        (quadrant_column_logged clip color _ _ _ r1 ?_ h1)
      · intro y1 a b
        exact Or.inr (Or.inl ⟨hf, by dsimp only; omega, by dsimp only; omega⟩)
      · intro y1 a b
        exact Or.inr (Or.inl ⟨hf, by dsimp only; omega, by dsimp only; omega⟩)
    · rw [if_neg hf]; exact h1
  generalize (if top_left > 0 then
          quadrant_column clip color (x0 - x) (y0 - y) (y0 + 1 - (y0 - y)).toNat (quadrant_column clip color (x0 - y) (y0 - x) (y0 + 1 - (y0 - x)).toNat r1)
        else r1) = r2 at h2 ⊢
  have h3 : Logged (quadrant_pixel x0 y0 top_right top_left bottom_left bottom_right) s0
      (if bottom_left > 0 then
          quadrant_column clip color (x0 - x) (y0) (y0 + y - y0).toNat (quadrant_column clip color (x0 - y) (y0) (y0 + x - y0).toNat r2)
        else r2).1 := by
    by_cases hf : bottom_left > 0
    · rw [if_pos hf]
      refine quadrant_column_logged clip color _ _ _ _ ?_
        (quadrant_column_logged clip color _ _ _ r2 ?_ h2)
      · intro y1 a b
        exact Or.inr (Or.inr (Or.inl ⟨hf, by dsimp only; omega, by dsimp only; omega⟩))
      · intro y1 a b
        exact Or.inr (Or.inr (Or.inl ⟨hf, by dsimp only; omega, by dsimp only; omega⟩))
    · rw [if_neg hf]; exact h2
  generalize (if bottom_left > 0 then
          quadrant_column clip color (x0 - x) (y0) (y0 + y - y0).toNat (quadrant_column clip color (x0 - y) (y0) (y0 + x - y0).toNat r2)
        else r2) = r3 at h3 ⊢
  have h4 : Logged (quadrant_pixel x0 y0 top_right top_left bottom_left bottom_right) s0
      (if bottom_right > 0 then
          quadrant_column clip color (x0 + x - 1) (y0) (y0 + y - y0).toNat (quadrant_column clip color (x0 + y - 1) (y0) (y0 + x - y0).toNat r3)
        else r3).1 := by
    by_cases hf : bottom_right > 0
    · rw [if_pos hf]
      refine quadrant_column_logged clip color _ _ _ _ ?_
        (quadrant_column_logged clip color _ _ _ r3 ?_ h3)
      · intro y1 a b
        exact Or.inr (Or.inr (Or.inr ⟨hf, by dsimp only; omega, by dsimp only; omega⟩))
      · intro y1 a b
        exact Or.inr (Or.inr (Or.inr ⟨hf, by dsimp only; omega, by dsimp only; omega⟩))
    · rw [if_neg hf]; exact h3
  exact h4

theorem draw_circle_quadrant_stroke_body_quadrants (clip : SDL_Rect) (x0 y0 : Int)
    (color : Nat) (top_right top_left bottom_left bottom_right : Int) (s0 : Surface)
    (s : QuadrantState) (hx : 0 ≤ s.x)
    (h : Logged (quadrant_pixel x0 y0 top_right top_left bottom_left bottom_right) s0 s.surf) :
    (draw_circle_quadrant_stroke_body clip x0 y0 color top_right top_left bottom_left
        bottom_right s).x = s.x + 1 ∧
      (draw_circle_quadrant_stroke_body clip x0 y0 color top_right top_left bottom_left
        bottom_right s).y ≤ s.y ∧
      Logged (quadrant_pixel x0 y0 top_right top_left bottom_left bottom_right) s0
        (draw_circle_quadrant_stroke_body clip x0 y0 color top_right top_left bottom_left
          bottom_right s).surf := by
  have hr : Logged (quadrant_pixel x0 y0 top_right top_left bottom_left bottom_right) s0
      (s.surf, s.drawn_area).1 := h
  by_cases c1 : s.f ≥ 0 <;> by_cases c2 : s.i_f ≥ 0 <;> by_cases c3 : s.thickness > 1
  all_goals
    simp only [draw_circle_quadrant_stroke_body, c1, c2, c3, if_true, if_false]
    refine ⟨trivial, by omega, ?_⟩
    exact quadrant_stroke_chain clip x0 y0 color top_right top_left bottom_left bottom_right
      s0 _ _ _ (s.surf, s.drawn_area) (by omega) hr

theorem draw_circle_quadrant_fill_body_quadrants (clip : SDL_Rect) (x0 y0 : Int)
    (color : Nat) (top_right top_left bottom_left bottom_right : Int) (s0 : Surface)
    (s : QuadrantState) (hx : 0 ≤ s.x) (hf : s.x = 0 → s.f < 0) (hc : s.x < s.y)
    (h : Logged (quadrant_pixel x0 y0 top_right top_left bottom_left bottom_right) s0 s.surf) :
    (draw_circle_quadrant_fill_body clip x0 y0 color top_right top_left bottom_left
        bottom_right s).x = s.x + 1 ∧
      (draw_circle_quadrant_fill_body clip x0 y0 color top_right top_left bottom_left
        bottom_right s).y ≤ s.y ∧
      Logged (quadrant_pixel x0 y0 top_right top_left bottom_left bottom_right) s0
        (draw_circle_quadrant_fill_body clip x0 y0 color top_right top_left bottom_left
          bottom_right s).surf := by
  have hr : Logged (quadrant_pixel x0 y0 top_right top_left bottom_left bottom_right) s0
      (s.surf, s.drawn_area).1 := h
  by_cases c1 : s.f ≥ 0
  all_goals
    simp only [draw_circle_quadrant_fill_body, c1, if_true, if_false]
    refine ⟨trivial, by omega, ?_⟩
    exact quadrant_fill_chain clip x0 y0 color top_right top_left bottom_left bottom_right
      s0 _ _ (s.surf, s.drawn_area) (by omega) (by omega) hr

theorem Logged.ite_pixel {P : Int × Int → Prop} {s0 : Surface} {r : Surface × DrawnArea}
    (h : Logged P s0 r.1) (clip : SDL_Rect) (x y : Int) (color : Nat) (c : Prop)
    [Decidable c] (hp : c → P (x, y)) :
    Logged P s0 (if c then set_and_check_rect r.1 clip x y color r.2 else r).1 := by
  by_cases hc : c
  · rw [if_pos hc]; exact h.pixel clip x y color (fun _ => hp hc)
  · rw [if_neg hc]; exact h

/-- C29: `draw_circle_quadrant` returns, and every pixel it writes lies in a
quadrant whose flag is positive: for `top_right` it has `x >= x0` and `y <= y0`, for
`top_left` `x < x0` and `y <= y0`, for `bottom_left` `x < x0` and `y >= y0`, for
`bottom_right` `x >= x0` and `y >= y0`; with all four flags `<= 0` nothing is
written.  This holds for every radius and thickness, in particular for
`radius >= 1` and `thickness >= 0`. -/
theorem draw_circle_quadrant_quadrants (surf : Surface) (clip : SDL_Rect)
    (x0 y0 radius thickness : Int) (color : Nat)
    (top_right top_left bottom_left bottom_right : Int) (drawn_area : DrawnArea) :
    ∃ r, draw_circle_quadrant surf clip x0 y0 radius thickness color top_right top_left
        bottom_left bottom_right drawn_area = some r ∧
      ∃ new, r.1.written = new ++ surf.written ∧
        (∀ p ∈ new, quadrant_pixel x0 y0 top_right top_left bottom_left bottom_right p) ∧
        (top_right ≤ 0 → top_left ≤ 0 → bottom_left ≤ 0 → bottom_right ≤ 0 → new = []) := by
  have fin : ∀ r : Surface × DrawnArea,
      Logged (quadrant_pixel x0 y0 top_right top_left bottom_left bottom_right) surf r.1 →
      ∃ new, r.1.written = new ++ surf.written ∧
        (∀ p ∈ new, quadrant_pixel x0 y0 top_right top_left bottom_left bottom_right p) ∧
        (top_right ≤ 0 → top_left ≤ 0 → bottom_left ≤ 0 → bottom_right ≤ 0 → new = []) := by
    intro r ⟨new, e, hp⟩
    refine ⟨new, e, hp, ?_⟩
    intro a b c d
    refine List.eq_nil_iff_forall_not_mem.mpr ?_
    intro p hmem
    rcases hp p hmem with h | h | h | h <;> omega
  unfold draw_circle_quadrant
  dsimp only
  by_cases h1 : radius = 1
  · rw [if_pos h1]
    refine ⟨_, rfl, fin _ ?_⟩
    have a0 : Logged (quadrant_pixel x0 y0 top_right top_left bottom_left bottom_right) surf
        (surf, drawn_area).1 := Logged.same _ _
    have a1 := a0.ite_pixel clip x0 (y0 - 1) color (top_right > 0)
      (fun hf => Or.inl ⟨hf, by dsimp only; omega, by dsimp only; omega⟩)
    have a2 := a1.ite_pixel clip (x0 - 1) (y0 - 1) color (top_left > 0)
      (fun hf => Or.inr (Or.inl ⟨hf, by dsimp only; omega, by dsimp only; omega⟩))
    have a3 := a2.ite_pixel clip (x0 - 1) y0 color (bottom_left > 0)
      (fun hf => Or.inr (Or.inr (Or.inl ⟨hf, by dsimp only; omega, by dsimp only; omega⟩)))
    exact a3.ite_pixel clip x0 y0 color (bottom_right > 0)
      (fun hf => Or.inr (Or.inr (Or.inr ⟨hf, by dsimp only; omega, by dsimp only; omega⟩)))
  rw [if_neg h1]
  by_cases ht : thickness ≠ 0
  · rw [if_pos ht]
    obtain ⟨r, hr, hP, -⟩ := while_loop_terminates (fun s : QuadrantState => decide (s.x < s.y))
      (draw_circle_quadrant_stroke_body clip x0 y0 color top_right top_left bottom_left
        bottom_right)
      (fun s => 0 ≤ s.x ∧
        Logged (quadrant_pixel x0 y0 top_right top_left bottom_left bottom_right) surf s.surf)
      (fun s => (s.y - s.x).toNat)
      (fun s hs _ => by
        obtain ⟨a, b, c⟩ := draw_circle_quadrant_stroke_body_quadrants clip x0 y0 color
          top_right top_left bottom_left bottom_right surf s hs.1 hs.2
        exact ⟨by omega, c⟩)
      (fun s hs hc => by
        have hc := of_decide_eq_true hc
        obtain ⟨a, b, c⟩ := draw_circle_quadrant_stroke_body_quadrants clip x0 y0 color
          top_right top_left bottom_left bottom_right surf s hs.1 hs.2
        dsimp only
        omega)
      (radius + 1).toNat
      { surf := surf, drawn_area := drawn_area, f := 1 - radius, ddF_x := 0
        ddF_y := -2 * radius, x := 0, y := radius, i_y := radius - thickness
        i_f := 1 - (radius - thickness)
        i_ddF_x := 0, i_ddF_y := -2 * (radius - thickness), thickness := thickness }
      ⟨le_refl _, Logged.same _ _⟩ (by dsimp only; omega)
    rw [hr]
    exact ⟨_, rfl, fin _ hP.2⟩
  · rw [if_neg ht]
    obtain ⟨r, hr, hP, -⟩ := while_loop_terminates (fun s : QuadrantState => decide (s.x < s.y))
      (draw_circle_quadrant_fill_body clip x0 y0 color top_right top_left bottom_left
        bottom_right)
      (fun s => (0 ≤ s.x ∧ (s.x = 0 → s.f < 0 ∨ s.y ≤ 0)) ∧
        Logged (quadrant_pixel x0 y0 top_right top_left bottom_left bottom_right) surf s.surf)
      (fun s => (s.y - s.x).toNat)
      (fun s hs hc => by
        have hc := of_decide_eq_true hc
        obtain ⟨a, b, c⟩ := draw_circle_quadrant_fill_body_quadrants clip x0 y0 color
          top_right top_left bottom_left bottom_right surf s hs.1.1
          (fun h0 => by have := hs.1.2 h0; omega) hc hs.2
        exact ⟨⟨by omega, fun h0 => by omega⟩, c⟩)
      (fun s hs hc => by
        have hc := of_decide_eq_true hc
        obtain ⟨a, b, c⟩ := draw_circle_quadrant_fill_body_quadrants clip x0 y0 color
          top_right top_left bottom_left bottom_right surf s hs.1.1
          (fun h0 => by have := hs.1.2 h0; omega) hc hs.2
        dsimp only
        omega)
      (radius + 1).toNat
      { surf := surf, drawn_area := drawn_area, f := 1 - radius, ddF_x := 0
        ddF_y := -2 * radius, x := 0, y := radius, i_y := radius - thickness
        i_f := 1 - (radius - thickness)
        i_ddF_x := 0, i_ddF_y := -2 * (radius - thickness), thickness := thickness }
      ⟨⟨le_refl _, fun _ => by dsimp only; omega⟩, Logged.same _ _⟩ (by dsimp only; omega)
    rw [hr]
    exact ⟨_, rfl, fin _ hP.2⟩

/-! ## The bounds of an arc -/

theorem reduce_bound_returns (stop edge : Int → Bool) (step : Int)
    (hstep : step = 1 ∨ step = -1) (lim b0 : Int) (fuel : Nat)
    (hstop : ∀ b, stop b = false → 0 < step * (lim - b))
    (hf : (step * (lim - b0)).toNat + 1 ≤ fuel) :
    ∃ s, reduce_bound stop edge step fuel b0 = some s ∧ 0 ≤ step * (s.bound - b0) := by
  unfold reduce_bound
  obtain ⟨r, hr, hP, -⟩ := while_loop_terminates
    (fun s : BoundState => !s.found && !s.returned)
    (fun s =>
      if stop s.bound then { s with returned := true }
      else
        let found := edge s.bound
        { s with found := found, bound := s.bound + step * (if found then 0 else 1) })
    (fun s => 0 ≤ step * (s.bound - b0))
    (fun s => if s.found || s.returned then 0 else (step * (lim - s.bound)).toNat + 1)
    (fun s hs _ => by
      dsimp only
      by_cases h1 : stop s.bound = true
      · rw [if_pos h1]; exact hs
      · rw [if_neg h1]
        dsimp only
        by_cases h2 : edge s.bound = true
        · rw [if_pos h2]; simpa using hs
        · rw [if_neg h2]
          rcases hstep with h | h <;> subst h <;> omega)
    (fun s hs hc => by
      have hc1 : s.found = false ∧ s.returned = false := by
        simpa using hc
      dsimp only
      by_cases h1 : stop s.bound = true
      · rw [if_pos h1]
        simp [hc1.1, hc1.2]
      · rw [if_neg h1]
        dsimp only
        have h3 := hstop s.bound (by simpa using h1)
        by_cases h2 : edge s.bound = true
        · simp [h2, hc1.1, hc1.2]
        · simp only [h2, hc1.1, hc1.2, Bool.false_eq_true, if_false, Bool.or_self]
          rcases hstep with h | h <;> subst h <;> omega)
    fuel ⟨b0, false, false⟩ (by simp) (by simpa using hf)
  exact ⟨r, hr, hP⟩

theorem calc_arc_bounds_returns {D : Type} (ops : DoubleOps D) (clip : SDL_Rect)
    (angle_start angle_stop : D) (radius1 radius2 inner_radius1 inner_radius2 : Int)
    (i1 i2 i3 i4 min_dotproduct x_middle y_middle : D) (x_center y_center : Int)
    (bounds : ArcBounds) :
    ∃ b, calc_arc_bounds ops clip angle_start angle_stop radius1 radius2 inner_radius1
        inner_radius2 i1 i2 i3 i4 min_dotproduct x_middle y_middle x_center y_center bounds =
        some b ∧
      (b = bounds ∨
        (clip.x - x_center ≤ b.minx ∧ clip.y - y_center ≤ b.miny ∧
          b.maxx ≤ clip.x + clip.w - x_center - 1 ∧
          b.maxy ≤ clip.y + clip.h - y_center - 1)) := by
  obtain ⟨h1, h2, h3, h4⟩ := arc_corner_bounds_clip ops clip angle_start angle_stop radius1
    radius2 inner_radius1 inner_radius2 min_dotproduct x_middle y_middle x_center y_center
  unfold calc_arc_bounds
  generalize arc_corner_bounds ops clip angle_start angle_stop radius1 radius2 inner_radius1
    inner_radius2 min_dotproduct x_middle y_middle x_center y_center = b0 at *
  simp only
  by_cases he : b0.minx ≥ b0.maxx ∨ b0.miny ≥ b0.maxy
  · rw [if_pos he]; exact ⟨_, rfl, Or.inl rfl⟩
  rw [if_neg he]
  generalize hfuel : (abs (b0.maxx - b0.minx) + abs (b0.maxy - b0.miny) + 2).toNat = fuel
  have hfuel1 : ∀ a b : Int, b0.minx ≤ a → a ≤ b0.maxx → b0.minx ≤ b → b ≤ b0.maxx →
      (a - b).toNat + 1 ≤ fuel := by
    intro a b _ _ _ _
    rw [← hfuel]
    unfold abs
    split_ifs <;> omega
  have hfuel2 : ∀ a b : Int, b0.miny ≤ a → a ≤ b0.maxy → b0.miny ≤ b → b ≤ b0.maxy →
      (a - b).toNat + 1 ≤ fuel := by
    intro a b _ _ _ _
    rw [← hfuel]
    unfold abs
    split_ifs <;> omega
  obtain ⟨s1, e1, p1⟩ := reduce_bound_returns (fun miny => decide (miny ≥ b0.maxy))
    (fun miny => exists_in_range b0.minx b0.maxx (fun x =>
      check_pixel_in_arc ops x miny min_dotproduct i1 i2 i3 i4 x_middle y_middle)) 1
    (Or.inl rfl) b0.maxy b0.miny fuel
    (fun b hb => by have := of_decide_eq_false hb; omega)
    (by rw [one_mul]; exact hfuel2 _ _ (by omega) (by omega) (by omega) (by omega))
  rw [e1, Option.some_bind]
  by_cases r1 : s1.returned = true
  · rw [if_pos r1]; exact ⟨_, rfl, Or.inl rfl⟩
  rw [if_neg r1]
  obtain ⟨s2, e2, p2⟩ := reduce_bound_returns (fun maxy => decide (maxy ≤ s1.bound))
    (fun maxy => exists_in_range b0.minx b0.maxx (fun x =>
      check_pixel_in_arc ops x maxy min_dotproduct i1 i2 i3 i4 x_middle y_middle)) (-1)
    (Or.inr rfl) s1.bound b0.maxy fuel
    (fun b hb => by have := of_decide_eq_false hb; omega)
    (by
      by_cases hle : s1.bound ≤ b0.maxy
      · have := hfuel2 b0.maxy s1.bound (by omega) (by omega) (by omega) hle
        have e : -1 * (s1.bound - b0.maxy) = b0.maxy - s1.bound := by ring
        rw [e]; exact this
      · have := hfuel2 b0.maxy b0.maxy (by omega) (by omega) (by omega) (by omega)
        omega)
  rw [e2, Option.some_bind]
  by_cases r2 : s2.returned = true
  · rw [if_pos r2]; exact ⟨_, rfl, Or.inl rfl⟩
  rw [if_neg r2]
  obtain ⟨s3, e3, p3⟩ := reduce_bound_returns (fun minx => decide (minx ≥ b0.maxx))
    (fun minx => exists_in_range s1.bound s2.bound (fun y =>
      check_pixel_in_arc ops minx y min_dotproduct i1 i2 i3 i4 x_middle y_middle)) 1
    (Or.inl rfl) b0.maxx b0.minx fuel
    (fun b hb => by have := of_decide_eq_false hb; omega)
    (by rw [one_mul]; exact hfuel1 _ _ (by omega) (by omega) (by omega) (by omega))
  rw [e3, Option.some_bind]
  by_cases r3 : s3.returned = true
  · rw [if_pos r3]; exact ⟨_, rfl, Or.inl rfl⟩
  rw [if_neg r3]
  obtain ⟨s4, e4, p4⟩ := reduce_bound_returns (fun maxx => decide (s3.bound ≥ maxx))
    (fun maxx => exists_in_range s1.bound s2.bound (fun y =>
      check_pixel_in_arc ops maxx y min_dotproduct i1 i2 i3 i4 x_middle y_middle)) (-1)
    (Or.inr rfl) s3.bound b0.maxx fuel
    (fun b hb => by have := of_decide_eq_false hb; omega)
    (by
      by_cases hle : s3.bound ≤ b0.maxx
      · have := hfuel1 b0.maxx s3.bound (by omega) (by omega) (by omega) hle
        have e : -1 * (s3.bound - b0.maxx) = b0.maxx - s3.bound := by ring
        rw [e]; exact this
      · have := hfuel1 b0.maxx b0.maxx (by omega) (by omega) (by omega) (by omega)
        omega)
  rw [e4, Option.some_bind]
  by_cases r4 : s4.returned = true
  · rw [if_pos r4]; exact ⟨_, rfl, Or.inl rfl⟩
  rw [if_neg r4]
  refine ⟨_, rfl, Or.inr ⟨?_, ?_, ?_, ?_⟩⟩ <;> dsimp only <;> omega

/-! ## The writes of `draw_arc` -/

theorem Logged.ite_unsafe {P : Int × Int → Prop} {s0 s : Surface} (c : Bool) (x y : Int)
    (color : Nat) (hp : c = true → P (x, y)) (h : Logged P s0 s) :
    Logged P s0 (if c = true then unsafe_set_at s x y color else s) := by
  by_cases hc : c = true
  · rw [if_pos hc]; exact h.store _ x y color (hp hc)
  · rw [if_neg hc]; exact h

theorem draw_arc_pixel_inside {D : Type} (ops : DoubleOps D) (clip : SDL_Rect)
    (x_center y_center : Int) (color : Nat) (b : ArcBounds)
    (min_dotproduct x_middle y_middle : D) (y x : Int) (s0 surf : Surface)
    (hb : clip.x - x_center ≤ b.minx ∧ clip.y - y_center ≤ b.miny ∧
      b.maxx ≤ clip.x + clip.w - x_center - 1 ∧ b.maxy ≤ clip.y + clip.h - y_center - 1)
    (h : Logged (inside clip) s0 surf) :
    Logged (inside clip) s0
      (draw_arc_pixel ops x_center y_center color b min_dotproduct x_middle y_middle y x
        surf) := by
  unfold draw_arc_pixel
  dsimp only
  by_cases h0 : (!(decide (x ≥ b.minx) && decide (x ≤ b.maxx) ||
      decide (-x ≥ b.minx) && decide (-x ≤ b.maxx))) = true
  · rw [if_pos h0]; exact h
  · rw [if_neg h0]
    refine Logged.ite_unsafe _ _ _ _ ?_ (Logged.ite_unsafe _ _ _ _ ?_
      (Logged.ite_unsafe _ _ _ _ ?_ (Logged.ite_unsafe _ _ _ _ ?_ h)))
    all_goals
      intro hc
      simp only [Bool.and_eq_true, decide_eq_true_eq] at hc
      unfold inside
      dsimp only
      omega

theorem draw_arc_sweep_inside {D : Type} (ops : DoubleOps D) (surf : Surface)
    (clip : SDL_Rect) (x_center y_center radius1 inner_radius1 inner_radius2 : Int)
    (i2 i4 min_dotproduct x_middle y_middle : D) (color : Nat) (da : DrawnArea)
    (b : ArcBounds)
    (hb : b = ⟨0, 0, -1, -1⟩ ∨
      (clip.x - x_center ≤ b.minx ∧ clip.y - y_center ≤ b.miny ∧
        b.maxx ≤ clip.x + clip.w - x_center - 1 ∧
        b.maxy ≤ clip.y + clip.h - y_center - 1)) :
    Logged (inside clip) surf
        (draw_arc_sweep ops surf x_center y_center radius1 inner_radius1 inner_radius2 i2 i4
          min_dotproduct x_middle y_middle color da b).1 ∧
      ((draw_arc_sweep ops surf x_center y_center radius1 inner_radius1 inner_radius2 i2 i4
          min_dotproduct x_middle y_middle color da b).2 = da ∨
        (clip.x ≤ (draw_arc_sweep ops surf x_center y_center radius1 inner_radius1
            inner_radius2 i2 i4 min_dotproduct x_middle y_middle color da b).2.minx ∧
          clip.y ≤ (draw_arc_sweep ops surf x_center y_center radius1 inner_radius1
            inner_radius2 i2 i4 min_dotproduct x_middle y_middle color da b).2.miny ∧
          (draw_arc_sweep ops surf x_center y_center radius1 inner_radius1
            inner_radius2 i2 i4 min_dotproduct x_middle y_middle color da b).2.maxx <
            clip.x + clip.w ∧
          (draw_arc_sweep ops surf x_center y_center radius1 inner_radius1
            inner_radius2 i2 i4 min_dotproduct x_middle y_middle color da b).2.maxy <
            clip.y + clip.h)) := by
  rcases hb with hb | hb
  · subst hb
    rw [draw_arc_sweep_initial]
    exact ⟨Logged.same _ _, Or.inl rfl⟩
  unfold draw_arc_sweep
  by_cases he : b.minx ≥ b.maxx ∨ b.miny ≥ b.maxy
  · rw [if_pos he]
    exact ⟨Logged.same _ _, Or.inl rfl⟩
  rw [if_neg he]
  dsimp only
  refine ⟨?_, Or.inr ⟨by omega, by omega, by omega, by omega⟩⟩
  refine for_loop_inv (fun s => Logged (inside clip) surf s) _ ?_ _ 0 surf (Logged.same _ _)
  intro y s hs
  refine for_loop_inv (fun s => Logged (inside clip) surf s) _ ?_ _ _ s hs
  intro x s1 hs1
  exact draw_arc_pixel_inside ops clip x_center y_center color b min_dotproduct x_middle
    y_middle y x surf s1 hb hs1

theorem option_map_returns {α β : Type} (o : Option α) (f : α → β) (Q : α → Prop)
    (R : β → Prop) (h : ∃ a, o = some a ∧ Q a) (hf : ∀ a, Q a → R (f a)) :
    ∃ r, o.map f = some r ∧ R r := by
  obtain ⟨a, ha, hq⟩ := h
  exact ⟨f a, by rw [ha, Option.map_some'], hf a hq⟩

/-- C21: `draw_arc` returns, whatever the trigonometric and square-root operations
compute; every pixel it writes (all writes go through `unsafe_set_at`) lies inside
the clip rectangle, and the drawn area it reports is either the one it was passed
(nothing was drawn) or a box contained in the clip rectangle. -/
theorem draw_arc_inside_clip {D : Type} (ops : DoubleOps D) (surf : Surface)
    (clip : SDL_Rect) (x_center y_center radius1 radius2 width : Int)
    (angle_start angle_stop : D) (color : Nat) (da : DrawnArea) :
    ∃ r, draw_arc ops surf clip x_center y_center radius1 radius2 width angle_start
        angle_stop color da = some r ∧
      (∃ new, r.1.written = new ++ surf.written ∧ ∀ p ∈ new, inside clip p) ∧
      (r.2 = da ∨
        (clip.x ≤ r.2.minx ∧ clip.y ≤ r.2.miny ∧ r.2.maxx < clip.x + clip.w ∧
          r.2.maxy < clip.y + clip.h)) := by
  unfold draw_arc
  by_cases h1 : width ≤ 0
  · rw [if_pos h1]; exact ⟨_, rfl, ⟨[], rfl, by simp⟩, Or.inl rfl⟩
  rw [if_neg h1]
  dsimp only
  generalize (if ops.lt angle_stop angle_start = true then
    ops.add angle_stop (ops.mul (ops.ofInt 2) ops.pi) else angle_stop) = stop1
  by_cases h2 : ops.le stop1 angle_start = true
  · rw [if_pos h2]; exact ⟨_, rfl, ⟨[], rfl, by simp⟩, Or.inl rfl⟩
  rw [if_neg h2]
  exact option_map_returns _ _ _ _
    (calc_arc_bounds_returns ops clip angle_start stop1 radius1 radius2 _ _ _ _ _ _ _ _ _
      x_center y_center ⟨0, 0, -1, -1⟩)
    (fun b hb => draw_arc_sweep_inside ops surf clip x_center y_center radius1 _ _ _ _ _ _ _
      color da b hb)

/-! ## Wide lines: one span per step -/

theorem draw_line_width_xinc_body_span (clip : SDL_Rect) (color : Nat)
    (width extra_width dx dy sx sy : Int) (s : LineState) (hv : valid_depth s.surf)
    (hy : clip.y ≤ s.y1 ∧ s.y1 < clip.y + clip.h)
    (hx1 : clip.x ≤ s.x1 - width + extra_width) (hx2 : s.x1 + width < clip.x + clip.w)
    (hne : s.x1 - width + extra_width ≤ s.x1 + width) :
    ∃ s1, Drawn clip color
        (span_log (s.x1 - width + extra_width)
          (s.x1 + width + 1 - (s.x1 - width + extra_width)).toNat s.y1)
        (s.surf, s.drawn_area) (s1.surf, s1.drawn_area) ∧
      s1.x1 = s.x1 ∧ s1.y1 = s.y1 ∧ s1.err = s.err ∧
      draw_line_width_xinc_body clip color width extra_width dx dy sx sy s =
        bresenham_step dx dy sx sy s1 := by
  unfold draw_line_width_xinc_body
  simp only [MIN_eq, MAX_eq]
  rw [if_pos (by omega), max_eq_left hx1, min_eq_right (by omega), if_pos hne]
  exact ⟨{ s with
      surf := drawhorzline s.surf color (s.x1 - width + extra_width) s.y1 (s.x1 + width)
      drawn_area := add_line_to_drawn_list (s.x1 - width + extra_width) s.y1 (s.x1 + width)
        s.y1 s.drawn_area },
    drawhorzline_drawn s.surf clip color _ s.y1 _ s.drawn_area hv hne hx1 hx2 hy,
    rfl, rfl, rfl, rfl⟩

theorem draw_line_width_yinc_body_span (clip : SDL_Rect) (color : Nat)
    (width extra_width dx dy sx sy : Int) (s : LineState) (hv : valid_depth s.surf)
    (hx : clip.x ≤ s.x1 ∧ s.x1 < clip.x + clip.w)
    (hy1 : clip.y ≤ s.y1 - width + extra_width) (hy2 : s.y1 + width < clip.y + clip.h)
    (hne : s.y1 - width + extra_width ≤ s.y1 + width) :
    ∃ s1, Drawn clip color
        (vspan_log s.x1 (s.y1 - width + extra_width)
          (s.y1 + width + 1 - (s.y1 - width + extra_width)).toNat)
        (s.surf, s.drawn_area) (s1.surf, s1.drawn_area) ∧
      s1.x1 = s.x1 ∧ s1.y1 = s.y1 ∧ s1.err = s.err ∧
      draw_line_width_yinc_body clip color width extra_width dx dy sx sy s =
        bresenham_step dx dy sx sy s1 := by
  unfold draw_line_width_yinc_body
  simp only [MIN_eq, MAX_eq]
  rw [if_pos (by omega), max_eq_left hy1, min_eq_right (by omega), if_pos hne]
  exact ⟨{ s with
      surf := drawvertline s.surf color (s.y1 - width + extra_width) s.x1 (s.y1 + width)
      drawn_area := add_line_to_drawn_list s.x1 (s.y1 - width + extra_width) s.x1
        (s.y1 + width) s.drawn_area },
    drawvertline_drawn s.surf clip color _ s.x1 _ s.drawn_area hv hne hy1 hy2 hx,
    rfl, rfl, rfl, rfl⟩

theorem bresenham_steps_bound (dx dy err0 err k j : Int) (hdx : 0 ≤ dx) (hdy : 0 < dy)
    (he0 : err0 ≤ 0) (he : -dy < err) (hj : j ≤ dy) (heq : err = err0 - k * dy + j * dx) :
    k ≤ dx := by
  by_contra hk
  have h1 : j * dx ≤ dy * dx := mul_le_mul_of_nonneg_right hj hdx
  have h2 : (dx + 1) * dy ≤ k * dy := mul_le_mul_of_nonneg_right (by omega) (by omega)
  nlinarith

theorem draw_line_width_xinc_spans (surf : Surface) (clip : SDL_Rect) (color : Nat)
    (x1 y1 y2 width extra_width dx dy sx sy err0 : Int) (da : DrawnArea)
    (hv : valid_depth surf) (hd : dx ≤ dy) (hdy : 0 < dy) (hdx : 0 ≤ dx)
    (he : -dy < err0 ∧ err0 ≤ 0) (hsy : sy = 1 ∨ sy = -1) (hy2 : y2 = y1 + sy * dy)
    (hne : extra_width ≤ 2 * width)
    (hclip : ∀ k j : Int, 0 ≤ k → k ≤ dx → 0 ≤ j → j ≤ dy →
      (clip.y ≤ y1 + sy * j ∧ y1 + sy * j < clip.y + clip.h) ∧
      clip.x ≤ x1 + sx * k - width + extra_width ∧ x1 + sx * k + width < clip.x + clip.w) :
    ∃ r cs,
      while_loop (fun s => decide (s.y1 ≠ y2 + sy))
        (draw_line_width_xinc_body clip color width extra_width dx dy sx sy)
        (dx + dy + 2).toNat ⟨surf, da, x1, y1, err0⟩ = some r ∧
      cs ≠ [] ∧
      (∀ c ∈ cs, ∃ k j : Int, 0 ≤ k ∧ k ≤ dx ∧ 0 ≤ j ∧ j ≤ dy ∧
        c = (x1 + sx * k, y1 + sy * j)) ∧
      Drawn clip color
        (stroke_log (fun c => span_log (c.1 - width + extra_width)
          (c.1 + width + 1 - (c.1 - width + extra_width)).toNat c.2) cs)
        (surf, da) (r.surf, r.drawn_area) := by
  have step : ∀ s : LineState,
      (valid_depth s.surf ∧ (-dy < s.err ∧ s.err ≤ 0) ∧
        ∃ (k j : Int) (cs : List (Int × Int)), 0 ≤ k ∧ 0 ≤ j ∧ j ≤ dy + 1 ∧
          s.x1 = x1 + sx * k ∧ s.y1 = y1 + sy * j ∧ s.err = err0 - k * dy + j * dx ∧
          (cs.length : Int) = j ∧
          (∀ c ∈ cs, ∃ k j : Int, 0 ≤ k ∧ k ≤ dx ∧ 0 ≤ j ∧ j ≤ dy ∧
            c = (x1 + sx * k, y1 + sy * j)) ∧
          Drawn clip color
            (stroke_log (fun c => span_log (c.1 - width + extra_width)
              (c.1 + width + 1 - (c.1 - width + extra_width)).toNat c.2) cs)
            (surf, da) (s.surf, s.drawn_area)) →
      (decide (s.y1 ≠ y2 + sy)) = true →
      (valid_depth (draw_line_width_xinc_body clip color width extra_width dx dy sx sy s).surf ∧
        (-dy < (draw_line_width_xinc_body clip color width extra_width dx dy sx sy s).err ∧
          (draw_line_width_xinc_body clip color width extra_width dx dy sx sy s).err ≤ 0) ∧
        ∃ (k j : Int) (cs : List (Int × Int)), 0 ≤ k ∧ 0 ≤ j ∧ j ≤ dy + 1 ∧
          (draw_line_width_xinc_body clip color width extra_width dx dy sx sy s).x1 =
            x1 + sx * k ∧
          (draw_line_width_xinc_body clip color width extra_width dx dy sx sy s).y1 =
            y1 + sy * j ∧
          (draw_line_width_xinc_body clip color width extra_width dx dy sx sy s).err =
            err0 - k * dy + j * dx ∧
          (cs.length : Int) = j ∧
          (∀ c ∈ cs, ∃ k j : Int, 0 ≤ k ∧ k ≤ dx ∧ 0 ≤ j ∧ j ≤ dy ∧
            c = (x1 + sx * k, y1 + sy * j)) ∧
          Drawn clip color
            (stroke_log (fun c => span_log (c.1 - width + extra_width)
              (c.1 + width + 1 - (c.1 - width + extra_width)).toNat c.2) cs)
            (surf, da)
            ((draw_line_width_xinc_body clip color width extra_width dx dy sx sy s).surf,
              (draw_line_width_xinc_body clip color width extra_width dx dy sx sy s).drawn_area)) ∧
      (draw_line_width_xinc_body clip color width extra_width dx dy sx sy s).y1 =
        s.y1 + sy := by
    intro s ⟨hvs, ⟨hlo, hhi⟩, k, j, cs, hk0, hj0, hj1, hxk, hyj, herr, hlen, hcs, hdr⟩ hc
    have hjne : j ≠ dy + 1 := by
      intro h
      simp only [decide_eq_true_eq] at hc
      apply hc
      rw [hyj, hy2, h]; ring
    have hjle : j ≤ dy := by omega
    have hkle : k ≤ dx :=
      bresenham_steps_bound dx dy err0 s.err k j hdx hdy he.2 hlo hjle herr
    obtain ⟨⟨c1, c2⟩, c3, c4⟩ := hclip k j hk0 hkle hj0 hjle
    rw [← hxk] at c3 c4
    rw [← hyj] at c1 c2
    obtain ⟨s1, hd1, e1, e2, e3, heq⟩ :=
      draw_line_width_xinc_body_span clip color width extra_width dx dy sx sy s hvs
        ⟨c1, c2⟩ c3 c4 (by omega)
    obtain ⟨f1, f2⟩ := bresenham_step_frame dx dy sx sy s1
    obtain ⟨bx, by1, be⟩ := bresenham_step_eq dx dy sx sy s1
    rw [heq, f1, f2, bx, by1, be, e1, e2, e3]
    have q2 : s.err < dy := by omega
    rw [if_pos q2, if_pos q2]
    refine ⟨⟨hd1.valid hvs, ?_, ?_⟩, rfl⟩
    · split <;> omega
    · by_cases q1 : s.err > -dx
      · rw [if_pos q1, if_pos q1]
        refine ⟨k + 1, j + 1, (s.x1, s.y1) :: cs, by omega, by omega, by omega,
          by rw [hxk]; ring, by rw [hyj]; ring, by rw [herr]; ring,
          by rw [List.length_cons]; push_cast; omega, ?_, hdr.trans hd1⟩
        intro c hcm
        rcases List.mem_cons.mp hcm with h | h
        · exact ⟨k, j, hk0, hkle, hj0, hjle, by rw [h, hxk, hyj]⟩
        · exact hcs c h
      · rw [if_neg q1, if_neg q1]
        refine ⟨k, j + 1, (s.x1, s.y1) :: cs, by omega, by omega, by omega,
          hxk, by rw [hyj]; ring, by rw [herr]; ring,
          by rw [List.length_cons]; push_cast; omega, ?_, hdr.trans hd1⟩
        intro c hcm
        rcases List.mem_cons.mp hcm with h | h
        · exact ⟨k, j, hk0, hkle, hj0, hjle, by rw [h, hxk, hyj]⟩
        · exact hcs c h
  have key := while_loop_terminates
    (fun s : LineState => decide (s.y1 ≠ y2 + sy))
    (draw_line_width_xinc_body clip color width extra_width dx dy sx sy)
    (fun s => valid_depth s.surf ∧ (-dy < s.err ∧ s.err ≤ 0) ∧
        ∃ (k j : Int) (cs : List (Int × Int)), 0 ≤ k ∧ 0 ≤ j ∧ j ≤ dy + 1 ∧
          s.x1 = x1 + sx * k ∧ s.y1 = y1 + sy * j ∧ s.err = err0 - k * dy + j * dx ∧
          (cs.length : Int) = j ∧
          (∀ c ∈ cs, ∃ k j : Int, 0 ≤ k ∧ k ≤ dx ∧ 0 ≤ j ∧ j ≤ dy ∧
            c = (x1 + sx * k, y1 + sy * j)) ∧
          Drawn clip color
            (stroke_log (fun c => span_log (c.1 - width + extra_width)
              (c.1 + width + 1 - (c.1 - width + extra_width)).toNat c.2) cs)
            (surf, da) (s.surf, s.drawn_area))
    (fun s => (dy + 1 - (s.y1 - y1) * sy).toNat)
    (fun s hs hc => (step s hs hc).1)
    (by
      intro s hs hc
      have h2 := (step s hs hc).2
      obtain ⟨-, -, k, j, cs, hk0, hj0, hj1, hxk, hyj, -⟩ := hs
      have hjne : j ≠ dy + 1 := by
        intro h
        simp only [decide_eq_true_eq] at hc
        apply hc
        rw [hyj, hy2, h]; ring
      simp only
      rw [h2, hyj]
      rcases hsy with h | h <;> subst h <;> omega)
    (dx + dy + 2).toNat ⟨surf, da, x1, y1, err0⟩
    ⟨hv, he, 0, 0, [], le_refl _, le_refl _, by omega, by ring, by ring, by ring, rfl,
      by simp, Drawn.refl _ _ _⟩
    (by simp only; omega)
  obtain ⟨r, hr, ⟨_, _, k, j, cs, hk0, hj0, hj1, hxk, hyj, herr, hlen, hcs, hdr⟩, hcf⟩ := key
  refine ⟨r, cs, hr, ?_, hcs, hdr⟩
  have hj : j = dy + 1 := by
    have : r.y1 = y2 + sy := by simpa using hcf
    rw [hyj, hy2] at this
    rcases hsy with h | h <;> subst h <;> omega
  intro hnil
  rw [hnil] at hlen
  simp at hlen
  omega

theorem bresenham_steps_bound_y (dx dy err0 err k j : Int) (hdx : 0 < dx) (hdy : 0 ≤ dy)
    (he0 : 0 ≤ err0) (he : err < dx) (hk : k ≤ dx) (heq : err = err0 - k * dy + j * dx) :
    j ≤ dy := by
  by_contra hj
  have h1 : k * dy ≤ dx * dy := mul_le_mul_of_nonneg_right hk hdy
  have h2 : (dy + 1) * dx ≤ j * dx := mul_le_mul_of_nonneg_right (by omega) (by omega)
  nlinarith

theorem draw_line_width_yinc_spans (surf : Surface) (clip : SDL_Rect) (color : Nat)
    (x1 y1 x2 width extra_width dx dy sx sy err0 : Int) (da : DrawnArea)
    (hv : valid_depth surf) (hd : dy < dx) (hdy : 0 ≤ dy)
    (he : 0 ≤ err0 ∧ err0 < dx) (hsx : sx = 1 ∨ sx = -1) (hx2 : x2 = x1 + sx * dx)
    (hne : extra_width ≤ 2 * width)
    (hclip : ∀ k j : Int, 0 ≤ k → k ≤ dx → 0 ≤ j → j ≤ dy →
      (clip.x ≤ x1 + sx * k ∧ x1 + sx * k < clip.x + clip.w) ∧
      clip.y ≤ y1 + sy * j - width + extra_width ∧ y1 + sy * j + width < clip.y + clip.h) :
    ∃ r cs,
      while_loop (fun s => decide (s.x1 ≠ x2 + sx))
        (draw_line_width_yinc_body clip color width extra_width dx dy sx sy)
        (dx + dy + 2).toNat ⟨surf, da, x1, y1, err0⟩ = some r ∧
      cs ≠ [] ∧
      (∀ c ∈ cs, ∃ k j : Int, 0 ≤ k ∧ k ≤ dx ∧ 0 ≤ j ∧ j ≤ dy ∧
        c = (x1 + sx * k, y1 + sy * j)) ∧
      Drawn clip color
        (stroke_log (fun c => vspan_log c.1 (c.2 - width + extra_width)
          (c.2 + width + 1 - (c.2 - width + extra_width)).toNat) cs)
        (surf, da) (r.surf, r.drawn_area) := by
  have step : ∀ s : LineState,
      (valid_depth s.surf ∧ (0 ≤ s.err ∧ s.err < dx) ∧
        ∃ (k j : Int) (cs : List (Int × Int)), 0 ≤ k ∧ 0 ≤ j ∧ k ≤ dx + 1 ∧
          s.x1 = x1 + sx * k ∧ s.y1 = y1 + sy * j ∧ s.err = err0 - k * dy + j * dx ∧
          (cs.length : Int) = k ∧
          (∀ c ∈ cs, ∃ k j : Int, 0 ≤ k ∧ k ≤ dx ∧ 0 ≤ j ∧ j ≤ dy ∧
            c = (x1 + sx * k, y1 + sy * j)) ∧
          Drawn clip color
            (stroke_log (fun c => vspan_log c.1 (c.2 - width + extra_width)
              (c.2 + width + 1 - (c.2 - width + extra_width)).toNat) cs)
            (surf, da) (s.surf, s.drawn_area)) →
      (decide (s.x1 ≠ x2 + sx)) = true →
      (valid_depth (draw_line_width_yinc_body clip color width extra_width dx dy sx sy s).surf ∧
        (0 ≤ (draw_line_width_yinc_body clip color width extra_width dx dy sx sy s).err ∧
          (draw_line_width_yinc_body clip color width extra_width dx dy sx sy s).err < dx) ∧
        ∃ (k j : Int) (cs : List (Int × Int)), 0 ≤ k ∧ 0 ≤ j ∧ k ≤ dx + 1 ∧
          (draw_line_width_yinc_body clip color width extra_width dx dy sx sy s).x1 =
            x1 + sx * k ∧
          (draw_line_width_yinc_body clip color width extra_width dx dy sx sy s).y1 =
            y1 + sy * j ∧
          (draw_line_width_yinc_body clip color width extra_width dx dy sx sy s).err =
            err0 - k * dy + j * dx ∧
          (cs.length : Int) = k ∧
          (∀ c ∈ cs, ∃ k j : Int, 0 ≤ k ∧ k ≤ dx ∧ 0 ≤ j ∧ j ≤ dy ∧
            c = (x1 + sx * k, y1 + sy * j)) ∧
          Drawn clip color
            (stroke_log (fun c => vspan_log c.1 (c.2 - width + extra_width)
              (c.2 + width + 1 - (c.2 - width + extra_width)).toNat) cs)
            (surf, da)
            ((draw_line_width_yinc_body clip color width extra_width dx dy sx sy s).surf,
              (draw_line_width_yinc_body clip color width extra_width dx dy sx sy s).drawn_area)) ∧
      (draw_line_width_yinc_body clip color width extra_width dx dy sx sy s).x1 =
        s.x1 + sx := by
    intro s ⟨hvs, ⟨hlo, hhi⟩, k, j, cs, hk0, hj0, hk1, hxk, hyj, herr, hlen, hcs, hdr⟩ hc
    have hkne : k ≠ dx + 1 := by
      intro h
      simp only [decide_eq_true_eq] at hc
      apply hc
      rw [hxk, hx2, h]; ring
    have hkle : k ≤ dx := by omega
    have hjle : j ≤ dy :=
      bresenham_steps_bound_y dx dy err0 s.err k j (by omega) hdy he.1 hhi hkle herr
    obtain ⟨⟨c1, c2⟩, c3, c4⟩ := hclip k j hk0 hkle hj0 hjle
    rw [← hxk] at c1 c2
    rw [← hyj] at c3 c4
    obtain ⟨s1, hd1, e1, e2, e3, heq⟩ :=
      draw_line_width_yinc_body_span clip color width extra_width dx dy sx sy s hvs
        ⟨c1, c2⟩ c3 c4 (by omega)
    obtain ⟨f1, f2⟩ := bresenham_step_frame dx dy sx sy s1
    obtain ⟨bx, by1, be⟩ := bresenham_step_eq dx dy sx sy s1
    rw [heq, f1, f2, bx, by1, be, e1, e2, e3]
    have q1 : s.err > -dx := by omega
    rw [if_pos q1, if_pos q1]
    refine ⟨⟨hd1.valid hvs, ?_, ?_⟩, rfl⟩
    · split <;> omega
    · by_cases q2 : s.err < dy
      · rw [if_pos q2, if_pos q2]
        refine ⟨k + 1, j + 1, (s.x1, s.y1) :: cs, by omega, by omega, by omega,
          by rw [hxk]; ring, by rw [hyj]; ring, by rw [herr]; ring,
          by rw [List.length_cons]; push_cast; omega, ?_, hdr.trans hd1⟩
        intro c hcm
        rcases List.mem_cons.mp hcm with h | h
        · exact ⟨k, j, hk0, hkle, hj0, hjle, by rw [h, hxk, hyj]⟩
        · exact hcs c h
      · rw [if_neg q2, if_neg q2]
        refine ⟨k + 1, j, (s.x1, s.y1) :: cs, by omega, by omega, by omega,
          by rw [hxk]; ring, hyj, by rw [herr]; ring,
          by rw [List.length_cons]; push_cast; omega, ?_, hdr.trans hd1⟩
        intro c hcm
        rcases List.mem_cons.mp hcm with h | h
        · exact ⟨k, j, hk0, hkle, hj0, hjle, by rw [h, hxk, hyj]⟩
        · exact hcs c h
  have key := while_loop_terminates
    (fun s : LineState => decide (s.x1 ≠ x2 + sx))
    (draw_line_width_yinc_body clip color width extra_width dx dy sx sy)
    (fun s => valid_depth s.surf ∧ (0 ≤ s.err ∧ s.err < dx) ∧
        ∃ (k j : Int) (cs : List (Int × Int)), 0 ≤ k ∧ 0 ≤ j ∧ k ≤ dx + 1 ∧
          s.x1 = x1 + sx * k ∧ s.y1 = y1 + sy * j ∧ s.err = err0 - k * dy + j * dx ∧
          (cs.length : Int) = k ∧
          (∀ c ∈ cs, ∃ k j : Int, 0 ≤ k ∧ k ≤ dx ∧ 0 ≤ j ∧ j ≤ dy ∧
            c = (x1 + sx * k, y1 + sy * j)) ∧
          Drawn clip color
            (stroke_log (fun c => vspan_log c.1 (c.2 - width + extra_width)
              (c.2 + width + 1 - (c.2 - width + extra_width)).toNat) cs)
            (surf, da) (s.surf, s.drawn_area))
    (fun s => (dx + 1 - (s.x1 - x1) * sx).toNat)
    (fun s hs hc => (step s hs hc).1)
    (by
      intro s hs hc
      have h2 := (step s hs hc).2
      obtain ⟨-, -, k, j, cs, hk0, hj0, hk1, hxk, hyj, -⟩ := hs
      have hkne : k ≠ dx + 1 := by
        intro h
        simp only [decide_eq_true_eq] at hc
        apply hc
        rw [hxk, hx2, h]; ring
      simp only
      rw [h2, hxk]
      rcases hsx with h | h <;> subst h <;> omega)
    (dx + dy + 2).toNat ⟨surf, da, x1, y1, err0⟩
    ⟨hv, he, 0, 0, [], le_refl _, le_refl _, by omega, by ring, by ring, by ring, rfl,
      by simp, Drawn.refl _ _ _⟩
    (by simp only; omega)
  obtain ⟨r, hr, ⟨_, _, k, j, cs, hk0, hj0, hk1, hxk, hyj, herr, hlen, hcs, hdr⟩, hcf⟩ := key
  refine ⟨r, cs, hr, ?_, hcs, hdr⟩
  have hk : k = dx + 1 := by
    have : r.x1 = x2 + sx := by simpa using hcf
    rw [hxk, hx2] at this
    rcases hsx with h | h <;> subst h <;> omega
  intro hnil
  rw [hnil] at hlen
  simp at hlen
  omega

theorem length_span_log (lo y : Int) (n : Nat) : (span_log lo n y).length = n := by
  induction n with
  | zero => rfl
  | succ n ih => simp [span_log, ih]

theorem length_vspan_log (x lo : Int) (n : Nat) : (vspan_log x lo n).length = n := by
  induction n with
  | zero => rfl
  | succ n ih => simp [vspan_log, ih]

theorem mem_stroke_hspan (N : Int) (c p : Int × Int) :
    p ∈ stroke_hspan N c ↔
      p.2 = c.2 ∧ c.1 - N / 2 + (1 - N % 2) ≤ p.1 ∧ p.1 ≤ c.1 + N / 2 := by
  unfold stroke_hspan
  rw [mem_span_log]
  omega

theorem mem_stroke_vspan (N : Int) (c p : Int × Int) :
    p ∈ stroke_vspan N c ↔
      p.1 = c.1 ∧ c.2 - N / 2 + (1 - N % 2) ≤ p.2 ∧ p.2 ≤ c.2 + N / 2 := by
  unfold stroke_vspan
  rw [mem_vspan_log]
  omega

theorem length_stroke_span (N : Int) (c : Int × Int) (hN : 0 ≤ N) :
    ((stroke_hspan N c).length : Int) = N ∧ ((stroke_vspan N c).length : Int) = N := by
  unfold stroke_hspan stroke_vspan
  rw [length_span_log, length_vspan_log]
  omega

theorem walk_in_box (x1 x2 k : Int) (hk0 : 0 ≤ k) (hk : k ≤ abs (x2 - x1)) :
    min x1 x2 ≤ x1 + (if x2 > x1 then 1 else -1) * k ∧
      x1 + (if x2 > x1 then 1 else -1) * k ≤ max x1 x2 := by
  unfold abs at hk
  by_cases h : x2 > x1
  · rw [if_pos h]
    rw [if_neg (by omega)] at hk
    rw [min_eq_left (by omega), max_eq_right (by omega)]
    omega
  · rw [if_neg h]
    rw [min_eq_right (by omega), max_eq_left (by omega)]
    split at hk <;> omega

theorem walk_end (x1 x2 : Int) :
    x2 = x1 + (if x2 > x1 then 1 else -1) * abs (x2 - x1) := by
  unfold abs
  split <;> split <;> omega

/-- C27: for every width `N >= 2` and every segment whose spans are not cut by the
clip rectangle (every span around a centre in the bounding box of the segment lies
inside the clip rectangle), `draw_line_width` returns and the pixels it stores are
those of a non-empty list of spans, one per centre, all horizontal when
`|dx| <= |dy|` (the zero-length segment included) and all vertical otherwise; every
centre lies in the bounding box of the segment and every span has exactly `N`
pixels, from `c - N/2 + (1 - N mod 2)` to `c + N/2` around the centre coordinate
`c`. -/
theorem draw_line_width_spans (surf : Surface) (clip : SDL_Rect) (color : Nat)
    (x1 y1 x2 y2 N : Int) (da : DrawnArea) (hv : valid_depth surf) (hN : 2 ≤ N)
    (hclip : ∀ c : Int × Int, min x1 x2 ≤ c.1 → c.1 ≤ max x1 x2 → min y1 y2 ≤ c.2 →
      c.2 ≤ max y1 y2 →
      ∀ p ∈ (if abs (x1 - x2) ≤ abs (y1 - y2) then stroke_hspan N c else stroke_vspan N c),
        inside clip p) :
    ∃ r centres, draw_line_width surf clip color x1 y1 x2 y2 N da = some r ∧
      centres ≠ [] ∧
      (∀ c ∈ centres,
        (min x1 x2 ≤ c.1 ∧ c.1 ≤ max x1 x2 ∧ min y1 y2 ≤ c.2 ∧ c.2 ≤ max y1 y2) ∧
        ((if abs (x1 - x2) ≤ abs (y1 - y2) then stroke_hspan N c
          else stroke_vspan N c).length : Int) = N) ∧
      Drawn clip color
        (stroke_log (if abs (x1 - x2) ≤ abs (y1 - y2) then stroke_hspan N
          else stroke_vspan N) centres)
        (surf, da) r := by
  obtain ⟨hcd, hcm⟩ := cdiv_cmod_two N (by omega)
  have hw : ¬ N < 1 := by omega
  have hw1 : ¬ N = 1 := by omega
  have hmx : min x1 x2 ≤ max x1 x2 := min_le_max
  have hmy : min y1 y2 ≤ max y1 y2 := min_le_max
  by_cases hxinc : abs (x1 - x2) ≤ abs (y1 - y2)
  · simp only [hxinc, if_true] at hclip ⊢
    have b1 := hclip (min x1 x2, min y1 y2) (le_refl _) hmx (le_refl _) hmy
      (min x1 x2 - N / 2 + (1 - N % 2), min y1 y2)
      ((mem_stroke_hspan _ _ _).mpr ⟨rfl, le_refl _, by dsimp only; omega⟩)
    have b2 := hclip (max x1 x2, max y1 y2) hmx (le_refl _) hmy (le_refl _)
      (max x1 x2 + N / 2, max y1 y2)
      ((mem_stroke_hspan _ _ _).mpr ⟨rfl, by dsimp only; omega, le_refl _⟩)
    unfold inside at b1 b2
    dsimp only at b1 b2
    have hcl : ¬ clip_line clip x1 y1 x2 y2 (cdiv N 2) true = 0 := by
      unfold clip_line
      simp only [if_true, MIN_eq, MAX_eq, hcd]
      rw [if_neg (by omega)]
      decide
    have hlen : ∀ c : Int × Int, ((stroke_hspan N c).length : Int) = N :=
      fun c => (length_stroke_span N c (by omega)).1
    by_cases hpt : x1 = x2 ∧ y1 = y2
    · obtain ⟨hx, hy⟩ := hpt
      subst hx hy
      simp only [min_self, max_self] at b1 b2
      have hd := drawhorzline_drawn surf clip color (x1 - N / 2 + (1 - N % 2)) y1
        (x1 + N / 2) da hv (by omega) (by omega) (by omega) (by omega)
      refine ⟨(drawhorzline surf color (x1 - N / 2 + (1 - N % 2)) y1 (x1 + N / 2),
        add_line_to_drawn_list (x1 - N / 2 + (1 - N % 2)) y1 (x1 + N / 2) y1 da),
        [(x1, y1)], ?_, by simp, ?_, ?_⟩
      · have hcl2 := hcl
        rw [hcd] at hcl2
        simp only [draw_line_width, if_neg hw, if_neg hw1, hxinc, decide_True, if_neg hcl,
          if_neg hcl2, and_self, if_true, hcd, hcm, MAX_eq, MIN_eq]
        rw [max_eq_left (by omega), min_eq_right (by omega), if_pos (by omega)]
      · intro c hc
        simp only [List.mem_singleton] at hc
        subst hc
        exact ⟨by simp, hlen _⟩
      · simp only [stroke_log, List.append_nil]
        exact hd
    · have hdxy : abs (x2 - x1) ≤ abs (y2 - y1) := by
        unfold abs at hxinc ⊢
        split at hxinc <;> split at hxinc <;> split <;> split <;> omega
      have hdy : 0 < abs (y2 - y1) := by
        unfold abs at hxinc ⊢; split at hxinc <;> split at hxinc <;> split <;> omega
      have hdx : 0 ≤ abs (x2 - x1) := by unfold abs; split <;> omega
      have herr : -abs (y2 - y1) < cdiv (if abs (x2 - x1) > abs (y2 - y1) then abs (x2 - x1)
          else -abs (y2 - y1)) 2 ∧
          cdiv (if abs (x2 - x1) > abs (y2 - y1) then abs (x2 - x1)
            else -abs (y2 - y1)) 2 ≤ 0 := by
        rw [if_neg (by omega), cdiv, Int.neg_tdiv, Int.tdiv_eq_ediv (by omega) (by omega)]
        omega
      obtain ⟨r, cs, hr, hne, hcs, hd⟩ := draw_line_width_xinc_spans surf clip color x1 y1 y2
        (cdiv N 2) (1 - cmod N 2) (abs (x2 - x1)) (abs (y2 - y1))
        (if x2 > x1 then 1 else -1) (if y2 > y1 then 1 else -1) _ da hv hdxy hdy hdx herr
        (by split <;> simp) (walk_end y1 y2) (by rw [hcd, hcm]; omega)
        (by
          intro k j hk0 hk hj0 hj
          have wx := walk_in_box x1 x2 k hk0 hk
          have wy := walk_in_box y1 y2 j hj0 hj
          rw [hcd, hcm]
          omega)
      refine ⟨(r.surf, r.drawn_area), cs, ?_, hne, ?_, ?_⟩
      · simp only [draw_line_width, if_neg hw, if_neg hw1, if_neg hcl, if_neg hpt, hxinc,
          decide_True, if_true, hr, Option.map_some']
      · intro c hc
        obtain ⟨k, j, hk0, hk, hj0, hj, hcq⟩ := hcs c hc
        have wx := walk_in_box x1 x2 k hk0 hk
        have wy := walk_in_box y1 y2 j hj0 hj
        subst hcq
        exact ⟨⟨wx.1, wx.2, wy.1, wy.2⟩, hlen _⟩
      · rw [hcd, hcm] at hd
        exact hd
  · simp only [hxinc, if_false] at hclip ⊢
    have b1 := hclip (min x1 x2, min y1 y2) (le_refl _) hmx (le_refl _) hmy
      (min x1 x2, min y1 y2 - N / 2 + (1 - N % 2))
      ((mem_stroke_vspan _ _ _).mpr ⟨rfl, le_refl _, by dsimp only; omega⟩)
    have b2 := hclip (max x1 x2, max y1 y2) hmx (le_refl _) hmy (le_refl _)
      (max x1 x2, max y1 y2 + N / 2)
      ((mem_stroke_vspan _ _ _).mpr ⟨rfl, by dsimp only; omega, le_refl _⟩)
    unfold inside at b1 b2
    dsimp only at b1 b2
    have hcl : ¬ clip_line clip x1 y1 x2 y2 (cdiv N 2) false = 0 := by
      unfold clip_line
      simp only [Bool.false_eq_true, if_false, MIN_eq, MAX_eq, hcd]
      rw [if_neg (by omega)]
      decide
    have hlen : ∀ c : Int × Int, ((stroke_vspan N c).length : Int) = N :=
      fun c => (length_stroke_span N c (by omega)).2
    have hpt : ¬ (x1 = x2 ∧ y1 = y2) := by
      rintro ⟨hx, hy⟩
      subst hx hy
      exact hxinc (by rw [sub_self, sub_self])
    have hdxy : abs (y2 - y1) < abs (x2 - x1) := by
      unfold abs at hxinc ⊢
      split at hxinc <;> split at hxinc <;> split <;> split <;> omega
    have hdy : 0 ≤ abs (y2 - y1) := by unfold abs; split <;> omega
    have herr : 0 ≤ cdiv (if abs (x2 - x1) > abs (y2 - y1) then abs (x2 - x1)
        else -abs (y2 - y1)) 2 ∧
        cdiv (if abs (x2 - x1) > abs (y2 - y1) then abs (x2 - x1)
          else -abs (y2 - y1)) 2 < abs (x2 - x1) := by
      rw [if_pos (by omega), cdiv, Int.tdiv_eq_ediv (by omega) (by omega)]
      omega
    obtain ⟨r, cs, hr, hne, hcs, hd⟩ := draw_line_width_yinc_spans surf clip color x1 y1 x2
      (cdiv N 2) (1 - cmod N 2) (abs (x2 - x1)) (abs (y2 - y1))
      (if x2 > x1 then 1 else -1) (if y2 > y1 then 1 else -1) _ da hv hdxy hdy herr
      (by split <;> simp) (walk_end x1 x2) (by rw [hcd, hcm]; omega)
      (by
        intro k j hk0 hk hj0 hj
        have wx := walk_in_box x1 x2 k hk0 hk
        have wy := walk_in_box y1 y2 j hj0 hj
        rw [hcd, hcm]
        omega)
    refine ⟨(r.surf, r.drawn_area), cs, ?_, hne, ?_, ?_⟩
    · simp only [draw_line_width, if_neg hw, if_neg hw1, if_neg hcl, if_neg hpt, hxinc,
        decide_False, if_false, Bool.false_eq_true, hr, Option.map_some']
    · intro c hc
      obtain ⟨k, j, hk0, hk, hj0, hj, hcq⟩ := hcs c hc
      have wx := walk_in_box x1 x2 k hk0 hk
      have wy := walk_in_box y1 y2 j hj0 hj
      subst hcq
      exact ⟨⟨wx.1, wx.2, wy.1, wy.2⟩, hlen _⟩
    · rw [hcd, hcm] at hd
      exact hd

theorem draw_line_width_spans_witness :
    valid_depth (Surface.blank 20 20 4) ∧ (2 : Int) ≤ 4 ∧
    ∃ r centres, draw_line_width (Surface.blank 20 20 4) (SDL_Rect.whole 20 20) 7 5 5 7 9 4
        DrawnArea.init = some r ∧
      centres ≠ [] ∧
      (∀ c ∈ centres,
        (min 5 7 ≤ c.1 ∧ c.1 ≤ max 5 7 ∧ min 5 9 ≤ c.2 ∧ c.2 ≤ max 5 9) ∧
        ((if abs (5 - 7) ≤ abs (5 - 9) then stroke_hspan 4 c
          else stroke_vspan 4 c).length : Int) = 4) ∧
      Drawn (SDL_Rect.whole 20 20) 7
        (stroke_log (if abs (5 - 7) ≤ abs (5 - 9) then stroke_hspan 4
          else stroke_vspan 4) centres)
        (Surface.blank 20 20 4, DrawnArea.init) r :=
  ⟨by decide, by decide,
    draw_line_width_spans (Surface.blank 20 20 4) (SDL_Rect.whole 20 20) 7 5 5 7 9 4
      DrawnArea.init (by decide) (by decide)
      (by
        intro c h1 h2 h3 h4 p hp
        rw [if_pos (by decide), mem_stroke_hspan] at hp
        have e1 : min (5 : Int) 7 = 5 := by decide
        have e2 : max (5 : Int) 7 = 7 := by decide
        have e3 : min (5 : Int) 9 = 5 := by decide
        have e4 : max (5 : Int) 9 = 9 := by decide
        rw [e1] at h1
        rw [e2] at h2
        rw [e3] at h3
        rw [e4] at h4
        unfold inside SDL_Rect.whole
        dsimp only
        omega)⟩

/-! ## Antialiased lines of zero length -/

theorem aa_pixel_inside {D : Type} (ops : FloatOps D) (fmt : PixelFormat) (clip : SDL_Rect)
    (color : Nat) (gx gy sx sy : Int) (brightness : D) (s : AAState D)
    (h : inside clip (sx, sy)) :
    (aa_pixel ops fmt clip color gx gy sx sy brightness s).surf.written =
        (sx, sy) :: s.surf.written ∧
      (aa_pixel ops fmt clip color gx gy sx sy brightness s).blends =
        (gx, gy, brightness) :: s.blends := by
  unfold aa_pixel
  dsimp only
  rw [set_and_check_rect_inside _ clip sx sy _ _ h]
  exact ⟨rfl, rfl⟩

set_option maxRecDepth 100000 in
/-- C24, counterexample: the antialiased line of width 4 from `(5, 5)` to `(5, 5)` on
a 10 x 10 surface stores the single pixel `(5, 5)`, not a span of 4 pixels. -/
theorem draw_aaline_width_zero_length_counterexample :
    (draw_aaline_width rat_fops rgba_format (SDL_Rect.whole 10 10) 255 5 5 5 5 4
      (AAState.start (Surface.blank 10 10 4))).surf.written = [(5, 5)] := by
  decide!

/-- C24, amended: an antialiased width-`N` line from `p` to `p` (so that `dx` and
`dy` are zero) whose rounded position lies inside the clip rectangle draws just one
pixel, at the rounded position of `p` and at full brightness, not a span of `N`
pixels. -/
theorem draw_aaline_width_zero_length {D : Type} (ops : FloatOps D) (fmt : PixelFormat)
    (clip : SDL_Rect) (color : Nat) (x y : D) (N : Int) (s : AAState D)
    (hzx : ops.eq (ops.sub x x) (ops.ofInt 0) = true)
    (hzy : ops.eq (ops.sub y y) (ops.ofInt 0) = true)
    (hsx : ops.lt (ops.fabs (ops.sub x x)) ops.small = true)
    (hsy : ops.lt (ops.fabs (ops.sub y y)) ops.small = true)
    (hin : inside clip (ops.toInt (ops.floor (ops.add x ops.half)),
      ops.toInt (ops.floor (ops.add y ops.half)))) :
    (draw_aaline_width ops fmt clip color x y x y N s).surf.written =
        (ops.toInt (ops.floor (ops.add x ops.half)),
          ops.toInt (ops.floor (ops.add y ops.half))) :: s.surf.written ∧
      (draw_aaline_width ops fmt clip color x y x y N s).blends =
        (ops.toInt (ops.floor (ops.add x ops.half)),
          ops.toInt (ops.floor (ops.add y ops.half)), ops.one) :: s.blends := by
  unfold draw_aaline_width
  simp only [hzx, hzy, hsx, hsy, Bool.and_self, if_true, Bool.not_true, Bool.false_eq_true,
    if_false]
  exact aa_pixel_inside ops fmt clip color _ _ _ _ ops.one s hin

set_option maxRecDepth 100000 in
theorem draw_aaline_width_zero_length_witness :
    inside (SDL_Rect.whole 10 10)
      (rat_fops.toInt (rat_fops.floor (rat_fops.add 5 rat_fops.half)),
        rat_fops.toInt (rat_fops.floor (rat_fops.add 5 rat_fops.half))) ∧
    (draw_aaline_width rat_fops rgba_format (SDL_Rect.whole 10 10) 255 5 5 5 5 4
        (AAState.start (Surface.blank 10 10 4))).surf.written =
      (rat_fops.toInt (rat_fops.floor (rat_fops.add 5 rat_fops.half)),
        rat_fops.toInt (rat_fops.floor (rat_fops.add 5 rat_fops.half))) ::
        (AAState.start (Surface.blank 10 10 4) : AAState Rat).surf.written :=
  ⟨by decide!,
    (draw_aaline_width_zero_length rat_fops rgba_format (SDL_Rect.whole 10 10) 255 5 5 4
      (AAState.start (Surface.blank 10 10 4)) (by decide!) (by decide!) (by decide!)
      (by decide!) (by decide!)).1⟩

/-! ## The calls of `draw_aaline` made by `aalines` -/

theorem draw_aaline_endpoint_calls {D : Type} (ops : FloatOps D) (fmt : PixelFormat)
    (clip : SDL_Rect) (color : Nat) (steep : Bool) (x_pixel : Int) (y_endpoint x_gap : D)
    (s : AAState D) :
    (draw_aaline_endpoint ops fmt clip color steep x_pixel y_endpoint x_gap s).calls =
      s.calls := by
  unfold draw_aaline_endpoint
  dsimp only
  split_ifs <;> rfl

theorem draw_aaline_column_calls {D : Type} (ops : FloatOps D) (fmt : PixelFormat)
    (clip : SDL_Rect) (color : Nat) (steep : Bool) (gradient : D) (x : Int)
    (t : AAState D × D) :
    (draw_aaline_column ops fmt clip color steep gradient x t).1.calls = t.1.calls := by
  unfold draw_aaline_column
  dsimp only
  split_ifs <;> rfl

theorem draw_aaline_rest_calls {D : Type} (ops : FloatOps D) (fmt : PixelFormat)
    (clip : SDL_Rect) (color : Nat) (steep : Bool) (gradient : D) (v : AALine D)
    (d1 d2 e : Int) (s : AAState D) :
    (draw_aaline_rest ops fmt clip color steep gradient v d1 d2 e s).calls = s.calls := by
  unfold draw_aaline_rest
  dsimp only
  refine for_loop_inv (fun t : AAState D × D => t.1.calls = s.calls) _ ?_ _ _ _ ?_
  · intro i t ht
    rw [draw_aaline_column_calls]
    exact ht
  · dsimp only
    split_ifs <;> simp only [draw_aaline_endpoint_calls]

theorem draw_aaline_calls {D : Type} (ops : FloatOps D) (fmt : PixelFormat)
    (clip : SDL_Rect) (color : Nat) (from_x from_y to_x to_y : D) (d1 d2 e : Int)
    (s : AAState D) :
    (draw_aaline ops fmt clip color from_x from_y to_x to_y d1 d2 e s).calls =
      ⟨from_x, from_y, to_x, to_y, d1, d2, e⟩ :: s.calls := by
  unfold draw_aaline
  lift_lets
  extract_lets s1 dx dy px py steep v gradient v1 v2 v3 v4 v5 v6
  split_ifs <;> first | rfl | (rw [draw_aaline_rest_calls])

theorem aalines_two_points {D : Type} (ops : FloatOps D) (fmt : PixelFormat)
    (surf : Surface) (clip : SDL_Rect) (color : Nat) (closed : Bool) (p0 p1 : D × D)
    (garbage : D) (hv : valid_depth surf) :
    ∃ r, aalines ops fmt surf clip color closed [p0, p1] garbage = .ok r ∧
      r.1.calls.map (fun c => ((c.from_x, c.from_y), (c.to_x, c.to_y))) =
        [(p0, p1), (p0, p1)] := by
  unfold aalines
  rw [unsupported_depth_eq_false surf hv]
  simp only [Bool.false_eq_true, if_false]
  have h2 : ¬ (([p0, p1].length : Int) < 2) := by simp
  have h3 : ¬ (closed = true ∧ (([p0, p1].length : Int) > 2)) := by simp
  rw [if_neg h2, if_neg h3]
  refine ⟨_, rfl, ?_⟩
  have h4 : (([p0, p1].length : Int) - 1 - 2).toNat = 0 := by simp
  rw [h4, for_loop_zero]
  cases closed <;>
    simp [draw_aaline_calls, AAState.start]

set_option maxRecDepth 100000 in
/-- C23: for the two-point list `[(0, 0), (3, 1)]` `aalines` calls `draw_aaline` twice
on the one segment `(0, 0)-(3, 1)`: once as the first line and once as the last
line; the claim has a single call. -/
theorem aalines_two_points_drawn_twice :
    (drawn_calls (aalines rat_fops rgba_format (Surface.blank 10 10 4) (SDL_Rect.whole 10 10)
      255 false [(0, 0), (3, 1)] 0)).map
        (List.map (fun c => ((c.from_x, c.from_y), (c.to_x, c.to_y)))) =
      some [((0, 0), (3, 1)), ((0, 0), (3, 1))] := by
  decide!

set_option maxRecDepth 100000 in
/-- C28: on the polyline `(0, 0), (1, 10), (5, 11)` the first segment is steep and the
second is not, yet `aalines` passes the extra-pixel flag 0 for the first segment:
it compares with `|x2 - x1| < |y2 - y0|`, which takes the second segment for steep,
and sets the flag only when the first segment is steep and the second is not.
The flag of the second segment, compared with the first, is 1. -/
theorem aalines_first_joint_flag :
    steep_flag rat_fops 0 0 1 10 = 1 ∧ steep_flag rat_fops 1 10 5 11 = 0 ∧
    (drawn_calls (aalines rat_fops rgba_format (Surface.blank 20 20 4) (SDL_Rect.whole 20 20)
      255 false [(0, 0), (1, 10), (5, 11)] 0)).map
        (List.map (fun c => (((c.from_x, c.from_y), (c.to_x, c.to_y)),
          c.extra_pixel_for_aalines))) =
      some [(((0, 0), (1, 10)), 0), (((1, 10), (5, 11)), 1)] := by
  decide!

/-! ## Opacities of the Xiaolin Wu circles -/

theorem rat_ops_exact : exact_arith rat_ops (fun q => (q : ℝ)) where
  ofInt := fun n => by simp [rat_ops]
  one := by simp [rat_ops]
  half := by simp [rat_ops]
  add := fun a b => by simp [rat_ops]
  sub := fun a b => by simp [rat_ops]
  mul := fun a b => by simp [rat_ops]
  div := fun a b _ => by simp [rat_ops]
  neg := fun a => by simp [rat_ops]
  lt := fun a b => by simp [rat_ops]
  le := fun a b => by simp [rat_ops]
  toInt_nonneg := fun a h => by
    have h1 : ¬ a < 0 := by
      have : (0 : ℝ) ≤ (a : ℝ) := h
      intro h2
      have : (a : ℝ) < 0 := by exact_mod_cast h2
      linarith
    simp only [rat_ops, if_neg h1]
    exact (Rat.floor_cast a).symm
  toInt_neg := fun a h => by
    have h1 : a < 0 := by
      have : (a : ℝ) < 0 := h
      exact_mod_cast this
    simp only [rat_ops, if_pos h1]
    rw [@Rat.ceil_cast ℝ _ _ a]
    rfl
  toFloat := fun a => by simp [rat_ops]

theorem draw_eight_symetric_pixels_octets {D : Type} (ops : FloatOps D) (fmt : PixelFormat)
    (clip : SDL_Rect) (x0 y0 : Int) (color : Nat) (x y : Int) (opacity : D)
    (top_right top_left bottom_left bottom_right : Int) (s : AAState D) :
    (draw_eight_symetric_pixels ops fmt clip x0 y0 color x y opacity top_right top_left
      bottom_left bottom_right s).octets = (x, y, opacity) :: s.octets := by
  unfold draw_eight_symetric_pixels
  dsimp only
  split_ifs <;> rfl

theorem xiaolinwu_layer_pairs {D : Type} (ops : FloatOps D) (fmt : PixelFormat)
    (clip : SDL_Rect) (x0 y0 : Int) (color : Nat)
    (top_right top_left bottom_left bottom_right : Int) (layer_radius : Int)
    (pair : D → D × D) (Q : D → D → Prop) (hQ : ∀ o, Q (pair o).1 (pair o).2)
    (s : AAState D) :
    ∃ r cols, xiaolinwu_layer ops fmt clip x0 y0 color top_right top_left bottom_left
        bottom_right layer_radius pair s = some r ∧
      r.octets = octet_pairs cols ++ s.octets ∧ ∀ c ∈ cols, Q c.2.2.1 c.2.2.2 := by
  unfold xiaolinwu_layer
  have step : ∀ w : WuState D,
      (∃ cols, w.s.octets = octet_pairs cols ++ s.octets ∧ ∀ c ∈ cols, Q c.2.2.1 c.2.2.2) →
      (∃ cols, (xiaolinwu_body ops fmt clip x0 y0 color top_right top_left bottom_left
          bottom_right (ops.mul (ops.ofInt layer_radius) (ops.ofInt layer_radius)) pair
          w).s.octets = octet_pairs cols ++ s.octets ∧ ∀ c ∈ cols, Q c.2.2.1 c.2.2.2) ∧
        (xiaolinwu_body ops fmt clip x0 y0 color top_right top_left bottom_left
          bottom_right (ops.mul (ops.ofInt layer_radius) (ops.ofInt layer_radius)) pair
          w).x = w.x + 1 ∧
        (xiaolinwu_body ops fmt clip x0 y0 color top_right top_left bottom_left
          bottom_right (ops.mul (ops.ofInt layer_radius) (ops.ofInt layer_radius)) pair
          w).y ≤ w.y := by
    intro w ⟨cols, hc, hq⟩
    unfold xiaolinwu_body
    dsimp only
    rw [draw_eight_symetric_pixels_octets, draw_eight_symetric_pixels_octets, hc]
    refine ⟨⟨(w.x, _, _, _) :: cols, rfl, ?_⟩, rfl, by split <;> omega⟩
    intro c hcm
    rcases List.mem_cons.mp hcm with h | h
    · rw [h]; exact hQ _
    · exact hq c h
  obtain ⟨r, hr, hP, -⟩ := while_loop_terminates (fun w : WuState D => decide (w.x < w.y))
    (xiaolinwu_body ops fmt clip x0 y0 color top_right top_left bottom_left
      bottom_right (ops.mul (ops.ofInt layer_radius) (ops.ofInt layer_radius)) pair)
    (fun w => ∃ cols, w.s.octets = octet_pairs cols ++ s.octets ∧
      ∀ c ∈ cols, Q c.2.2.1 c.2.2.2)
    (fun w => (w.y - w.x).toNat)
    (fun w hw _ => (step w hw).1)
    (fun w hw hc => by
      have hc := of_decide_eq_true hc
      obtain ⟨-, h1, h2⟩ := step w hw
      dsimp only
      omega)
    (layer_radius + 1).toNat ⟨s, 0, layer_radius, ops.ofInt 0⟩
    ⟨[], rfl, by simp⟩ (by dsimp only; omega)
  obtain ⟨cols, hc, hq⟩ := hP
  exact ⟨r.s, cols, by rw [hr]; rfl, hc, hq⟩

set_option maxRecDepth 100000 in
/-- C25, counterexample: in the layered variant with radius 2 and thickness 2 the
first sampled column (column 0 of the layer of radius 1, which is neither the
innermost nor the outermost layer) gives opacity 255 to `(0, 1)` and 255 to
`(0, 0)`: the two opacities sum to 510, not to 255. -/
theorem draw_circle_xiaolinwu_pair_counterexample :
    (draw_circle_xiaolinwu rat_fops rgba_format (SDL_Rect.whole 10 10) 5 5 2 2 255 1 1 1 1
      (AAState.start (Surface.blank 10 10 4))).map (fun s => s.octets.reverse.take 2) =
      some [(0, 1, 255), (0, 0, 255)] := by
  decide!

/-- C25, amended: `draw_circle_xiaolinwu_thin` returns, and its calls of
`draw_eight_symetric_pixels` come in pairs, one pair per sampled column `x`: the
call for `(x, y)` and the call for `(x, y - 1)`; over the exact reals the two
opacities of every pair sum to 255, whatever the height computation returns. -/
theorem draw_circle_xiaolinwu_thin_pairs {D : Type} (ops : FloatOps D) (val : D → ℝ)
    (fmt : PixelFormat) (clip : SDL_Rect) (x0 y0 radius : Int) (color : Nat)
    (top_right top_left bottom_left bottom_right : Int) (s : AAState D)
    (hex : exact_arith ops.toDoubleOps val) :
    ∃ r cols, draw_circle_xiaolinwu_thin ops fmt clip x0 y0 radius color top_right top_left
        bottom_left bottom_right s = some r ∧
      r.octets = octet_pairs cols ++ s.octets ∧
      ∀ c ∈ cols, val c.2.2.1 + val c.2.2.2 = 255 := by
  unfold draw_circle_xiaolinwu_thin
  refine xiaolinwu_layer_pairs ops fmt clip x0 y0 color top_right top_left bottom_left
    bottom_right radius _ (fun a b => val a + val b = 255) ?_ s
  intro o
  dsimp only
  rw [hex.sub, hex.ofInt]
  push_cast
  ring

theorem draw_circle_xiaolinwu_thin_pairs_witness :
    exact_arith rat_fops.toDoubleOps (fun q => (q : ℝ)) ∧
    ∃ r cols, draw_circle_xiaolinwu_thin rat_fops rgba_format (SDL_Rect.whole 10 10) 5 5 3 255
        1 1 1 1 (AAState.start (Surface.blank 10 10 4)) = some r ∧
      r.octets = octet_pairs cols ++
        (AAState.start (Surface.blank 10 10 4) : AAState Rat).octets ∧
      ∀ c ∈ cols, ((c.2.2.1 : Rat) : ℝ) + ((c.2.2.2 : Rat) : ℝ) = 255 :=
  ⟨rat_ops_exact,
    draw_circle_xiaolinwu_thin_pairs rat_fops (fun q => (q : ℝ)) rgba_format
      (SDL_Rect.whole 10 10) 5 5 3 255 1 1 1 1 (AAState.start (Surface.blank 10 10 4))
      rat_ops_exact⟩

/-! ## Brightness weights of antialiased thin lines -/

theorem main_blends_append {D : Type} (steep : Bool) (a b : List (AAColumn D)) :
    main_blends steep (a ++ b) = main_blends steep a ++ main_blends steep b := by
  induction a with
  | nil => rfl
  | cons c cs ih => simp [main_blends, ih]

theorem draw_aaline_column_blends {D : Type} (ops : FloatOps D) (fmt : PixelFormat)
    (clip : SDL_Rect) (color : Nat) (steep : Bool) (gradient : D) (x : Int)
    (t : AAState D × D) :
    (draw_aaline_column ops fmt clip color steep gradient x t).1.blends =
        column_blends steep (sampled_column ops x t.2) ++ t.1.blends ∧
      (draw_aaline_column ops fmt clip color steep gradient x t).2 =
        ops.add t.2 gradient := by
  refine ⟨?_, rfl⟩
  unfold draw_aaline_column column_blends sampled_column
  dsimp only
  cases steep <;> by_cases h : ops.lt (ops.ofInt (ops.toInt t.2)) t.2 = true <;>
    simp [h, aa_pixel]

theorem draw_aaline_loop_blends {D : Type} (ops : FloatOps D) (fmt : PixelFormat)
    (clip : SDL_Rect) (color : Nat) (steep : Bool) (gradient : D) :
    ∀ (n : Nat) (lo : Int) (t : AAState D × D),
      ∃ cols, (for_loop lo n (draw_aaline_column ops fmt clip color steep gradient) t).1.blends =
          main_blends steep cols ++ t.1.blends ∧
        ∀ c ∈ cols, ∃ x v, c = sampled_column ops x v := by
  intro n
  induction n with
  | zero => intro lo t; exact ⟨[], rfl, by simp⟩
  | succ n ih =>
    intro lo t
    rw [for_loop_cons]
    obtain ⟨cols, hc, hq⟩ := ih (lo + 1) (draw_aaline_column ops fmt clip color steep gradient lo t)
    refine ⟨cols ++ [sampled_column ops lo t.2], ?_, ?_⟩
    · rw [hc, (draw_aaline_column_blends ops fmt clip color steep gradient lo t).1,
        main_blends_append]
      simp [main_blends]
    · intro c hcm
      rcases List.mem_append.mp hcm with h | h
      · exact hq c h
      · simp only [List.mem_singleton] at h
        exact ⟨lo, t.2, h⟩

theorem draw_aaline_endpoint_blends {D : Type} (ops : FloatOps D) (fmt : PixelFormat)
    (clip : SDL_Rect) (color : Nat) (steep : Bool) (x_pixel : Int) (y_endpoint x_gap : D)
    (s : AAState D) :
    ∃ e, (draw_aaline_endpoint ops fmt clip color steep x_pixel y_endpoint x_gap s).blends =
        e ++ s.blends ∧ e.length ≤ 2 := by
  unfold draw_aaline_endpoint
  dsimp only
  by_cases h : ops.lt (ops.ofInt (ops.toInt y_endpoint)) y_endpoint = true
  · rw [if_pos h]
    exact ⟨[_, _], rfl, le_refl _⟩
  · rw [if_neg h]
    exact ⟨[_], rfl, by simp⟩

theorem draw_aaline_endpoint_ext {D : Type} (ops : FloatOps D) (fmt : PixelFormat)
    (clip : SDL_Rect) (color : Nat) (steep : Bool) (x_pixel : Int) (y_endpoint x_gap : D)
    (s s1 : AAState D) (k m : Nat) (hk : k + 2 ≤ m)
    (h : ∃ e, s1.blends = e ++ s.blends ∧ e.length ≤ k) :
    ∃ e, (draw_aaline_endpoint ops fmt clip color steep x_pixel y_endpoint x_gap s1).blends =
        e ++ s.blends ∧ e.length ≤ m := by
  obtain ⟨e1, h1, l1⟩ := h
  obtain ⟨e2, h2, l2⟩ := draw_aaline_endpoint_blends ops fmt clip color steep x_pixel
    y_endpoint x_gap s1
  refine ⟨e2 ++ e1, by rw [h2, h1, List.append_assoc], ?_⟩
  rw [List.length_append]
  omega

theorem draw_aaline_loop_ext {D : Type} (ops : FloatOps D) (fmt : PixelFormat)
    (clip : SDL_Rect) (color : Nat) (steep : Bool) (gradient : D) (n : Nat) (lo : Int)
    (t : AAState D × D) (s : AAState D)
    (h : ∃ e, t.1.blends = e ++ s.blends ∧ e.length ≤ 4) :
    ∃ cols ends,
      (for_loop lo n (draw_aaline_column ops fmt clip color steep gradient) t).1.blends =
        main_blends steep cols ++ (ends ++ s.blends) ∧
      ends.length ≤ 4 ∧ ∀ c ∈ cols, ∃ x v, c = sampled_column ops x v := by
  obtain ⟨e, he, hl⟩ := h
  obtain ⟨cols, hc, hq⟩ := draw_aaline_loop_blends ops fmt clip color steep gradient n lo t
  exact ⟨cols, e, by rw [hc, he], hl, hq⟩

theorem draw_aaline_rest_blends {D : Type} (ops : FloatOps D) (fmt : PixelFormat)
    (clip : SDL_Rect) (color : Nat) (steep : Bool) (gradient : D) (v : AALine D)
    (d1 d2 e : Int) (s : AAState D) :
    ∃ cols ends,
      (draw_aaline_rest ops fmt clip color steep gradient v d1 d2 e s).blends =
        main_blends steep cols ++ (ends ++ s.blends) ∧
      ends.length ≤ 4 ∧ ∀ c ∈ cols, ∃ x v, c = sampled_column ops x v := by
  unfold draw_aaline_rest
  dsimp only
  refine draw_aaline_loop_ext ops fmt clip color steep gradient _ _ _ s ?_
  dsimp only
  split_ifs <;>
    first
    | exact ⟨[], rfl, by simp⟩
    | exact draw_aaline_endpoint_ext ops fmt clip color steep _ _ _ s _ 0 4 (by omega)
        ⟨[], rfl, by simp⟩
    | exact draw_aaline_endpoint_ext ops fmt clip color steep _ _ _ s _ 2 4 (by omega)
        (draw_aaline_endpoint_ext ops fmt clip color steep _ _ _ s _ 0 2 (by omega)
          ⟨[], rfl, by simp⟩)

theorem draw_aaline_blends_structure {D : Type} (ops : FloatOps D) (fmt : PixelFormat)
    (clip : SDL_Rect) (color : Nat) (from_x from_y to_x to_y : D) (d1 d2 e : Int)
    (s : AAState D) :
    ∃ steep cols ends,
      (draw_aaline ops fmt clip color from_x from_y to_x to_y d1 d2 e s).blends =
        main_blends steep cols ++ (ends ++ s.blends) ∧
      ends.length ≤ 4 ∧ ∀ c ∈ cols, ∃ x v, c = sampled_column ops x v := by
  unfold draw_aaline
  lift_lets
  extract_lets s1 dx dy px py steep v gradient v1 v2 v3 v4 v5 v6
  split_ifs <;>
    first
    | exact ⟨false, [], [], rfl, by simp, by simp⟩
    | exact ⟨false, [], [(px, py, ops.one)], rfl, by simp, by simp⟩
    | exact ⟨steep, draw_aaline_rest_blends ops fmt clip color steep gradient _ d1 d2 e s1⟩

theorem sampled_column_weights {D : Type} (ops : FloatOps D) (val : D → ℝ)
    (hex : exact_arith ops.toDoubleOps val) (x : Int) (v : D) :
    (∀ w, (sampled_column ops x v).w2 = some w →
        val (sampled_column ops x v).w1 + val w = 1) ∧
      val (sampled_column ops x v).w1 = 1 - val (sampled_column ops x v).v +
        (sampled_column ops x v).y ∧
      (0 ≤ val (sampled_column ops x v).v →
        (sampled_column ops x v).y = ⌊val (sampled_column ops x v).v⌋ ∧
        val (sampled_column ops x v).w1 = 1 - Int.fract (val (sampled_column ops x v).v) ∧
        ((sampled_column ops x v).w2 = none ↔
          Int.fract (val (sampled_column ops x v).v) = 0) ∧
        ∀ w, (sampled_column ops x v).w2 = some w →
          val w = Int.fract (val (sampled_column ops x v).v)) := by
  have hw1 : val (ops.add (ops.sub ops.one v) (ops.ofInt (ops.toInt v))) =
      1 - val v + (ops.toInt v : ℝ) := by
    rw [hex.add, hex.sub, hex.one, hex.ofInt]
  have hlt : ops.lt (ops.ofInt (ops.toInt v)) v = true ↔ (ops.toInt v : ℝ) < val v := by
    rw [hex.lt, hex.ofInt]
  unfold sampled_column
  dsimp only
  refine ⟨?_, hw1, ?_⟩
  · intro w hw
    by_cases h : ops.lt (ops.ofInt (ops.toInt v)) v = true
    · rw [if_pos h] at hw
      cases hw
      rw [hex.sub, hex.one]
      ring
    · rw [if_neg h] at hw
      cases hw
  · intro h0
    have hy : ops.toInt v = ⌊val v⌋ := hex.toInt_nonneg v h0
    have hfr : Int.fract (val v) = val v - (⌊val v⌋ : ℝ) := rfl
    refine ⟨hy, ?_, ?_, ?_⟩
    · rw [hw1, hy, hfr]; ring
    · by_cases h : ops.lt (ops.ofInt (ops.toInt v)) v = true
      · rw [if_pos h]
        have h1 := hlt.mp h
        rw [hy] at h1
        constructor
        · intro hc; cases hc
        · intro hc
          rw [hfr] at hc
          linarith
      · rw [if_neg h]
        have h1 : ¬ ((ops.toInt v : ℝ) < val v) := fun hc => h (hlt.mpr hc)
        rw [hy] at h1
        have h2 := Int.floor_le (val v)
        constructor
        · intro _
          rw [hfr]
          linarith
        · intro _; rfl
    · intro w hw
      by_cases h : ops.lt (ops.ofInt (ops.toInt v)) v = true
      · rw [if_pos h] at hw
        cases hw
        rw [hex.sub, hex.one, hw1, hy, hfr]
        ring
      · rw [if_neg h] at hw
        cases hw

theorem for_loop_or_true (test : Int → Bool) :
    ∀ (n : Nat) (lo : Int) (acc : Bool),
      (acc = true ∨ ∃ i, lo ≤ i ∧ i < lo + n ∧ test i = true) →
      for_loop lo n (fun i found => found || test i) acc = true := by
  intro n
  induction n with
  | zero =>
    intro lo acc h
    rcases h with h | ⟨i, h1, h2, -⟩
    · exact h
    · simp at h2; omega
  | succ n ih =>
    intro lo acc h
    rw [for_loop_cons]
    apply ih
    rcases h with h | ⟨i, h1, h2, h3⟩
    · left; simp [h]
    · by_cases hi : i = lo
      · left; rw [hi] at h3; simp [h3]
      · right; exact ⟨i, by omega, by push_cast at h2 ⊢; omega, h3⟩

theorem exists_in_range_of_mem (lo hi i : Int) (test : Int → Bool) (h1 : lo ≤ i)
    (h2 : i ≤ hi) (ht : test i = true) : exists_in_range lo hi test = true := by
  unfold exists_in_range
  apply for_loop_or_true
  right
  exact ⟨i, h1, by omega, ht⟩

theorem reduce_bound_found (stop edge : Int → Bool) (step : Int) (fuel : Nat) (b : Int)
    (hs : stop b = false) (he : edge b = true) :
    reduce_bound stop edge step (fuel + 1) b = some ⟨b, true, false⟩ := by
  unfold reduce_bound
  cases fuel <;> simp [while_loop, hs, he]

theorem for_loop_written_mem (p : Int × Int) (body : Int → Surface → Surface)
    (hmono : ∀ i s, p ∈ s.written → p ∈ (body i s).written) :
    ∀ (n : Nat) (lo : Int) (s : Surface),
      (p ∈ s.written ∨ ∃ i, lo ≤ i ∧ i < lo + n ∧ ∀ s, p ∈ (body i s).written) →
      p ∈ (for_loop lo n body s).written := by
  intro n
  induction n with
  | zero =>
    intro lo s h
    rcases h with h | ⟨i, h1, h2, -⟩
    · exact h
    · simp at h2; omega
  | succ n ih =>
    intro lo s h
    rw [for_loop_cons]
    apply ih
    rcases h with h | ⟨i, h1, h2, h3⟩
    · left; exact hmono lo s h
    · by_cases hi : i = lo
      · left; rw [← hi]; exact h3 s
      · right; exact ⟨i, by omega, by push_cast at h2 ⊢; omega, h3⟩

theorem draw_arc_pixel_mono {D : Type} (ops : DoubleOps D) (x_center y_center : Int)
    (color : Nat) (b : ArcBounds) (md xm ym : D) (y x : Int) (surf : Surface)
    (p : Int × Int) (h : p ∈ surf.written) :
    p ∈ (draw_arc_pixel ops x_center y_center color b md xm ym y x surf).written := by
  unfold draw_arc_pixel
  dsimp only
  split_ifs <;> simp [unsafe_set_at, h]

theorem check_pixel_in_arc_half {D : Type} (ops : DoubleOps D) (val : D → ℝ)
    (E : exact_arith ops val) (md i1 i2 i3 i4 xm ym : D) (hm : val md = 0)
    (h1 : val i1 = 1 / 25) (h2 : val i2 = 1 / 25) (h3 : val i3 = 1 / 9)
    (h4 : val i4 = 1 / 9) (hxm : val xm = 0) (hym : val ym = -1) (x y : Int)
    (hout : x * x + y * y ≤ 25) (hin : 9 ≤ x * x + y * y) (hy : y ≤ 0) :
    check_pixel_in_arc ops x y md i1 i2 i3 i4 xm ym = true := by
  have ro : ((x * x + y * y : Int) : ℝ) ≤ 25 := by exact_mod_cast hout
  have ri : (9 : ℝ) ≤ ((x * x + y * y : Int) : ℝ) := by exact_mod_cast hin
  have ry : (y : ℝ) ≤ 0 := by exact_mod_cast hy
  push_cast at ro ri
  unfold check_pixel_in_arc
  dsimp only
  have a1 : ¬ (ops.lt ops.one (ops.add (ops.mul (ops.ofInt (x * x)) i1)
      (ops.mul (ops.ofInt (y * y)) i2)) = true) := by
    rw [E.lt, E.one, E.add, E.mul, E.mul, E.ofInt, E.ofInt, h1, h2]
    push_cast
    linarith
  have a2 : ¬ (ops.lt (ops.add (ops.mul (ops.ofInt (x * x)) i3)
      (ops.mul (ops.ofInt (y * y)) i4)) ops.one = true) := by
    rw [E.lt, E.one, E.add, E.mul, E.mul, E.ofInt, E.ofInt, h3, h4]
    push_cast
    linarith
  rw [if_neg a1, if_neg a2, E.le, E.mul, E.add, E.mul, E.mul, E.ofInt, E.ofInt, hm, hxm, hym]
  linarith

theorem arc_corner_bounds_half {D : Type} (ops : DoubleOps D) (val : D → ℝ)
    (E : exact_arith ops val) (a0 a1 md xm ym : D) (hm : val md = 0) (hxm : val xm = 0)
    (hym : val ym = -1) (hs0 : val (ops.sin a0) = 0) (hs1 : val (ops.sin a1) = 0) :
    arc_corner_bounds ops (SDL_Rect.whole 10 10) a0 a1 5 5 3 3 md xm ym 5 5 =
      ⟨-5, -5, 4, 0⟩ := by
  have c1 : ¬ (ops.lt (ops.neg xm) md = true) := by
    rw [E.lt, E.neg, hxm, hm]; norm_num
  have c2 : ¬ (ops.lt (ops.neg ym) md = true) := by
    rw [E.lt, E.neg, hym, hm]; norm_num
  have c3 : ¬ (ops.lt xm md = true) := by
    rw [E.lt, hxm, hm]; norm_num
  have c4 : ops.lt ym md = true := by
    rw [E.lt, hym, hm]; norm_num
  have r : ∀ (a : D) (n : Int), val (ops.sin a) = 0 →
      ops.toInt (ops.add (ops.mul (ops.neg (ops.sin a)) (ops.ofInt n)) ops.half) = 0 := by
    intro a n ha
    have hv : val (ops.add (ops.mul (ops.neg (ops.sin a)) (ops.ofInt n)) ops.half) = 1 / 2 := by
      rw [E.add, E.mul, E.neg, ha, E.half]; norm_num
    rw [E.toInt_nonneg _ (by rw [hv]; norm_num), hv]
    norm_num
  unfold arc_corner_bounds
  simp only [if_neg c1, if_neg c2, if_neg c3, if_pos c4, r a0 _ hs0, r a1 _ hs1]
  decide

theorem calc_arc_bounds_half {D : Type} (ops : DoubleOps D) (val : D → ℝ)
    (E : exact_arith ops val) (a0 a1 md i1 i2 i3 i4 xm ym : D) (hm : val md = 0)
    (h1 : val i1 = 1 / 25) (h2 : val i2 = 1 / 25) (h3 : val i3 = 1 / 9)
    (h4 : val i4 = 1 / 9) (hxm : val xm = 0) (hym : val ym = -1)
    (hs0 : val (ops.sin a0) = 0) (hs1 : val (ops.sin a1) = 0) (bounds : ArcBounds) :
    calc_arc_bounds ops (SDL_Rect.whole 10 10) a0 a1 5 5 3 3 i1 i2 i3 i4 md xm ym 5 5
      bounds = some ⟨-5, -5, 4, 0⟩ := by
  have hc := check_pixel_in_arc_half ops val E md i1 i2 i3 i4 xm ym hm h1 h2 h3 h4 hxm hym
  unfold calc_arc_bounds
  rw [arc_corner_bounds_half ops val E a0 a1 md xm ym hm hxm hym hs0 hs1]
  dsimp only
  rw [if_neg (by decide)]
  have hf : (abs (4 - -5) + abs (0 - -5) + 2).toNat = 15 + 1 := by decide
  rw [hf]
  rw [reduce_bound_found _ _ 1 15 (-5) (by decide)
    (exists_in_range_of_mem (-5) 4 0 _ (by decide) (by decide)
      (hc 0 (-5) (by decide) (by decide) (by decide)))]
  simp only [Option.some_bind, Bool.false_eq_true, if_false]
  rw [reduce_bound_found _ _ (-1) 15 0 (by decide)
    (exists_in_range_of_mem (-5) 4 (-5) _ (by decide) (by decide)
      (hc (-5) 0 (by decide) (by decide) (by decide)))]
  simp only [Option.some_bind, Bool.false_eq_true, if_false]
  rw [reduce_bound_found _ _ 1 15 (-5) (by decide)
    (exists_in_range_of_mem (-5) 0 0 _ (by decide) (by decide)
      (hc (-5) 0 (by decide) (by decide) (by decide)))]
  simp only [Option.some_bind, Bool.false_eq_true, if_false]
  rw [reduce_bound_found _ _ (-1) 15 4 (by decide)
    (exists_in_range_of_mem (-5) 0 0 _ (by decide) (by decide)
      (hc 4 0 (by decide) (by decide) (by decide)))]
  simp only [Option.some_bind, Bool.false_eq_true, if_false]


theorem draw_arc_pixel_inner {D : Type} (ops : DoubleOps D) (val : D → ℝ)
    (E : exact_arith ops val) (md xm ym : D) (hm : val md = 0) (hxm : val xm = 0)
    (hym : val ym = -1) (color : Nat) (surf : Surface) :
    ((7 : Int), (4 : Int)) ∈
      (draw_arc_pixel ops 5 5 color ⟨-5, -5, 4, 0⟩ md xm ym 1 2 surf).written := by
  have c3 : ops.le (ops.mul md (ops.sqrt (ops.ofInt (2 * 2 + 1 * 1))))
      (ops.sub (ops.mul (ops.ofInt 2) xm) (ops.mul (ops.ofInt 1) ym)) = true := by
    rw [E.le, E.mul, E.sub, E.mul, E.mul, E.ofInt, E.ofInt, hm, hxm, hym]
    norm_num
  unfold draw_arc_pixel
  simp only [c3]
  split_ifs <;> simp_all [unsafe_set_at]

theorem draw_arc_sweep_inner {D : Type} (ops : DoubleOps D) (val : D → ℝ)
    (E : exact_arith ops val) (L : exact_libm ops val) (i2 i4 md xm ym : D)
    (hm : val md = 0) (h2 : val i2 = 1 / 25) (h4 : val i4 = 1 / 9) (hxm : val xm = 0)
    (hym : val ym = -1) (color : Nat) (surf : Surface) (da : DrawnArea) :
    ((7 : Int), (4 : Int)) ∈
      (draw_arc_sweep ops surf 5 5 5 3 3 i2 i4 md xm ym color da ⟨-5, -5, 4, 0⟩).1.written := by
  have vo : val (ops.sub ops.one (ops.mul (ops.ofInt (1 * 1)) i2)) = 24 / 25 := by
    rw [E.sub, E.one, E.mul, E.ofInt, h2]; norm_num
  have vi : val (ops.sub ops.one (ops.mul (ops.ofInt (1 * 1)) i4)) = 8 / 9 := by
    rw [E.sub, E.one, E.mul, E.ofInt, h4]; norm_num
  have so : val (ops.mul (ops.ofInt 5) (ops.sqrt (ops.sub ops.one
      (ops.mul (ops.ofInt (1 * 1)) i2)))) = 5 * Real.sqrt (24 / 25) := by
    rw [E.mul, E.ofInt, L.sqrt _ (by rw [vo]; norm_num), vo]; norm_num
  have si : val (ops.mul (ops.ofInt 3) (ops.sqrt (ops.sub ops.one
      (ops.mul (ops.ofInt (1 * 1)) i4)))) = 3 * Real.sqrt (8 / 9) := by
    rw [E.mul, E.ofInt, L.sqrt _ (by rw [vi]; norm_num), vi]; norm_num
  have b1 : (2 : ℝ) / 5 ≤ Real.sqrt (24 / 25) := by
    apply Real.le_sqrt_of_sq_le; norm_num
  have b2 : (2 : ℝ) / 3 ≤ Real.sqrt (8 / 9) := by
    apply Real.le_sqrt_of_sq_le; norm_num
  have b3 : Real.sqrt (8 / 9) < 1 := by
    rw [Real.sqrt_lt' (by norm_num)]; norm_num
  have xo : 2 ≤ ops.toInt (ops.mul (ops.ofInt 5) (ops.sqrt (ops.sub ops.one
      (ops.mul (ops.ofInt (1 * 1)) i2)))) := by
    rw [E.toInt_nonneg _ (by rw [so]; linarith), so]
    apply Int.le_floor.mpr
    push_cast
    linarith
  have xi : ops.toInt (ops.mul (ops.ofInt 3) (ops.sqrt (ops.sub ops.one
      (ops.mul (ops.ofInt (1 * 1)) i4)))) = 2 := by
    rw [E.toInt_nonneg _ (by rw [si]; linarith), si]
    rw [Int.floor_eq_iff]
    push_cast
    constructor <;> linarith
  unfold draw_arc_sweep
  rw [if_neg (by decide)]
  dsimp only
  apply for_loop_written_mem
  · intro y s hp
    apply for_loop_written_mem
    · intro x s1 hp1
      exact draw_arc_pixel_mono ops 5 5 color _ md xm ym y x s1 _ hp1
    · left; exact hp
  · right
    refine ⟨1, by decide, by decide, ?_⟩
    intro s
    apply for_loop_written_mem
    · intro x s1 hp1
      exact draw_arc_pixel_mono ops 5 5 color _ md xm ym 1 x s1 _ hp1
    · right
      refine ⟨2, ?_, ?_, ?_⟩
      · rw [if_pos (by decide), xi]
      · rw [if_pos (by decide), xi]
        omega
      · intro s1
        exact draw_arc_pixel_inner ops val E md xm ym hm hxm hym color s1

/-- C22: with trigonometry, square roots and arithmetic taken over the exact reals,
`arc(rect=(0,0,10,10), start_angle=0, stop_angle=pi, width=2)` on a 10 by 10 surface
returns normally and writes the pixel `(7, 4)`, whose squared distance
`(7 - 5)^2 + (4 - 5)^2 = 5` from the centre `(5, 5)` is less than the square of the
inner radius 3: the pixel lies in the hole of the annulus, where `check_pixel_in_arc`
rejects it. -/
theorem arc_half_annulus_inner_pixel {D : Type} (ops : DoubleOps D) (val : D → ℝ)
    (E : exact_arith ops val) (L : exact_libm ops val) (color : Nat) :
    ∃ r, arc ops (Surface.blank 10 10 4) (SDL_Rect.whole 10 10) color ⟨0, 0, 10, 10⟩
        (ops.ofInt 0) ops.pi 2 = some (.ok r) ∧
      ((7 : Int), (4 : Int)) ∈ r.1.written ∧
      ((7 : Int) - 5) ^ 2 + ((4 : Int) - 5) ^ 2 < 3 ^ 2 ∧
      check_pixel_in_arc ops (7 - 5) (4 - 5) (ops.ofInt 0)
        (ops.div ops.one (ops.ofInt 25)) (ops.div ops.one (ops.ofInt 25))
        (ops.div ops.one (ops.ofInt 9)) (ops.div ops.one (ops.ofInt 9))
        (ops.ofInt 0) (ops.ofInt (-1)) = false := by
  have hpi := Real.pi_pos
  have v0 : val (ops.ofInt 0) = 0 := by rw [E.ofInt]; norm_num
  have l1 : ¬ (ops.lt ops.pi (ops.ofInt 0) = true) := by
    rw [E.lt, L.pi, v0]; linarith
  have l2 : ¬ (ops.le ops.pi (ops.ofInt 0) = true) := by
    rw [E.le, L.pi, v0]; linarith
  have vam : val (ops.mul ops.half (ops.add (ops.ofInt 0) ops.pi)) = Real.pi / 2 := by
    rw [E.mul, E.half, E.add, v0, L.pi]; ring
  have vad : val (ops.sub (ops.mul ops.half (ops.add (ops.ofInt 0) ops.pi)) (ops.ofInt 0)) =
      Real.pi / 2 := by
    rw [E.sub, vam, v0]; ring
  have l3 : ops.lt (ops.sub (ops.mul ops.half (ops.add (ops.ofInt 0) ops.pi)) (ops.ofInt 0))
      ops.pi = true := by
    rw [E.lt, vad, L.pi]; linarith
  have hm : val (ops.cos (ops.sub (ops.mul ops.half (ops.add (ops.ofInt 0) ops.pi))
      (ops.ofInt 0))) = 0 := by
    rw [L.cos, vad, Real.cos_pi_div_two]
  have hxm : val (ops.cos (ops.mul ops.half (ops.add (ops.ofInt 0) ops.pi))) = 0 := by
    rw [L.cos, vam, Real.cos_pi_div_two]
  have hym : val (ops.neg (ops.sin (ops.mul ops.half (ops.add (ops.ofInt 0) ops.pi)))) =
      -1 := by
    rw [E.neg, L.sin, vam, Real.sin_pi_div_two]
  have hs0 : val (ops.sin (ops.ofInt 0)) = 0 := by
    rw [L.sin, v0, Real.sin_zero]
  have hs1 : val (ops.sin ops.pi) = 0 := by
    rw [L.sin, L.pi, Real.sin_pi]
  have h25 : val (ops.div ops.one (ops.ofInt (5 * 5))) = 1 / 25 := by
    rw [E.div _ _ (by rw [E.ofInt]; norm_num), E.one, E.ofInt]; norm_num
  have h9 : val (ops.div ops.one (ops.ofInt ((5 - 2) * (5 - 2)))) = 1 / 9 := by
    rw [E.div _ _ (by rw [E.ofInt]; norm_num), E.one, E.ofInt]; norm_num
  have hb := calc_arc_bounds_half ops val E (ops.ofInt 0) ops.pi _ _ _ _ _ _ _ hm h25 h25
    h9 h9 hxm hym hs0 hs1 ⟨0, 0, -1, -1⟩
  have hsw := draw_arc_sweep_inner ops val E L _ _ _ _ _ hm h25 h9 hxm hym color
    (Surface.blank 10 10 4) DrawnArea.init
  have hd : draw_arc ops (Surface.blank 10 10 4) (SDL_Rect.whole 10 10) 5 5 5 5 2
      (ops.ofInt 0) ops.pi color DrawnArea.init =
      some (draw_arc_sweep ops (Surface.blank 10 10 4) 5 5 5 3 3
        (ops.div ops.one (ops.ofInt (5 * 5))) (ops.div ops.one (ops.ofInt ((5 - 2) * (5 - 2))))
        (ops.cos (ops.sub (ops.mul ops.half (ops.add (ops.ofInt 0) ops.pi)) (ops.ofInt 0)))
        (ops.cos (ops.mul ops.half (ops.add (ops.ofInt 0) ops.pi)))
        (ops.neg (ops.sin (ops.mul ops.half (ops.add (ops.ofInt 0) ops.pi))))
        color DrawnArea.init ⟨-5, -5, 4, 0⟩) := by
    unfold draw_arc
    rw [if_neg (by decide)]
    simp only [if_neg l1, if_neg l2, if_pos l3]
    have e3 : (5 : Int) - 2 = 3 := by decide
    rw [e3] at hb ⊢
    rw [hb]
    rfl
  have ha : arc ops (Surface.blank 10 10 4) (SDL_Rect.whole 10 10) color ⟨0, 0, 10, 10⟩
      (ops.ofInt 0) ops.pi 2 =
      (draw_arc ops (Surface.blank 10 10 4) (SDL_Rect.whole 10 10) 5 5 5 5 2
        (ops.ofInt 0) ops.pi color DrawnArea.init).map
        (fun r => .ok (r.1, return_rect r.2 0 0)) := by
    unfold arc
    rw [if_neg (by decide), if_neg (by decide)]
    simp only [if_neg l1]
    rfl
  rw [ha, hd]
  refine ⟨_, rfl, hsw, by decide, ?_⟩
  · have a2 : ops.lt (ops.add (ops.mul (ops.ofInt ((7 - 5) * (7 - 5)))
        (ops.div ops.one (ops.ofInt 9)))
        (ops.mul (ops.ofInt ((4 - 5) * (4 - 5))) (ops.div ops.one (ops.ofInt 9))))
        ops.one = true := by
      rw [E.lt, E.add, E.mul, E.mul, E.div _ _ (by rw [E.ofInt]; norm_num), E.one, E.ofInt,
        E.ofInt, E.ofInt]
      norm_num
    unfold check_pixel_in_arc
    dsimp only
    rw [if_pos a2]
    split_ifs <;> rfl

/-- C22, instance: the operations of the real numbers themselves are exact, and with
them the call of `arc` writes the pixel `(7, 4)` inside the inner circle. -/
theorem arc_half_annulus_inner_pixel_witness :
    ∃ ops : DoubleOps ℝ, exact_arith ops id ∧ exact_libm ops id ∧
      ∃ r, arc ops (Surface.blank 10 10 4) (SDL_Rect.whole 10 10) 255 ⟨0, 0, 10, 10⟩
          (ops.ofInt 0) ops.pi 2 = some (.ok r) ∧
        ((7 : Int), (4 : Int)) ∈ r.1.written := by
  have E : exact_arith
      ({ ofInt := fun n => (n : ℝ)
         toInt := fun a => if a < 0 then ⌈a⌉ else ⌊a⌋
         add := fun a b => a + b
         sub := fun a b => a - b
         mul := fun a b => a * b
         div := fun a b => a / b
         neg := fun a => -a
         lt := fun a b => decide (a < b)
         le := fun a b => decide (a ≤ b)
         cos := Real.cos
         sin := Real.sin
         sqrt := Real.sqrt
         half := 1 / 2
         one := 1
         pi := Real.pi
         tiny := 1 / 10 ^ 17
         toFloat := fun a => a } : DoubleOps ℝ) id :=
    { ofInt := fun n => rfl
      one := rfl
      half := rfl
      add := fun a b => rfl
      sub := fun a b => rfl
      mul := fun a b => rfl
      div := fun a b _ => rfl
      neg := fun a => rfl
      lt := fun a b => by simp
      le := fun a b => by simp
      toInt_nonneg := fun a h => by
        have h1 : ¬ a < 0 := not_lt.mpr h
        simp only [if_neg h1, id]
      toInt_neg := fun a h => by
        have h1 : a < 0 := h
        simp only [if_pos h1, id]
      toFloat := fun a => rfl }
  have L : exact_libm
      ({ ofInt := fun n => (n : ℝ)
         toInt := fun a => if a < 0 then ⌈a⌉ else ⌊a⌋
         add := fun a b => a + b
         sub := fun a b => a - b
         mul := fun a b => a * b
         div := fun a b => a / b
         neg := fun a => -a
         lt := fun a b => decide (a < b)
         le := fun a b => decide (a ≤ b)
         cos := Real.cos
         sin := Real.sin
         sqrt := Real.sqrt
         half := 1 / 2
         one := 1
         pi := Real.pi
         tiny := 1 / 10 ^ 17
         toFloat := fun a => a } : DoubleOps ℝ) id :=
    { cos := fun a => rfl
      sin := fun a => rfl
      sqrt := fun a _ => rfl
      pi := rfl }
  obtain ⟨r, h1, h2, -, -⟩ := arc_half_annulus_inner_pixel _ id E L 255
  exact ⟨_, E, L, r, h1, h2⟩

/-! ## The ring rasteriser on the centre rows -/

theorem ring_f1_neg_bound (R a y : Int) (ha : 0 ≤ a) (hR : 0 < R)
    (h : ring_f1 (R * R) a y < 0) : a + 1 < R := by
  unfold ring_f1 at h
  by_contra hc
  have h1 : R ≤ a + 1 := by omega
  have h2 : R * R ≤ (a + 1) * (a + 1) := mul_le_mul h1 h1 (le_of_lt hR) (by omega)
  nlinarith [mul_self_nonneg (2 * y - 1)]

theorem ring_f2_nonpos_bound (R x y : Int) (hx : 0 ≤ x) (hR : 0 < R)
    (h : ring_f2 (R * R) x y ≤ 0) : x + 1 ≤ R := by
  unfold ring_f2 at h
  by_contra hc
  have h1 : R ≤ x := by omega
  have h2 : R * R ≤ x * x := mul_le_mul h1 h1 (le_of_lt hR) hx
  nlinarith [mul_self_nonneg (y - 1)]

theorem ring_f1_nested (A Ai xs a y : Int) (hxs : 0 ≤ xs) (ha : xs + 1 ≤ a) (hA : Ai ≤ A)
    (h1 : 0 ≤ ring_f1 A xs y) (h2 : ring_f1 Ai (a - 1) y < 0) : False := by
  unfold ring_f1 at h1 h2
  have h3 : (xs + 1) * (xs + 1) ≤ a * a := mul_le_mul ha ha (by omega) (by omega)
  have e : a - 1 + 1 = a := by ring
  rw [e] at h2
  nlinarith

theorem ring_f2_nested (R Ri x a y : Int) (hx : 1 ≤ x) (ha : x ≤ a) (hRi : 0 ≤ Ri)
    (hRR : Ri ≤ R - 1) (hsum : x + y ≤ 2 * R - 1)
    (h1 : 0 < ring_f2 (R * R) x (y + 1)) (h2 : ring_f1 (Ri * Ri) (a - 1) y < 0) : False := by
  unfold ring_f2 at h1
  unfold ring_f1 at h2
  have h3 : x * x ≤ a * a := mul_le_mul ha ha (by omega) (by omega)
  have h4 : Ri * Ri ≤ (R - 1) * (R - 1) := mul_le_mul hRR hRR hRi (by omega)
  have e : a - 1 + 1 = a := by ring
  have e2 : y + 1 - 1 = y := by ring
  rw [e] at h2
  rw [e2] at h1
  nlinarith

theorem ring_f2_of_f1 (A x y : Int) (hxy : y ≤ x) (h : 0 ≤ ring_f1 A (x - 1) (y + 1)) :
    0 < ring_f2 A x (y + 1) := by
  have e1 : ring_f2 A x (y + 1) = ring_f1 A (x - 1) (y + 1) + 4 * (x - y) := by
    unfold ring_f1 ring_f2; ring
  have e2 : ring_f2 A x (y + 1) = 4 * (x * x + x + y * y - A) + 1 := by
    unfold ring_f2; ring
  omega

theorem ring_f2_step (A x y : Int) (hxy : y ≤ x) (h : 0 < ring_f2 A x (y + 1)) :
    0 < ring_f2 A (x + 1) y := by
  have e : ring_f2 A (x + 1) y = ring_f2 A x (y + 1) + 8 * (x - y) + 12 := by
    unfold ring_f2; ring
  omega

theorem ring_f2_smaller (A Ai x y : Int) (hA : Ai < A) (h : ring_f2 Ai x y ≤ 0) :
    ring_f2 A x y < 0 := by
  unfold ring_f2 at h ⊢
  omega

theorem ring_f2_row_one (R x : Int) (hx : 0 ≤ x) (hxR : x ≤ R) (hR : 2 ≤ R)
    (h : 0 < ring_f2 (R * R) x 2) : x = R := by
  unfold ring_f2 at h
  by_contra hc
  have h1 : x ≤ R - 1 := by omega
  have h2 : (2 * x + 1) * (2 * x + 1) ≤ (2 * R - 1) * (2 * R - 1) :=
    mul_le_mul (by omega) (by omega) (by omega) (by omega)
  nlinarith

theorem ring_f2_row_zero (R x : Int) (hx : 0 ≤ x) (hxR : x ≤ R) (hR : 2 ≤ R)
    (h : 0 < ring_f2 (R * R) x 1) : x = R := by
  unfold ring_f2 at h
  by_contra hc
  have h1 : x ≤ R - 1 := by omega
  have h2 : (2 * x + 1) * (2 * x + 1) ≤ (2 * R - 1) * (2 * R - 1) :=
    mul_le_mul (by omega) (by omega) (by omega) (by omega)
  nlinarith

theorem ring_decision_neg (A f : Int) (hA : 0 < A) : ring_decision A f < 0 ↔ f < 0 := by
  unfold ring_decision
  have hA1 : (0 : Rat) < (A : Rat) := by exact_mod_cast hA
  constructor
  · intro h
    by_contra hc
    have : (0 : Rat) ≤ (f : Rat) := by exact_mod_cast (not_lt.mp hc)
    have := mul_nonneg (le_of_lt hA1) this
    linarith
  · intro h
    have : (f : Rat) < 0 := by exact_mod_cast h
    have := mul_neg_of_pos_of_neg hA1 this
    linarith

theorem ring_decision_pos (A f : Int) (hA : 0 < A) : 0 < ring_decision A f ↔ 0 < f := by
  unfold ring_decision
  have hA1 : (0 : Rat) < (A : Rat) := by exact_mod_cast hA
  constructor
  · intro h
    by_contra hc
    have : (f : Rat) ≤ 0 := by exact_mod_cast (not_lt.mp hc)
    have := mul_nonpos_of_nonneg_of_nonpos (le_of_lt hA1) this
    linarith
  · intro h
    have : (0 : Rat) < (f : Rat) := by exact_mod_cast h
    have := mul_pos hA1 this
    linarith

theorem ring_decision_skip (A x y : Int) :
    ring_decision A (ring_f1 A x y) + ((2 * A * x + 2 * A + A : Int) : Rat) =
      ring_decision A (ring_f1 A (x + 1) y) := by
  unfold ring_decision ring_f1
  push_cast
  ring

theorem ring_decision_diagonal1 (A x y : Int) :
    ring_decision A (ring_f1 A x y) +
        ((2 * A * x + 2 * A - (2 * A * y - 2 * A) + A : Int) : Rat) =
      ring_decision A (ring_f1 A (x + 1) (y - 1)) := by
  unfold ring_decision ring_f1
  push_cast
  ring

theorem ring_decision_down (A x y : Int) :
    ring_decision A (ring_f2 A x y) + ((A - (2 * A * y - 2 * A) : Int) : Rat) =
      ring_decision A (ring_f2 A x (y - 1)) := by
  unfold ring_decision ring_f2
  push_cast
  ring

theorem ring_decision_diagonal2 (A x y : Int) :
    ring_decision A (ring_f2 A x y) +
        ((2 * A * x + 2 * A - (2 * A * y - 2 * A) + A : Int) : Rat) =
      ring_decision A (ring_f2 A (x + 1) (y - 1)) := by
  unfold ring_decision ring_f2
  push_cast
  ring

theorem ring_decision_start (R : Int) :
    ((R * R : Int) : Rat) * (5 / 4 - (R : Rat)) =
      ring_decision (R * R) (ring_f1 (R * R) 0 R) := by
  unfold ring_decision ring_f1
  push_cast
  ring

theorem ring_decision_second (A x y : Int) :
    (A : Rat) * (((x : Rat) + 1 / 2) * ((x : Rat) + 1 / 2) +
        (((y - 1) * (y - 1) : Int) : Rat) - (A : Rat)) =
      ring_decision A (ring_f2 A x y) := by
  unfold ring_decision ring_f2
  push_cast
  ring

/-- The skip loop of `draw_circle_bresenham` returns: it stops at the first column
`xs >= x` whose decision value is not negative. -/
theorem ring_skip_spec (A y N : Int) (hA : 0 < A)
    (hN : ∀ a, 0 ≤ a → ring_f1 A a y < 0 → a + 1 < N) :
    ∀ (fuel : Nat) (x : Int), 0 ≤ x → (N - x).toNat ≤ fuel →
      ∃ xs, ring_skip A fuel (x, 2 * A * x, ring_decision A (ring_f1 A x y)) =
          some (xs, 2 * A * xs, ring_decision A (ring_f1 A xs y)) ∧
        x ≤ xs ∧ 0 ≤ ring_f1 A xs y ∧ (xs = x ∨ (x < xs ∧ ring_f1 A (xs - 1) y < 0)) := by
  intro fuel
  induction fuel with
  | zero =>
    intro x hx hf
    have hc : ¬ ring_f1 A x y < 0 := by
      intro h
      have := hN x hx h
      omega
    refine ⟨x, ?_, le_refl _, not_lt.mp hc, Or.inl rfl⟩
    unfold ring_skip
    rw [while_loop]
    have hd : ¬ ring_decision A (ring_f1 A x y) < 0 := by
      rw [ring_decision_neg A _ hA]; exact hc
    simp only [decide_eq_true_eq, if_neg hd]
  | succ fuel ih =>
    intro x hx hf
    by_cases hc : ring_f1 A x y < 0
    · have hb := hN x hx hc
      obtain ⟨xs, e, h1, h2, h3⟩ := ih (x + 1) (by omega) (by omega)
      refine ⟨xs, ?_, by omega, h2, Or.inr ⟨by omega, ?_⟩⟩
      · unfold ring_skip at e ⊢
        rw [while_loop]
        have hd : ring_decision A (ring_f1 A x y) < 0 := by
          rw [ring_decision_neg A _ hA]; exact hc
        simp only [decide_eq_true_eq, if_pos hd]
        rw [ring_decision_skip, show 2 * A * x + 2 * A = 2 * A * (x + 1) by ring]
        exact e
      · rcases h3 with h3 | h3
        · rw [h3]
          have e1 : x + 1 - 1 = x := by ring
          rw [e1]; exact hc
        · exact h3.2
    · refine ⟨x, ?_, le_refl _, not_lt.mp hc, Or.inl rfl⟩
      unfold ring_skip
      rw [while_loop]
      have hd : ¬ ring_decision A (ring_f1 A x y) < 0 := by
        rw [ring_decision_neg A _ hA]; exact hc
      simp only [decide_eq_true_eq, if_neg hd]

theorem while_loop_opt_terminates {σ : Type} (cond : σ → Bool) (body : σ → Option σ)
    (P : σ → Prop) (m : σ → Nat)
    (hP : ∀ s, P s → cond s = true → ∃ r, body s = some r ∧ P r ∧ m r < m s) :
    ∀ (fuel : Nat) (s : σ), P s → m s ≤ fuel →
      ∃ r, while_loop_opt cond body fuel s = some r ∧ P r ∧ cond r = false := by
  intro fuel
  induction fuel with
  | zero =>
    intro s hs hlt
    rw [while_loop_opt]
    by_cases hc : cond s = true
    · obtain ⟨r, -, -, h⟩ := hP s hs hc
      omega
    · rw [if_neg hc]
      exact ⟨s, rfl, hs, by simpa using hc⟩
  | succ fuel ih =>
    intro s hs hlt
    rw [while_loop_opt]
    by_cases hc : cond s = true
    · rw [if_pos hc]
      obtain ⟨r, e, hr, h⟩ := hP s hs hc
      rw [e]
      exact ih r hr (by omega)
    · rw [if_neg hc]
      exact ⟨s, rfl, hs, by simpa using hc⟩

theorem draw_circle_bresenham_body1_eq (clip : SDL_Rect) (x0 y0 : Int) (color : Nat)
    (A Ri Ai : Int) (fuel : Nat) (s : RingState) :
    draw_circle_bresenham_body1 clip x0 y0 color A Ri Ai fuel s =
      (ring_skip A fuel (s.x, s.dx, s.d1)).bind fun t =>
        if (ring_line_check Ri (ring_diagonal A (ring_draw clip x0 y0 color
            { s with x := t.1, dx := t.2.1, d1 := t.2.2 }))).line = true then
          some (ring_line_check Ri (ring_diagonal A (ring_draw clip x0 y0 color
            { s with x := t.1, dx := t.2.1, d1 := t.2.2 })))
        else ring_inner_region1 Ai fuel
          (ring_line_check Ri (ring_diagonal A (ring_draw clip x0 y0 color
            { s with x := t.1, dx := t.2.1, d1 := t.2.2 }))) := by
  unfold draw_circle_bresenham_body1 ring_line_check ring_diagonal ring_draw
  congr 1
  funext t
  dsimp only
  by_cases hl : s.line = true <;> by_cases hy : s.y - 1 < Ri <;> simp [hl, hy]

theorem draw_circle_bresenham_body2_eq (clip : SDL_Rect) (x0 y0 : Int) (color : Nat)
    (A Ri Ai : Int) (fuel : Nat) (s : RingState) :
    draw_circle_bresenham_body2 clip x0 y0 color A Ri Ai fuel s =
      ring_inner_advance Ai fuel (ring_line_check Ri
        (if s.d1 > 0 then ring_down A (ring_draw clip x0 y0 color s)
          else ring_diagonal A (ring_draw clip x0 y0 color s))) := by
  unfold draw_circle_bresenham_body2 ring_inner_advance ring_line_check ring_down
    ring_diagonal ring_draw ring_inner_region2 ring_d2_inner
  dsimp only
  by_cases h1 : s.d1 > 0 <;> by_cases hl : s.line = true <;>
    by_cases hy : s.y - 1 < Ri <;> simp [h1, hl, hy] <;> split_ifs <;> rfl

theorem ring_outer_second_step {R x y dx dy : Int} {d1 : Rat}
    (h : RingOuter R false x y dx dy d1) (hy : 0 ≤ y) (hR : 1 ≤ R) :
    (0 < d1 → RingOuter R false x (y - 1) dx (dy - 2 * (R * R))
      (d1 + ((R * R - (dy - 2 * (R * R)) : Int) : Rat))) ∧
    (¬ 0 < d1 → RingOuter R false (x + 1) (y - 1) (dx + 2 * (R * R)) (dy - 2 * (R * R))
      (d1 + ((dx + 2 * (R * R) - (dy - 2 * (R * R)) + R * R : Int) : Rat))) := by
  have hA : 0 < R * R := by nlinarith
  have hd := h.d1_second rfl
  obtain ⟨hl1, hl2⟩ := h.lower_second rfl
  have hx := h.x_nonneg
  have hxR := h.x_le
  have hyR := h.y_le
  have hs := h.sum_le
  have e1 : y - 1 + 1 = y := by ring
  constructor
  · intro hp
    rw [hd, ring_decision_pos _ _ hA] at hp
    refine ⟨hx, hxR, by omega, by omega, by omega, h.dx_eq, ?_, ?_, ?_, ?_, ?_⟩
    · rw [h.dy_eq]; ring
    · intro hf; cases hf
    · intro hf; cases hf
    · intro _
      rw [hd, h.dy_eq]
      exact ring_decision_down (R * R) x y
    · intro _
      rw [e1]
      exact ⟨by omega, hp⟩
  · intro hp
    rw [hd, ring_decision_pos _ _ hA] at hp
    have hb := ring_f2_nonpos_bound R x y hx (by omega) (not_lt.mp hp)
    refine ⟨by omega, hb, by omega, by omega, by omega, ?_, ?_, ?_, ?_, ?_, ?_⟩
    · rw [h.dx_eq]; ring
    · rw [h.dy_eq]; ring
    · intro hf; cases hf
    · intro hf; cases hf
    · intro _
      rw [hd, h.dx_eq, h.dy_eq]
      exact ring_decision_diagonal2 (R * R) x y
    · intro _
      rw [e1]
      exact ⟨by omega, ring_f2_step (R * R) x y hl1 hl2⟩

theorem ring_outer_first_step {R x y dx dy : Int} {d1 : Rat}
    (h : RingOuter R true x y dx dy d1) (hxy : x < y) (hR : 1 ≤ R) (xs : Int)
    (h1 : x ≤ xs) (h2 : 0 ≤ ring_f1 (R * R) xs y)
    (h3 : xs = x ∨ (x < xs ∧ ring_f1 (R * R) (xs - 1) y < 0)) :
    RingOuter R true (xs + 1) (y - 1) (2 * (R * R) * xs + 2 * (R * R)) (dy - 2 * (R * R))
        (ring_decision (R * R) (ring_f1 (R * R) xs y) +
          ((2 * (R * R) * xs + 2 * (R * R) - (dy - 2 * (R * R)) + R * R : Int) : Rat)) ∧
      xs ≤ R - 1 := by
  have hx := h.x_nonneg
  have hyR := h.y_le
  have hb : xs ≤ R - 1 := by
    rcases h3 with h3 | ⟨h3, h4⟩
    · omega
    · have := ring_f1_neg_bound R (xs - 1) y (by omega) (by omega) h4
      omega
  refine ⟨⟨by omega, by omega, by omega, by omega, by omega, ?_, ?_, ?_, ?_, ?_, ?_⟩, hb⟩
  · ring
  · rw [h.dy_eq]; ring
  · intro _
    rw [h.dy_eq]
    exact ring_decision_diagonal1 (R * R) xs y
  · intro _
    rw [show xs + 1 - 1 = xs by ring, show y - 1 + 1 = y by ring]
    exact h2
  · intro hf; cases hf
  · intro hf; cases hf

theorem ring_outer_switch {R x y dx dy : Int} {d1 : Rat}
    (h : RingOuter R true x y dx dy d1) (hxy : ¬ x < y) :
    RingOuter R false x y dx dy (ring_decision (R * R) (ring_f2 (R * R) x y)) := by
  refine ⟨h.x_nonneg, h.x_le, h.y_le, h.sum_le, h.y_ge, h.dx_eq, h.dy_eq, ?_, ?_, ?_, ?_⟩
  · intro hf; cases hf
  · intro hf; cases hf
  · intro _; rfl
  · intro _
    exact ⟨by omega, ring_f2_of_f1 (R * R) x y (by omega) (h.lower_first rfl)⟩

theorem ring_inner_rest {Ri x y xi yi dxi dyi : Int} {d1i d2i : Rat} {line : Bool}
    (h : RingInner Ri line x y xi yi dxi dyi d1i d2i) (hl : line = true) (x1 y1 : Int)
    (hy : Ri ≤ y1) (hx : 0 ≤ x1) : RingInner Ri true x1 y1 xi yi dxi dyi d1i d2i := by
  obtain ⟨-, r2, r3, r4⟩ := h.resting hl
  refine ⟨fun _ => ⟨hy, r2, r3, r4⟩, ?_, h.x_nonneg, by omega, h.x_le, h.y_le, h.dx_eq,
    h.dy_eq, h.mode, h.lower⟩
  intro hf; cases hf

theorem ring_inner_row {Ri x y xi yi dxi dyi : Int} {d1i d2i : Rat} {line : Bool}
    (h : RingInner Ri line x y xi yi dxi dyi d1i d2i)
    (hl : (line && !decide (y - 1 < Ri)) = false) : yi = y := by
  cases line with
  | false => exact h.row rfl
  | true =>
    obtain ⟨r1, -, r3, -⟩ := h.resting rfl
    simp at hl
    omega

theorem ring_inner_first_step {Ri x y xi yi dxi dyi : Int} {d1i d2i : Rat} {line : Bool}
    (hRi : 1 ≤ Ri) (h : RingInner Ri line x y xi yi dxi dyi d1i d2i) (hrow : yi = y)
    (hreg : xi < yi) (xs : Int) (h1 : xi ≤ xs) (h2 : 0 ≤ ring_f1 (Ri * Ri) xs yi)
    (h3 : xs = xi ∨ (xi < xs ∧ ring_f1 (Ri * Ri) (xs - 1) yi < 0)) (x1 : Int)
    (hb : xs + 1 ≤ x1) :
    RingInner Ri false x1 (y - 1) (xs + 1) (yi - 1) (2 * (Ri * Ri) * xs + 2 * (Ri * Ri))
      (dyi - 2 * (Ri * Ri))
      (ring_decision (Ri * Ri) (ring_f1 (Ri * Ri) xs yi) +
        ((2 * (Ri * Ri) * xs + 2 * (Ri * Ri) - (dyi - 2 * (Ri * Ri)) + Ri * Ri : Int) : Rat))
      d2i := by
  have hx := h.x_nonneg
  have hyR := h.y_le
  have hxs : xs + 1 ≤ Ri := by
    rcases h3 with h3 | ⟨h3, h4⟩
    · omega
    · have := ring_f1_neg_bound Ri (xs - 1) yi (by omega) (by omega) h4
      omega
  have hd2 : d2i = 0 := by
    rcases h.mode with m | m
    · exact m.1
    · omega
  refine ⟨?_, fun _ => by omega, by omega, hb, hxs, by omega, ?_, ?_, Or.inl ⟨hd2, ?_⟩,
    Or.inl ?_⟩
  · intro hf; cases hf
  · ring
  · rw [h.dy_eq]; ring
  · rw [h.dy_eq]
    exact ring_decision_diagonal1 (Ri * Ri) xs yi
  · rw [show xs + 1 - 1 = xs by ring, show yi - 1 + 1 = yi by ring]
    exact h2

theorem ring_inner_second_step {Ri x y xi yi dxi dyi : Int} {d1i d2i : Rat} {line : Bool}
    (hRi : 1 ≤ Ri) (h : RingInner Ri line x y xi yi dxi dyi d1i d2i) (hrow : yi = y)
    (hreg : ¬ xi < yi) (d2 : Rat)
    (hd2 : d2 = if d2i = 0 then
        ((Ri * Ri : Int) : Rat) * (((xi : Rat) + 1 / 2) * ((xi : Rat) + 1 / 2) +
          (((yi - 1) * (yi - 1) : Int) : Rat) - ((Ri * Ri : Int) : Rat))
      else d2i) :
    d2 = ring_decision (Ri * Ri) (ring_f2 (Ri * Ri) xi yi) ∧
    (0 < d2 → ∀ x1, xi ≤ x1 →
      RingInner Ri false x1 (y - 1) xi (yi - 1) dxi (dyi - 2 * (Ri * Ri)) d1i
        (d2 + ((Ri * Ri - (dyi - 2 * (Ri * Ri)) : Int) : Rat))) ∧
    (¬ 0 < d2 → ∀ x1, xi + 1 ≤ x1 →
      RingInner Ri false x1 (y - 1) (xi + 1) (yi - 1) (dxi + 2 * (Ri * Ri))
        (dyi - 2 * (Ri * Ri)) d1i
        (d2 + ((dxi + 2 * (Ri * Ri) - (dyi - 2 * (Ri * Ri)) + Ri * Ri : Int) : Rat))) := by
  have hA : 0 < Ri * Ri := by nlinarith
  have hx := h.x_nonneg
  have hyR := h.y_le
  have hxR := h.x_le
  have e : d2 = ring_decision (Ri * Ri) (ring_f2 (Ri * Ri) xi yi) := by
    rw [hd2]
    rcases h.mode with m | m
    · rw [if_pos m.1]
      exact ring_decision_second (Ri * Ri) xi yi
    · by_cases h0 : d2i = 0
      · rw [if_pos h0]
        exact ring_decision_second (Ri * Ri) xi yi
      · rw [if_neg h0]
        exact m.2
  have hpb : 0 < ring_f2 (Ri * Ri) xi (yi + 1) := by
    rcases h.lower with l | l
    · exact ring_f2_of_f1 (Ri * Ri) xi yi (by omega) l
    · exact l.2
  have e1 : yi - 1 + 1 = yi := by ring
  refine ⟨e, ?_, ?_⟩
  · intro hp x1 hx1
    have hp1 := hp
    rw [e, ring_decision_pos _ _ hA] at hp1
    refine ⟨?_, fun _ => by omega, hx, hx1, hxR, by omega, h.dx_eq, ?_,
      Or.inr ⟨by omega, ?_⟩, Or.inr ⟨by omega, ?_⟩⟩
    · intro hf; cases hf
    · rw [h.dy_eq]; ring
    · rw [e, h.dy_eq]
      exact ring_decision_down (Ri * Ri) xi yi
    · rw [e1]; exact hp1
  · intro hp x1 hx1
    have hp1 := hp
    rw [e, ring_decision_pos _ _ hA] at hp1
    have hb := ring_f2_nonpos_bound Ri xi yi hx (by omega) (not_lt.mp hp1)
    refine ⟨?_, fun _ => by omega, by omega, hx1, hb, by omega, ?_, ?_,
      Or.inr ⟨by omega, ?_⟩, Or.inr ⟨by omega, ?_⟩⟩
    · intro hf; cases hf
    · rw [h.dx_eq]; ring
    · rw [h.dy_eq]; ring
    · rw [e, h.dx_eq, h.dy_eq]
      exact ring_decision_diagonal2 (Ri * Ri) xi yi
    · rw [e1]
      exact ring_f2_step (Ri * Ri) xi yi (by omega) hpb

theorem ring_inner_region1_spec (Ai N : Int) (hA : 0 < Ai) (fuel : Nat) (s : RingState)
    (hx : 0 ≤ s.x_inner) (hdx : s.dx_inner = 2 * Ai * s.x_inner)
    (hd1 : s.d1_inner = ring_decision Ai (ring_f1 Ai s.x_inner s.y_inner))
    (hN : ∀ a, 0 ≤ a → ring_f1 Ai a s.y_inner < 0 → a + 1 < N)
    (hf : (N - s.x_inner).toNat ≤ fuel) :
    ∃ xs, ring_inner_region1 Ai fuel s = some { s with
          x_inner := xs + 1, y_inner := s.y_inner - 1
          dx_inner := 2 * Ai * xs + 2 * Ai, dy_inner := s.dy_inner - 2 * Ai
          d1_inner := ring_decision Ai (ring_f1 Ai xs s.y_inner) +
            ((2 * Ai * xs + 2 * Ai - (s.dy_inner - 2 * Ai) + Ai : Int) : Rat) } ∧
      s.x_inner ≤ xs ∧ 0 ≤ ring_f1 Ai xs s.y_inner ∧
      (xs = s.x_inner ∨ (s.x_inner < xs ∧ ring_f1 Ai (xs - 1) s.y_inner < 0)) := by
  obtain ⟨xs, e, h1, h2, h3⟩ := ring_skip_spec Ai s.y_inner N hA hN fuel s.x_inner hx hf
  refine ⟨xs, ?_, h1, h2, h3⟩
  unfold ring_inner_region1
  rw [hdx, hd1, e]
  rfl

theorem ring_inner_bound_first (A Ai x y xs xi xsi : Int) (hx : 0 ≤ x) (hxs : x ≤ xs)
    (h2 : 0 ≤ ring_f1 A xs y) (hxi : xi ≤ x) (hA : Ai ≤ A)
    (h3 : xsi = xi ∨ (xi < xsi ∧ ring_f1 Ai (xsi - 1) y < 0)) : xsi + 1 ≤ xs + 1 := by
  by_contra hc
  rcases h3 with h3 | ⟨-, h4⟩
  · omega
  · exact ring_f1_nested A Ai xs xsi y (by omega) (by omega) hA h2 h4

theorem ring_inner_bound_second {R Ri x y dx dy xi yi dxi dyi : Int} {d1 d1i d2i : Rat}
    {line : Bool} (ho : RingOuter R false x y dx dy d1)
    (h : RingInner Ri line x y xi yi dxi dyi d1i d2i) (hrow : yi = y) (hreg : xi < yi)
    (hRi : 0 ≤ Ri) (hRR : Ri ≤ R - 1) (xsi : Int)
    (h3 : xsi = xi ∨ (xi < xsi ∧ ring_f1 (Ri * Ri) (xsi - 1) yi < 0)) : xsi + 1 ≤ x := by
  obtain ⟨l1, l2⟩ := ho.lower_second rfl
  have hx := h.x_nonneg
  by_contra hc
  rcases h3 with h3 | ⟨-, h4⟩
  · omega
  · rw [hrow] at h4
    exact ring_f2_nested R Ri x xsi y (by omega) (by omega) hRi hRR ho.sum_le l2 h4

theorem ring_inner_bound_down {R Ri x y dx dy xi yi dxi dyi : Int} {d1 d1i d2i : Rat}
    {line : Bool} (ho : RingOuter R false x y dx dy d1)
    (h : RingInner Ri line x y xi yi dxi dyi d1i d2i) (hrow : yi = y) (hR : 1 ≤ R)
    (hRi : 0 ≤ Ri) (hRR : Ri ≤ R - 1) (hout : 0 < d1)
    (hin : ¬ 0 < ring_decision (Ri * Ri) (ring_f2 (Ri * Ri) xi yi)) (hRi1 : 1 ≤ Ri) :
    xi + 1 ≤ x := by
  have hA : 0 < R * R := by nlinarith
  have hAi : 0 < Ri * Ri := by nlinarith
  have hlt : Ri * Ri < R * R := by nlinarith
  rw [ho.d1_second rfl, ring_decision_pos _ _ hA] at hout
  rw [ring_decision_pos _ _ hAi] at hin
  have hxx := h.x_le_outer
  by_contra hc
  have e : xi = x := by omega
  rw [e, hrow] at hin
  have := ring_f2_smaller (R * R) (Ri * Ri) x y hlt (not_lt.mp hin)
  omega

theorem ring_spans_log (clip : SDL_Rect) (x0 y0 : Int) (color : Nat)
    (s0 : Surface × DrawnArea) (s : RingState) (new : List (Int × Int))
    (hd : Drawn clip color new s0 (s.surf, s.drawn_area)) (hv : valid_depth s0.1) :
    ∃ spans, Drawn clip color (spans ++ new) s0 (ring_spans clip x0 y0 color s) ∧
      (∀ p ∈ spans, p.2 = y0 - s.y ∨ p.2 = y0 + s.y - 1) ∧
      (s.line = false → s.x_inner ≤ s.x → ∀ p : Int × Int, p ∈ spans ↔
        ((p.2 = y0 - s.y ∨ p.2 = y0 + s.y - 1) ∧
          (x0 - s.x ≤ p.1 ∧ p.1 ≤ x0 - s.x_inner ∨
            x0 + s.x_inner - 1 ≤ p.1 ∧ p.1 ≤ x0 + s.x - 1) ∧ inside clip p)) := by
  unfold ring_spans
  by_cases hl : s.line = true
  · rw [if_pos hl]
    refine ⟨clipped_span clip (x0 - s.x) (y0 + s.y - 1) (x0 + s.x - 1) ++
      clipped_span clip (x0 - s.x) (y0 - s.y) (x0 + s.x - 1), ?_, ?_, ?_⟩
    · rw [List.append_assoc]
      exact (hd.hline hv _ _ _).hline hv _ _ _
    · intro p hp
      rcases List.mem_append.mp hp with h | h
      · right; exact ((mem_clipped_span _ _ _ _ _).mp h).1
      · left; exact ((mem_clipped_span _ _ _ _ _).mp h).1
    · intro hf
      rw [hl] at hf
      cases hf
  · rw [if_neg hl]
    refine ⟨clipped_span clip (x0 + s.x_inner - 1) (y0 + s.y - 1) (x0 + s.x - 1) ++
      (clipped_span clip (x0 + s.x_inner - 1) (y0 - s.y) (x0 + s.x - 1) ++
        (clipped_span clip (x0 - s.x) (y0 + s.y - 1) (x0 - s.x_inner) ++
          clipped_span clip (x0 - s.x) (y0 - s.y) (x0 - s.x_inner))), ?_, ?_, ?_⟩
    · rw [List.append_assoc, List.append_assoc, List.append_assoc]
      exact (((hd.hline hv _ _ _).hline hv _ _ _).hline hv _ _ _).hline hv _ _ _
    · intro p hp
      simp only [List.mem_append, mem_clipped_span] at hp
      omega
    · intro _ hxx p
      simp only [List.mem_append]
      rw [mem_clipped_span_le _ _ _ _ _ (by omega), mem_clipped_span_le _ _ _ _ _ (by omega),
        mem_clipped_span_le _ _ _ _ _ (by omega), mem_clipped_span_le _ _ _ _ _ (by omega)]
      tauto

theorem ring_rows_step (x0 y0 R t : Int) (new spans : List (Int × Int)) (y : Int)
    (hr : ring_rows x0 y0 R t new y) (hy : 0 ≤ y)
    (hspan : ∀ p ∈ spans, p.2 = y0 - y ∨ p.2 = y0 + y - 1)
    (hexact : y ≤ 1 → ∀ p : Int × Int, p ∈ spans ↔
      ((p.2 = y0 - y ∨ p.2 = y0 + y - 1) ∧ ring_ends x0 R t p)) :
    ring_rows x0 y0 R t (spans ++ new) (y - 1) := by
  obtain ⟨r1, r2⟩ := hr
  constructor
  · intro h1 p hp
    rcases List.mem_append.mp hp with h | h
    · have := hspan p h
      omega
    · have := r1 (by omega) p h
      omega
  · intro h1 p hp
    rw [List.mem_append, hexact (by omega) p]
    by_cases h0 : y = 0
    · have := r2 (by omega) p hp
      rw [this]
      constructor
      · intro h
        rcases h with h | h
        · exact h.2
        · exact h
      · intro h; exact Or.inr h
    · have hy1 : y = 1 := by omega
      constructor
      · intro h
        rcases h with h | h
        · exact h.2
        · have := r1 (by omega) p h
          omega
      · intro h
        left
        exact ⟨by omega, h⟩

theorem ring_scaled_lt (A x y : Int) (hA : 0 < A) : 2 * A * x < 2 * A * y ↔ x < y := by
  constructor
  · intro h
    by_contra hc
    have h1 : y ≤ x := by omega
    have := mul_le_mul_of_nonneg_left h1 (by omega : (0 : Int) ≤ 2 * A)
    omega
  · intro h
    exact mul_lt_mul_of_pos_left h (by omega)

theorem ring_inner_advance_spec (Ri : Int) (hRi : 2 ≤ Ri) (fuel : Nat)
    (hf : Ri.toNat ≤ fuel) (S : RingState) (x y : Int) (line : Bool)
    (hi : RingInner Ri line x y S.x_inner S.y_inner S.dx_inner S.dy_inner S.d1_inner
      S.d2_inner)
    (hy : S.y = y - 1) (hline : S.line = (line && !decide (y - 1 < Ri))) (hx0 : 0 ≤ S.x)
    (hb1 : ∀ xsi, S.y_inner = y → S.x_inner < S.y_inner →
      (xsi = S.x_inner ∨ (S.x_inner < xsi ∧ ring_f1 (Ri * Ri) (xsi - 1) S.y_inner < 0)) →
      xsi + 1 ≤ S.x)
    (hb2 : S.x_inner ≤ S.x)
    (hb3 : S.y_inner = y →
      ¬ 0 < ring_decision (Ri * Ri) (ring_f2 (Ri * Ri) S.x_inner S.y_inner) →
      S.x_inner + 1 ≤ S.x) :
    ∃ r, ring_inner_advance (Ri * Ri) fuel S = some r ∧
      RingInner Ri r.line r.x r.y r.x_inner r.y_inner r.dx_inner r.dy_inner r.d1_inner
        r.d2_inner ∧
      r.x = S.x ∧ r.y = S.y ∧ r.dx = S.dx ∧ r.dy = S.dy ∧ r.d1 = S.d1 ∧ r.surf = S.surf ∧
      r.drawn_area = S.drawn_area := by
  have hAi : 0 < Ri * Ri := by nlinarith
  unfold ring_inner_advance
  by_cases hl : S.line = true
  · rw [if_pos hl]
    refine ⟨S, rfl, ?_, rfl, rfl, rfl, rfl, rfl, rfl, rfl⟩
    rw [hl] at hline
    have hline1 : line = true ∧ ¬ (y - 1 < Ri) := by
      cases line <;> simp at hline ⊢
      omega
    rw [hl]
    exact ring_inner_rest hi hline1.1 S.x S.y (by omega) hx0
  · rw [if_neg hl]
    have hlf : S.line = false := by simpa using hl
    have hl0 : (line && !decide (y - 1 < Ri)) = false := by rw [← hline]; exact hlf
    have hrow := ring_inner_row hi hl0
    by_cases hreg : S.dx_inner < S.dy_inner
    · rw [if_pos hreg]
      have hreg1 : S.x_inner < S.y_inner := by
        rw [hi.dx_eq, hi.dy_eq] at hreg
        exact (ring_scaled_lt _ _ _ hAi).mp hreg
      have hd1 : S.d1_inner =
          ring_decision (Ri * Ri) (ring_f1 (Ri * Ri) S.x_inner S.y_inner) := by
        rcases hi.mode with m | m
        · exact m.2
        · omega
      have hxn := hi.x_nonneg
      obtain ⟨xs, e, h1, h2, h3⟩ := ring_inner_region1_spec (Ri * Ri) Ri hAi fuel S
        hi.x_nonneg hi.dx_eq hd1
        (fun a ha h => ring_f1_neg_bound Ri a S.y_inner ha (by omega) h) (by omega)
      rw [e]
      refine ⟨_, rfl, ?_, rfl, rfl, rfl, rfl, rfl, rfl, rfl⟩
      have := ring_inner_first_step (by omega) hi hrow hreg1 xs h1 h2 h3 S.x
        (hb1 xs hrow hreg1 h3)
      show RingInner Ri S.line S.x S.y (xs + 1) (S.y_inner - 1)
        (2 * (Ri * Ri) * xs + 2 * (Ri * Ri)) (S.dy_inner - 2 * (Ri * Ri))
        (ring_decision (Ri * Ri) (ring_f1 (Ri * Ri) xs S.y_inner) +
          ((2 * (Ri * Ri) * xs + 2 * (Ri * Ri) - (S.dy_inner - 2 * (Ri * Ri)) + Ri * Ri : Int) :
            Rat)) S.d2_inner
      rw [hlf, hy]
      exact this
    · rw [if_neg hreg]
      have hreg1 : ¬ S.x_inner < S.y_inner := by
        rw [hi.dx_eq, hi.dy_eq] at hreg
        intro h
        exact hreg ((ring_scaled_lt _ _ _ hAi).mpr h)
      obtain ⟨e, hpos, hneg⟩ := ring_inner_second_step (by omega) hi hrow hreg1
        (ring_d2_inner (Ri * Ri) S) rfl
      refine ⟨_, rfl, ?_, ?_⟩
      · unfold ring_inner_region2
        by_cases hp : ring_d2_inner (Ri * Ri) S > 0
        · simp only [if_pos hp]
          have := hpos hp S.x hb2
          show RingInner Ri S.line S.x S.y S.x_inner (S.y_inner - 1) S.dx_inner
            (S.dy_inner - 2 * (Ri * Ri)) S.d1_inner
            (ring_d2_inner (Ri * Ri) S + ((Ri * Ri - (S.dy_inner - 2 * (Ri * Ri)) : Int) : Rat))
          rw [hlf, hy]
          exact this
        · simp only [if_neg hp]
          have hp1 : ¬ 0 < ring_decision (Ri * Ri) (ring_f2 (Ri * Ri) S.x_inner S.y_inner) := by
            rw [← e]; exact hp
          have := hneg hp S.x (hb3 hrow hp1)
          show RingInner Ri S.line S.x S.y (S.x_inner + 1) (S.y_inner - 1)
            (S.dx_inner + 2 * (Ri * Ri)) (S.dy_inner - 2 * (Ri * Ri)) S.d1_inner
            (ring_d2_inner (Ri * Ri) S +
              ((S.dx_inner + 2 * (Ri * Ri) - (S.dy_inner - 2 * (Ri * Ri)) + Ri * Ri : Int) :
                Rat))
          rw [hlf, hy]
          exact this
      · unfold ring_inner_region2
        by_cases hp : ring_d2_inner (Ri * Ri) S > 0
        · simp only [if_pos hp, and_self]
        · simp only [if_neg hp, and_self]

theorem ring_centre_exact {R t : Int} {s : RingState} (ht : 2 ≤ t) (htR : t < R)
    (ho : RingOuter R false s.x s.y s.dx s.dy s.d1)
    (hi : RingInner (R - t + 1) s.line s.x s.y s.x_inner s.y_inner s.dx_inner s.dy_inner
      s.d1_inner s.d2_inner) (hy : 0 ≤ s.y) (hy1 : s.y ≤ 1) :
    s.line = false ∧ s.x = R ∧ s.x_inner = R - t + 1 := by
  have hRi2 : 2 ≤ R - t + 1 := by omega
  have hl : s.line = false := by
    cases hline : s.line with
    | false => rfl
    | true =>
      have := (hi.resting hline).1
      omega
  have hrow := hi.row hl
  obtain ⟨l1, l2⟩ := ho.lower_second rfl
  have hpi : 0 < ring_f2 ((R - t + 1) * (R - t + 1)) s.x_inner (s.y_inner + 1) := by
    rcases hi.lower with l | l
    · have hle : s.y_inner ≤ s.x_inner := by
        by_contra hc
        have hx0 := hi.x_nonneg
        have e1 : s.x_inner = 0 := by omega
        have e2 : s.y_inner = 1 := by omega
        rw [e1, e2] at l
        unfold ring_f1 at l
        nlinarith
      exact ring_f2_of_f1 _ _ _ hle l
    · exact l.2
  rw [hrow] at hpi
  by_cases h0 : s.y = 0
  · rw [h0, show (0 : Int) + 1 = 1 by rfl] at l2 hpi
    exact ⟨hl, ring_f2_row_zero R s.x ho.x_nonneg ho.x_le (by omega) l2,
      ring_f2_row_zero _ s.x_inner hi.x_nonneg hi.x_le hRi2 hpi⟩
  · have h1 : s.y = 1 := by omega
    rw [h1, show (1 : Int) + 1 = 2 by rfl] at l2 hpi
    exact ⟨hl, ring_f2_row_one R s.x ho.x_nonneg ho.x_le (by omega) l2,
      ring_f2_row_one _ s.x_inner hi.x_nonneg hi.x_le hRi2 hpi⟩

theorem draw_circle_bresenham_body2_spec (clip : SDL_Rect) (x0 y0 R t : Int) (color : Nat)
    (start : Surface × DrawnArea) (hv : valid_depth start.1) (ht : 2 ≤ t) (htR : t < R)
    (hclip : clip.x ≤ x0 - R ∧ x0 + R ≤ clip.x + clip.w ∧ clip.y ≤ y0 - R ∧
      y0 + R ≤ clip.y + clip.h)
    (fuel : Nat) (hf : (R - t + 1).toNat ≤ fuel) (s : RingState)
    (hinv : ring_invariant clip x0 y0 R t color start false s) (hy : 0 ≤ s.y) :
    ∃ r, draw_circle_bresenham_body2 clip x0 y0 color (R * R) (R - t + 1)
        ((R - t + 1) * (R - t + 1)) fuel s = some r ∧
      ring_invariant clip x0 y0 R t color start false r ∧ r.y = s.y - 1 := by
  obtain ⟨ho, hi, new, hd, hr⟩ := hinv
  obtain ⟨spans, hd1, hs1, hs2⟩ := ring_spans_log clip x0 y0 color start s new hd hv
  have hRi2 : 2 ≤ R - t + 1 := by omega
  have hrows : ring_rows x0 y0 R t (spans ++ new) (s.y - 1) := by
    apply ring_rows_step x0 y0 R t new spans s.y hr hy hs1
    intro hy1 p
    obtain ⟨hl, hx, hxi⟩ := ring_centre_exact ht htR ho hi hy hy1
    rw [hs2 hl hi.x_le_outer p, hx, hxi]
    unfold ring_ends inside
    constructor
    · intro h
      refine ⟨h.1, ?_⟩
      omega
    · intro h
      refine ⟨h.1, ?_, ?_⟩ <;> omega
  rw [draw_circle_bresenham_body2_eq]
  obtain ⟨hs_down, hs_diag⟩ := ring_outer_second_step ho hy (by omega)
  by_cases h1 : s.d1 > 0
  · rw [if_pos h1]
    have ho1 := hs_down h1
    obtain ⟨r, e, hi1, ex, ey, edx, edy, ed1, es, eda⟩ := ring_inner_advance_spec (R - t + 1)
      hRi2 fuel hf
      (ring_line_check (R - t + 1) (ring_down (R * R) (ring_draw clip x0 y0 color s)))
      s.x s.y s.line hi rfl rfl ho.x_nonneg
      (fun xsi hrow hreg h3 => ring_inner_bound_second ho hi hrow hreg (by omega) (by omega)
        xsi h3)
      hi.x_le_outer
      (fun hrow hin => ring_inner_bound_down ho hi hrow (by omega) (by omega) (by omega) h1
        hin (by omega))
    refine ⟨r, e, ⟨?_, hi1, spans ++ new, ?_, ?_⟩, ey⟩
    · rw [ex, ey, edx, edy, ed1]; exact ho1
    · rw [es, eda]; exact hd1
    · rw [ey]; exact hrows
  · rw [if_neg h1]
    have ho1 := hs_diag h1
    obtain ⟨r, e, hi1, ex, ey, edx, edy, ed1, es, eda⟩ := ring_inner_advance_spec (R - t + 1)
      hRi2 fuel hf
      (ring_line_check (R - t + 1) (ring_diagonal (R * R) (ring_draw clip x0 y0 color s)))
      s.x s.y s.line hi rfl rfl (by show 0 ≤ s.x + 1; have := ho.x_nonneg; omega)
      (fun xsi hrow hreg h3 => by
        have := ring_inner_bound_second ho hi hrow hreg (by omega) (by omega) xsi h3
        show xsi + 1 ≤ s.x + 1
        omega)
      (by show s.x_inner ≤ s.x + 1; have := hi.x_le_outer; omega)
      (fun hrow hin => by
        show s.x_inner + 1 ≤ s.x + 1
        have := hi.x_le_outer
        omega)
    refine ⟨r, e, ⟨?_, hi1, spans ++ new, ?_, ?_⟩, ey⟩
    · rw [ex, ey, edx, edy, ed1]; exact ho1
    · rw [es, eda]; exact hd1
    · rw [ey]; exact hrows

theorem ring_inner_forced (Ai : Int) (fuel : Nat) (S : RingState)
    (h : S.line = false → S.dx_inner < S.dy_inner) :
    (if S.line = true then some S else ring_inner_region1 Ai fuel S) =
      ring_inner_advance Ai fuel S := by
  unfold ring_inner_advance
  by_cases hl : S.line = true
  · rw [if_pos hl, if_pos hl]
  · rw [if_neg hl, if_neg hl, if_pos (h (by simpa using hl))]

theorem draw_circle_bresenham_body1_spec (clip : SDL_Rect) (x0 y0 R t : Int) (color : Nat)
    (start : Surface × DrawnArea) (hv : valid_depth start.1) (ht : 2 ≤ t) (htR : t < R)
    (fuel : Nat) (hf : R.toNat ≤ fuel) (s : RingState)
    (hinv : ring_invariant clip x0 y0 R t color start true s) (hc : s.dx < s.dy) :
    ∃ r, draw_circle_bresenham_body1 clip x0 y0 color (R * R) (R - t + 1)
        ((R - t + 1) * (R - t + 1)) fuel s = some r ∧
      ring_invariant clip x0 y0 R t color start true r ∧ r.y = s.y - 1 := by
  obtain ⟨ho, hi, new, hd, hr⟩ := hinv
  have hA : 0 < R * R := by nlinarith
  have hRi2 : 2 ≤ R - t + 1 := by omega
  have hAi : 0 < (R - t + 1) * (R - t + 1) := by nlinarith
  have hAA : (R - t + 1) * (R - t + 1) ≤ R * R := by nlinarith
  have hxy : s.x < s.y := by
    rw [ho.dx_eq, ho.dy_eq] at hc
    exact (ring_scaled_lt _ _ _ hA).mp hc
  have hx0 := ho.x_nonneg
  have hy2 : 2 ≤ s.y := by
    by_contra hcon
    have e1 : s.x = 0 := by omega
    have e2 : s.y = 1 := by omega
    have l := ho.lower_first rfl
    rw [e1, e2] at l
    unfold ring_f1 at l
    nlinarith
  obtain ⟨xs, e, h1, h2, h3⟩ := ring_skip_spec (R * R) s.y R hA
    (fun a ha h => ring_f1_neg_bound R a s.y ha (by omega) h) fuel s.x hx0 (by omega)
  have e1 : ring_skip (R * R) fuel (s.x, s.dx, s.d1) =
      some (xs, 2 * (R * R) * xs, ring_decision (R * R) (ring_f1 (R * R) xs s.y)) := by
    rw [ho.dx_eq, ho.d1_first rfl]; exact e
  obtain ⟨ho1, hxs⟩ := ring_outer_first_step ho hxy (by omega) xs h1 h2 h3
  obtain ⟨spans, hd1, hs1, -⟩ := ring_spans_log clip x0 y0 color start
    { s with x := xs, dx := 2 * (R * R) * xs,
             d1 := ring_decision (R * R) (ring_f1 (R * R) xs s.y) } new hd hv
  have hrows : ring_rows x0 y0 R t (spans ++ new) (s.y - 1) := by
    apply ring_rows_step x0 y0 R t new spans s.y hr (by omega) hs1
    intro hy1
    omega
  rw [draw_circle_bresenham_body1_eq, e1, Option.some_bind]
  obtain ⟨r, e2, hi1, ex, ey, edx, edy, ed1, es, eda⟩ := ring_inner_advance_spec (R - t + 1)
    hRi2 fuel (by omega)
    (ring_line_check (R - t + 1) (ring_diagonal (R * R) (ring_draw clip x0 y0 color
      { s with x := xs, dx := 2 * (R * R) * xs,
               d1 := ring_decision (R * R) (ring_f1 (R * R) xs s.y) })))
    s.x s.y s.line hi rfl rfl (by show 0 ≤ xs + 1; omega)
    (fun xsi hrow hreg h4 => by
      show xsi + 1 ≤ xs + 1
      rw [hrow] at h4
      exact ring_inner_bound_first (R * R) _ s.x s.y xs s.x_inner xsi hx0 h1 h2
        hi.x_le_outer hAA h4)
    (by show s.x_inner ≤ xs + 1; have := hi.x_le_outer; omega)
    (fun hrow hin => by
      show s.x_inner + 1 ≤ xs + 1
      have := hi.x_le_outer
      omega)
  have e3 := ring_inner_forced ((R - t + 1) * (R - t + 1)) fuel
    (ring_line_check (R - t + 1) (ring_diagonal (R * R) (ring_draw clip x0 y0 color
      { s with x := xs, dx := 2 * (R * R) * xs,
               d1 := ring_decision (R * R) (ring_f1 (R * R) xs s.y) })))
    (fun hl => by
      have hrow := ring_inner_row hi hl
      show s.dx_inner < s.dy_inner
      rw [hi.dx_eq, hi.dy_eq]
      apply (ring_scaled_lt _ _ _ hAi).mpr
      have := hi.x_le_outer
      omega)
  rw [e3]
  refine ⟨r, e2, ⟨?_, hi1, spans ++ new, ?_, ?_⟩, ey⟩
  · rw [ex, ey, edx, edy, ed1]; exact ho1
  · rw [es, eda]; exact hd1
  · rw [ey]; exact hrows

/-- C30: for every radius `R` and thickness `t` with `2 <= t < R` and the circle
inside the clip rectangle, `draw_circle_bresenham` returns, and on the two centre rows
`y0 - 1` and `y0` the pixels it writes are exactly those of the two runs
`[x0 - R, x0 - R + t - 1]` and `[x0 + R - t, x0 + R - 1]`: the `t` outermost pixels on
each side are covered and the pixels between them are left untouched, the hole of an
inner circle of radius `R - t + 1`. -/
theorem draw_circle_bresenham_centre_rows (surf : Surface) (clip : SDL_Rect)
    (x0 y0 R t : Int) (color : Nat) (da : DrawnArea) (hv : valid_depth surf) (ht : 2 ≤ t)
    (htR : t < R)
    (hclip : clip.x ≤ x0 - R ∧ x0 + R ≤ clip.x + clip.w ∧ clip.y ≤ y0 - R ∧
      y0 + R ≤ clip.y + clip.h) :
    ∃ r new, draw_circle_bresenham surf clip x0 y0 R t color da = some r ∧
      Drawn clip color new (surf, da) r ∧
      ∀ p : Int × Int, (p.2 = y0 - 1 ∨ p.2 = y0) →
        (p ∈ new ↔ (x0 - R ≤ p.1 ∧ p.1 ≤ x0 - R + t - 1) ∨
          (x0 + R - t ≤ p.1 ∧ p.1 ≤ x0 + R - 1)) := by
  have hA : 0 < R * R := by nlinarith
  unfold draw_circle_bresenham
  dsimp only
  have hfuel : (R + 1).toNat ≤ (abs R + abs (R - t + 1) + 2).toNat := by
    unfold abs
    rw [if_neg (by omega), if_neg (by omega)]
    omega
  generalize (abs R + abs (R - t + 1) + 2).toNat = fuel at hfuel
  have h0 : ring_invariant clip x0 y0 R t color (surf, da) true
      { surf := surf, drawn_area := da, x := 0, y := R
        d1 := ((R * R : Int) : Rat) * (5 / 4 - (R : Rat))
        dx := 0, dy := 2 * (R * R) * R, line := true
        x_inner := 0, y_inner := R - t + 1
        d1_inner := (((R - t + 1) * (R - t + 1) : Int) : Rat) * (5 / 4 - ((R - t + 1 : Int) : Rat))
        d2_inner := 0, dx_inner := 0
        dy_inner := 2 * ((R - t + 1) * (R - t + 1)) * (R - t + 1) } := by
    unfold ring_invariant
    dsimp only
    refine ⟨⟨le_refl _, by omega, le_refl _, by omega, by omega, by ring, rfl, ?_, ?_, ?_, ?_⟩,
      ⟨fun _ => ⟨by omega, rfl, rfl, rfl⟩, ?_, le_refl _, le_refl _, by omega, le_refl _,
        by ring, rfl, Or.inl ⟨rfl, ?_⟩, Or.inl ?_⟩, [], Drawn.refl _ _ _, ?_, ?_⟩
    · intro _; exact ring_decision_start R
    · intro _
      show 0 ≤ ring_f1 (R * R) (0 - 1) (R + 1)
      unfold ring_f1
      nlinarith
    · intro hf; cases hf
    · intro hf; cases hf
    · intro hf; cases hf
    · exact ring_decision_start (R - t + 1)
    · show 0 ≤ ring_f1 ((R - t + 1) * (R - t + 1)) (0 - 1) (R - t + 1 + 1)
      unfold ring_f1
      nlinarith
    · intro _ p hp
      cases hp
    · intro hR
      have : R ≤ 0 := hR
      omega
  obtain ⟨r1, e1, hr1, hc1⟩ := while_loop_opt_terminates
    (fun s : RingState => decide (s.dx < s.dy))
    (draw_circle_bresenham_body1 clip x0 y0 color (R * R) (R - t + 1)
      ((R - t + 1) * (R - t + 1)) fuel)
    (ring_invariant clip x0 y0 R t color (surf, da) true)
    (fun s => (s.y + 1).toNat)
    (fun s hs hc => by
      have hc1 : s.dx < s.dy := by simpa using hc
      obtain ⟨r, e, hr, hy⟩ := draw_circle_bresenham_body1_spec clip x0 y0 R t color
        (surf, da) hv ht htR fuel (by omega) s hs hc1
      refine ⟨r, e, hr, ?_⟩
      have h1 := hs.1.y_ge
      have hx := hs.1.x_nonneg
      have hxy : s.x < s.y := by
        rw [hs.1.dx_eq, hs.1.dy_eq] at hc1
        exact (ring_scaled_lt _ _ _ hA).mp hc1
      dsimp only
      rw [hy]
      omega)
    fuel _ h0 hfuel
  rw [e1, Option.some_bind]
  have hxy : ¬ r1.x < r1.y := by
    have hc : ¬ r1.dx < r1.dy := by simpa using hc1
    rw [hr1.1.dx_eq, hr1.1.dy_eq] at hc
    intro h
    exact hc ((ring_scaled_lt _ _ _ hA).mpr h)
  have h2 : ring_invariant clip x0 y0 R t color (surf, da) false
      { r1 with
        d1 := ((R * R : Int) : Rat) *
          (((r1.x : Rat) + 1 / 2) * ((r1.x : Rat) + 1 / 2) +
            (((r1.y - 1) * (r1.y - 1) : Int) : Rat) - ((R * R : Int) : Rat)) } := by
    obtain ⟨ho, hi, new, hd, hr⟩ := hr1
    have hsw := ring_outer_switch ho hxy
    rw [← ring_decision_second] at hsw
    exact ⟨hsw, hi, new, hd, hr⟩
  have hyR := hr1.1.y_le
  obtain ⟨r2, e2, hr2, hc2⟩ := while_loop_opt_terminates
    (fun s : RingState => decide (s.y ≥ 0))
    (draw_circle_bresenham_body2 clip x0 y0 color (R * R) (R - t + 1)
      ((R - t + 1) * (R - t + 1)) fuel)
    (ring_invariant clip x0 y0 R t color (surf, da) false)
    (fun s => (s.y + 1).toNat)
    (fun s hs hc => by
      have hc1 : 0 ≤ s.y := by simpa using hc
      obtain ⟨r, e, hr, hy⟩ := draw_circle_bresenham_body2_spec clip x0 y0 R t color
        (surf, da) hv ht htR hclip fuel (by omega) s hs hc1
      refine ⟨r, e, hr, ?_⟩
      dsimp only
      rw [hy]
      omega)
    fuel _ h2 (by dsimp only; omega)
  rw [e2]
  obtain ⟨ho, hi, new, hd, hr⟩ := hr2
  have hy : r2.y ≤ 0 := by
    have : ¬ 0 ≤ r2.y := by simpa using hc2
    omega
  exact ⟨_, new, rfl, hd, hr.2 hy⟩

/-- C30, instance: radius 5 and thickness 2 at the centre (10, 10) of a 20 by 20
surface: on the rows 9 and 10 exactly the columns 5, 6 and 13, 14 are written. -/
theorem draw_circle_bresenham_centre_rows_witness :
    ∃ r new, draw_circle_bresenham (Surface.blank 20 20 4) (SDL_Rect.whole 20 20) 10 10 5 2
        255 DrawnArea.init = some r ∧
      Drawn (SDL_Rect.whole 20 20) 255 new (Surface.blank 20 20 4, DrawnArea.init) r ∧
      ∀ p : Int × Int, (p.2 = 10 - 1 ∨ p.2 = 10) →
        (p ∈ new ↔ (10 - 5 ≤ p.1 ∧ p.1 ≤ 10 - 5 + 2 - 1) ∨
          (10 + 5 - 2 ≤ p.1 ∧ p.1 ≤ 10 + 5 - 1)) :=
  draw_circle_bresenham_centre_rows (Surface.blank 20 20 4) (SDL_Rect.whole 20 20) 10 10 5 2
    255 DrawnArea.init (by decide) (by decide) (by decide) (by decide)

theorem DrawnCall.run_eq (c : DrawnCall) (pts : DrawnArea) :
    ∃ a b : Int × Int, (c = .pixel a.1 a.2 ∧ b = a ∨ c = .span a.1 a.2 b.1 b.2) ∧
      c.run pts = ⟨min pts.minx a.1, min pts.miny a.2, max pts.maxx b.1, max pts.maxy b.2⟩ := by
  cases c with
  | pixel x y =>
    exact ⟨(x, y), (x, y), Or.inl ⟨rfl, rfl⟩, add_pixel_to_drawn_list_eq x y pts⟩
  | span x1 y1 x2 y2 =>
    exact ⟨(x1, y1), (x2, y2), Or.inr rfl, add_line_to_drawn_list_eq x1 y1 x2 y2 pts⟩

theorem DrawnCall.run_bounds (c : DrawnCall) (pts : DrawnArea) (ho : c.ordered) :
    ((c.run pts).minx ≤ pts.minx ∧ (c.run pts).miny ≤ pts.miny ∧
      pts.maxx ≤ (c.run pts).maxx ∧ pts.maxy ≤ (c.run pts).maxy) ∧
    (∀ p ∈ c.points, (c.run pts).minx ≤ p.1 ∧ p.1 ≤ (c.run pts).maxx ∧
      (c.run pts).miny ≤ p.2 ∧ p.2 ≤ (c.run pts).maxy) ∧
    ((c.run pts).minx = pts.minx ∨ ∃ p ∈ c.points, p.1 = (c.run pts).minx) ∧
    ((c.run pts).miny = pts.miny ∨ ∃ p ∈ c.points, p.2 = (c.run pts).miny) ∧
    ((c.run pts).maxx = pts.maxx ∨ ∃ p ∈ c.points, p.1 = (c.run pts).maxx) ∧
    ((c.run pts).maxy = pts.maxy ∨ ∃ p ∈ c.points, p.2 = (c.run pts).maxy) := by
  cases c with
  | pixel x y =>
    simp only [DrawnCall.run, DrawnCall.points, add_pixel_to_drawn_list_eq, List.mem_singleton,
      forall_eq, exists_eq_left]
    omega
  | span x1 y1 x2 y2 =>
    have h : x1 ≤ x2 ∧ y1 ≤ y2 := ho
    simp only [DrawnCall.run, DrawnCall.points, add_line_to_drawn_list_eq, List.mem_cons,
      List.mem_singleton, forall_eq_or_imp, forall_eq, exists_eq_or_imp, exists_eq_left,
      List.not_mem_nil, or_false]
    omega

theorem run_calls_cons (c : DrawnCall) (calls : List DrawnCall) (pts : DrawnArea) :
    run_calls (c :: calls) pts = run_calls calls (c.run pts) := rfl

theorem run_calls_extrema (calls : List DrawnCall) (ho : ∀ c ∈ calls, c.ordered) :
    ∀ pts : DrawnArea,
    ((run_calls calls pts).minx ≤ pts.minx ∧ (run_calls calls pts).miny ≤ pts.miny ∧
      pts.maxx ≤ (run_calls calls pts).maxx ∧ pts.maxy ≤ (run_calls calls pts).maxy) ∧
    (∀ c ∈ calls, ∀ p ∈ c.points,
      (run_calls calls pts).minx ≤ p.1 ∧ p.1 ≤ (run_calls calls pts).maxx ∧
      (run_calls calls pts).miny ≤ p.2 ∧ p.2 ≤ (run_calls calls pts).maxy) ∧
    ((run_calls calls pts).minx = pts.minx ∨
      ∃ c ∈ calls, ∃ p ∈ c.points, p.1 = (run_calls calls pts).minx) ∧
    ((run_calls calls pts).miny = pts.miny ∨
      ∃ c ∈ calls, ∃ p ∈ c.points, p.2 = (run_calls calls pts).miny) ∧
    ((run_calls calls pts).maxx = pts.maxx ∨
      ∃ c ∈ calls, ∃ p ∈ c.points, p.1 = (run_calls calls pts).maxx) ∧
    ((run_calls calls pts).maxy = pts.maxy ∨
      ∃ c ∈ calls, ∃ p ∈ c.points, p.2 = (run_calls calls pts).maxy) := by
  induction calls with
  | nil =>
    intro pts
    simp [run_calls]
  | cons c calls ih =>
    intro pts
    have hc := DrawnCall.run_bounds c pts (ho c (List.mem_cons_self _ _))
    obtain ⟨m, b, a1, a2, a3, a4⟩ := ih (fun d hd => ho d (List.mem_cons_of_mem _ hd)) (c.run pts)
    obtain ⟨cm, cb, c1, c2, c3, c4⟩ := hc
    rw [run_calls_cons]
    refine ⟨by omega, ?_, ?_, ?_, ?_, ?_⟩
    · intro d hd p hp
      rcases List.mem_cons.mp hd with h | h
      · subst h
        have := cb p hp
        omega
      · exact b d h p hp
    · rcases a1 with h | ⟨d, hd, p, hp, h⟩
      · rcases c1 with h1 | ⟨p, hp, h1⟩
        · exact Or.inl (h.trans h1)
        · exact Or.inr ⟨c, List.mem_cons_self _ _, p, hp, h1.trans h.symm⟩
      · exact Or.inr ⟨d, List.mem_cons_of_mem _ hd, p, hp, h⟩
    · rcases a2 with h | ⟨d, hd, p, hp, h⟩
      · rcases c2 with h1 | ⟨p, hp, h1⟩
        · exact Or.inl (h.trans h1)
        · exact Or.inr ⟨c, List.mem_cons_self _ _, p, hp, h1.trans h.symm⟩
      · exact Or.inr ⟨d, List.mem_cons_of_mem _ hd, p, hp, h⟩
    · rcases a3 with h | ⟨d, hd, p, hp, h⟩
      · rcases c3 with h1 | ⟨p, hp, h1⟩
        · exact Or.inl (h.trans h1)
        · exact Or.inr ⟨c, List.mem_cons_self _ _, p, hp, h1.trans h.symm⟩
      · exact Or.inr ⟨d, List.mem_cons_of_mem _ hd, p, hp, h⟩
    · rcases a4 with h | ⟨d, hd, p, hp, h⟩
      · rcases c4 with h1 | ⟨p, hp, h1⟩
        · exact Or.inl (h.trans h1)
        · exact Or.inr ⟨c, List.mem_cons_self _ _, p, hp, h1.trans h.symm⟩
      · exact Or.inr ⟨d, List.mem_cons_of_mem _ hd, p, hp, h⟩

theorem DrawnCall.run_comm (c d : DrawnCall) (pts : DrawnArea) :
    d.run (c.run pts) = c.run (d.run pts) := by
  obtain ⟨a, b, -, h1⟩ := DrawnCall.run_eq c pts
  obtain ⟨a', b', -, h2⟩ := DrawnCall.run_eq d pts
  obtain ⟨a2, b2, h3a, h3⟩ := DrawnCall.run_eq d (c.run pts)
  obtain ⟨a3, b3, h4a, h4⟩ := DrawnCall.run_eq c (d.run pts)
  cases c <;> cases d <;>
    simp only [DrawnCall.run, add_pixel_to_drawn_list_eq, add_line_to_drawn_list_eq,
      DrawnArea.mk.injEq] <;>
    omega

/-- C31: started from `{INT_MAX, INT_MAX, INT_MIN, INT_MIN}`, after any sequence of
calls of `add_pixel_to_drawn_list` and `add_line_to_drawn_list` (the latter with
`x1 <= x2` and `y1 <= y2`) on C `int`s, the accumulator holds the extrema of the
absorbed points and span endpoints: `minx`, `miny` are lower and `maxx`, `maxy`
upper bounds of every absorbed point, and when at least one call was made each of
the four is the coordinate of an absorbed point.  Hence the result is the same for
every order of the calls; absorbing a point twice is absorbing it once; and
`add_line_to_drawn_list(x1, y1, x2, y2)` is absorbing `(x1, y1)` and `(x2, y2)`. -/
theorem drawn_area_extrema (calls : List DrawnCall) (ho : ∀ c ∈ calls, c.ordered)
    (hint : ∀ c ∈ calls, ∀ p ∈ c.points, is_int p.1 ∧ is_int p.2) :
    (∀ c ∈ calls, ∀ p ∈ c.points,
      (run_calls calls DrawnArea.init).minx ≤ p.1 ∧
      p.1 ≤ (run_calls calls DrawnArea.init).maxx ∧
      (run_calls calls DrawnArea.init).miny ≤ p.2 ∧
      p.2 ≤ (run_calls calls DrawnArea.init).maxy) ∧
    (calls ≠ [] →
      (∃ c ∈ calls, ∃ p ∈ c.points, p.1 = (run_calls calls DrawnArea.init).minx) ∧
      (∃ c ∈ calls, ∃ p ∈ c.points, p.2 = (run_calls calls DrawnArea.init).miny) ∧
      (∃ c ∈ calls, ∃ p ∈ c.points, p.1 = (run_calls calls DrawnArea.init).maxx) ∧
      (∃ c ∈ calls, ∃ p ∈ c.points, p.2 = (run_calls calls DrawnArea.init).maxy)) ∧
    (∀ (other : List DrawnCall) (pts : DrawnArea), other.Perm calls →
      run_calls other pts = run_calls calls pts) ∧
    (∀ (x y : Int) (pts : DrawnArea),
      add_pixel_to_drawn_list x y (add_pixel_to_drawn_list x y pts) =
        add_pixel_to_drawn_list x y pts) ∧
    (∀ (x1 y1 x2 y2 : Int) (pts : DrawnArea), x1 ≤ x2 → y1 ≤ y2 →
      add_line_to_drawn_list x1 y1 x2 y2 pts =
        add_pixel_to_drawn_list x2 y2 (add_pixel_to_drawn_list x1 y1 pts)) := by
  obtain ⟨-, hb, a1, a2, a3, a4⟩ := run_calls_extrema calls ho DrawnArea.init
  refine ⟨hb, ?_, ?_, ?_, ?_⟩
  · intro hne
    obtain ⟨c, hc⟩ := List.exists_mem_of_ne_nil calls hne
    obtain ⟨p, hp⟩ : ∃ p, p ∈ c.points := by
      cases c with
      | pixel x y => exact ⟨(x, y), by simp [DrawnCall.points]⟩
      | span x1 y1 x2 y2 => exact ⟨(x1, y1), by simp [DrawnCall.points]⟩
    have hq := hb c hc p hp
    obtain ⟨⟨i1, i2⟩, i3, i4⟩ := hint c hc p hp
    have e1 : DrawnArea.init.minx = INT_MAX := rfl
    have e2 : DrawnArea.init.miny = INT_MAX := rfl
    have e3 : DrawnArea.init.maxx = INT_MIN := rfl
    have e4 : DrawnArea.init.maxy = INT_MIN := rfl
    refine ⟨?_, ?_, ?_, ?_⟩
    · rcases a1 with h | h
      · rw [e1] at h
        by_cases hx : p.1 = INT_MAX
        · exact ⟨c, hc, p, hp, by rw [h, hx]⟩
        · omega
      · exact h
    · rcases a2 with h | h
      · rw [e2] at h
        by_cases hx : p.2 = INT_MAX
        · exact ⟨c, hc, p, hp, by rw [h, hx]⟩
        · omega
      · exact h
    · rcases a3 with h | h
      · rw [e3] at h
        by_cases hx : p.1 = INT_MIN
        · exact ⟨c, hc, p, hp, by rw [h, hx]⟩
        · omega
      · exact h
    · rcases a4 with h | h
      · rw [e4] at h
        by_cases hx : p.2 = INT_MIN
        · exact ⟨c, hc, p, hp, by rw [h, hx]⟩
        · omega
      · exact h
  · intro other pts hperm
    unfold run_calls
    exact List.Perm.foldl_eq' hperm (fun x _ y _ z => DrawnCall.run_comm x y z) pts
  · intro x y pts
    simp only [add_pixel_to_drawn_list_eq, DrawnArea.mk.injEq]
    omega
  · intro x1 y1 x2 y2 pts h1 h2
    simp only [add_pixel_to_drawn_list_eq, add_line_to_drawn_list_eq, DrawnArea.mk.injEq]
    omega

/-- C31, instance: the pixel `(3, 4)` then the span from `(1, 7)` to `(5, 7)`. -/
theorem drawn_area_extrema_witness :
    run_calls [.pixel 3 4, .span 1 7 5 7] DrawnArea.init = ⟨1, 4, 5, 7⟩ ∧
    (∃ c ∈ [DrawnCall.pixel 3 4, .span 1 7 5 7], ∃ p ∈ c.points,
      p.1 = (run_calls [.pixel 3 4, .span 1 7 5 7] DrawnArea.init).minx) :=
  ⟨by decide,
    ((drawn_area_extrema [.pixel 3 4, .span 1 7 5 7]
      (by
        intro c hc
        simp only [List.mem_cons, List.mem_singleton, List.not_mem_nil, or_false] at hc
        rcases hc with h | h <;> subst h <;> simp [DrawnCall.ordered])
      (by
        intro c hc p hp
        simp only [List.mem_cons, List.mem_singleton, List.not_mem_nil, or_false] at hc
        rcases hc with h | h <;> subst h <;>
          simp only [DrawnCall.points, List.mem_cons, List.mem_singleton, List.not_mem_nil,
            or_false] at hp
        · subst hp; decide
        · rcases hp with h | h <;> subst h <;> decide)).2.1 (by simp)).1⟩

/-- C32: on a surface of `n = 1, 2, 3` or `4` bytes per pixel (in particular
`n = 3`), for every coordinate `(x, y)` inside the clip rectangle, `set_at` and
`unsafe_set_at` leave the same buffer: the `n` bytes at the offsets
`y * pitch + x * n + i`, `i < n`, hold the bytes of the colour, and every byte at an
offset outside that range is unchanged.  When the clip rectangle lies inside a
surface of `w` by `h` pixels and `pitch >= w * n`, the range lies inside the
buffer of `pitch * h` bytes. -/
theorem set_at_byte_range (surf : Surface) (clip : SDL_Rect) (x y : Int) (color : Nat)
    (hv : valid_depth surf) (hin : inside clip (x, y)) :
    (set_at surf clip x y color).1.pixels = (unsafe_set_at surf x y color).pixels ∧
    (set_at surf clip x y color).2 = 1 ∧
    (∀ i : Nat, i < surf.BytesPerPixel →
      (unsafe_set_at surf x y color).pixels
          (y * surf.pitch + x * surf.BytesPerPixel + i) =
        color_byte surf.big_endian surf.BytesPerPixel color i) ∧
    (∀ a : Int, ¬ (y * surf.pitch + x * surf.BytesPerPixel ≤ a ∧
        a < y * surf.pitch + x * surf.BytesPerPixel + surf.BytesPerPixel) →
      (unsafe_set_at surf x y color).pixels a = surf.pixels a) ∧
    (surf.BytesPerPixel = 3 → ∀ a : Int,
      ¬ (y * surf.pitch + 3 * x ≤ a ∧ a ≤ y * surf.pitch + 3 * x + 2) →
      (unsafe_set_at surf x y color).pixels a = surf.pixels a) ∧
    (∀ w h : Int, 0 ≤ clip.x → 0 ≤ clip.y → clip.x + clip.w ≤ w → clip.y + clip.h ≤ h →
      w * surf.BytesPerPixel ≤ surf.pitch →
      0 ≤ y * surf.pitch + x * surf.BytesPerPixel ∧
      y * surf.pitch + x * surf.BytesPerPixel + surf.BytesPerPixel ≤ surf.pitch * h) := by
  have hin' : clip.x ≤ x ∧ x < clip.x + clip.w ∧ clip.y ≤ y ∧ y < clip.y + clip.h := hin
  have hb := set_at_bytes_eq surf hv
  have hrange : ∀ a : Int, ¬ (y * surf.pitch + x * surf.BytesPerPixel ≤ a ∧
        a < y * surf.pitch + x * surf.BytesPerPixel + surf.BytesPerPixel) →
      (unsafe_set_at surf x y color).pixels a = surf.pixels a := by
    intro a ha
    simp only [unsafe_set_at, store_pixel, hb]
    rw [if_neg ha]
  refine ⟨?_, ?_, ?_, hrange, ?_, ?_⟩
  · rw [set_at_inside surf clip x y color hin']
    rfl
  · rw [set_at_inside surf clip x y color hin']
  · intro i hi
    simp only [unsafe_set_at, store_pixel, hb]
    rw [if_pos (by omega)]
    congr 1
    omega
  · intro h3 a ha
    apply hrange
    rw [h3]
    push_cast
    omega
  · intro w h c1 c2 c3 c4 hp
    obtain ⟨b1, b2⟩ := hv
    have hn : (0 : Int) ≤ surf.BytesPerPixel := by omega
    have hx0 : 0 ≤ x := by omega
    have hy0 : 0 ≤ y := by omega
    have hw : x + 1 ≤ w := by omega
    have e1 : (x + 1) * (surf.BytesPerPixel : Int) ≤ w * surf.BytesPerPixel :=
      mul_le_mul_of_nonneg_right hw hn
    have e0 : 0 ≤ x * (surf.BytesPerPixel : Int) := mul_nonneg hx0 hn
    have hpitch : 0 ≤ surf.pitch := by nlinarith
    have e2 : 0 ≤ y * surf.pitch := mul_nonneg hy0 hpitch
    have e3 : (y + 1) * surf.pitch ≤ h * surf.pitch :=
      mul_le_mul_of_nonneg_right (by omega) hpitch
    constructor
    · omega
    · nlinarith

/-- C32, instance: the pixel `(2, 1)` of a 4 by 3 surface of 3 bytes per pixel
with a pitch of 12 bytes: the bytes 18, 19 and 20 of the 36. -/
theorem set_at_byte_range_witness :
    valid_depth (Surface.blank 4 3 3) ∧ inside (SDL_Rect.whole 4 3) (2, 1) ∧
    (∀ a : Int, ¬ ((1 : Int) * (Surface.blank 4 3 3).pitch + 3 * 2 ≤ a ∧
        a ≤ 1 * (Surface.blank 4 3 3).pitch + 3 * 2 + 2) →
      (unsafe_set_at (Surface.blank 4 3 3) 2 1 255).pixels a = (Surface.blank 4 3 3).pixels a) :=
  ⟨by decide, by decide,
    (set_at_byte_range (Surface.blank 4 3 3) (SDL_Rect.whole 4 3) 2 1 255 (by decide)
      (by decide)).2.2.2.2.1 rfl⟩

/-- For a list of two points the first call of `draw_aaline` gets the extra-pixel
flag `steep_prev > steep_curr`, where `steep_curr` is computed from `xlist[2]`, which
is `ylist[0]`, the third float of the buffer of four, and from `ylist[2]`, the float
behind the end of the buffer. -/
theorem aalines_two_points_flag {D : Type} (ops : FloatOps D) (fmt : PixelFormat)
    (surf : Surface) (clip : SDL_Rect) (color : Nat) (closed : Bool) (p0 p1 : D × D)
    (garbage : D) (hv : valid_depth surf) :
    ∃ r, aalines ops fmt surf clip color closed [p0, p1] garbage = .ok r ∧
      r.1.calls.map (fun c => c.extra_pixel_for_aalines) =
        [(if steep_flag ops p0.1 p0.2 p1.1 p1.2 ≠ steep_flag ops p0.1 p0.2 p1.1 p1.2 then 1
            else 0),
          (if steep_flag ops p0.1 p0.2 p1.1 p1.2 > steep_flag ops p1.1 p0.2 p0.2 garbage
            then 1 else 0)] := by
  unfold aalines
  rw [unsupported_depth_eq_false surf hv]
  simp only [Bool.false_eq_true, if_false]
  have h2 : ¬ (([p0, p1].length : Int) < 2) := by simp
  have h3 : ¬ (closed = true ∧ (([p0, p1].length : Int) > 2)) := by simp
  rw [if_neg h2, if_neg h3]
  refine ⟨_, rfl, ?_⟩
  have h4 : (([p0, p1].length : Int) - 1 - 2).toNat = 0 := by simp
  rw [h4, for_loop_zero]
  cases closed <;>
    simp [draw_aaline_calls, AAState.start]

set_option maxRecDepth 100000 in
/-- C35: for the list `[(0, 0), (0, 5)]` of `n = 2` points the extra-pixel flag of the
first `draw_aaline` call depends on the float `aalines` reads as `ylist[2]`, the
fifth float of a buffer of four: it is 1 when that float is 0 and 0 when it is 7. -/
theorem aalines_two_points_reads_past_buffer :
    (drawn_calls (aalines rat_fops rgba_format (Surface.blank 10 10 4) (SDL_Rect.whole 10 10)
      255 false [(0, 0), (0, 5)] 0)).map (List.map (fun c => c.extra_pixel_for_aalines)) =
      some [1, 0] ∧
    (drawn_calls (aalines rat_fops rgba_format (Surface.blank 10 10 4) (SDL_Rect.whole 10 10)
      255 false [(0, 0), (0, 5)] 7)).map (List.map (fun c => c.extra_pixel_for_aalines)) =
      some [0, 0] := by
  constructor <;> decide!

/-! ## The closed form of the Bresenham walk -/

theorem while_loop_iterate {σ : Type} (cond : σ → Bool) (body : σ → σ) :
    ∀ (n fuel : Nat) (s : σ), n ≤ fuel → (∀ k, k < n → cond (body^[k] s) = true) →
      cond (body^[n] s) = false →
      while_loop cond body fuel s = some (body^[n] s) ∧
      while_states cond body fuel s = (List.range n).map (fun k => body^[k] s) := by
  intro n
  induction n with
  | zero =>
    intro fuel s _ _ h2
    simp only [Function.iterate_zero, id_eq] at h2
    cases fuel <;> simp [while_loop, while_states, h2]
  | succ n ih =>
    intro fuel s hn h1 h2
    obtain ⟨fuel, rfl⟩ : ∃ f, fuel = f + 1 := ⟨fuel - 1, by omega⟩
    have hc : cond s = true := h1 0 (by omega)
    obtain ⟨e1, e2⟩ := ih fuel (body s) (by omega)
      (fun k hk => by
        have := h1 (k + 1) (by omega)
        rwa [Function.iterate_succ_apply] at this)
      (by rwa [Function.iterate_succ_apply] at h2)
    constructor
    · rw [while_loop, if_pos hc, e1, Function.iterate_succ_apply]
    · rw [while_states, if_pos hc, e2, List.range_succ_eq_map]
      simp [Function.iterate_succ_apply, Function.comp_def]

theorem walk_index (dx m j e0 : Int) (hdx : 0 < dx) (he : 2 * e0 ≤ dx ∧ dx ≤ 2 * e0 + 1) :
    (0 ≤ e0 - m + j * dx ∧ e0 - m + j * dx < dx) ↔ j = (2 * m + dx - 1) / (2 * dx) := by
  have hb : (0 : Int) < 2 * dx := by omega
  constructor
  · rintro ⟨h1, h2⟩
    apply le_antisymm
    · rw [Int.le_ediv_iff_mul_le hb]
      have : j * (2 * dx) = 2 * (j * dx) := by ring
      omega
    · have : (2 * m + dx - 1) / (2 * dx) < j + 1 := by
        rw [Int.ediv_lt_iff_lt_mul hb]
        have : (j + 1) * (2 * dx) = 2 * (j * dx) + 2 * dx := by ring
        omega
      omega
  · intro h
    have h1 : j * (2 * dx) ≤ 2 * m + dx - 1 := by
      rw [← Int.le_ediv_iff_mul_le hb, h]
    have h2 : 2 * m + dx - 1 < (j + 1) * (2 * dx) := by
      rw [← Int.ediv_lt_iff_lt_mul hb, h]
      omega
    have e1 : j * (2 * dx) = 2 * (j * dx) := by ring
    have e2 : (j + 1) * (2 * dx) = 2 * (j * dx) + 2 * dx := by ring
    omega

/-- The positions and the error term of a loop whose body ends with the Bresenham
update, when x is the major axis. -/
theorem walk_x_major (b : LineState → LineState) (dx dy sx sy x1 y1 e0 : Int)
    (hb : ∀ s, (b s).x1 = (if s.err > -dx then s.x1 + sx else s.x1) ∧
      (b s).y1 = (if s.err < dy then s.y1 + sy else s.y1) ∧
      (b s).err = (if s.err > -dx then s.err - dy else s.err) + (if s.err < dy then dx else 0))
    (hd : dy < dx) (hdy : 0 ≤ dy) (he : 2 * e0 ≤ dx ∧ dx ≤ 2 * e0 + 1) (s0 : LineState)
    (h0 : s0.x1 = x1 ∧ s0.y1 = y1 ∧ s0.err = e0) :
    ∀ k : Nat, (b^[k] s0).x1 = x1 + sx * k ∧
      (b^[k] s0).y1 = y1 + sy * ((2 * (k * dy) + dx - 1) / (2 * dx)) ∧
      (b^[k] s0).err = e0 - k * dy + ((2 * (k * dy) + dx - 1) / (2 * dx)) * dx := by
  have hdx : 0 < dx := by omega
  intro k
  induction k with
  | zero =>
    have hj : (0 : Int) = (2 * (((0 : Nat) : Int) * dy) + dx - 1) / (2 * dx) := by
      rw [← walk_index dx _ 0 e0 hdx he]
      push_cast
      omega
    rw [← hj]
    simp only [Function.iterate_zero, id_eq, h0.1, h0.2.1, h0.2.2]
    push_cast
    refine ⟨by ring, by ring, by ring⟩
  | succ k ih =>
    obtain ⟨ix, iy, ie⟩ := ih
    obtain ⟨bx, by1, be⟩ := hb (b^[k] s0)
    have hw := (walk_index dx (k * dy) _ e0 hdx he).mpr rfl
    rw [← ie] at hw
    rw [Function.iterate_succ_apply', bx, by1, be]
    have c1 : (b^[k] s0).err > -dx := by omega
    rw [if_pos c1, if_pos c1]
    generalize hJ : (2 * ((k : Int) * dy) + dx - 1) / (2 * dx) = J at ix iy ie hw
    by_cases c2 : (b^[k] s0).err < dy
    · rw [if_pos c2, if_pos c2]
      have hj : J + 1 = (2 * (((k + 1 : Nat) : Int) * dy) + dx - 1) / (2 * dx) := by
        rw [← walk_index dx _ (J + 1) e0 hdx he]
        push_cast
        have e1 : ((k : Int) + 1) * dy = k * dy + dy := by ring
        have e2 : (J + 1) * dx = J * dx + dx := by ring
        rw [e1, e2]
        omega
      rw [← hj, ix, iy, ie]
      push_cast
      refine ⟨by ring, by ring, by ring⟩
    · rw [if_neg c2, if_neg c2]
      have hj : J = (2 * (((k + 1 : Nat) : Int) * dy) + dx - 1) / (2 * dx) := by
        rw [← walk_index dx _ J e0 hdx he]
        push_cast
        have e1 : ((k : Int) + 1) * dy = k * dy + dy := by ring
        rw [e1]
        omega
      rw [← hj, ix, iy, ie]
      push_cast
      refine ⟨by ring, by ring, by ring⟩

/-- The positions and the error term of a loop whose body ends with the Bresenham
update, when y is the major axis. -/
theorem walk_y_major (b : LineState → LineState) (dx dy sx sy x1 y1 e0 : Int)
    (hb : ∀ s, (b s).x1 = (if s.err > -dx then s.x1 + sx else s.x1) ∧
      (b s).y1 = (if s.err < dy then s.y1 + sy else s.y1) ∧
      (b s).err = (if s.err > -dx then s.err - dy else s.err) + (if s.err < dy then dx else 0))
    (hd : dx ≤ dy) (hdx : 0 ≤ dx) (hdy : 0 < dy) (he : 2 * e0 ≤ dy ∧ dy ≤ 2 * e0 + 1)
    (s0 : LineState) (h0 : s0.x1 = x1 ∧ s0.y1 = y1 ∧ s0.err = -e0) :
    ∀ k : Nat, (b^[k] s0).y1 = y1 + sy * k ∧
      (b^[k] s0).x1 = x1 + sx * ((2 * (k * dx) + dy - 1) / (2 * dy)) ∧
      (b^[k] s0).err = -e0 - ((2 * (k * dx) + dy - 1) / (2 * dy)) * dy + k * dx := by
  intro k
  induction k with
  | zero =>
    have hj : (0 : Int) = (2 * (((0 : Nat) : Int) * dx) + dy - 1) / (2 * dy) := by
      rw [← walk_index dy _ 0 e0 hdy he]
      push_cast
      omega
    rw [← hj]
    simp only [Function.iterate_zero, id_eq, h0.1, h0.2.1, h0.2.2]
    push_cast
    refine ⟨by ring, by ring, by ring⟩
  | succ k ih =>
    obtain ⟨iy, ix, ie⟩ := ih
    obtain ⟨bx, by1, be⟩ := hb (b^[k] s0)
    have hw := (walk_index dy (k * dx) _ e0 hdy he).mpr rfl
    rw [Function.iterate_succ_apply', bx, by1, be]
    generalize hJ : (2 * ((k : Int) * dx) + dy - 1) / (2 * dy) = J at ix iy ie hw
    have c2 : (b^[k] s0).err < dy := by omega
    rw [if_pos c2, if_pos c2]
    by_cases c1 : (b^[k] s0).err > -dx
    · rw [if_pos c1, if_pos c1]
      have hj : J + 1 = (2 * (((k + 1 : Nat) : Int) * dx) + dy - 1) / (2 * dy) := by
        rw [← walk_index dy _ (J + 1) e0 hdy he]
        push_cast
        have e1 : ((k : Int) + 1) * dx = k * dx + dx := by ring
        have e2 : (J + 1) * dy = J * dy + dy := by ring
        rw [e1, e2]
        omega
      rw [← hj, ix, iy, ie]
      push_cast
      refine ⟨by ring, by ring, by ring⟩
    · rw [if_neg c1, if_neg c1]
      have hj : J = (2 * (((k + 1 : Nat) : Int) * dx) + dy - 1) / (2 * dy) := by
        rw [← walk_index dy _ J e0 hdy he]
        push_cast
        have e1 : ((k : Int) + 1) * dx = k * dx + dx := by ring
        rw [e1]
        omega
      rw [← hj, ix, iy, ie]
      push_cast
      refine ⟨by ring, by ring, by ring⟩

/-! ## The rounded minor offset -/

theorem round_steps (D d : Int) (hD : 0 < D) (hd0 : 0 ≤ d) (hd : d ≤ D) :
    (2 * (0 * d) + D - 1) / (2 * D) = 0 ∧ (2 * (D * d) + D - 1) / (2 * D) = d ∧
    (∀ k : Int, 0 ≤ k → 0 ≤ (2 * (k * d) + D - 1) / (2 * D)) ∧
    (∀ k : Int, k ≤ D → (2 * (k * d) + D - 1) / (2 * D) ≤ d) ∧
    (∀ k : Int, (2 * (k * d) + D - 1) / (2 * D) ≤ (2 * ((k + 1) * d) + D - 1) / (2 * D) ∧
      (2 * ((k + 1) * d) + D - 1) / (2 * D) ≤ (2 * (k * d) + D - 1) / (2 * D) + 1) := by
  have hb : (0 : Int) < 2 * D := by omega
  have h0 : (D - 1) / (2 * D) = 0 := Int.ediv_eq_zero_of_lt (by omega) (by omega)
  have hDd : (2 * (D * d) + D - 1) / (2 * D) = d := by
    have : 2 * (D * d) + D - 1 = (D - 1) + d * (2 * D) := by ring
    rw [this, Int.add_mul_ediv_right _ _ (by omega), h0]
    omega
  refine ⟨?_, hDd, ?_, ?_, ?_⟩
  · rw [show 2 * (0 * d) + D - 1 = D - 1 by ring]
    exact h0
  · intro k hk
    apply Int.ediv_nonneg
    · have := mul_nonneg hk hd0
      omega
    · omega
  · intro k hk
    rw [← hDd]
    apply Int.ediv_le_ediv hb
    have := mul_le_mul_of_nonneg_right hk hd0
    rw [hDd]
    omega
  · intro k
    constructor
    · apply Int.ediv_le_ediv hb
      have : (k + 1) * d = k * d + d := by ring
      omega
    · have e : (2 * (k * d) + D - 1) / (2 * D) + 1 = (2 * (k * d) + D - 1 + 1 * (2 * D)) / (2 * D) := by
        rw [Int.add_mul_ediv_right _ _ (by omega)]
      rw [e]
      apply Int.ediv_le_ediv hb
      have : (k + 1) * d = k * d + d := by ring
      omega

theorem sign_walk (x1 x2 : Int) :
    x2 = x1 + (if x1 < x2 then 1 else -1) * |x2 - x1| ∧
    ((if x1 < x2 then (1 : Int) else -1) = 1 ∨ (if x1 < x2 then (1 : Int) else -1) = -1) ∧
    0 ≤ |x2 - x1| ∧ (|x2 - x1| = 0 ↔ x1 = x2) := by
  rcases abs_cases (x2 - x1) with ⟨h, h1⟩ | ⟨h, h1⟩ <;> rw [h] <;> split <;> omega

/-- The position `k` of the closed form for `0 <= k <= max(|dx|, |dy|)`: its major
coordinate is `k` steps from the start, it lies in the box of the endpoints, and
the next position differs by one step along the major axis and at most one along
the minor axis. -/
theorem line_pixel_spec (x1 y1 x2 y2 : Int) (k : Int) (hk0 : 0 ≤ k)
    (hk : k ≤ max |x2 - x1| |y2 - y1|) :
    (|y2 - y1| < |x2 - x1| →
      (line_pixel x1 y1 x2 y2 k).1 = x1 + (if x1 < x2 then 1 else -1) * k) ∧
    (|x2 - x1| ≤ |y2 - y1| →
      (line_pixel x1 y1 x2 y2 k).2 = y1 + (if y1 < y2 then 1 else -1) * k) ∧
    (min x1 x2 ≤ (line_pixel x1 y1 x2 y2 k).1 ∧ (line_pixel x1 y1 x2 y2 k).1 ≤ max x1 x2 ∧
      min y1 y2 ≤ (line_pixel x1 y1 x2 y2 k).2 ∧ (line_pixel x1 y1 x2 y2 k).2 ≤ max y1 y2) ∧
    |(line_pixel x1 y1 x2 y2 (k + 1)).1 - (line_pixel x1 y1 x2 y2 k).1| ≤ 1 ∧
    |(line_pixel x1 y1 x2 y2 (k + 1)).2 - (line_pixel x1 y1 x2 y2 k).2| ≤ 1 := by
  obtain ⟨ex, hsx, hdx0, -⟩ := sign_walk x1 x2
  obtain ⟨ey, hsy, hdy0, -⟩ := sign_walk y1 y2
  unfold line_pixel
  dsimp only
  generalize hdx : |x2 - x1| = dx at *
  generalize hdy : |y2 - y1| = dy at *
  generalize hsxe : (if x1 < x2 then (1 : Int) else -1) = sx at *
  generalize hsye : (if y1 < y2 then (1 : Int) else -1) = sy at *
  by_cases hm : dx > dy
  · rw [if_pos hm, if_pos hm]
    rw [max_eq_left (by omega)] at hk
    obtain ⟨-, rD, r0, rle, rstep⟩ := round_steps dx dy (by omega) hdy0 (by omega)
    have j0 := r0 k hk0
    have j1 := rle k hk
    obtain ⟨s1, s2⟩ := rstep k
    generalize (2 * (k * dy) + dx - 1) / (2 * dx) = J at *
    generalize (2 * ((k + 1) * dy) + dx - 1) / (2 * dx) = J1 at *
    dsimp only
    refine ⟨fun _ => rfl, fun h => by omega, ?_, ?_, ?_⟩
    · rcases hsx with h | h <;> rcases hsy with h' | h' <;> subst h <;> subst h' <;>
        refine ⟨?_, ?_, ?_, ?_⟩ <;> simp only [min_def, max_def] <;> split_ifs <;> omega
    · rw [abs_le]
      rcases hsx with h | h <;> rw [h] <;> constructor <;> linarith
    · rw [abs_le]
      rcases hsy with h | h <;> rw [h] <;> constructor <;> linarith
  · rw [if_neg hm, if_neg hm]
    rw [max_eq_right (by omega)] at hk
    by_cases hz : dy = 0
    · have hk1 : k = 0 := by omega
      have hdxz : dx = 0 := by omega
      subst hz hdxz hk1
      simp only [mul_zero, zero_mul, Int.ediv_zero, add_zero, sub_self, abs_zero]
      refine ⟨fun h => by omega, fun _ => by trivial, ?_, by norm_num, ?_⟩
      · omega
      · rcases hsy with h | h <;> rw [h] <;> norm_num
    · obtain ⟨-, rD, r0, rle, rstep⟩ := round_steps dy dx (by omega) hdx0 (by omega)
      have j0 := r0 k hk0
      have j1 := rle k hk
      obtain ⟨s1, s2⟩ := rstep k
      generalize (2 * (k * dx) + dy - 1) / (2 * dy) = J at *
      generalize (2 * ((k + 1) * dx) + dy - 1) / (2 * dy) = J1 at *
      dsimp only
      refine ⟨fun h => by omega, fun _ => rfl, ?_, ?_, ?_⟩
      · rcases hsx with h | h <;> rcases hsy with h' | h' <;> subst h <;> subst h' <;>
          refine ⟨?_, ?_, ?_, ?_⟩ <;> simp only [min_def, max_def] <;> split_ifs <;> omega
      · rw [abs_le]
        rcases hsx with h | h <;> rw [h] <;> constructor <;> linarith
      · rw [abs_le]
        rcases hsy with h | h <;> rw [h] <;> constructor <;> linarith

theorem line_pixel_ends (x1 y1 x2 y2 : Int) :
    line_pixel x1 y1 x2 y2 0 = (x1, y1) ∧
    line_pixel x1 y1 x2 y2 (max |x2 - x1| |y2 - y1|) = (x2, y2) := by
  obtain ⟨ex, hsx, hdx0, -⟩ := sign_walk x1 x2
  obtain ⟨ey, hsy, hdy0, -⟩ := sign_walk y1 y2
  unfold line_pixel
  dsimp only
  generalize hdx : |x2 - x1| = dx at *
  generalize hdy : |y2 - y1| = dy at *
  generalize hsxe : (if x1 < x2 then (1 : Int) else -1) = sx at *
  generalize hsye : (if y1 < y2 then (1 : Int) else -1) = sy at *
  by_cases hm : dx > dy
  · rw [if_pos hm, if_pos hm, max_eq_left (by omega)]
    obtain ⟨r0, rD, -⟩ := round_steps dx dy (by omega) hdy0 (by omega)
    rw [r0, rD, ← ex, ← ey]
    simp
  · rw [if_neg hm, if_neg hm, max_eq_right (by omega)]
    by_cases hz : dy = 0
    · have hdxz : dx = 0 := by omega
      subst hz hdxz
      simp only [mul_zero, zero_mul, Int.ediv_zero, add_zero] at ex ey ⊢
      rw [← ex, ← ey]
      simp
    · obtain ⟨r0, rD, -⟩ := round_steps dy dx (by omega) hdx0 (by omega)
      rw [r0, rD, ← ex, ← ey]
      simp

/-! ## The log of a thin line -/

theorem clipped_run_congr (clip : SDL_Rect) (f g : Int → Int × Int) (n : Nat)
    (h : ∀ k : Nat, k < n → f k = g k) : clipped_run clip f n = clipped_run clip g n := by
  induction n with
  | zero => rfl
  | succ n ih =>
    rw [clipped_run, clipped_run, h n (by omega), ih (fun k hk => h k (by omega))]

theorem mem_clipped_run (clip : SDL_Rect) (f : Int → Int × Int) (n : Nat) (p : Int × Int) :
    p ∈ clipped_run clip f n ↔ ∃ k : Nat, k < n ∧ p = f k ∧ inside clip p := by
  induction n with
  | zero => simp [clipped_run]
  | succ n ih =>
    rw [clipped_run, List.mem_append, ih]
    constructor
    · rintro (h | ⟨k, hk, h⟩)
      · by_cases hin : inside clip (f n)
        · rw [if_pos hin, List.mem_singleton] at h
          exact ⟨n, by omega, h, h ▸ hin⟩
        · rw [if_neg hin] at h
          cases h
      · exact ⟨k, by omega, h⟩
    · rintro ⟨k, hk, h1, h2⟩
      by_cases hkn : k = n
      · subst hkn
        left
        rw [if_pos (h1 ▸ h2), List.mem_singleton]
        exact h1
      · exact Or.inr ⟨k, by omega, h1, h2⟩

theorem clipped_run_eq_run_log (clip : SDL_Rect) (f : Int → Int × Int) (n : Nat)
    (h : ∀ k : Nat, k < n → inside clip (f k)) : clipped_run clip f n = run_log f n := by
  induction n with
  | zero => rfl
  | succ n ih =>
    rw [clipped_run, run_log, if_pos (h n (by omega)), ih (fun k hk => h k (by omega))]
    rfl

theorem run_log_eq_map (f : Int → Int × Int) (n : Nat) :
    run_log f n = ((List.range n).map (fun k : Nat => f k)).reverse := by
  induction n with
  | zero => rfl
  | succ n ih =>
    rw [run_log, List.range_succ, List.map_append, List.reverse_append, ih]
    rfl

theorem for_loop_clipped_run (clip : SDL_Rect) (color : Nat) (f : Int → Int × Int) (n : Nat)
    (surf : Surface) (da : DrawnArea) (hv : valid_depth surf) :
    Drawn clip color (clipped_run clip f n) (surf, da)
      (for_loop 0 n (fun i s => set_and_check_rect s.1 clip (f i).1 (f i).2 color s.2)
        (surf, da)) := by
  induction n with
  | zero => exact Drawn.refl _ _ _
  | succ n ih =>
    rw [for_loop_succ, clipped_run]
    simp only [zero_add]
    exact ih.trans (set_and_check_rect_drawn _ clip _ _ color _ (ih.valid hv))

theorem iterate_drawn (clip : SDL_Rect) (color : Nat) (f : Int → Int × Int)
    (b : LineState → LineState)
    (hbs : ∀ s, ((b s).surf, (b s).drawn_area) =
      set_and_check_rect s.surf clip s.x1 s.y1 color s.drawn_area)
    (s0 : LineState) (hv : valid_depth s0.surf) (n : Nat)
    (hpos : ∀ k : Nat, k < n → ((b^[k] s0).x1, (b^[k] s0).y1) = f k) :
    Drawn clip color (clipped_run clip f n) (s0.surf, s0.drawn_area)
      ((b^[n] s0).surf, (b^[n] s0).drawn_area) := by
  induction n with
  | zero => exact Drawn.refl _ _ _
  | succ n ih =>
    have h1 := ih (fun k hk => hpos k (by omega))
    have h2 := set_and_check_rect_drawn (b^[n] s0).surf clip (b^[n] s0).x1 (b^[n] s0).y1 color
      (b^[n] s0).drawn_area (h1.valid hv)
    rw [Function.iterate_succ_apply', hbs, clipped_run, ← hpos n (by omega)]
    exact h1.trans h2

/-- The positions of a loop whose body ends with the Bresenham update, started at
`(x1, y1)` with the error term of `draw_line` and `draw_line_width`, are those of
the closed form. -/
theorem walk_positions (b : LineState → LineState) (x1 y1 x2 y2 : Int)
    (hb : ∀ s, (b s).x1 = (if s.err > -|x2 - x1| then s.x1 + (if x1 < x2 then 1 else -1)
        else s.x1) ∧
      (b s).y1 = (if s.err < |y2 - y1| then s.y1 + (if y1 < y2 then 1 else -1) else s.y1) ∧
      (b s).err = (if s.err > -|x2 - x1| then s.err - |y2 - y1| else s.err) +
        (if s.err < |y2 - y1| then |x2 - x1| else 0))
    (hne : x1 ≠ x2 ∨ y1 ≠ y2) (s0 : LineState)
    (h0 : s0.x1 = x1 ∧ s0.y1 = y1 ∧
      s0.err = cdiv (if |x2 - x1| > |y2 - y1| then |x2 - x1| else -|y2 - y1|) 2) (k : Nat) :
    ((b^[k] s0).x1, (b^[k] s0).y1) = line_pixel x1 y1 x2 y2 k := by
  obtain ⟨-, -, hdx0, zx⟩ := sign_walk x1 x2
  obtain ⟨-, -, hdy0, zy⟩ := sign_walk y1 y2
  unfold line_pixel
  dsimp only
  by_cases hm : |x2 - x1| > |y2 - y1|
  · rw [if_pos hm] at h0 ⊢
    obtain ⟨c1, -⟩ := cdiv_cmod_two |x2 - x1| hdx0
    rw [c1] at h0
    obtain ⟨e1, e2, -⟩ := walk_x_major b _ _ _ _ x1 y1 (|x2 - x1| / 2) hb hm hdy0 (by omega) s0
      h0 k
    rw [e1, e2]
  · rw [if_neg hm] at h0 ⊢
    rw [cdiv_neg_two _ hdy0] at h0
    have hdy : 0 < |y2 - y1| := by
      rcases hne with h | h
      · have : |x2 - x1| ≠ 0 := fun h' => h (zx.mp h')
        omega
      · have : |y2 - y1| ≠ 0 := fun h' => h (zy.mp h')
        omega
    obtain ⟨e1, e2, -⟩ := walk_y_major b _ _ _ _ x1 y1 (|y2 - y1| / 2) hb (by omega) hdx0 hdy
      (by omega) s0 h0 k
    rw [e1, e2]

/-- The error term of a loop whose body ends with the Bresenham update, started with
the error term of `draw_line` and `draw_line_width`, stays between `-dy` and `dx`;
when `dx + dy <= INT_MAX` the error term and the two values the update assigns to it
(`err - dy` when `e2 > -dx`, then `err + dx` when `e2 < dy`) are C `int`s in every
iteration. -/
theorem walk_error_in_int_range (b : LineState → LineState) (x1 y1 x2 y2 : Int)
    (hb : ∀ s, (b s).x1 = (if s.err > -|x2 - x1| then s.x1 + (if x1 < x2 then 1 else -1)
        else s.x1) ∧
      (b s).y1 = (if s.err < |y2 - y1| then s.y1 + (if y1 < y2 then 1 else -1) else s.y1) ∧
      (b s).err = (if s.err > -|x2 - x1| then s.err - |y2 - y1| else s.err) +
        (if s.err < |y2 - y1| then |x2 - x1| else 0))
    (hne : x1 ≠ x2 ∨ y1 ≠ y2) (s0 : LineState)
    (h0 : s0.x1 = x1 ∧ s0.y1 = y1 ∧
      s0.err = cdiv (if |x2 - x1| > |y2 - y1| then |x2 - x1| else -|y2 - y1|) 2)
    (hrange : |x2 - x1| + |y2 - y1| ≤ INT_MAX) (k : Nat) :
    (-|y2 - y1| ≤ (b^[k] s0).err ∧ (b^[k] s0).err ≤ |x2 - x1|) ∧
    is_int (b^[k] s0).err ∧
    ((b^[k] s0).err > -|x2 - x1| → is_int ((b^[k] s0).err - |y2 - y1|)) ∧
    ((b^[k] s0).err < |y2 - y1| →
      is_int ((if (b^[k] s0).err > -|x2 - x1| then (b^[k] s0).err - |y2 - y1|
        else (b^[k] s0).err) + |x2 - x1|)) := by
  obtain ⟨-, -, hdx0, zx⟩ := sign_walk x1 x2
  obtain ⟨-, -, hdy0, zy⟩ := sign_walk y1 y2
  have hbound : -|y2 - y1| ≤ (b^[k] s0).err ∧ (b^[k] s0).err ≤ |x2 - x1| := by
    by_cases hm : |x2 - x1| > |y2 - y1|
    · rw [if_pos hm] at h0
      obtain ⟨c1, -⟩ := cdiv_cmod_two |x2 - x1| hdx0
      rw [c1] at h0
      obtain ⟨-, -, e3⟩ := walk_x_major b _ _ _ _ x1 y1 (|x2 - x1| / 2) hb hm hdy0 (by omega)
        s0 h0 k
      have hw := (walk_index |x2 - x1| (k * |y2 - y1|) _ (|x2 - x1| / 2) (by omega)
        (by omega)).mpr rfl
      rw [← e3] at hw
      omega
    · rw [if_neg hm] at h0
      rw [cdiv_neg_two _ hdy0] at h0
      have hdy : 0 < |y2 - y1| := by
        rcases hne with h | h
        · have : |x2 - x1| ≠ 0 := fun h' => h (zx.mp h')
          omega
        · have : |y2 - y1| ≠ 0 := fun h' => h (zy.mp h')
          omega
      obtain ⟨-, -, e3⟩ := walk_y_major b _ _ _ _ x1 y1 (|y2 - y1| / 2) hb (by omega) hdx0
        hdy (by omega) s0 h0 k
      have hw := (walk_index |y2 - y1| (k * |x2 - x1|) _ (|y2 - y1| / 2) hdy
        (by omega)).mpr rfl
      rw [e3]
      omega
  obtain ⟨l1, l2⟩ := hbound
  unfold is_int
  unfold INT_MAX at hrange
  unfold INT_MIN INT_MAX
  refine ⟨⟨l1, l2⟩, ⟨by omega, by omega⟩, fun h => ⟨by omega, by omega⟩, fun h => ?_⟩
  split <;> constructor <;> omega

theorem draw_line_general_log (surf : Surface) (clip : SDL_Rect) (x1 y1 x2 y2 : Int)
    (color : Nat) (da : DrawnArea) (hv : valid_depth surf) (hx : x1 ≠ x2) :
    ∃ r,
      while_loop (fun s => decide (s.x1 ≠ x2 ∨ s.y1 ≠ y2))
        (fun s =>
          bresenham_step (abs (x2 - x1)) (abs (y2 - y1)) (if x1 < x2 then 1 else -1)
            (if y1 < y2 then 1 else -1)
            { s with
              surf := (set_and_check_rect s.surf clip s.x1 s.y1 color s.drawn_area).1
              drawn_area := (set_and_check_rect s.surf clip s.x1 s.y1 color s.drawn_area).2 })
        (abs (x2 - x1) + abs (y2 - y1) + 1).toNat
        ⟨surf, da, x1, y1,
          cdiv (if abs (x2 - x1) > abs (y2 - y1) then abs (x2 - x1) else -abs (y2 - y1)) 2⟩
        = some r ∧
      Drawn clip color
        (clipped_run clip (line_pixel x1 y1 x2 y2) (max |x2 - x1| |y2 - y1|).toNat) (surf, da)
        (r.surf, r.drawn_area) ∧ r.x1 = x2 ∧ r.y1 = y2 := by
  simp only [abs_eq]
  obtain ⟨ex, hsx, hdx0, zx⟩ := sign_walk x1 x2
  obtain ⟨ey, hsy, hdy0, zy⟩ := sign_walk y1 y2
  have hdxp : 0 < |x2 - x1| := by
    have : |x2 - x1| ≠ 0 := fun h' => hx (zx.mp h')
    omega
  generalize hb : (fun s : LineState =>
      bresenham_step |x2 - x1| |y2 - y1| (if x1 < x2 then 1 else -1)
        (if y1 < y2 then 1 else -1)
        { s with
          surf := (set_and_check_rect s.surf clip s.x1 s.y1 color s.drawn_area).1
          drawn_area := (set_and_check_rect s.surf clip s.x1 s.y1 color s.drawn_area).2 }) = b
  generalize hs0 : (⟨surf, da, x1, y1,
      cdiv (if |x2 - x1| > |y2 - y1| then |x2 - x1| else -|y2 - y1|) 2⟩ : LineState) = s0
  have hwalk : ∀ s, (b s).x1 = (if s.err > -|x2 - x1| then s.x1 + (if x1 < x2 then 1 else -1)
        else s.x1) ∧
      (b s).y1 = (if s.err < |y2 - y1| then s.y1 + (if y1 < y2 then 1 else -1) else s.y1) ∧
      (b s).err = (if s.err > -|x2 - x1| then s.err - |y2 - y1| else s.err) +
        (if s.err < |y2 - y1| then |x2 - x1| else 0) := by
    intro s
    rw [← hb]
    exact bresenham_step_eq _ _ _ _ _
  have hframe : ∀ s, ((b s).surf, (b s).drawn_area) =
      set_and_check_rect s.surf clip s.x1 s.y1 color s.drawn_area := by
    intro s
    rw [← hb]
    obtain ⟨f1, f2⟩ := bresenham_step_frame |x2 - x1| |y2 - y1| (if x1 < x2 then 1 else -1)
      (if y1 < y2 then 1 else -1)
      { s with
        surf := (set_and_check_rect s.surf clip s.x1 s.y1 color s.drawn_area).1
        drawn_area := (set_and_check_rect s.surf clip s.x1 s.y1 color s.drawn_area).2 }
    simp only [f1, f2]
  have hpos : ∀ k : Nat, ((b^[k] s0).x1, (b^[k] s0).y1) = line_pixel x1 y1 x2 y2 k := by
    intro k
    apply walk_positions b x1 y1 x2 y2 hwalk (Or.inl hx) s0
    rw [← hs0]
    exact ⟨rfl, rfl, rfl⟩
  have hM : (0 : Int) ≤ max |x2 - x1| |y2 - y1| := le_max_of_le_left hdx0
  have hMn : (((max |x2 - x1| |y2 - y1|).toNat : Nat) : Int) = max |x2 - x1| |y2 - y1| :=
    Int.toNat_of_nonneg hM
  obtain ⟨pe0, peM⟩ := line_pixel_ends x1 y1 x2 y2
  have hit := while_loop_iterate (fun s : LineState => decide (s.x1 ≠ x2 ∨ s.y1 ≠ y2)) b
    (max |x2 - x1| |y2 - y1|).toNat (|x2 - x1| + |y2 - y1| + 1).toNat s0
    (by
      rcases max_cases |x2 - x1| |y2 - y1| with ⟨h, -⟩ | ⟨h, -⟩ <;> rw [h] <;> omega)
    (by
      intro k hk
      have hp := hpos k
      have hk1 : (k : Int) < max |x2 - x1| |y2 - y1| := by omega
      obtain ⟨m1, m2, -⟩ := line_pixel_spec x1 y1 x2 y2 k (by omega) (by omega)
      rw [decide_eq_true_eq]
      have e1 : (b^[k] s0).x1 = (line_pixel x1 y1 x2 y2 k).1 := by rw [← hp]
      have e2 : (b^[k] s0).y1 = (line_pixel x1 y1 x2 y2 k).2 := by rw [← hp]
      rw [e1, e2]
      by_cases hm : |y2 - y1| < |x2 - x1|
      · left
        rw [m1 hm]
        rw [max_eq_left (by omega)] at hk1
        intro h
        rcases hsx with hs | hs <;> rw [hs] at h ex <;> omega
      · right
        rw [m2 (by omega)]
        rw [max_eq_right (by omega)] at hk1
        intro h
        rcases hsy with hs | hs <;> rw [hs] at h ey <;> omega)
    (by
      have hp := hpos (max |x2 - x1| |y2 - y1|).toNat
      rw [hMn, peM] at hp
      have e1 : (b^[(max |x2 - x1| |y2 - y1|).toNat] s0).x1 = x2 := congrArg Prod.fst hp
      have e2 : (b^[(max |x2 - x1| |y2 - y1|).toNat] s0).y1 = y2 := congrArg Prod.snd hp
      rw [decide_eq_false_iff_not, e1, e2]
      simp)
  refine ⟨_, hit.1, ?_, ?_, ?_⟩
  · have hd := iterate_drawn clip color (line_pixel x1 y1 x2 y2) b hframe s0
      (by rw [← hs0]; exact hv) (max |x2 - x1| |y2 - y1|).toNat (fun k _ => hpos k)
    rw [← hs0] at hd ⊢
    exact hd
  · have hp := hpos (max |x2 - x1| |y2 - y1|).toNat
    rw [hMn, peM] at hp
    exact congrArg Prod.fst hp
  · have hp := hpos (max |x2 - x1| |y2 - y1|).toNat
    rw [hMn, peM] at hp
    exact congrArg Prod.snd hp

/-- For every clip rectangle `draw_line` returns, and its log is that of the calls
`set_and_check_rect` at the positions `0 .. max(|dx|, |dy|)` of the closed form, in
this order. -/
theorem draw_line_log (surf : Surface) (clip : SDL_Rect) (x1 y1 x2 y2 : Int)
    (color : Nat) (da : DrawnArea) (hv : valid_depth surf) :
    ∃ r, draw_line surf clip x1 y1 x2 y2 color da = some r ∧
      Drawn clip color
        (clipped_run clip (line_pixel x1 y1 x2 y2) (max |x2 - x1| |y2 - y1| + 1).toNat)
        (surf, da) r := by
  obtain ⟨ex, hsx, hdx0, zx⟩ := sign_walk x1 x2
  obtain ⟨ey, hsy, hdy0, zy⟩ := sign_walk y1 y2
  obtain ⟨pe0, peM⟩ := line_pixel_ends x1 y1 x2 y2
  have hM : (0 : Int) ≤ max |x2 - x1| |y2 - y1| := le_max_of_le_left hdx0
  have hn : (max |x2 - x1| |y2 - y1| + 1).toNat = (max |x2 - x1| |y2 - y1|).toNat + 1 := by
    omega
  by_cases h1 : x1 = x2 ∧ y1 = y2
  · refine ⟨_, by simp only [draw_line, if_pos h1]; rfl, ?_⟩
    have hz : max |x2 - x1| |y2 - y1| = 0 := by
      rw [zx.mpr h1.1, zy.mpr h1.2]; rfl
    rw [hz]
    have := set_and_check_rect_drawn surf clip x1 y1 color da hv
    simpa [clipped_run, pe0] using this
  · by_cases h2 : y1 = y2
    · have hx : x1 ≠ x2 := fun h => h1 ⟨h, h2⟩
      refine ⟨_, by simp only [draw_line, if_neg h1, if_pos h2]; rfl, ?_⟩
      have hd := for_loop_clipped_run clip color
        (fun k => (x1 + (if x1 < x2 then 1 else -1) * k, y1)) (abs (x1 - x2) + 1).toNat surf da hv
      have hcount : (abs (x1 - x2) + 1).toNat = (max |x2 - x1| |y2 - y1| + 1).toNat := by
        rw [abs_eq, abs_sub_comm x1 x2, zy.mpr h2, max_eq_left hdx0]
      rw [clipped_run_congr clip (line_pixel x1 y1 x2 y2)
        (fun k => (x1 + (if x1 < x2 then 1 else -1) * k, y1))]
      · rw [← hcount]
        exact hd
      · intro k hk
        have hdxp : 0 < |x2 - x1| := by
          have : |x2 - x1| ≠ 0 := fun h' => hx (zx.mp h')
          omega
        have hm : |x2 - x1| > |y2 - y1| := by rw [zy.mpr h2]; exact hdxp
        unfold line_pixel
        dsimp only
        rw [if_pos hm, zy.mpr h2]
        have : (2 * ((k : Int) * 0) + |x2 - x1| - 1) / (2 * |x2 - x1|) = 0 := by
          rw [mul_zero, mul_zero, zero_add]
          exact Int.ediv_eq_zero_of_lt (by omega) (by omega)
        rw [this, mul_zero, add_zero]
    · by_cases h3 : x1 = x2
      · refine ⟨_, by simp only [draw_line, if_neg h1, if_neg h2, if_pos h3]; rfl, ?_⟩
        have hd := for_loop_clipped_run clip color
          (fun k => (x1, y1 + (if y1 < y2 then 1 else -1) * k)) (abs (y1 - y2) + 1).toNat surf da
          hv
        have hcount : (abs (y1 - y2) + 1).toNat = (max |x2 - x1| |y2 - y1| + 1).toNat := by
          rw [abs_eq, abs_sub_comm y1 y2, zx.mpr h3, max_eq_right hdy0]
        rw [clipped_run_congr clip (line_pixel x1 y1 x2 y2)
          (fun k => (x1, y1 + (if y1 < y2 then 1 else -1) * k))]
        · rw [← hcount]
          exact hd
        · intro k hk
          have hdyp : 0 < |y2 - y1| := by
            have : |y2 - y1| ≠ 0 := fun h' => h2 (zy.mp h')
            omega
          have hm : ¬ |x2 - x1| > |y2 - y1| := by rw [zx.mpr h3]; omega
          unfold line_pixel
          dsimp only
          rw [if_neg hm, zx.mpr h3]
          have : (2 * ((k : Int) * 0) + |y2 - y1| - 1) / (2 * |y2 - y1|) = 0 := by
            rw [mul_zero, mul_zero, zero_add]
            exact Int.ediv_eq_zero_of_lt (by omega) (by omega)
          rw [this, mul_zero, add_zero]
      · obtain ⟨r, hr, hd, rx, ry⟩ := draw_line_general_log surf clip x1 y1 x2 y2 color da hv h3
        have hd1 := set_and_check_rect_drawn r.surf clip x2 y2 color r.drawn_area (hd.valid hv)
        refine ⟨set_and_check_rect r.surf clip x2 y2 color r.drawn_area, ?_, ?_⟩
        · simp only [draw_line, if_neg h1, if_neg h2, if_neg h3, hr, Option.map_some']
        · rw [hn, clipped_run, Int.toNat_of_nonneg hM, peM]
          exact hd.trans hd1

theorem line_pixel_inj (x1 y1 x2 y2 : Int) (i j : Int) (hi0 : 0 ≤ i)
    (hi : i ≤ max |x2 - x1| |y2 - y1|) (hj0 : 0 ≤ j) (hj : j ≤ max |x2 - x1| |y2 - y1|)
    (h : line_pixel x1 y1 x2 y2 i = line_pixel x1 y1 x2 y2 j) : i = j := by
  obtain ⟨-, hsx, -, -⟩ := sign_walk x1 x2
  obtain ⟨-, hsy, -, -⟩ := sign_walk y1 y2
  obtain ⟨a1, a2, -⟩ := line_pixel_spec x1 y1 x2 y2 i hi0 hi
  obtain ⟨b1, b2, -⟩ := line_pixel_spec x1 y1 x2 y2 j hj0 hj
  by_cases hm : |y2 - y1| < |x2 - x1|
  · have e := a1 hm
    rw [h, b1 hm] at e
    rcases hsx with hs | hs <;> rw [hs] at e <;> omega
  · have e := a2 (by omega)
    rw [h, b2 (by omega)] at e
    rcases hsy with hs | hs <;> rw [hs] at e <;> omega

/-- For every pair of endpoints and every clip rectangle the embedding of `draw_line`
returns; when the box of the endpoints lies inside the clip rectangle its log is
that of the `max(|x2 - x1|, |y2 - y1|) + 1` positions `p 0, ..., p M` of the walk,
which are pairwise distinct, start at `(x1, y1)` and end at `(x2, y2)`, have the
major coordinate `k` steps from the start at position `k`, and differ from one
position to the next by at most 1 in each coordinate. -/
theorem draw_line_walk_count (surf : Surface) (clip : SDL_Rect) (x1 y1 x2 y2 : Int)
    (color : Nat) (da : DrawnArea) (hv : valid_depth surf) :
    (∃ r, draw_line surf clip x1 y1 x2 y2 color da = some r) ∧
    ((∀ p : Int × Int, min x1 x2 ≤ p.1 → p.1 ≤ max x1 x2 → min y1 y2 ≤ p.2 →
        p.2 ≤ max y1 y2 → inside clip p) →
      ∃ r, draw_line surf clip x1 y1 x2 y2 color da = some r ∧
        Drawn clip color (run_log (line_pixel x1 y1 x2 y2) (max |x2 - x1| |y2 - y1| + 1).toNat)
          (surf, da) r ∧
        ((run_log (line_pixel x1 y1 x2 y2) (max |x2 - x1| |y2 - y1| + 1).toNat).length : Int) =
          max |x2 - x1| |y2 - y1| + 1 ∧
        (run_log (line_pixel x1 y1 x2 y2) (max |x2 - x1| |y2 - y1| + 1).toNat).Nodup ∧
        line_pixel x1 y1 x2 y2 0 = (x1, y1) ∧
        line_pixel x1 y1 x2 y2 (max |x2 - x1| |y2 - y1|) = (x2, y2) ∧
        (∀ k : Int, 0 ≤ k → k ≤ max |x2 - x1| |y2 - y1| →
          (|y2 - y1| < |x2 - x1| →
            (line_pixel x1 y1 x2 y2 k).1 = x1 + (if x1 < x2 then 1 else -1) * k) ∧
          (|x2 - x1| ≤ |y2 - y1| →
            (line_pixel x1 y1 x2 y2 k).2 = y1 + (if y1 < y2 then 1 else -1) * k)) ∧
        (∀ k : Int, 0 ≤ k → k < max |x2 - x1| |y2 - y1| →
          |(line_pixel x1 y1 x2 y2 (k + 1)).1 - (line_pixel x1 y1 x2 y2 k).1| ≤ 1 ∧
          |(line_pixel x1 y1 x2 y2 (k + 1)).2 - (line_pixel x1 y1 x2 y2 k).2| ≤ 1)) := by
  obtain ⟨r, hr, hd⟩ := draw_line_log surf clip x1 y1 x2 y2 color da hv
  obtain ⟨-, -, hdx0, -⟩ := sign_walk x1 x2
  have hM : (0 : Int) ≤ max |x2 - x1| |y2 - y1| := le_max_of_le_left hdx0
  obtain ⟨pe0, peM⟩ := line_pixel_ends x1 y1 x2 y2
  refine ⟨⟨r, hr⟩, fun hclip => ⟨r, hr, ?_, ?_, ?_, pe0, peM, ?_, ?_⟩⟩
  · rw [← clipped_run_eq_run_log clip]
    · exact hd
    · intro k hk
      obtain ⟨-, -, ⟨b1, b2, b3, b4⟩, -⟩ := line_pixel_spec x1 y1 x2 y2 k (by omega) (by omega)
      exact hclip _ b1 b2 b3 b4
  · rw [length_run_log]
    omega
  · apply nodup_run_log
    intro i j hi hj h
    have := line_pixel_inj x1 y1 x2 y2 i j (by omega) (by omega) (by omega) (by omega) h
    omega
  · intro k hk0 hk
    obtain ⟨m1, m2, -⟩ := line_pixel_spec x1 y1 x2 y2 k hk0 hk
    exact ⟨m1, m2⟩
  · intro k hk0 hk
    obtain ⟨-, -, -, s1, s2⟩ := line_pixel_spec x1 y1 x2 y2 k hk0 (by omega)
    exact ⟨s1, s2⟩

theorem is_int_of_box (a b v lo hi : Int) (ha : is_int (a + lo) ∧ is_int (a + hi))
    (hb : is_int (b + lo) ∧ is_int (b + hi)) (hlo : lo ≤ hi) (h1 : min a b ≤ v)
    (h2 : v ≤ max a b) : is_int (v + lo) ∧ is_int (v + hi) := by
  unfold is_int at *
  rcases le_total a b with h | h
  · rw [min_eq_left h] at h1
    rw [max_eq_right h] at h2
    omega
  · rw [min_eq_right h] at h1
    rw [max_eq_left h] at h2
    omega

theorem ediv_eq_of_bounds (a b q : Int) (hb : 0 < b) (h1 : q * b ≤ a) (h2 : a < (q + 1) * b) :
    a / b = q := by
  apply le_antisymm
  · have : a / b < q + 1 := (Int.ediv_lt_iff_lt_mul hb).mpr h2
    omega
  · exact (Int.le_ediv_iff_mul_le hb).mpr h1

theorem round_reverse (D d k : Int) (hD : 0 < D)
    (H : ∀ k j : Int, 2 * (k * d - j * D) ≠ D) :
    (2 * (k * d) + D - 1) / (2 * D) + (2 * ((D - k) * d) + D - 1) / (2 * D) = d := by
  have hb : (0 : Int) < 2 * D := by omega
  generalize hq : (2 * (k * d) + D - 1) / (2 * D) = q
  have h1 : q * (2 * D) ≤ 2 * (k * d) + D - 1 := by
    rw [← Int.le_ediv_iff_mul_le hb, hq]
  have h2 : 2 * (k * d) + D - 1 < (q + 1) * (2 * D) := by
    rw [← Int.ediv_lt_iff_lt_mul hb, hq]
    omega
  have hH := H k q
  have e1 : q * (2 * D) = 2 * (q * D) := by ring
  have e2 : (q + 1) * (2 * D) = 2 * (q * D) + 2 * D := by ring
  have e3 : (D - k) * d = D * d - k * d := by ring
  have e4 : (d - q) * (2 * D) = 2 * (D * d) - 2 * (q * D) := by ring
  have e5 : (d - q + 1) * (2 * D) = 2 * (D * d) - 2 * (q * D) + 2 * D := by ring
  have e6 : 2 * (k * d - q * D) = 2 * (k * d) - 2 * (q * D) := by ring
  rw [ediv_eq_of_bounds _ _ (d - q) hb (by omega) (by omega)]
  omega

/-- Unless the segment passes half-way between two pixels, the closed form read
from the other end visits the same positions in the opposite order. -/
theorem line_pixel_reverse (x1 y1 x2 y2 : Int)
    (H : ∀ k j : Int, 0 < max |x2 - x1| |y2 - y1| →
      2 * (k * |y2 - y1| - j * |x2 - x1|) ≠ max |x2 - x1| |y2 - y1|)
    (k : Int) (hk0 : 0 ≤ k) (hk : k ≤ max |x2 - x1| |y2 - y1|) :
    line_pixel x1 y1 x2 y2 k = line_pixel x2 y2 x1 y1 (max |x2 - x1| |y2 - y1| - k) := by
  obtain ⟨ex, hsx, hdx0, zx⟩ := sign_walk x1 x2
  obtain ⟨ey, hsy, hdy0, zy⟩ := sign_walk y1 y2
  obtain ⟨ex', hsx', -, -⟩ := sign_walk x2 x1
  obtain ⟨ey', hsy', -, -⟩ := sign_walk y2 y1
  unfold line_pixel
  dsimp only
  rw [abs_sub_comm x1 x2, abs_sub_comm y1 y2] at *
  generalize hdx : |x2 - x1| = dx at *
  generalize hdy : |y2 - y1| = dy at *
  generalize hsxe : (if x1 < x2 then (1 : Int) else -1) = sx at *
  generalize hsye : (if y1 < y2 then (1 : Int) else -1) = sy at *
  generalize hsxe' : (if x2 < x1 then (1 : Int) else -1) = sx' at *
  generalize hsye' : (if y2 < y1 then (1 : Int) else -1) = sy' at *
  by_cases hm : dx > dy
  · rw [if_pos hm, if_pos hm]
    rw [max_eq_left (by omega)] at hk H ⊢
    have hr := round_reverse dx dy k (by omega) (fun a b => H a b (by omega))
    obtain ⟨-, -, r0, rle, -⟩ := round_steps dx dy (by omega) hdy0 (by omega)
    have j0 := r0 k hk0
    have j1 := rle k hk
    have j2 := r0 (dx - k) (by omega)
    have j3 := rle (dx - k) (by omega)
    generalize (2 * (k * dy) + dx - 1) / (2 * dx) = J at *
    generalize (2 * ((dx - k) * dy) + dx - 1) / (2 * dx) = J' at *
    have hx : x1 ≠ x2 := by
      intro h
      have := zx.mpr h
      omega
    have hsxx : sx' = -sx := by
      rw [← hsxe, ← hsxe']
      split <;> split <;> omega
    have e1 : sx * dx - sx * (dx - k) = sx * k := by ring
    have e1' : -sx * (dx - k) = -(sx * (dx - k)) := by ring
    refine Prod.ext ?_ ?_
    · dsimp only
      rw [hsxx, e1']
      omega
    · dsimp only
      by_cases hy : y1 = y2
      · have : dy = 0 := zy.mpr hy
        have hJ : J = 0 := by omega
        have hJ' : J' = 0 := by omega
        rw [hJ, hJ', hy]
        simp
      · have hsyy : sy' = -sy := by
          rw [← hsye, ← hsye']
          split <;> split <;> omega
        have hJ' : J' = dy - J := by omega
        have e2 : -sy * (dy - J) = -(sy * dy) + sy * J := by ring
        rw [hsyy, hJ', e2]
        omega
  · rw [if_neg hm, if_neg hm]
    rw [max_eq_right (by omega)] at hk H ⊢
    by_cases hz : dy = 0
    · have hdxz : dx = 0 := by omega
      have hk1 : k = 0 := by omega
      have hx : x1 = x2 := zx.mp hdxz
      have hy : y1 = y2 := zy.mp hz
      subst hz hdxz hk1 hx hy
      simp
    · have hr := round_reverse dy dx k (by omega) (fun a b => by
        have := H (-b) (-a) (by omega)
        intro h
        apply this
        have e1 : -b * dy - -a * dx = a * dx - b * dy := by ring
        rw [e1]
        exact h)
      obtain ⟨-, -, r0, rle, -⟩ := round_steps dy dx (by omega) hdx0 (by omega)
      have j0 := r0 k hk0
      have j1 := rle k hk
      have j2 := r0 (dy - k) (by omega)
      have j3 := rle (dy - k) (by omega)
      generalize (2 * (k * dx) + dy - 1) / (2 * dy) = J at *
      generalize (2 * ((dy - k) * dx) + dy - 1) / (2 * dy) = J' at *
      have hy : y1 ≠ y2 := by
        intro h
        have := zy.mpr h
        omega
      have hsyy : sy' = -sy := by
        rw [← hsye, ← hsye']
        split <;> split <;> omega
      have e1' : -sy * (dy - k) = -(sy * dy) + sy * k := by ring
      refine Prod.ext ?_ ?_
      · dsimp only
        by_cases hx : x1 = x2
        · have : dx = 0 := zx.mpr hx
          have hJ : J = 0 := by omega
          have hJ' : J' = 0 := by omega
          rw [hJ, hJ', hx]
          simp
        · have hsxx : sx' = -sx := by
            rw [← hsxe, ← hsxe']
            split <;> split <;> omega
          have hJ' : J' = dx - J := by omega
          have e2 : -sx * (dx - J) = -(sx * dx) + sx * J := by ring
          rw [hsxx, hJ', e2]
          omega
      · dsimp only
        rw [hsyy, e1']
        omega

set_option maxRecDepth 100000 in
/-- C40, as stated, fails: from `(0, 0)` to `(2, 1)` `draw_line` writes the pixel
`(1, 0)`, from `(2, 1)` to `(0, 0)` it writes `(1, 1)` instead. -/
theorem draw_line_reversed_counterexample :
    ∃ r1 r2,
      draw_line (Surface.blank 10 10 4) (SDL_Rect.whole 10 10) 0 0 2 1 7 DrawnArea.init =
        some r1 ∧
      draw_line (Surface.blank 10 10 4) (SDL_Rect.whole 10 10) 2 1 0 0 7 DrawnArea.init =
        some r2 ∧
      ((1 : Int), (0 : Int)) ∈ r1.1.written ∧ ((1 : Int), (0 : Int)) ∉ r2.1.written := by
  refine ⟨_, _, rfl, rfl, ?_, ?_⟩ <;> decide

/-- C40, amended: for every pair of endpoints between which the C `int` arithmetic
of the walk does not overflow (C `int` coordinates with
`|x2 - x1| + |y2 - y1| < INT_MAX`) and whose segment passes through no point
half-way between two pixels of a row or column of the major axis, that is with no
integers `k`, `j` such that `2 (k |dy| - j |dx|) = max(|dx|, |dy|) > 0`, and for
every clip rectangle, `draw_line` returns in both directions and stores the same
set of pixels, all of them pairs of C `int`s. -/
theorem draw_line_reversed (surf : Surface) (clip : SDL_Rect) (x1 y1 x2 y2 : Int)
    (color : Nat) (da : DrawnArea) (hv : valid_depth surf)
    (hrange : line_in_int_range x1 y1 x2 y2)
    (H : ∀ k j : Int, 0 < max |x2 - x1| |y2 - y1| →
      2 * (k * |y2 - y1| - j * |x2 - x1|) ≠ max |x2 - x1| |y2 - y1|) :
    ∃ r1 r2 n1 n2, draw_line surf clip x1 y1 x2 y2 color da = some r1 ∧
      Drawn clip color n1 (surf, da) r1 ∧
      draw_line surf clip x2 y2 x1 y1 color da = some r2 ∧
      Drawn clip color n2 (surf, da) r2 ∧ (∀ p : Int × Int, p ∈ n1 ↔ p ∈ n2) ∧
      ∀ p ∈ n1, is_int p.1 ∧ is_int p.2 := by
  obtain ⟨i1, i2, i3, i4, -⟩ := hrange
  obtain ⟨r1, e1, d1⟩ := draw_line_log surf clip x1 y1 x2 y2 color da hv
  obtain ⟨r2, e2, d2⟩ := draw_line_log surf clip x2 y2 x1 y1 color da hv
  rw [abs_sub_comm x1 x2, abs_sub_comm y1 y2] at d2
  obtain ⟨-, -, hdx0, -⟩ := sign_walk x1 x2
  have hM : (0 : Int) ≤ max |x2 - x1| |y2 - y1| := le_max_of_le_left hdx0
  have H1 : ∀ k j : Int, 0 < max |x1 - x2| |y1 - y2| →
      2 * (k * |y1 - y2| - j * |x1 - x2|) ≠ max |x1 - x2| |y1 - y2| := by
    rw [abs_sub_comm x1 x2, abs_sub_comm y1 y2]
    exact H
  refine ⟨r1, r2, _, _, e1, d1, e2, d2, fun p => ?_, fun p hp => ?_⟩
  · rw [mem_clipped_run, mem_clipped_run]
    constructor
    · rintro ⟨k, hk, hp, hin⟩
      refine ⟨(max |x2 - x1| |y2 - y1| - k).toNat, by omega, ?_, hin⟩
      rw [hp, line_pixel_reverse x1 y1 x2 y2 H k (by omega) (by omega)]
      congr 1
      omega
    · rintro ⟨k, hk, hp, hin⟩
      refine ⟨(max |x2 - x1| |y2 - y1| - k).toNat, by omega, ?_, hin⟩
      have h := line_pixel_reverse x2 y2 x1 y1 H1 k (by omega)
        (by rw [abs_sub_comm x1 x2, abs_sub_comm y1 y2]; omega)
      rw [abs_sub_comm x1 x2, abs_sub_comm y1 y2] at h
      rw [hp, h]
      congr 1
      omega
  · obtain ⟨k, hk, hpk, -⟩ := (mem_clipped_run _ _ _ _).mp hp
    obtain ⟨-, -, ⟨b1, b2, b3, b4⟩, -⟩ := line_pixel_spec x1 y1 x2 y2 k (by omega) (by omega)
    rw [← hpk] at b1 b2 b3 b4
    have hx := is_int_of_box x1 x2 p.1 0 0
      ⟨by simpa using i1, by simpa using i1⟩ ⟨by simpa using i3, by simpa using i3⟩
      (le_refl _) b1 b2
    have hy := is_int_of_box y1 y2 p.2 0 0
      ⟨by simpa using i2, by simpa using i2⟩ ⟨by simpa using i4, by simpa using i4⟩
      (le_refl _) b3 b4
    exact ⟨by simpa using hx.1, by simpa using hy.1⟩

/-- C40, amended, instance: the segment from `(0, 0)` to `(3, 1)`, of odd length
along x. -/
theorem draw_line_reversed_witness :
    valid_depth (Surface.blank 10 10 4) ∧ line_in_int_range 0 0 3 1 ∧
    (∀ k j : Int, 0 < max |(3 : Int) - 0| |(1 : Int) - 0| →
      2 * (k * |(1 : Int) - 0| - j * |(3 : Int) - 0|) ≠ max |(3 : Int) - 0| |(1 : Int) - 0|) ∧
    ∃ r1 r2 n1 n2,
      draw_line (Surface.blank 10 10 4) (SDL_Rect.whole 10 10) 0 0 3 1 7 DrawnArea.init =
        some r1 ∧
      Drawn (SDL_Rect.whole 10 10) 7 n1 (Surface.blank 10 10 4, DrawnArea.init) r1 ∧
      draw_line (Surface.blank 10 10 4) (SDL_Rect.whole 10 10) 3 1 0 0 7 DrawnArea.init =
        some r2 ∧
      Drawn (SDL_Rect.whole 10 10) 7 n2 (Surface.blank 10 10 4, DrawnArea.init) r2 ∧
      (∀ p : Int × Int, p ∈ n1 ↔ p ∈ n2) ∧ ∀ p ∈ n1, is_int p.1 ∧ is_int p.2 :=
  have H : ∀ k j : Int, 0 < max |(3 : Int) - 0| |(1 : Int) - 0| →
      2 * (k * |(1 : Int) - 0| - j * |(3 : Int) - 0|) ≠ max |(3 : Int) - 0| |(1 : Int) - 0| := by
    intro k j _
    have e1 : |(3 : Int) - 0| = 3 := by decide
    have e2 : |(1 : Int) - 0| = 1 := by decide
    rw [e1, e2]
    have e3 : max (3 : Int) 1 = 3 := by decide
    rw [e3]
    omega
  ⟨by decide, by decide, H,
    draw_line_reversed (Surface.blank 10 10 4) (SDL_Rect.whole 10 10) 0 0 3 1 7
      DrawnArea.init (by decide) (by decide) H⟩

/-! ## The centres of a wide line -/

theorem draw_line_width_body_walk (clip : SDL_Rect) (color : Nat)
    (width extra_width dx dy sx sy : Int) (s : LineState) :
    ((draw_line_width_xinc_body clip color width extra_width dx dy sx sy s).x1 =
        (if s.err > -dx then s.x1 + sx else s.x1) ∧
      (draw_line_width_xinc_body clip color width extra_width dx dy sx sy s).y1 =
        (if s.err < dy then s.y1 + sy else s.y1) ∧
      (draw_line_width_xinc_body clip color width extra_width dx dy sx sy s).err =
        (if s.err > -dx then s.err - dy else s.err) + (if s.err < dy then dx else 0)) ∧
    ((draw_line_width_yinc_body clip color width extra_width dx dy sx sy s).x1 =
        (if s.err > -dx then s.x1 + sx else s.x1) ∧
      (draw_line_width_yinc_body clip color width extra_width dx dy sx sy s).y1 =
        (if s.err < dy then s.y1 + sy else s.y1) ∧
      (draw_line_width_yinc_body clip color width extra_width dx dy sx sy s).err =
        (if s.err > -dx then s.err - dy else s.err) + (if s.err < dy then dx else 0)) := by
  have key : ∀ t : LineState, t.x1 = s.x1 → t.y1 = s.y1 → t.err = s.err →
      (bresenham_step dx dy sx sy t).x1 = (if s.err > -dx then s.x1 + sx else s.x1) ∧
      (bresenham_step dx dy sx sy t).y1 = (if s.err < dy then s.y1 + sy else s.y1) ∧
      (bresenham_step dx dy sx sy t).err =
        (if s.err > -dx then s.err - dy else s.err) + (if s.err < dy then dx else 0) := by
    intro t h1 h2 h3
    have := bresenham_step_eq dx dy sx sy t
    rw [h1, h2, h3] at this
    exact this
  constructor
  · unfold draw_line_width_xinc_body
    dsimp only
    apply key <;> (split_ifs <;> rfl)
  · unfold draw_line_width_yinc_body
    dsimp only
    apply key <;> (split_ifs <;> rfl)

/-- The major coordinate of a loop whose body ends with the Bresenham update advances
by one step in every iteration. -/
theorem walk_major (b : LineState → LineState) (x1 y1 x2 y2 : Int)
    (hb : ∀ s, (b s).x1 = (if s.err > -|x2 - x1| then s.x1 + (if x1 < x2 then 1 else -1)
        else s.x1) ∧
      (b s).y1 = (if s.err < |y2 - y1| then s.y1 + (if y1 < y2 then 1 else -1) else s.y1) ∧
      (b s).err = (if s.err > -|x2 - x1| then s.err - |y2 - y1| else s.err) +
        (if s.err < |y2 - y1| then |x2 - x1| else 0))
    (hne : x1 ≠ x2 ∨ y1 ≠ y2) (s0 : LineState)
    (h0 : s0.x1 = x1 ∧ s0.y1 = y1 ∧
      s0.err = cdiv (if |x2 - x1| > |y2 - y1| then |x2 - x1| else -|y2 - y1|) 2) (k : Nat) :
    (|y2 - y1| < |x2 - x1| → (b^[k] s0).x1 = x1 + (if x1 < x2 then 1 else -1) * k) ∧
    (|x2 - x1| ≤ |y2 - y1| → (b^[k] s0).y1 = y1 + (if y1 < y2 then 1 else -1) * k) := by
  obtain ⟨-, -, hdx0, zx⟩ := sign_walk x1 x2
  obtain ⟨-, -, hdy0, zy⟩ := sign_walk y1 y2
  constructor
  · intro hm
    rw [if_pos hm] at h0
    obtain ⟨c1, -⟩ := cdiv_cmod_two |x2 - x1| hdx0
    rw [c1] at h0
    exact (walk_x_major b _ _ _ _ x1 y1 (|x2 - x1| / 2) hb hm hdy0 (by omega) s0 h0 k).1
  · intro hm
    rw [if_neg (by omega)] at h0
    rw [cdiv_neg_two _ hdy0] at h0
    have hdy : 0 < |y2 - y1| := by
      rcases hne with h | h
      · have : |x2 - x1| ≠ 0 := fun h' => h (zx.mp h')
        omega
      · have : |y2 - y1| ≠ 0 := fun h' => h (zy.mp h')
        omega
    exact (walk_y_major b _ _ _ _ x1 y1 (|y2 - y1| / 2) hb hm hdx0 hdy (by omega) s0 h0 k).1

/-- What the bodies of the two loops of `draw_line_width` do to the surface and the
drawn area is to draw the span at the current position. -/
theorem draw_line_width_body_span (clip : SDL_Rect) (color : Nat)
    (width extra_width dx dy sx sy : Int) (s : LineState) :
    ((draw_line_width_xinc_body clip color width extra_width dx dy sx sy s).surf,
        (draw_line_width_xinc_body clip color width extra_width dx dy sx sy s).drawn_area) =
      draw_line_width_span clip color width extra_width true (s.x1, s.y1)
        (s.surf, s.drawn_area) ∧
    ((draw_line_width_yinc_body clip color width extra_width dx dy sx sy s).surf,
        (draw_line_width_yinc_body clip color width extra_width dx dy sx sy s).drawn_area) =
      draw_line_width_span clip color width extra_width false (s.x1, s.y1)
        (s.surf, s.drawn_area) := by
  have key : ∀ t : LineState, ((bresenham_step dx dy sx sy t).surf,
      (bresenham_step dx dy sx sy t).drawn_area) = (t.surf, t.drawn_area) := by
    intro t
    unfold bresenham_step
    dsimp only
    split_ifs <;> rfl
  constructor
  · unfold draw_line_width_xinc_body draw_line_width_span
    dsimp only
    rw [key]
    simp only [if_true]
    split_ifs <;> rfl
  · unfold draw_line_width_yinc_body draw_line_width_span
    dsimp only
    rw [key]
    simp only [Bool.false_eq_true, if_false]
    split_ifs <;> rfl

/-- A loop body that draws a span at the current position and then moves on leaves,
after `n` executions, the spans at the first `n` positions, drawn in this order. -/
theorem iterate_spans (span : Int × Int → Surface × DrawnArea → Surface × DrawnArea)
    (b : LineState → LineState)
    (hbs : ∀ s, ((b s).surf, (b s).drawn_area) = span (s.x1, s.y1) (s.surf, s.drawn_area))
    (f : Nat → Int × Int) (s0 : LineState) (n : Nat)
    (hpos : ∀ k : Nat, k < n → ((b^[k] s0).x1, (b^[k] s0).y1) = f k) :
    ((b^[n] s0).surf, (b^[n] s0).drawn_area) =
      List.foldl (fun r c => span c r) (s0.surf, s0.drawn_area) ((List.range n).map f) := by
  induction n with
  | zero => rfl
  | succ n ih =>
    have h1 := ih (fun k hk => hpos k (by omega))
    rw [Function.iterate_succ_apply', hbs, List.range_succ, List.map_append, List.foldl_append,
      ← h1, hpos n (by omega)]
    rfl

theorem quarter_neg (f : Int) : ((f : Rat) / 4 < 0) ↔ f < 0 := by
  constructor
  · intro h
    have : (f : Rat) < 0 := by linarith
    exact_mod_cast this
  · intro h
    have : (f : Rat) < 0 := by exact_mod_cast h
    linarith

theorem quarter_pos (f : Int) : ((f : Rat) / 4 > 0) ↔ 0 < f := by
  constructor
  · intro h
    have : (0 : Rat) < f := by linarith
    exact_mod_cast this
  · intro h
    have : (0 : Rat) < f := by exact_mod_cast h
    show (0 : Rat) < (f : Rat) / 4
    linarith

theorem ellipse_first_bound {W H x y dx dy : Int} {d : Rat} (hW : 0 < W) (hH : 0 < H)
    (h : EllipseFirst W H x y dx dy d) (hc : dx < dy) : x < W ∧ 1 ≤ y := by
  obtain ⟨hx0, hxW, hy0, hyH, edx, edy, ed, hin⟩ := h
  have hA : 0 < H * H := mul_pos hH hH
  have hB : 0 < W * W := mul_pos hW hW
  rw [edx, edy] at hc
  have hc' : H * H * x < W * W * y := by nlinarith
  constructor
  · rcases hin with hin | hin
    · by_contra hx
      have hx' : W ≤ x := by omega
      have h1 : W * W ≤ x * x := mul_le_mul hx' hx' (by omega) hx0
      have h2 : 0 ≤ (W * W) * ((2 * y - 1) * (2 * y - 1)) :=
        mul_nonneg (by omega) (mul_self_nonneg _)
      have h3 : 4 * (H * H) * (W * W) ≤ 4 * (H * H) * (x * x) :=
        mul_le_mul_of_nonneg_left h1 (by omega)
      nlinarith
    · omega
  · by_contra hy
    have hy' : y = 0 := by omega
    subst hy'
    have : 0 ≤ H * H * x := mul_nonneg (by omega) hx0
    omega

theorem ellipse_first_step {W H x y dx dy : Int} {d : Rat} (hW : 0 < W) (hH : 0 < H)
    (h : EllipseFirst W H x y dx dy d) (hc : dx < dy) :
    (d < 0 → EllipseFirst W H (x + 1) y (dx + 2 * H * H) dy
      (d + ((dx + 2 * H * H : Int) : Rat) + ((H * H : Int) : Rat))) ∧
    (¬ d < 0 → EllipseFirst W H (x + 1) (y - 1) (dx + 2 * H * H) (dy - 2 * W * W)
      (d + ((dx + 2 * H * H : Int) : Rat) - ((dy - 2 * W * W : Int) : Rat) +
        ((H * H : Int) : Rat))) := by
  obtain ⟨hxW, hy1⟩ := ellipse_first_bound hW hH h hc
  obtain ⟨hx0, -, hy0, hyH, edx, edy, ed, hin⟩ := h
  have hA : 0 < H * H := mul_pos hH hH
  have hB : 0 < W * W := mul_pos hW hW
  have hc0 := hc
  rw [edx, edy] at hc
  have hc' : H * H * x < W * W * y := by nlinarith
  have hE : 4 * (H * H) * (x * x) + (W * W) * ((2 * y - 1) * (2 * y - 1)) <
      4 * (W * W) * (H * H) := by
    rcases hin with hin | hin
    · exact hin
    · omega
  constructor
  · intro hd
    rw [ed, quarter_neg] at hd
    refine ⟨by omega, by omega, hy0, hyH, by rw [edx]; ring, edy, ?_, Or.inl ?_⟩
    · rw [ed, edx]
      unfold ellipse_f1
      push_cast
      ring
    · unfold ellipse_f1 at hd
      linarith
  · intro hd
    rw [ed, quarter_neg] at hd
    refine ⟨by omega, by omega, by omega, by omega, by rw [edx]; ring, by rw [edy]; ring, ?_, ?_⟩
    · rw [ed, edx, edy]
      unfold ellipse_f1
      push_cast
      ring
    · by_cases hn : 4 * (H * H) * ((x + 1) * (x + 1)) +
          (W * W) * ((2 * (y - 1) - 1) * (2 * (y - 1) - 1)) < 4 * (W * W) * (H * H)
      · exact Or.inl hn
      · right
        nlinarith

theorem ellipse_switch {W H x y dx dy : Int} {d : Rat} (h : EllipseFirst W H x y dx dy d) :
    EllipseSecond W H x y dx dy
      (((H : Rat) * (H : Rat)) * (((x : Rat) + 1 / 2) * ((x : Rat) + 1 / 2)) +
        ((W : Rat) * (W : Rat)) * (((y - 1) * (y - 1) : Int) : Rat) -
        (W : Rat) * (W : Rat) * (H : Rat) * (H : Rat)) := by
  obtain ⟨hx0, hxW, hy0, hyH, edx, edy, -, -⟩ := h
  refine ⟨hx0, hxW, by omega, hyH, edx, edy, ?_⟩
  unfold ellipse_f2
  push_cast
  ring

theorem ellipse_second_step {W H x y dx dy : Int} {d : Rat} (hW : 0 < W) (hH : 0 < H)
    (h : EllipseSecond W H x y dx dy d) (hc : 0 ≤ y) :
    (d > 0 → EllipseSecond W H x (y - 1) dx (dy - 2 * W * W)
      (d + ((W * W : Int) : Rat) - ((dy - 2 * W * W : Int) : Rat))) ∧
    (¬ d > 0 → EllipseSecond W H (x + 1) (y - 1) (dx + 2 * H * H) (dy - 2 * W * W)
      (d + ((dx + 2 * H * H : Int) : Rat) - ((dy - 2 * W * W : Int) : Rat) +
        ((W * W : Int) : Rat))) := by
  obtain ⟨hx0, hxW, hy0, hyH, edx, edy, ed⟩ := h
  have hA : 0 < H * H := mul_pos hH hH
  have hB : 0 < W * W := mul_pos hW hW
  constructor
  · intro hd
    refine ⟨hx0, hxW, by omega, by omega, edx, by rw [edy]; ring, ?_⟩
    rw [ed, edy]
    unfold ellipse_f2
    push_cast
    ring
  · intro hd
    rw [ed, quarter_pos] at hd
    have hxW' : x + 1 ≤ W := by
      by_contra hx
      have hx' : W ≤ x := by omega
      unfold ellipse_f2 at hd
      have h1 : (2 * W + 1) * (2 * W + 1) ≤ (2 * x + 1) * (2 * x + 1) :=
        mul_le_mul (by omega) (by omega) (by omega) (by omega)
      have h2 : (H * H) * ((2 * W + 1) * (2 * W + 1)) ≤ (H * H) * ((2 * x + 1) * (2 * x + 1)) :=
        mul_le_mul_of_nonneg_left h1 (by omega)
      have h3 : 0 ≤ 4 * (W * W) * ((y - 1) * (y - 1)) :=
        mul_nonneg (by omega) (mul_self_nonneg _)
      nlinarith
    refine ⟨by omega, hxW', by omega, by omega, by rw [edx]; ring, by rw [edy]; ring, ?_⟩
    rw [ed, edx, edy]
    unfold ellipse_f2
    push_cast
    ring

theorem ellipse_spans_log (clip : SDL_Rect) (x0 y0 x_offset y_offset : Int) (color : Nat)
    (s0 : Surface × DrawnArea) (s : EllipseState) (new : List (Int × Int))
    (hd : Drawn clip color new s0 (s.surf, s.drawn_area)) (hv : valid_depth s0.1) :
    ∃ spans, Drawn clip color (spans ++ new) s0
        (ellipse_spans clip x0 y0 x_offset y_offset color s) ∧
      ∀ p ∈ spans, (p.2 = y0 - s.y ∨ p.2 = y0 + s.y - y_offset) ∧
        min (x0 - s.x) (x0 + s.x - x_offset) ≤ p.1 ∧
        p.1 ≤ max (x0 - s.x) (x0 + s.x - x_offset) := by
  unfold ellipse_spans
  refine ⟨clipped_span clip (x0 - s.x) (y0 + s.y - y_offset) (x0 + s.x - x_offset) ++
    clipped_span clip (x0 - s.x) (y0 - s.y) (x0 + s.x - x_offset), ?_, ?_⟩
  · rw [List.append_assoc]
    exact (hd.hline hv _ _ _).hline hv _ _ _
  · intro p hp
    rcases List.mem_append.mp hp with h | h
    · obtain ⟨h1, h2, h3, -⟩ := (mem_clipped_span _ _ _ _ _).mp h
      exact ⟨Or.inr h1, h2, h3⟩
    · obtain ⟨h1, h2, h3, -⟩ := (mem_clipped_span _ _ _ _ _).mp h
      exact ⟨Or.inl h1, h2, h3⟩

/-- The pixels of the spans drawn for a trace position `(x, y)` with `0 <= x <= W`
and `0 <= y <= H` lie in the box of the ellipse around the moved centre. -/
theorem ellipse_spans_box (x0 y0 x_offset y_offset W H x y : Int) (p : Int × Int)
    (hW : 0 < W) (hH : 0 < H) (hxo : 0 ≤ x_offset ∧ x_offset ≤ 1)
    (hyo : 0 ≤ y_offset ∧ y_offset ≤ 1) (hx : 0 ≤ x ∧ x ≤ W) (hy : 0 ≤ y ∧ y ≤ H)
    (hp : (p.2 = y0 - y ∨ p.2 = y0 + y - y_offset) ∧
      min (x0 - x) (x0 + x - x_offset) ≤ p.1 ∧ p.1 ≤ max (x0 - x) (x0 + x - x_offset)) :
    x0 - W ≤ p.1 ∧ p.1 ≤ x0 + W - x_offset ∧ y0 - H ≤ p.2 ∧ p.2 ≤ y0 + H - y_offset := by
  obtain ⟨h1, h2, h3⟩ := hp
  simp only [min_def, max_def] at h2 h3
  split_ifs at h2 h3 <;> omega

theorem draw_ellipse_filled_body1_spec (clip : SDL_Rect) (x0 y0 x_offset y_offset : Int)
    (color : Nat) (W H : Int) (start : Surface × DrawnArea) (hv : valid_depth start.1)
    (hW : 0 < W) (hH : 0 < H) (hxo : 0 ≤ x_offset ∧ x_offset ≤ 1)
    (hyo : 0 ≤ y_offset ∧ y_offset ≤ 1) (s : EllipseState)
    (hs : EllipseFirst W H s.x s.y s.dx s.dy s.d ∧
      ∃ new, Drawn clip color new start (s.surf, s.drawn_area) ∧
        ∀ p ∈ new, x0 - W ≤ p.1 ∧ p.1 ≤ x0 + W - x_offset ∧ y0 - H ≤ p.2 ∧
          p.2 ≤ y0 + H - y_offset)
    (hc : s.dx < s.dy) :
    (EllipseFirst W H (draw_ellipse_filled_body1 clip x0 y0 x_offset y_offset color W H s).x
        (draw_ellipse_filled_body1 clip x0 y0 x_offset y_offset color W H s).y
        (draw_ellipse_filled_body1 clip x0 y0 x_offset y_offset color W H s).dx
        (draw_ellipse_filled_body1 clip x0 y0 x_offset y_offset color W H s).dy
        (draw_ellipse_filled_body1 clip x0 y0 x_offset y_offset color W H s).d ∧
      ∃ new, Drawn clip color new start
          ((draw_ellipse_filled_body1 clip x0 y0 x_offset y_offset color W H s).surf,
            (draw_ellipse_filled_body1 clip x0 y0 x_offset y_offset color W H s).drawn_area) ∧
        ∀ p ∈ new, x0 - W ≤ p.1 ∧ p.1 ≤ x0 + W - x_offset ∧ y0 - H ≤ p.2 ∧
          p.2 ≤ y0 + H - y_offset) ∧
    (draw_ellipse_filled_body1 clip x0 y0 x_offset y_offset color W H s).x = s.x + 1 ∧
    s.x < W := by
  obtain ⟨hf, new, hd, hbox⟩ := hs
  obtain ⟨hxW, hy1⟩ := ellipse_first_bound hW hH hf hc
  obtain ⟨st1, st2⟩ := ellipse_first_step hW hH hf hc
  obtain ⟨spans, hd1, hsp⟩ := ellipse_spans_log clip x0 y0 x_offset y_offset color start s new
    hd hv
  have hbox1 : ∀ p ∈ spans ++ new, x0 - W ≤ p.1 ∧ p.1 ≤ x0 + W - x_offset ∧ y0 - H ≤ p.2 ∧
      p.2 ≤ y0 + H - y_offset := by
    intro p hp
    rcases List.mem_append.mp hp with h | h
    · exact ellipse_spans_box x0 y0 x_offset y_offset W H s.x s.y p hW hH hxo hyo
        ⟨hf.x_nonneg, hf.x_le⟩ ⟨hf.y_nonneg, hf.y_le⟩ (hsp p h)
    · exact hbox p h
  unfold draw_ellipse_filled_body1
  dsimp only
  by_cases hdn : s.d < 0
  · rw [if_pos hdn]
    exact ⟨⟨st1 hdn, spans ++ new, hd1, hbox1⟩, rfl, hxW⟩
  · rw [if_neg hdn]
    exact ⟨⟨st2 hdn, spans ++ new, hd1, hbox1⟩, rfl, hxW⟩

theorem draw_ellipse_filled_body2_spec (clip : SDL_Rect) (x0 y0 x_offset y_offset : Int)
    (color : Nat) (W H : Int) (start : Surface × DrawnArea) (hv : valid_depth start.1)
    (hW : 0 < W) (hH : 0 < H) (hxo : 0 ≤ x_offset ∧ x_offset ≤ 1)
    (hyo : 0 ≤ y_offset ∧ y_offset ≤ 1) (s : EllipseState)
    (hs : EllipseSecond W H s.x s.y s.dx s.dy s.d ∧
      ∃ new, Drawn clip color new start (s.surf, s.drawn_area) ∧
        ∀ p ∈ new, x0 - W ≤ p.1 ∧ p.1 ≤ x0 + W - x_offset ∧ y0 - H ≤ p.2 ∧
          p.2 ≤ y0 + H - y_offset)
    (hc : 0 ≤ s.y) :
    (EllipseSecond W H (draw_ellipse_filled_body2 clip x0 y0 x_offset y_offset color W H s).x
        (draw_ellipse_filled_body2 clip x0 y0 x_offset y_offset color W H s).y
        (draw_ellipse_filled_body2 clip x0 y0 x_offset y_offset color W H s).dx
        (draw_ellipse_filled_body2 clip x0 y0 x_offset y_offset color W H s).dy
        (draw_ellipse_filled_body2 clip x0 y0 x_offset y_offset color W H s).d ∧
      ∃ new, Drawn clip color new start
          ((draw_ellipse_filled_body2 clip x0 y0 x_offset y_offset color W H s).surf,
            (draw_ellipse_filled_body2 clip x0 y0 x_offset y_offset color W H s).drawn_area) ∧
        ∀ p ∈ new, x0 - W ≤ p.1 ∧ p.1 ≤ x0 + W - x_offset ∧ y0 - H ≤ p.2 ∧
          p.2 ≤ y0 + H - y_offset) ∧
    (draw_ellipse_filled_body2 clip x0 y0 x_offset y_offset color W H s).y = s.y - 1 := by
  obtain ⟨hf, new, hd, hbox⟩ := hs
  obtain ⟨st1, st2⟩ := ellipse_second_step hW hH hf hc
  obtain ⟨spans, hd1, hsp⟩ := ellipse_spans_log clip x0 y0 x_offset y_offset color start s new
    hd hv
  have hbox1 : ∀ p ∈ spans ++ new, x0 - W ≤ p.1 ∧ p.1 ≤ x0 + W - x_offset ∧ y0 - H ≤ p.2 ∧
      p.2 ≤ y0 + H - y_offset := by
    intro p hp
    rcases List.mem_append.mp hp with h | h
    · exact ellipse_spans_box x0 y0 x_offset y_offset W H s.x s.y p hW hH hxo hyo
        ⟨hf.x_nonneg, hf.x_le⟩ ⟨hc, hf.y_le⟩ (hsp p h)
    · exact hbox p h
  unfold draw_ellipse_filled_body2
  dsimp only
  by_cases hdn : s.d > 0
  · rw [if_pos hdn]
    exact ⟨⟨st1 hdn, spans ++ new, hd1, hbox1⟩, rfl⟩
  · rw [if_neg hdn]
    exact ⟨⟨st2 hdn, spans ++ new, hd1, hbox1⟩, rfl⟩

/-- For every rectangle `(x0, y0, w, h)` with `w >= 1` and `h >= 1` and every
clip rectangle, the embedding of `draw_ellipse_filled` returns (both loops end within their bounds:
the first while `x < w/2`, the second after at most `h/2 + 1` rows), and every pixel
it stores lies in the rectangle: `x0 <= x <= x0 + w - 1` and
`y0 <= y <= y0 + h - 1`. -/
theorem draw_ellipse_filled_box (surf : Surface) (clip : SDL_Rect) (x0 y0 w h : Int)
    (color : Nat) (da : DrawnArea) (hv : valid_depth surf) (hw : 1 ≤ w) (hh : 1 ≤ h) :
    ∃ r new, draw_ellipse_filled surf clip x0 y0 w h color da = some r ∧
      Drawn clip color new (surf, da) r ∧
      ∀ p ∈ new, x0 ≤ p.1 ∧ p.1 ≤ x0 + w - 1 ∧ y0 ≤ p.2 ∧ p.2 ≤ y0 + h - 1 := by
  unfold draw_ellipse_filled
  by_cases h1 : w = 1
  · rw [if_pos h1]
    obtain ⟨r, hr, hd⟩ := draw_line_log surf clip x0 y0 x0 (y0 + h - 1) color da hv
    refine ⟨r, _, hr, hd, ?_⟩
    intro p hp
    obtain ⟨k, hk, hpk, -⟩ := (mem_clipped_run _ _ _ _).mp hp
    have hM : (0 : Int) ≤ max |x0 - x0| |y0 + h - 1 - y0| :=
      le_max_of_le_left (abs_nonneg _)
    obtain ⟨-, -, ⟨b1, b2, b3, b4⟩, -⟩ := line_pixel_spec x0 y0 x0 (y0 + h - 1) k (by omega)
      (by omega)
    rw [← hpk] at b1 b2 b3 b4
    simp only [min_def, max_def] at b1 b2 b3 b4
    split_ifs at b1 b2 b3 b4 <;> omega
  · rw [if_neg h1]
    by_cases h2 : h = 1
    · rw [if_pos h2]
      refine ⟨_, _, rfl, drawhorzlineclipbounding_log surf clip color x0 y0 (x0 + w - 1) da hv, ?_⟩
      intro p hp
      obtain ⟨e1, e2, e3, -⟩ := (mem_clipped_span _ _ _ _ _).mp hp
      simp only [min_def, max_def] at e2 e3
      split_ifs at e2 e3 <;> omega
    · rw [if_neg h2]
      dsimp only
      obtain ⟨cw, -⟩ := cdiv_cmod_two w (by omega)
      obtain ⟨ch, -⟩ := cdiv_cmod_two h (by omega)
      obtain ⟨-, mw⟩ := cdiv_cmod_two (w + 1) (by omega)
      obtain ⟨-, mh⟩ := cdiv_cmod_two (h + 1) (by omega)
      rw [cw, ch, mw, mh]
      have hW : 0 < w / 2 := by omega
      have hH : 0 < h / 2 := by omega
      generalize hWe : w / 2 = W at hW
      generalize hHe : h / 2 = H at hH
      generalize hxoe : (w + 1) % 2 = xo
      generalize hyoe : (h + 1) % 2 = yo
      have hxo : 0 ≤ xo ∧ xo ≤ 1 := by omega
      have hyo : 0 ≤ yo ∧ yo ≤ 1 := by omega
      have hA : 0 < H * H := mul_pos hH hH
      have hB : 0 < W * W := mul_pos hW hW
      have hfinal : ∀ p : Int × Int,
          (x0 + W - W ≤ p.1 ∧ p.1 ≤ x0 + W + W - xo ∧ y0 + H - H ≤ p.2 ∧
            p.2 ≤ y0 + H + H - yo) →
          x0 ≤ p.1 ∧ p.1 ≤ x0 + w - 1 ∧ y0 ≤ p.2 ∧ p.2 ≤ y0 + h - 1 := by
        intro p hp
        omega
      have hinit : EllipseFirst W H 0 H (2 * H * H * 0) (2 * W * W * H)
          (((H * H - W * W * H : Int) : Rat) + (1 / 4 : Rat) * (W : Rat) * (W : Rat)) := by
        refine ⟨le_refl _, by omega, by omega, le_refl _, rfl, rfl, ?_, Or.inl ?_⟩
        · unfold ellipse_f1
          push_cast
          ring
        · have : 0 < W * W * H := mul_pos hB hH
          nlinarith
      obtain ⟨r1, e1, ⟨hv1, hf1, new1, hd1, hb1⟩, hc1⟩ := while_loop_terminates
        (fun s : EllipseState => decide (s.dx < s.dy))
        (draw_ellipse_filled_body1 clip (x0 + W) (y0 + H) xo yo color W H)
        (fun s => valid_depth s.surf ∧ EllipseFirst W H s.x s.y s.dx s.dy s.d ∧
          ∃ new, Drawn clip color new (surf, da) (s.surf, s.drawn_area) ∧
            ∀ p ∈ new, x0 + W - W ≤ p.1 ∧ p.1 ≤ x0 + W + W - xo ∧ y0 + H - H ≤ p.2 ∧
              p.2 ≤ y0 + H + H - yo)
        (fun s => (W - s.x).toNat)
        (fun s hs hc => by
          obtain ⟨⟨q1, new, q2, q3⟩, -, -⟩ := draw_ellipse_filled_body1_spec clip (x0 + W)
            (y0 + H) xo yo color W H (surf, da) hv hW hH hxo hyo s hs.2 (by simpa using hc)
          exact ⟨q2.valid hv, q1, new, q2, q3⟩)
        (fun s hs hc => by
          obtain ⟨-, q1, q2⟩ := draw_ellipse_filled_body1_spec clip (x0 + W)
            (y0 + H) xo yo color W H (surf, da) hv hW hH hxo hyo s hs.2 (by simpa using hc)
          dsimp only
          rw [q1]
          omega)
        (W + 1).toNat
        ⟨surf, da, 0, H, 2 * H * H * 0, 2 * W * W * H,
          ((H * H - W * W * H : Int) : Rat) + (1 / 4 : Rat) * (W : Rat) * (W : Rat)⟩
        ⟨hv, hinit, [], Drawn.refl _ _ _, fun p hp => by cases hp⟩
        (by dsimp only; omega)
      rw [e1, Option.some_bind]
      obtain ⟨r2, e2, ⟨hv2, hf2, new2, hd2, hb2⟩, hc2⟩ := while_loop_terminates
        (fun s : EllipseState => decide (s.y ≥ 0))
        (draw_ellipse_filled_body2 clip (x0 + W) (y0 + H) xo yo color W H)
        (fun s => valid_depth s.surf ∧ EllipseSecond W H s.x s.y s.dx s.dy s.d ∧
          ∃ new, Drawn clip color new (surf, da) (s.surf, s.drawn_area) ∧
            ∀ p ∈ new, x0 + W - W ≤ p.1 ∧ p.1 ≤ x0 + W + W - xo ∧ y0 + H - H ≤ p.2 ∧
              p.2 ≤ y0 + H + H - yo)
        (fun s => (s.y + 1).toNat)
        (fun s hs hc => by
          obtain ⟨⟨q1, new, q2, q3⟩, -⟩ := draw_ellipse_filled_body2_spec clip (x0 + W)
            (y0 + H) xo yo color W H (surf, da) hv hW hH hxo hyo s hs.2 (by simpa using hc)
          exact ⟨q2.valid hv, q1, new, q2, q3⟩)
        (fun s hs hc => by
          obtain ⟨-, q1⟩ := draw_ellipse_filled_body2_spec clip (x0 + W)
            (y0 + H) xo yo color W H (surf, da) hv hW hH hxo hyo s hs.2 (by simpa using hc)
          have hy : 0 ≤ s.y := by simpa using hc
          dsimp only
          rw [q1]
          omega)
        (H + 1).toNat
        { r1 with
          d := ((H : Rat) * (H : Rat)) * (((r1.x : Rat) + 1 / 2) * ((r1.x : Rat) + 1 / 2)) +
            ((W : Rat) * (W : Rat)) * (((r1.y - 1) * (r1.y - 1) : Int) : Rat) -
            (W : Rat) * (W : Rat) * (H : Rat) * (H : Rat) }
        ⟨hv1, ellipse_switch hf1, new1, hd1, hb1⟩
        (by
          have := hf1.y_le
          dsimp only
          omega)
      rw [e2]
      exact ⟨_, new2, rfl, hd2, fun p hp => hfinal p (hb2 p hp)⟩

/-- One iteration of the loop of `draw_circle_filled` on the cells drawn so far:
the rows at distance `x + 1` gain the cells up to the new `y`, and, when the new
`f` is not negative, the rows at distance `y` gain the cells up to `x + 1`. -/
theorem draw_circle_filled_body_cells (surf : Surface) (clip : SDL_Rect) (x0 y0 xmax : Int)
    (color : Nat) (da : DrawnArea) (hv : valid_depth surf) (s : CircleState)
    (U B : Int → Int → Prop) (new : List (Int × Int)) (hym : s.y - 1 ≤ xmax)
    (hinv : disc_invariant s.x s.y s.f U B)
    (hd : Drawn clip color new (surf, da) (s.surf, s.drawn_area))
    (hm : ∀ p : Int × Int, p ∈ new ↔ inside clip p ∧
      (U (corner_distance (p.1 - x0)) (corner_distance (p.2 - y0)) ∨
        B (corner_distance (p.1 - x0)) (corner_distance (p.2 - y0))))
    (hc : s.x < s.y) :
    ∃ new1 : List (Int × Int),
      disc_invariant (s.x + 1) (if s.f ≥ 0 then s.y - 1 else s.y) (midpoint_step s).f
        (fun a b => U a b ∨ (b = s.x + 1 ∧ 1 ≤ a ∧ a ≤ (if s.f ≥ 0 then s.y - 1 else s.y)))
        (fun a b => B a b ∨ ((midpoint_step s).f ≥ 0 ∧
          b = (if s.f ≥ 0 then s.y - 1 else s.y) ∧ 1 ≤ a ∧ a ≤ s.x + 1)) ∧
      Drawn clip color (new1 ++ new) (surf, da)
        ((draw_circle_filled_body clip x0 y0 xmax color s).surf,
          (draw_circle_filled_body clip x0 y0 xmax color s).drawn_area) ∧
      (∀ p : Int × Int, p ∈ new1 ++ new ↔ inside clip p ∧
        ((U (corner_distance (p.1 - x0)) (corner_distance (p.2 - y0)) ∨
            (corner_distance (p.2 - y0) = s.x + 1 ∧ 1 ≤ corner_distance (p.1 - x0) ∧
              corner_distance (p.1 - x0) ≤ (if s.f ≥ 0 then s.y - 1 else s.y))) ∨
          (B (corner_distance (p.1 - x0)) (corner_distance (p.2 - y0)) ∨
            ((midpoint_step s).f ≥ 0 ∧
              corner_distance (p.2 - y0) = (if s.f ≥ 0 then s.y - 1 else s.y) ∧
              1 ≤ corner_distance (p.1 - x0) ∧ corner_distance (p.1 - x0) ≤ s.x + 1)))) ∧
      (draw_circle_filled_body clip x0 y0 xmax color s).x = s.x + 1 ∧
      (draw_circle_filled_body clip x0 y0 xmax color s).y =
        (if s.f ≥ 0 then s.y - 1 else s.y) ∧
      (draw_circle_filled_body clip x0 y0 xmax color s).f = (midpoint_step s).f ∧
      (draw_circle_filled_body clip x0 y0 xmax color s).ddF_x = (midpoint_step s).ddF_x ∧
      (draw_circle_filled_body clip x0 y0 xmax color s).ddF_y = (midpoint_step s).ddF_y := by
  obtain ⟨m1, m2, m3, m4⟩ := midpoint_step_eq s
  have hx0 := hinv.x_nonneg
  have hy1 : 1 ≤ (if s.f ≥ 0 then s.y - 1 else s.y) := by
    have := hinv.y_pos
    have := hinv.first
    split <;> omega
  have hyle : (if s.f ≥ 0 then s.y - 1 else s.y) ≤ s.y := by split <;> omega
  have hd0 : Drawn clip color new (surf, da)
      ((midpoint_step s).surf, (midpoint_step s).drawn_area) := by
    rw [m1, m2]; exact hd
  obtain ⟨new1, hd1, hm1⟩ := draw_circle_filled_spans_log clip x0 y0 xmax color
    (midpoint_step s).f (midpoint_step s).x (midpoint_step s).y (surf, da) _ new hd0 hv
    (by rw [m3]; omega) (by rw [m4]; exact hy1) (by rw [m3]; omega) (by rw [m4]; omega)
  have hstep := disc_invariant_step s.x s.y s.f (midpoint_step s).f U B hinv hc
  refine ⟨new1, hstep, hd1, ?_, m3, m4, rfl, rfl, rfl⟩
  intro p
  rw [List.mem_append, hm1, hm, m3, m4]
  have hp1 := corner_distance_pos (p.1 - x0)
  constructor
  · rintro (⟨hin, h | h⟩ | ⟨hin, h | h⟩)
    · exact ⟨hin, Or.inr (Or.inr ⟨h.1, h.2.1, hp1, h.2.2⟩)⟩
    · exact ⟨hin, Or.inl (Or.inr ⟨h.1, hp1, h.2⟩)⟩
    · exact ⟨hin, Or.inl (Or.inl h)⟩
    · exact ⟨hin, Or.inr (Or.inl h)⟩
  · rintro ⟨hin, (h | h) | (h | h)⟩
    · exact Or.inr ⟨hin, Or.inl h⟩
    · exact Or.inl ⟨hin, Or.inr ⟨h.1, h.2.2⟩⟩
    · exact Or.inr ⟨hin, Or.inr h⟩
    · exact Or.inl ⟨hin, Or.inl ⟨h.1, h.2.1, h.2.2.2⟩⟩

/-- For a radius of at least 2 the cells of `draw_circle_filled` form a symmetric
set within distance `radius` that contains the cells `(a, 1)` for `a` up to `radius`:
the first iteration draws the two centre rows over the full width. -/
theorem draw_circle_filled_cells_extreme (surf : Surface) (clip : SDL_Rect)
    (x0 y0 radius : Int) (color : Nat) (da : DrawnArea) (hv : valid_depth surf)
    (hr : 2 ≤ radius)
    (hxm : radius - 1 ≤ (if x0 < 0 then x0 + INT_MAX + 1 else INT_MAX - x0)) :
    ∃ (T : Int → Int → Prop) (new : List (Int × Int)) (r : Surface × DrawnArea),
      draw_circle_filled surf clip x0 y0 radius color da = some r ∧
      Drawn clip color new (surf, da) r ∧
      (∀ p : Int × Int, p ∈ new ↔ inside clip p ∧
        T (corner_distance (p.1 - x0)) (corner_distance (p.2 - y0))) ∧
      (∀ a b, T a b → T b a) ∧
      (∀ a b, T a b → 1 ≤ a ∧ a ≤ radius ∧ 1 ≤ b ∧ b ≤ radius) ∧
      ∀ a, 1 ≤ a → a ≤ radius → T a 1 := by
  have key := while_loop_terminates (fun s : CircleState => decide (s.x < s.y))
    (draw_circle_filled_body clip x0 y0
      (if x0 < 0 then x0 + INT_MAX + 1 else INT_MAX - x0) color)
    (fun s => s.y ≤ radius ∧ (s.x = 0 → s.y = radius ∧ s.f < 0) ∧
      ∃ (U B : Int → Int → Prop) (new : List (Int × Int)),
        disc_invariant s.x s.y s.f U B ∧
        Drawn clip color new (surf, da) (s.surf, s.drawn_area) ∧
        (∀ p : Int × Int, p ∈ new ↔ inside clip p ∧
          (U (corner_distance (p.1 - x0)) (corner_distance (p.2 - y0)) ∨
            B (corner_distance (p.1 - x0)) (corner_distance (p.2 - y0)))) ∧
        (∀ a b, U a b ∨ B a b → 1 ≤ a ∧ a ≤ radius ∧ 1 ≤ b ∧ b ≤ radius) ∧
        (1 ≤ s.x → ∀ a, 1 ≤ a → a ≤ radius → U a 1))
    (fun s => (s.y - s.x).toNat)
    (by
      intro s ⟨hyr, hfirst, U, B, new, hinv, hd, hm, hb, hext⟩ hc
      simp only [decide_eq_true_eq] at hc
      obtain ⟨new1, hstep, hd1, hm1, ex, ey, -, -, -⟩ := draw_circle_filled_body_cells surf
        clip x0 y0 (if x0 < 0 then x0 + INT_MAX + 1 else INT_MAX - x0) color da hv s U B new
        (by omega) hinv hd hm hc
      have hx0 := hinv.x_nonneg
      have hy1 := hinv.y_pos
      have hyle : (if s.f ≥ 0 then s.y - 1 else s.y) ≤ s.y := by split <;> omega
      refine ⟨by rw [ey]; omega, fun h => by rw [ex] at h; omega, _, _, new1 ++ new,
        by rw [ex, ey]; exact hstep, hd1, hm1, ?_, fun _ a ha1 ha2 => ?_⟩
      · rintro a b ((h | h) | (h | h))
        · exact hb a b (Or.inl h)
        · omega
        · exact hb a b (Or.inr h)
        · omega
      · by_cases h0 : s.x = 0
        · obtain ⟨e1, e2⟩ := hfirst h0
          right
          rw [if_neg (by omega), h0, e1]
          omega
        · exact Or.inl (hext (by omega) a ha1 ha2))
    (by
      intro s _ hc
      obtain ⟨m1, m2, m3, m4⟩ := midpoint_step_eq s
      simp only [decide_eq_true_eq] at hc
      show ((midpoint_step s).y - (midpoint_step s).x).toNat < (s.y - s.x).toNat
      rw [m3, m4]
      split <;> omega)
    (radius + 1).toNat ⟨surf, da, 1 - radius, 0, -2 * radius, 0, radius⟩
    ⟨le_refl _, fun _ => ⟨rfl, by show 1 - radius < 0; omega⟩, (fun _ _ => False),
      (fun _ _ => False), [], disc_invariant_init radius hr, Drawn.refl _ _ _,
      fun p => by simp, fun a b h => by simp at h, fun h => by simp at h⟩
    (by simp only; omega)
  obtain ⟨r, hr1, ⟨_, _, U, B, new, hinv, hd, hm, hb, hext⟩, hc⟩ := key
  simp only [decide_eq_false_iff_not] at hc
  refine ⟨fun a b => U a b ∨ B a b, new, (r.surf, r.drawn_area), ?_, hd, hm, ?_, hb,
    fun a ha1 ha2 => Or.inl (hext ?_ a ha1 ha2)⟩
  · simp only [draw_circle_filled, hr1, Option.map_some']
  · intro a b h
    exact disc_invariant_symm r.x r.y r.f U B hinv hc a b h
  · have := hinv.y_pos
    omega

/-- For every radius of at least 1 the cells of `draw_circle_filled` form a symmetric
set within distance `radius` that contains the cells `(a, 1)` for `a` up to `radius`. -/
theorem draw_circle_filled_extreme (surf : Surface) (clip : SDL_Rect)
    (x0 y0 radius : Int) (color : Nat) (da : DrawnArea) (hv : valid_depth surf)
    (hr : 1 ≤ radius)
    (hxm : radius - 1 ≤ (if x0 < 0 then x0 + INT_MAX + 1 else INT_MAX - x0)) :
    ∃ (T : Int → Int → Prop) (new : List (Int × Int)) (r : Surface × DrawnArea),
      draw_circle_filled surf clip x0 y0 radius color da = some r ∧
      Drawn clip color new (surf, da) r ∧
      (∀ p : Int × Int, p ∈ new ↔ inside clip p ∧
        T (corner_distance (p.1 - x0)) (corner_distance (p.2 - y0))) ∧
      (∀ a b, T a b → T b a) ∧
      (∀ a b, T a b → 1 ≤ a ∧ a ≤ radius ∧ 1 ≤ b ∧ b ≤ radius) ∧
      ∀ a, 1 ≤ a → a ≤ radius → T a 1 := by
  by_cases h1 : radius = 1
  · subst h1
    obtain ⟨new, r, hr1, hd, hm⟩ := draw_circle_filled_one surf clip x0 y0 color da hv
      (by simpa using hxm)
    exact ⟨fun a b => a = 1 ∧ b = 1, new, r, hr1, hd, hm, fun a b h => ⟨h.2, h.1⟩,
      fun a b h => by omega, fun a ha1 ha2 => ⟨by omega, rfl⟩⟩
  · exact draw_circle_filled_cells_extreme surf clip x0 y0 radius color da hv (by omega) hxm

/-- C38: for every centre `(x0, y0)` and radius `R >= 1` with the box
`[x0 - R, x0 + R - 1] x [y0 - R, y0 + R - 1]` of the circle inside the clip rectangle
(a rectangle of C `int`s above `INT_MIN`), `draw_circle_filled` returns, every pixel
it writes lies in that box, and it writes the four pixels `(x0 - R, y0)`,
`(x0 + R - 1, y0)`, `(x0, y0 - R)` and `(x0, y0 + R - 1)` on the four sides of the
box; so the drawn area, started from its initial value, ends as
`{x0 - R, y0 - R, x0 + R - 1, y0 + R - 1}`, and `circle` with width 0 and no quadrant
flag returns the rectangle `(x0 - R, y0 - R, 2R, 2R)`. -/
theorem draw_circle_filled_bounding_box (surf : Surface) (clip : SDL_Rect)
    (x0 y0 R : Int) (color : Nat) (hv : valid_depth surf) (hR : 1 ≤ R)
    (hclip : INT_MIN < clip.x ∧ INT_MIN < clip.y ∧ clip.x + clip.w ≤ INT_MAX ∧
      clip.y + clip.h ≤ INT_MAX)
    (hin : clip.x ≤ x0 - R ∧ x0 + R ≤ clip.x + clip.w ∧ clip.y ≤ y0 - R ∧
      y0 + R ≤ clip.y + clip.h) :
    ∃ (new : List (Int × Int)) (r : Surface × DrawnArea),
      draw_circle_filled surf clip x0 y0 R color DrawnArea.init = some r ∧
      Drawn clip color new (surf, DrawnArea.init) r ∧
      (∀ p ∈ new, x0 - R ≤ p.1 ∧ p.1 ≤ x0 + R - 1 ∧ y0 - R ≤ p.2 ∧ p.2 ≤ y0 + R - 1) ∧
      (x0 - R, y0) ∈ new ∧ (x0 + R - 1, y0) ∈ new ∧ (x0, y0 - R) ∈ new ∧
      (x0, y0 + R - 1) ∈ new ∧
      r.2 = ⟨x0 - R, y0 - R, x0 + R - 1, y0 + R - 1⟩ ∧
      circle surf clip color x0 y0 R 0 0 0 0 0 =
        some (.ok (r.1, ⟨x0 - R, y0 - R, 2 * R, 2 * R⟩)) := by
  obtain ⟨c1, c2, c3, c4⟩ := hclip
  obtain ⟨i1, i2, i3, i4⟩ := hin
  have hxm : R - 1 ≤ (if x0 < 0 then x0 + INT_MAX + 1 else INT_MAX - x0) := by
    unfold INT_MIN at c1
    unfold INT_MAX at c3 ⊢
    split <;> omega
  obtain ⟨T, new, r, hr1, hd, hm, hsym, hb, hcen⟩ :=
    draw_circle_filled_extreme surf clip x0 y0 R color DrawnArea.init hv hR hxm
  have hext : T R 1 := hcen R hR (le_refl _)
  have hbox : ∀ p ∈ new, x0 - R ≤ p.1 ∧ p.1 ≤ x0 + R - 1 ∧ y0 - R ≤ p.2 ∧
      p.2 ≤ y0 + R - 1 := by
    intro p hp
    have h := hb _ _ ((hm p).mp hp).2
    rcases corner_distance_cases (p.1 - x0) with ⟨d1, e1⟩ | ⟨d1, e1⟩ <;>
      rcases corner_distance_cases (p.2 - y0) with ⟨d2, e2⟩ | ⟨d2, e2⟩ <;>
      rw [e1, e2] at h <;> omega
  have hcell : ∀ dx dy : Int, T (corner_distance dx) (corner_distance dy) →
      (x0 + dx, y0 + dy) ∈ new := by
    intro dx dy h
    rw [hm]
    have e1 : x0 + dx - x0 = dx := by omega
    have e2 : y0 + dy - y0 = dy := by omega
    simp only [e1, e2]
    refine ⟨?_, h⟩
    have hb1 := hb _ _ h
    unfold inside
    simp only
    rcases corner_distance_cases dx with ⟨d1, e1⟩ | ⟨d1, e1⟩ <;>
      rcases corner_distance_cases dy with ⟨d2, e2⟩ | ⟨d2, e2⟩ <;>
      rw [e1, e2] at hb1 <;> omega
  have cd0 : corner_distance 0 = 1 := by unfold corner_distance; simp
  have cdl : corner_distance (-R) = R := by
    rcases corner_distance_cases (-R) with ⟨d1, e1⟩ | ⟨d1, e1⟩ <;> omega
  have cdr : corner_distance (R - 1) = R := by
    rcases corner_distance_cases (R - 1) with ⟨d1, e1⟩ | ⟨d1, e1⟩ <;> omega
  have p1 : (x0 - R, y0) ∈ new := by
    have h := hcell (-R) 0 (by rw [cdl, cd0]; exact hext)
    have e : x0 + -R = x0 - R := by omega
    simpa only [e, add_zero] using h
  have p2 : (x0 + R - 1, y0) ∈ new := by
    have h := hcell (R - 1) 0 (by rw [cdr, cd0]; exact hext)
    have e : x0 + (R - 1) = x0 + R - 1 := by omega
    simpa only [e, add_zero] using h
  have p3 : (x0, y0 - R) ∈ new := by
    have h := hcell 0 (-R) (by rw [cdl, cd0]; exact hsym _ _ hext)
    have e : y0 + -R = y0 - R := by omega
    simpa only [e, add_zero] using h
  have p4 : (x0, y0 + R - 1) ∈ new := by
    have h := hcell 0 (R - 1) (by rw [cdr, cd0]; exact hsym _ _ hext)
    have e : y0 + (R - 1) = y0 + R - 1 := by omega
    simpa only [e, add_zero] using h
  have hb2 := absorb_bounds new DrawnArea.init
  obtain ⟨a1, a2, a3, a4⟩ := absorb_attained new DrawnArea.init
  have j1 : DrawnArea.init.minx = INT_MAX := rfl
  have j2 : DrawnArea.init.miny = INT_MAX := rfl
  have j3 : DrawnArea.init.maxx = INT_MIN := rfl
  have j4 : DrawnArea.init.maxy = INT_MIN := rfl
  have q1 := hb2 _ p1
  have q2 := hb2 _ p2
  have q3 := hb2 _ p3
  have q4 := hb2 _ p4
  simp only at q1 q2 q3 q4
  have e1 : (absorb new DrawnArea.init).minx = x0 - R := by
    rcases a1 with h | ⟨p, hp, h⟩
    · rw [j1] at h; omega
    · have := hbox p hp; omega
  have e2 : (absorb new DrawnArea.init).miny = y0 - R := by
    rcases a2 with h | ⟨p, hp, h⟩
    · rw [j2] at h; omega
    · have := hbox p hp; omega
  have e3 : (absorb new DrawnArea.init).maxx = x0 + R - 1 := by
    rcases a3 with h | ⟨p, hp, h⟩
    · rw [j3] at h; omega
    · have := hbox p hp; omega
  have e4 : (absorb new DrawnArea.init).maxy = y0 + R - 1 := by
    rcases a4 with h | ⟨p, hp, h⟩
    · rw [j4] at h; omega
    · have := hbox p hp; omega
  have hda : r.2 = ⟨x0 - R, y0 - R, x0 + R - 1, y0 + R - 1⟩ := by
    rw [hd.2.1]
    show absorb new DrawnArea.init = _
    rw [← e1, ← e2, ← e3, ← e4]
  refine ⟨new, r, hr1, hd, hbox, p1, p2, p3, p4, hda, ?_⟩
  have hu : unsupported_depth surf = false := by
    unfold unsupported_depth
    unfold valid_depth at hv
    simp only [decide_eq_false_iff_not]
    omega
  unfold circle
  rw [hu]
  simp only [Bool.false_eq_true, if_false]
  rw [if_neg (by omega)]
  simp only [show ¬ ((0 : Int) > R) by omega, if_false]
  rw [if_neg (by omega)]
  simp only [and_self, if_true, true_or]
  rw [hr1]
  simp only [Option.map_some']
  rw [hda]
  unfold return_rect
  simp only
  unfold INT_MIN at c1 c2
  unfold INT_MAX at c3 c4
  rw [if_pos (by unfold INT_MAX INT_MIN; omega)]
  have w1 : x0 + R - 1 - (x0 - R) + 1 = 2 * R := by omega
  have w2 : y0 + R - 1 - (y0 - R) + 1 = 2 * R := by omega
  rw [w1, w2]

theorem draw_circle_filled_bounding_box_witness :
    valid_depth (Surface.blank 20 20 4) ∧ (1 : Int) ≤ 5 ∧
    (INT_MIN < (SDL_Rect.whole 20 20).x ∧ INT_MIN < (SDL_Rect.whole 20 20).y ∧
      (SDL_Rect.whole 20 20).x + (SDL_Rect.whole 20 20).w ≤ INT_MAX ∧
      (SDL_Rect.whole 20 20).y + (SDL_Rect.whole 20 20).h ≤ INT_MAX) ∧
    ((SDL_Rect.whole 20 20).x ≤ 10 - 5 ∧
      10 + 5 ≤ (SDL_Rect.whole 20 20).x + (SDL_Rect.whole 20 20).w ∧
      (SDL_Rect.whole 20 20).y ≤ 10 - 5 ∧
      10 + 5 ≤ (SDL_Rect.whole 20 20).y + (SDL_Rect.whole 20 20).h) ∧
    ∃ (new : List (Int × Int)) (r : Surface × DrawnArea),
      draw_circle_filled (Surface.blank 20 20 4) (SDL_Rect.whole 20 20) 10 10 5 7
        DrawnArea.init = some r ∧
      Drawn (SDL_Rect.whole 20 20) 7 new (Surface.blank 20 20 4, DrawnArea.init) r ∧
      (∀ p ∈ new, 10 - 5 ≤ p.1 ∧ p.1 ≤ 10 + 5 - 1 ∧ 10 - 5 ≤ p.2 ∧ p.2 ≤ 10 + 5 - 1) ∧
      ((10 : Int) - 5, (10 : Int)) ∈ new ∧ ((10 : Int) + 5 - 1, (10 : Int)) ∈ new ∧
      ((10 : Int), (10 : Int) - 5) ∈ new ∧ ((10 : Int), (10 : Int) + 5 - 1) ∈ new ∧
      r.2 = ⟨10 - 5, 10 - 5, 10 + 5 - 1, 10 + 5 - 1⟩ ∧
      circle (Surface.blank 20 20 4) (SDL_Rect.whole 20 20) 7 10 10 5 0 0 0 0 0 =
        some (.ok (r.1, ⟨10 - 5, 10 - 5, 2 * 5, 2 * 5⟩)) :=
  ⟨by decide, by decide, by decide, by decide,
    draw_circle_filled_bounding_box (Surface.blank 20 20 4) (SDL_Rect.whole 20 20) 10 10 5 7
      (by decide) (by decide) (by decide) (by decide)⟩

/-! ## The filled quadrants and the filled circle -/

/-- Two loops that keep a relation between their states, and test the same
condition on related states, stop together in related states. -/
theorem while_loop_sim {σ τ : Type} (c1 : σ → Bool) (b1 : σ → σ) (c2 : τ → Bool)
    (b2 : τ → τ) (Rel : σ → τ → Prop) (hc : ∀ s t, Rel s t → c1 s = c2 t)
    (hb : ∀ s t, Rel s t → c1 s = true → Rel (b1 s) (b2 t)) :
    ∀ (fuel : Nat) (s : σ) (t : τ), Rel s t → ∀ r, while_loop c1 b1 fuel s = some r →
      ∃ r2, while_loop c2 b2 fuel t = some r2 ∧ Rel r r2 := by
  intro fuel
  induction fuel with
  | zero =>
    intro s t h r hr
    rw [while_loop] at hr ⊢
    rw [← hc s t h]
    by_cases c : c1 s = true
    · rw [if_pos c] at hr
      exact absurd hr (by simp)
    · rw [if_neg c] at hr ⊢
      have e : s = r := Option.some.inj hr
      exact ⟨t, rfl, e ▸ h⟩
  | succ fuel ih =>
    intro s t h r hr
    rw [while_loop] at hr ⊢
    rw [← hc s t h]
    by_cases c : c1 s = true
    · rw [if_pos c] at hr ⊢
      exact ih (b1 s) (b2 t) (hb s t h c) r hr
    · rw [if_neg c] at hr ⊢
      have e : s = r := Option.some.inj hr
      exact ⟨t, rfl, e ▸ h⟩

/-- The pixels of a column loop of `draw_circle_quadrant`: those of column `x` and
rows `lo .. lo + count - 1` that lie inside the clip rectangle. -/
theorem quadrant_column_drawn (clip : SDL_Rect) (color : Nat) (x lo : Int) (count : Nat)
    (s0 r : Surface × DrawnArea) (new : List (Int × Int))
    (hd : Drawn clip color new s0 r) (hv : valid_depth s0.1) :
    ∃ new1, Drawn clip color (new1 ++ new) s0 (quadrant_column clip color x lo count r) ∧
      ∀ p : Int × Int, p ∈ new1 ↔ inside clip p ∧ p.1 = x ∧ lo ≤ p.2 ∧ p.2 < lo + count := by
  obtain ⟨log, hl, hm⟩ := for_loop_drawn_exact clip color
    (fun y1 r => set_and_check_rect r.1 clip x y1 color r.2)
    (fun y1 => if inside clip (x, y1) then [(x, y1)] else [])
    (fun i s hs => set_and_check_rect_drawn s.1 clip x i color s.2 hs) count lo r
    (hd.valid hv)
  refine ⟨log, hd.trans hl, fun p => ?_⟩
  rw [hm]
  constructor
  · rintro ⟨k, hk, h⟩
    by_cases hin : inside clip (x, lo + k)
    · rw [if_pos hin] at h
      have e : p = (x, lo + k) := by simpa using h
      subst e
      exact ⟨hin, rfl, by dsimp only; omega, by dsimp only; omega⟩
    · rw [if_neg hin] at h
      simp at h
  · rintro ⟨hin, h1, h2, h3⟩
    refine ⟨(p.2 - lo).toNat, by omega, ?_⟩
    have e : lo + ((p.2 - lo).toNat : Int) = p.2 := by omega
    rw [e]
    have e2 : (x, p.2) = p := by rw [← h1]
    rw [e2, if_pos hin]
    simp

/-- The eight column loops of one iteration of the filling branch of
`draw_circle_quadrant`, with all four quadrants selected: in corner distances they
are the cells of the columns at distance `y` up to row distance `x` and of the
columns at distance `x` up to row distance `y`. -/
theorem quadrant_fill_chain_cells (clip : SDL_Rect) (x0 y0 : Int) (color : Nat)
    (s0 r : Surface × DrawnArea) (new : List (Int × Int))
    (hd : Drawn clip color new s0 r) (hv : valid_depth s0.1) (x y : Int) (hx : 1 ≤ x)
    (hy : 1 ≤ y) :
    ∃ new1, Drawn clip color (new1 ++ new) s0
        (quadrant_column clip color (x0 + x - 1) y0 (y0 + y - y0).toNat
          (quadrant_column clip color (x0 + y - 1) y0 (y0 + x - y0).toNat
          (quadrant_column clip color (x0 - x) y0 (y0 + y - y0).toNat
          (quadrant_column clip color (x0 - y) y0 (y0 + x - y0).toNat
          (quadrant_column clip color (x0 - x) (y0 - y) (y0 + 1 - (y0 - y)).toNat
          (quadrant_column clip color (x0 - y) (y0 - x) (y0 + 1 - (y0 - x)).toNat
          (quadrant_column clip color (x0 + x - 1) (y0 - y) (y0 + 1 - (y0 - y)).toNat
          (quadrant_column clip color (x0 + y - 1) (y0 - x) (y0 + 1 - (y0 - x)).toNat
            r)))))))) ∧
      ∀ p : Int × Int, p ∈ new1 ↔ inside clip p ∧
        ((corner_distance (p.1 - x0) = y ∧ corner_distance (p.2 - y0) ≤ x) ∨
          (corner_distance (p.1 - x0) = x ∧ corner_distance (p.2 - y0) ≤ y)) := by
  obtain ⟨n1, d1, m1⟩ := quadrant_column_drawn clip color (x0 + y - 1) (y0 - x)
    (y0 + 1 - (y0 - x)).toNat s0 r new hd hv
  obtain ⟨n2, d2, m2⟩ := quadrant_column_drawn clip color (x0 + x - 1) (y0 - y)
    (y0 + 1 - (y0 - y)).toNat s0 _ _ d1 hv
  obtain ⟨n3, d3, m3⟩ := quadrant_column_drawn clip color (x0 - y) (y0 - x)
    (y0 + 1 - (y0 - x)).toNat s0 _ _ d2 hv
  obtain ⟨n4, d4, m4⟩ := quadrant_column_drawn clip color (x0 - x) (y0 - y)
    (y0 + 1 - (y0 - y)).toNat s0 _ _ d3 hv
  obtain ⟨n5, d5, m5⟩ := quadrant_column_drawn clip color (x0 - y) y0
    (y0 + x - y0).toNat s0 _ _ d4 hv
  obtain ⟨n6, d6, m6⟩ := quadrant_column_drawn clip color (x0 - x) y0
    (y0 + y - y0).toNat s0 _ _ d5 hv
  obtain ⟨n7, d7, m7⟩ := quadrant_column_drawn clip color (x0 + y - 1) y0
    (y0 + x - y0).toNat s0 _ _ d6 hv
  obtain ⟨n8, d8, m8⟩ := quadrant_column_drawn clip color (x0 + x - 1) y0
    (y0 + y - y0).toNat s0 _ _ d7 hv
  refine ⟨n8 ++ (n7 ++ (n6 ++ (n5 ++ (n4 ++ (n3 ++ (n2 ++ n1)))))), ?_, fun p => ?_⟩
  · simpa only [List.append_assoc] using d8
  · simp only [List.mem_append, m1, m2, m3, m4, m5, m6, m7, m8]
    rw [corner_distance_eq _ _ hx, corner_distance_eq _ _ hy, corner_distance_le,
      corner_distance_le]
    unfold inside
    constructor
    · intro h; omega
    · rintro ⟨hin, ⟨hc | hc, hr⟩ | ⟨hc | hc, hr⟩⟩
      · by_cases ht : p.2 ≤ y0
        · exact Or.inr (Or.inr (Or.inr (Or.inr (Or.inr (Or.inr (Or.inr
            ⟨hin, by omega, by omega, by omega⟩))))))
        · exact Or.inr (Or.inl ⟨hin, by omega, by omega, by omega⟩)
      · by_cases ht : p.2 ≤ y0
        · exact Or.inr (Or.inr (Or.inr (Or.inr (Or.inr (Or.inl
            ⟨hin, by omega, by omega, by omega⟩)))))
        · exact Or.inr (Or.inr (Or.inr (Or.inl ⟨hin, by omega, by omega, by omega⟩)))
      · by_cases ht : p.2 ≤ y0
        · exact Or.inr (Or.inr (Or.inr (Or.inr (Or.inr (Or.inr (Or.inl
            ⟨hin, by omega, by omega, by omega⟩))))))
        · exact Or.inl ⟨hin, by omega, by omega, by omega⟩
      · by_cases ht : p.2 ≤ y0
        · exact Or.inr (Or.inr (Or.inr (Or.inr (Or.inl
            ⟨hin, by omega, by omega, by omega⟩))))
        · exact Or.inr (Or.inr (Or.inl ⟨hin, by omega, by omega, by omega⟩))

/-- One iteration of the filling branch of `draw_circle_quadrant` with all four
quadrants selected: the trace advances as in `midpoint_step`, and the columns at
distance `y` gain the cells up to row distance `x` and the columns at distance `x`
the cells up to row distance `y`, for the advanced `x` and `y`. -/
theorem draw_circle_quadrant_fill_body_cells (clip : SDL_Rect) (x0 y0 : Int) (color : Nat)
    (top_right top_left bottom_left bottom_right : Int) (h1 : top_right > 0)
    (h2 : top_left > 0) (h3 : bottom_left > 0) (h4 : bottom_right > 0)
    (s0 : Surface × DrawnArea) (hv : valid_depth s0.1) (q : QuadrantState)
    (new : List (Int × Int)) (hd : Drawn clip color new s0 (q.surf, q.drawn_area))
    (hx : 0 ≤ q.x) (hy : 1 ≤ (if q.f ≥ 0 then q.y - 1 else q.y)) :
    ∃ new1, Drawn clip color (new1 ++ new) s0
        ((draw_circle_quadrant_fill_body clip x0 y0 color top_right top_left bottom_left
            bottom_right q).surf,
          (draw_circle_quadrant_fill_body clip x0 y0 color top_right top_left bottom_left
            bottom_right q).drawn_area) ∧
      (∀ p : Int × Int, p ∈ new1 ↔ inside clip p ∧
        ((corner_distance (p.1 - x0) = (if q.f ≥ 0 then q.y - 1 else q.y) ∧
            corner_distance (p.2 - y0) ≤ q.x + 1) ∨
          (corner_distance (p.1 - x0) = q.x + 1 ∧
            corner_distance (p.2 - y0) ≤ (if q.f ≥ 0 then q.y - 1 else q.y)))) ∧
      (draw_circle_quadrant_fill_body clip x0 y0 color top_right top_left bottom_left
        bottom_right q).x = q.x + 1 ∧
      (draw_circle_quadrant_fill_body clip x0 y0 color top_right top_left bottom_left
        bottom_right q).y = (if q.f ≥ 0 then q.y - 1 else q.y) ∧
      (draw_circle_quadrant_fill_body clip x0 y0 color top_right top_left bottom_left
        bottom_right q).f =
          (if q.f ≥ 0 then q.f + (q.ddF_y + 2) else q.f) + (q.ddF_x + 2) + 1 ∧
      (draw_circle_quadrant_fill_body clip x0 y0 color top_right top_left bottom_left
        bottom_right q).ddF_x = q.ddF_x + 2 ∧
      (draw_circle_quadrant_fill_body clip x0 y0 color top_right top_left bottom_left
        bottom_right q).ddF_y = (if q.f ≥ 0 then q.ddF_y + 2 else q.ddF_y) := by
  by_cases c1 : q.f ≥ 0
  · simp only [if_pos c1] at hy ⊢
    obtain ⟨new1, hd1, hm1⟩ := quadrant_fill_chain_cells clip x0 y0 color s0 _ new hd hv
      (q.x + 1) (q.y - 1) (by omega) hy
    refine ⟨new1, ?_, hm1, ?_, ?_, ?_, ?_, ?_⟩
    · simp only [draw_circle_quadrant_fill_body, c1, h1, h2, h3, h4, if_true]
      exact hd1
    all_goals simp only [draw_circle_quadrant_fill_body, c1, if_true]
  · simp only [if_neg c1] at hy ⊢
    obtain ⟨new1, hd1, hm1⟩ := quadrant_fill_chain_cells clip x0 y0 color s0 _ new hd hv
      (q.x + 1) q.y (by omega) hy
    refine ⟨new1, ?_, hm1, ?_, ?_, ?_, ?_, ?_⟩
    · simp only [draw_circle_quadrant_fill_body, c1, h1, h2, h3, h4, if_true, if_false]
      exact hd1
    all_goals simp only [draw_circle_quadrant_fill_body, c1, if_false]

theorem midpoint_step_trace (s : CircleState) :
    (midpoint_step s).f = (if s.f ≥ 0 then s.f + (s.ddF_y + 2) else s.f) + (s.ddF_x + 2) + 1 ∧
    (midpoint_step s).ddF_x = s.ddF_x + 2 ∧
    (midpoint_step s).ddF_y = (if s.f ≥ 0 then s.ddF_y + 2 else s.ddF_y) := by
  unfold midpoint_step
  by_cases h : s.f ≥ 0 <;> simp [h]

/-- For a radius of at least 2, `draw_circle_quadrant` with thickness 0 and all four
quadrants selected returns whenever `draw_circle_filled` does, and stores the same set
of pixels: its loop follows the same trace, and what a column loop stores before the
matching span of the filled circle is drawn lies in a span that was drawn already. -/
theorem draw_circle_quadrant_fill_cells (surf : Surface) (clip : SDL_Rect)
    (x0 y0 radius : Int) (color : Nat) (top_right top_left bottom_left bottom_right : Int)
    (da : DrawnArea) (hv : valid_depth surf) (hr : 2 ≤ radius)
    (hxm : radius - 1 ≤ (if x0 < 0 then x0 + INT_MAX + 1 else INT_MAX - x0))
    (h1 : top_right > 0) (h2 : top_left > 0) (h3 : bottom_left > 0)
    (h4 : bottom_right > 0) :
    ∃ (rD rQ : Surface × DrawnArea) (newD newQ : List (Int × Int)),
      draw_circle_filled surf clip x0 y0 radius color da = some rD ∧
      draw_circle_quadrant surf clip x0 y0 radius 0 color top_right top_left bottom_left
        bottom_right da = some rQ ∧
      Drawn clip color newD (surf, da) rD ∧ Drawn clip color newQ (surf, da) rQ ∧
      ∀ p : Int × Int, p ∈ newQ ↔ p ∈ newD := by
  obtain ⟨T0, new0, r0, hr0, -⟩ :=
    draw_circle_filled_cells surf clip x0 y0 radius color da hv hr hxm
  unfold draw_circle_filled at hr0
  obtain ⟨sD, hsD, -⟩ := Option.map_eq_some'.mp hr0
  have sim := while_loop_sim (fun s : CircleState => decide (s.x < s.y))
    (draw_circle_filled_body clip x0 y0
      (if x0 < 0 then x0 + INT_MAX + 1 else INT_MAX - x0) color)
    (fun s : QuadrantState => decide (s.x < s.y))
    (draw_circle_quadrant_fill_body clip x0 y0 color top_right top_left bottom_left
      bottom_right)
    (fun s q => q.x = s.x ∧ q.y = s.y ∧ q.f = s.f ∧ q.ddF_x = s.ddF_x ∧
      q.ddF_y = s.ddF_y ∧ s.y ≤ radius ∧
      ∃ (U B Q : Int → Int → Prop) (newD newQ : List (Int × Int)),
        disc_invariant s.x s.y s.f U B ∧
        Drawn clip color newD (surf, da) (s.surf, s.drawn_area) ∧
        (∀ p : Int × Int, p ∈ newD ↔ inside clip p ∧
          (U (corner_distance (p.1 - x0)) (corner_distance (p.2 - y0)) ∨
            B (corner_distance (p.1 - x0)) (corner_distance (p.2 - y0)))) ∧
        Drawn clip color newQ (surf, da) (q.surf, q.drawn_area) ∧
        (∀ p : Int × Int, p ∈ newQ ↔ inside clip p ∧
          Q (corner_distance (p.1 - x0)) (corner_distance (p.2 - y0))) ∧
        (∀ a b, U b a ∨ B b a → Q a b) ∧
        (∀ a b, Q a b → (U b a ∨ B b a) ∨ (U a b ∨ B a b)))
    (by
      intro s q ⟨e1, e2, _⟩
      show decide (s.x < s.y) = decide (q.x < q.y)
      rw [e1, e2])
    (by
      intro s q ⟨e1, e2, e3, e4, e5, hyr, U, B, Q, newD, newQ, hinv, hdD, hmD, hdQ, hmQ,
        hsub, hsup⟩ hc
      simp only [decide_eq_true_eq] at hc
      have hx0 := hinv.x_nonneg
      have hy1 : 1 ≤ (if s.f ≥ 0 then s.y - 1 else s.y) := by
        have := hinv.y_pos
        have := hinv.first
        split <;> omega
      have hyle : (if s.f ≥ 0 then s.y - 1 else s.y) ≤ s.y := by split <;> omega
      obtain ⟨nD, hstep, hdD1, hmD1, ex, ey, ef, edx, edy⟩ := draw_circle_filled_body_cells
        surf clip x0 y0 (if x0 < 0 then x0 + INT_MAX + 1 else INT_MAX - x0) color da hv s U B
        newD (by omega) hinv hdD hmD hc
      obtain ⟨nQ, hdQ1, hmQ1, qx, qy, qf, qdx, qdy⟩ := draw_circle_quadrant_fill_body_cells
        clip x0 y0 color top_right top_left bottom_left bottom_right h1 h2 h3 h4 (surf, da)
        hv q newQ hdQ (by rw [e1]; exact hx0) (by rw [e3, e2]; exact hy1)
      obtain ⟨t1, t2, t3⟩ := midpoint_step_trace s
      rw [e1] at qx
      rw [e3, e2] at qy
      rw [e3, e4, e5] at qf
      rw [e4] at qdx
      rw [e3, e5] at qdy
      refine ⟨by rw [qx, ex], by rw [qy, ey], by rw [qf, ef, t1], by rw [qdx, edx, t2],
        by rw [qdy, edy, t3], by rw [ey]; omega, _, _,
        (fun a b => Q a b ∨ (a = (if s.f ≥ 0 then s.y - 1 else s.y) ∧ 1 ≤ b ∧ b ≤ s.x + 1) ∨
          (a = s.x + 1 ∧ 1 ≤ b ∧ b ≤ (if s.f ≥ 0 then s.y - 1 else s.y))),
        nD ++ newD, nQ ++ newQ, by rw [ex, ey, ef]; exact hstep, hdD1, hmD1, hdQ1, ?_, ?_, ?_⟩
      · intro p
        rw [List.mem_append, hmQ1, hmQ, e1, e2, e3]
        have hp2 := corner_distance_pos (p.2 - y0)
        constructor
        · rintro (⟨hin, h | h⟩ | ⟨hin, h⟩)
          · exact ⟨hin, Or.inr (Or.inl ⟨h.1, hp2, h.2⟩)⟩
          · exact ⟨hin, Or.inr (Or.inr ⟨h.1, hp2, h.2⟩)⟩
          · exact ⟨hin, Or.inl h⟩
        · rintro ⟨hin, h | h | h⟩
          · exact Or.inr ⟨hin, h⟩
          · exact Or.inl ⟨hin, Or.inl ⟨h.1, h.2.2⟩⟩
          · exact Or.inl ⟨hin, Or.inr ⟨h.1, h.2.2⟩⟩
      · rintro a b ((h | h) | (h | h))
        · exact Or.inl (hsub a b (Or.inl h))
        · exact Or.inr (Or.inr h)
        · exact Or.inl (hsub a b (Or.inr h))
        · exact Or.inr (Or.inl ⟨h.2.1, h.2.2.1, h.2.2.2⟩)
      · rintro a b (h | h | h)
        · rcases hsup a b h with (h | h) | (h | h)
          · exact Or.inl (Or.inl (Or.inl h))
          · exact Or.inl (Or.inr (Or.inl h))
          · exact Or.inr (Or.inl (Or.inl h))
          · exact Or.inr (Or.inr (Or.inl h))
        · exact Or.inr (Or.inl (hstep.U_full a b h.2.1 h.2.2 (by omega) (by omega)))
        · exact Or.inl (Or.inl (Or.inr h)))
    (radius + 1).toNat ⟨surf, da, 1 - radius, 0, -2 * radius, 0, radius⟩
    { surf := surf, drawn_area := da, f := 1 - radius, ddF_x := 0
      ddF_y := -2 * radius, x := 0, y := radius, i_y := radius - 0, i_f := 1 - (radius - 0)
      i_ddF_x := 0, i_ddF_y := -2 * (radius - 0), thickness := 0 }
    ⟨rfl, rfl, rfl, rfl, rfl, le_refl _, (fun _ _ => False), (fun _ _ => False),
      (fun _ _ => False), [], [], disc_invariant_init radius hr, Drawn.refl _ _ _,
      fun p => by simp, Drawn.refl _ _ _, fun p => by simp, fun a b h => by simp at h,
      fun a b h => by simp at h⟩
    sD hsD
  obtain ⟨sQ, hsQ, e1, e2, -, -, -, -, U, B, Q, newD, newQ, hinv, hdD, hmD, hdQ, hmQ, hsub,
    hsup⟩ := sim
  have hcond : ¬ sD.x < sD.y := by
    have h := (while_loop_inv _ _ (fun _ => True) (fun _ _ _ => trivial) _ _ _ trivial hsD).2
    simpa using h
  refine ⟨(sD.surf, sD.drawn_area), (sQ.surf, sQ.drawn_area), newD, newQ, ?_, ?_, hdD, hdQ,
    fun p => ?_⟩
  · simp only [draw_circle_filled, hsD, Option.map_some']
  · unfold draw_circle_quadrant
    dsimp only
    rw [if_neg (by omega), if_neg (by simp), hsQ]
    rfl
  · rw [hmQ, hmD]
    constructor
    · rintro ⟨hin, h⟩
      refine ⟨hin, ?_⟩
      rcases hsup _ _ h with h | h
      · exact disc_invariant_symm sD.x sD.y sD.f U B hinv hcond _ _ h
      · exact h
    · rintro ⟨hin, h⟩
      exact ⟨hin, hsub _ _ (disc_invariant_symm sD.x sD.y sD.f U B hinv hcond _ _ h)⟩

theorem absorb_le_of_subset (l1 l2 : List (Int × Int)) (da : DrawnArea)
    (h : ∀ p ∈ l2, p ∈ l1) :
    (absorb l1 da).minx ≤ (absorb l2 da).minx ∧ (absorb l1 da).miny ≤ (absorb l2 da).miny ∧
      (absorb l2 da).maxx ≤ (absorb l1 da).maxx ∧
      (absorb l2 da).maxy ≤ (absorb l1 da).maxy := by
  obtain ⟨a1, a2, a3, a4⟩ := absorb_attained l2 da
  obtain ⟨m1, m2, m3, m4⟩ := absorb_mono l1 da
  have hb := absorb_bounds l1 da
  refine ⟨?_, ?_, ?_, ?_⟩
  · rcases a1 with e | ⟨p, hp, e⟩
    · omega
    · have := hb p (h p hp); omega
  · rcases a2 with e | ⟨p, hp, e⟩
    · omega
    · have := hb p (h p hp); omega
  · rcases a3 with e | ⟨p, hp, e⟩
    · omega
    · have := hb p (h p hp); omega
  · rcases a4 with e | ⟨p, hp, e⟩
    · omega
    · have := hb p (h p hp); omega

/-- The accumulator depends only on the set of pixels absorbed. -/
theorem absorb_congr (l1 l2 : List (Int × Int)) (da : DrawnArea)
    (h : ∀ p, p ∈ l1 ↔ p ∈ l2) : absorb l1 da = absorb l2 da := by
  obtain ⟨a1, a2, a3, a4⟩ := absorb_le_of_subset l1 l2 da (fun p hp => (h p).mpr hp)
  obtain ⟨b1, b2, b3, b4⟩ := absorb_le_of_subset l2 l1 da (fun p hp => (h p).mp hp)
  have ext : ∀ a b : DrawnArea, a.minx = b.minx → a.miny = b.miny → a.maxx = b.maxx →
      a.maxy = b.maxy → a = b := by
    intro a b e1 e2 e3 e4
    cases a
    cases b
    simp only at e1 e2 e3 e4
    rw [e1, e2, e3, e4]
  exact ext _ _ (by omega) (by omega) (by omega) (by omega)

/-- For radius 1 `draw_circle_quadrant` with all four quadrants selected stores the
pixels of the 2x2 block around the pixel corner that lie inside the clip
rectangle. -/
theorem draw_circle_quadrant_one (surf : Surface) (clip : SDL_Rect) (x0 y0 thickness : Int)
    (color : Nat) (top_right top_left bottom_left bottom_right : Int) (da : DrawnArea)
    (hv : valid_depth surf) (h1 : top_right > 0) (h2 : top_left > 0)
    (h3 : bottom_left > 0) (h4 : bottom_right > 0) :
    ∃ (new : List (Int × Int)) (r : Surface × DrawnArea),
      draw_circle_quadrant surf clip x0 y0 1 thickness color top_right top_left bottom_left
        bottom_right da = some r ∧
      Drawn clip color new (surf, da) r ∧
      ∀ p : Int × Int, p ∈ new ↔ inside clip p ∧
        (corner_distance (p.1 - x0) = 1 ∧ corner_distance (p.2 - y0) = 1) := by
  have d1 := set_and_check_rect_drawn surf clip x0 (y0 - 1) color da hv
  generalize hr1 : set_and_check_rect surf clip x0 (y0 - 1) color da = r1 at d1
  have d2 := d1.trans (set_and_check_rect_drawn r1.1 clip (x0 - 1) (y0 - 1) color r1.2
    (d1.valid hv))
  generalize hr2 : set_and_check_rect r1.1 clip (x0 - 1) (y0 - 1) color r1.2 = r2 at d2
  have d3 := d2.trans (set_and_check_rect_drawn r2.1 clip (x0 - 1) y0 color r2.2
    (d2.valid hv))
  generalize hr3 : set_and_check_rect r2.1 clip (x0 - 1) y0 color r2.2 = r3 at d3
  have d4 := d3.trans (set_and_check_rect_drawn r3.1 clip x0 y0 color r3.2 (d3.valid hv))
  generalize hr4 : set_and_check_rect r3.1 clip x0 y0 color r3.2 = r4 at d4
  refine ⟨_, r4, ?_, d4, fun p => ?_⟩
  · unfold draw_circle_quadrant
    simp only [if_true, h1, h2, h3, h4]
    rw [hr1, hr2, hr3, hr4]
  · simp only [List.mem_append]
    have hp : ∀ (a b : Int), (p ∈ (if inside clip (a, b) then [(a, b)] else []) ↔
        inside clip p ∧ p.1 = a ∧ p.2 = b) := by
      intro a b
      by_cases hin : inside clip (a, b)
      · rw [if_pos hin]
        constructor
        · intro h
          have e : p = (a, b) := by simpa using h
          subst e
          exact ⟨hin, rfl, rfl⟩
        · rintro ⟨-, e1, e2⟩
          have e : p = (a, b) := Prod.ext e1 e2
          rw [e]
          simp
      · rw [if_neg hin]
        constructor
        · intro h; simp at h
        · rintro ⟨h, e1, e2⟩
          have e : p = (a, b) := Prod.ext e1 e2
          rw [e] at h
          exact absurd h hin
    rw [hp, hp, hp, hp]
    unfold inside
    rcases corner_distance_cases (p.1 - x0) with ⟨c1, e1⟩ | ⟨c1, e1⟩ <;>
      rcases corner_distance_cases (p.2 - y0) with ⟨c2, e2⟩ | ⟨c2, e2⟩ <;>
      rw [e1, e2] <;> constructor <;> intro h <;> omega

/-- The log of a state reached from `s0` is determined by the state. -/
theorem Drawn.log_unique {clip : SDL_Rect} {color : Nat} {n1 n2 : List (Int × Int)}
    {s0 s : Surface × DrawnArea} (h1 : Drawn clip color n1 s0 s)
    (h2 : Drawn clip color n2 s0 s) : n1 = n2 := by
  have e : n1 ++ s0.1.written = n2 ++ s0.1.written := by
    rw [← replay_written color n1 s0.1, ← replay_written color n2 s0.1, ← h1.1, ← h2.1]
  exact List.append_cancel_right e

/-- The advance of the inner trace leaves the surface and the drawn area alone. -/
theorem ring_inner_advance_frame (Ai : Int) (fuel : Nat) (S r : RingState)
    (h : ring_inner_advance Ai fuel S = some r) :
    r.surf = S.surf ∧ r.drawn_area = S.drawn_area := by
  unfold ring_inner_advance at h
  by_cases hl : S.line = true
  · rw [if_pos hl] at h
    have e := Option.some.inj h
    subst e
    exact ⟨rfl, rfl⟩
  · rw [if_neg hl] at h
    by_cases hr : S.dx_inner < S.dy_inner
    · rw [if_pos hr] at h
      unfold ring_inner_region1 at h
      obtain ⟨u, -, e⟩ := Option.map_eq_some'.mp h
      rw [← e]
      exact ⟨rfl, rfl⟩
    · rw [if_neg hr] at h
      have e := Option.some.inj h
      subst e
      unfold ring_inner_region2
      dsimp only
      split <;> exact ⟨rfl, rfl⟩

/-- What the body of the second loop of `draw_circle_bresenham` does to the surface
and the drawn area is to draw the spans of the current row. -/
theorem draw_circle_bresenham_body2_frame (clip : SDL_Rect) (x0 y0 : Int) (color : Nat)
    (A Ri Ai : Int) (fuel : Nat) (s r : RingState)
    (h : draw_circle_bresenham_body2 clip x0 y0 color A Ri Ai fuel s = some r) :
    (r.surf, r.drawn_area) = ring_spans clip x0 y0 color s := by
  rw [draw_circle_bresenham_body2_eq] at h
  obtain ⟨e1, e2⟩ := ring_inner_advance_frame _ _ _ _ h
  rw [e1, e2]
  by_cases h1 : s.d1 > 0
  · simp only [if_pos h1]
    rfl
  · simp only [if_neg h1]
    rfl

/-- What the body of the first loop of `draw_circle_bresenham` does to the surface
and the drawn area is to draw the spans of the current row, at the column the skip
loop stops at. -/
theorem draw_circle_bresenham_body1_frame (clip : SDL_Rect) (x0 y0 : Int) (color : Nat)
    (A Ri Ai : Int) (fuel : Nat) (s r : RingState)
    (h : draw_circle_bresenham_body1 clip x0 y0 color A Ri Ai fuel s = some r) :
    ∃ u, ring_skip A fuel (s.x, s.dx, s.d1) = some u ∧
      (r.surf, r.drawn_area) =
        ring_spans clip x0 y0 color { s with x := u.1, dx := u.2.1, d1 := u.2.2 } := by
  rw [draw_circle_bresenham_body1_eq] at h
  obtain ⟨u, hu, h2⟩ := Option.bind_eq_some.mp h
  refine ⟨u, hu, ?_⟩
  split at h2
  · have e := Option.some.inj h2
    subst e
    rfl
  · unfold ring_inner_region1 at h2
    obtain ⟨v, -, e⟩ := Option.map_eq_some'.mp h2
    rw [← e]
    rfl

/-- The spans of a row of the ring lie in the box of the circle, as long as the
traces are within the radius. -/
theorem ring_spans_box (clip : SDL_Rect) (x0 y0 R : Int) (color : Nat)
    (s0 : Surface × DrawnArea) (s : RingState) (new : List (Int × Int))
    (hd : Drawn clip color new s0 (s.surf, s.drawn_area)) (hv : valid_depth s0.1)
    (hR : 1 ≤ R) (hxi : 0 ≤ s.x_inner) (hxx : s.x_inner ≤ s.x) (hx : s.x ≤ R)
    (hy0 : 0 ≤ s.y) (hy : s.y ≤ R) :
    ∃ spans, Drawn clip color (spans ++ new) s0 (ring_spans clip x0 y0 color s) ∧
      ∀ p ∈ spans, circle_box x0 y0 R p := by
  unfold ring_spans
  by_cases hl : s.line = true
  · rw [if_pos hl]
    refine ⟨clipped_span clip (x0 - s.x) (y0 + s.y - 1) (x0 + s.x - 1) ++
      clipped_span clip (x0 - s.x) (y0 - s.y) (x0 + s.x - 1), ?_, ?_⟩
    · rw [List.append_assoc]
      exact (hd.hline hv _ _ _).hline hv _ _ _
    · intro p hp
      simp only [List.mem_append, mem_clipped_span, min_def, max_def] at hp
      unfold circle_box
      split_ifs at hp <;> omega
  · rw [if_neg hl]
    refine ⟨clipped_span clip (x0 + s.x_inner - 1) (y0 + s.y - 1) (x0 + s.x - 1) ++
      (clipped_span clip (x0 + s.x_inner - 1) (y0 - s.y) (x0 + s.x - 1) ++
        (clipped_span clip (x0 - s.x) (y0 + s.y - 1) (x0 - s.x_inner) ++
          clipped_span clip (x0 - s.x) (y0 - s.y) (x0 - s.x_inner))), ?_, ?_⟩
    · rw [List.append_assoc, List.append_assoc, List.append_assoc]
      exact (((hd.hline hv _ _ _).hline hv _ _ _).hline hv _ _ _).hline hv _ _ _
    · intro p hp
      simp only [List.mem_append, mem_clipped_span, min_def, max_def] at hp
      unfold circle_box
      split_ifs at hp <;> omega

/-- The body of the first loop of `draw_circle_bresenham` keeps the log inside the box
of the circle. -/
theorem draw_circle_bresenham_body1_box (clip : SDL_Rect) (x0 y0 R t : Int) (color : Nat)
    (start : Surface × DrawnArea) (hv : valid_depth start.1) (ht : 2 ≤ t) (htR : t < R)
    (fuel : Nat) (hf : R.toNat ≤ fuel) (s : RingState)
    (hinv : ring_invariant clip x0 y0 R t color start true s) (hc : s.dx < s.dy)
    (new : List (Int × Int)) (hd : Drawn clip color new start (s.surf, s.drawn_area))
    (r : RingState)
    (e : draw_circle_bresenham_body1 clip x0 y0 color (R * R) (R - t + 1)
      ((R - t + 1) * (R - t + 1)) fuel s = some r) :
    ∃ spans, Drawn clip color (spans ++ new) start (r.surf, r.drawn_area) ∧
      ∀ p ∈ spans, circle_box x0 y0 R p := by
  obtain ⟨ho, hi, -⟩ := hinv
  have hA : 0 < R * R := by nlinarith
  have hxy : s.x < s.y := by
    rw [ho.dx_eq, ho.dy_eq] at hc
    exact (ring_scaled_lt _ _ _ hA).mp hc
  have hx0 := ho.x_nonneg
  obtain ⟨xs, e0, h1, h2, h3⟩ := ring_skip_spec (R * R) s.y R hA
    (fun a ha h => ring_f1_neg_bound R a s.y ha (by omega) h) fuel s.x hx0 (by omega)
  have e1 : ring_skip (R * R) fuel (s.x, s.dx, s.d1) =
      some (xs, 2 * (R * R) * xs, ring_decision (R * R) (ring_f1 (R * R) xs s.y)) := by
    rw [ho.dx_eq, ho.d1_first rfl]; exact e0
  obtain ⟨-, hxs⟩ := ring_outer_first_step ho hxy (by omega) xs h1 h2 h3
  obtain ⟨u, hu, hfr⟩ := draw_circle_bresenham_body1_frame _ _ _ _ _ _ _ _ _ _ e
  rw [e1] at hu
  have eu := Option.some.inj hu
  subst eu
  have hyR := ho.y_le
  have hxi := hi.x_nonneg
  have hxo := hi.x_le_outer
  obtain ⟨spans, hd1, hb⟩ := ring_spans_box clip x0 y0 R color start
    { s with x := xs, dx := 2 * (R * R) * xs,
             d1 := ring_decision (R * R) (ring_f1 (R * R) xs s.y) } new hd hv (by omega)
    hxi (by show s.x_inner ≤ xs; omega) (by show xs ≤ R; omega) (by show 0 ≤ s.y; omega)
    hyR
  exact ⟨spans, by rw [hfr]; exact hd1, hb⟩

/-- The body of the second loop of `draw_circle_bresenham` keeps the log inside the
box of the circle. -/
theorem draw_circle_bresenham_body2_box (clip : SDL_Rect) (x0 y0 R t : Int) (color : Nat)
    (start : Surface × DrawnArea) (hv : valid_depth start.1) (hR : 1 ≤ R)
    (fuel : Nat) (s : RingState)
    (hinv : ring_invariant clip x0 y0 R t color start false s) (hy : 0 ≤ s.y)
    (new : List (Int × Int)) (hd : Drawn clip color new start (s.surf, s.drawn_area))
    (r : RingState)
    (e : draw_circle_bresenham_body2 clip x0 y0 color (R * R) (R - t + 1)
      ((R - t + 1) * (R - t + 1)) fuel s = some r) :
    ∃ spans, Drawn clip color (spans ++ new) start (r.surf, r.drawn_area) ∧
      ∀ p ∈ spans, circle_box x0 y0 R p := by
  obtain ⟨ho, hi, -⟩ := hinv
  have hfr := draw_circle_bresenham_body2_frame _ _ _ _ _ _ _ _ _ _ e
  obtain ⟨spans, hd1, hb⟩ := ring_spans_box clip x0 y0 R color start s new hd hv hR
    hi.x_nonneg hi.x_le_outer ho.x_le hy ho.y_le
  exact ⟨spans, by rw [hfr]; exact hd1, hb⟩

/-- For `2 <= t < R` and the circle inside the clip rectangle `draw_circle_bresenham`
returns, every pixel it writes lies in the box of the circle, and on the two centre
rows it writes exactly the two runs of `t` pixels at the ends of the row. -/
theorem draw_circle_bresenham_box_rows (surf : Surface) (clip : SDL_Rect)
    (x0 y0 R t : Int) (color : Nat) (da : DrawnArea) (hv : valid_depth surf) (ht : 2 ≤ t)
    (htR : t < R)
    (hclip : clip.x ≤ x0 - R ∧ x0 + R ≤ clip.x + clip.w ∧ clip.y ≤ y0 - R ∧
      y0 + R ≤ clip.y + clip.h) :
    ∃ r new, draw_circle_bresenham surf clip x0 y0 R t color da = some r ∧
      Drawn clip color new (surf, da) r ∧ (∀ p ∈ new, circle_box x0 y0 R p) ∧
      ∀ p : Int × Int, (p.2 = y0 - 1 ∨ p.2 = y0) → (p ∈ new ↔ ring_ends x0 R t p) := by
  have hA : 0 < R * R := by nlinarith
  unfold draw_circle_bresenham
  dsimp only
  have hfuel : (R + 1).toNat ≤ (abs R + abs (R - t + 1) + 2).toNat := by
    unfold abs
    rw [if_neg (by omega), if_neg (by omega)]
    omega
  generalize (abs R + abs (R - t + 1) + 2).toNat = fuel at hfuel
  have h0 : ring_invariant clip x0 y0 R t color (surf, da) true
      { surf := surf, drawn_area := da, x := 0, y := R
        d1 := ((R * R : Int) : Rat) * (5 / 4 - (R : Rat))
        dx := 0, dy := 2 * (R * R) * R, line := true
        x_inner := 0, y_inner := R - t + 1
        d1_inner := (((R - t + 1) * (R - t + 1) : Int) : Rat) * (5 / 4 - ((R - t + 1 : Int) : Rat))
        d2_inner := 0, dx_inner := 0
        dy_inner := 2 * ((R - t + 1) * (R - t + 1)) * (R - t + 1) } := by
    unfold ring_invariant
    dsimp only
    refine ⟨⟨le_refl _, by omega, le_refl _, by omega, by omega, by ring, rfl, ?_, ?_, ?_, ?_⟩,
      ⟨fun _ => ⟨by omega, rfl, rfl, rfl⟩, ?_, le_refl _, le_refl _, by omega, le_refl _,
        by ring, rfl, Or.inl ⟨rfl, ?_⟩, Or.inl ?_⟩, [], Drawn.refl _ _ _, ?_, ?_⟩
    · intro _; exact ring_decision_start R
    · intro _
      show 0 ≤ ring_f1 (R * R) (0 - 1) (R + 1)
      unfold ring_f1
      nlinarith
    · intro hf; cases hf
    · intro hf; cases hf
    · intro hf; cases hf
    · exact ring_decision_start (R - t + 1)
    · show 0 ≤ ring_f1 ((R - t + 1) * (R - t + 1)) (0 - 1) (R - t + 1 + 1)
      unfold ring_f1
      nlinarith
    · intro _ p hp
      cases hp
    · intro hR
      have : R ≤ 0 := hR
      omega
  obtain ⟨r1, e1, ⟨hr1, hb1⟩, hc1⟩ := while_loop_opt_terminates
    (fun s : RingState => decide (s.dx < s.dy))
    (draw_circle_bresenham_body1 clip x0 y0 color (R * R) (R - t + 1)
      ((R - t + 1) * (R - t + 1)) fuel)
    (fun s => ring_invariant clip x0 y0 R t color (surf, da) true s ∧
      ∃ new, Drawn clip color new (surf, da) (s.surf, s.drawn_area) ∧
        ∀ p ∈ new, circle_box x0 y0 R p)
    (fun s => (s.y + 1).toNat)
    (fun s ⟨hs, new, hd, hb⟩ hc => by
      have hc1 : s.dx < s.dy := by simpa using hc
      obtain ⟨r, e, hr, hy⟩ := draw_circle_bresenham_body1_spec clip x0 y0 R t color
        (surf, da) hv ht htR fuel (by omega) s hs hc1
      obtain ⟨spans, hd1, hb1⟩ := draw_circle_bresenham_body1_box clip x0 y0 R t color
        (surf, da) hv ht htR fuel (by omega) s hs hc1 new hd r e
      refine ⟨r, e, ⟨hr, spans ++ new, hd1, ?_⟩, ?_⟩
      · intro p hp
        rcases List.mem_append.mp hp with h | h
        · exact hb1 p h
        · exact hb p h
      · have h1 := hs.1.y_ge
        have hx := hs.1.x_nonneg
        have hxy : s.x < s.y := by
          rw [hs.1.dx_eq, hs.1.dy_eq] at hc1
          exact (ring_scaled_lt _ _ _ hA).mp hc1
        dsimp only
        rw [hy]
        omega)
    fuel _ ⟨h0, [], Drawn.refl _ _ _, fun p hp => by cases hp⟩ hfuel
  rw [e1, Option.some_bind]
  have hxy : ¬ r1.x < r1.y := by
    have hc : ¬ r1.dx < r1.dy := by simpa using hc1
    rw [hr1.1.dx_eq, hr1.1.dy_eq] at hc
    intro h
    exact hc ((ring_scaled_lt _ _ _ hA).mpr h)
  have h2 : ring_invariant clip x0 y0 R t color (surf, da) false
      { r1 with
        d1 := ((R * R : Int) : Rat) *
          (((r1.x : Rat) + 1 / 2) * ((r1.x : Rat) + 1 / 2) +
            (((r1.y - 1) * (r1.y - 1) : Int) : Rat) - ((R * R : Int) : Rat)) } := by
    obtain ⟨ho, hi, new, hd, hr⟩ := hr1
    have hsw := ring_outer_switch ho hxy
    rw [← ring_decision_second] at hsw
    exact ⟨hsw, hi, new, hd, hr⟩
  have hyR := hr1.1.y_le
  obtain ⟨r2, e2, ⟨hr2, new2, hd2, hb2⟩, hc2⟩ := while_loop_opt_terminates
    (fun s : RingState => decide (s.y ≥ 0))
    (draw_circle_bresenham_body2 clip x0 y0 color (R * R) (R - t + 1)
      ((R - t + 1) * (R - t + 1)) fuel)
    (fun s => ring_invariant clip x0 y0 R t color (surf, da) false s ∧
      ∃ new, Drawn clip color new (surf, da) (s.surf, s.drawn_area) ∧
        ∀ p ∈ new, circle_box x0 y0 R p)
    (fun s => (s.y + 1).toNat)
    (fun s ⟨hs, new, hd, hb⟩ hc => by
      have hc1 : 0 ≤ s.y := by simpa using hc
      obtain ⟨r, e, hr, hy⟩ := draw_circle_bresenham_body2_spec clip x0 y0 R t color
        (surf, da) hv ht htR hclip fuel (by omega) s hs hc1
      obtain ⟨spans, hd1, hb1⟩ := draw_circle_bresenham_body2_box clip x0 y0 R t color
        (surf, da) hv (by omega) fuel s hs hc1 new hd r e
      refine ⟨r, e, ⟨hr, spans ++ new, hd1, ?_⟩, ?_⟩
      · intro p hp
        rcases List.mem_append.mp hp with h | h
        · exact hb1 p h
        · exact hb p h
      · dsimp only
        rw [hy]
        omega)
    fuel _ ⟨h2, hb1⟩ (by dsimp only; omega)
  rw [e2]
  obtain ⟨ho, hi, new, hd, hr⟩ := hr2
  have hy : r2.y ≤ 0 := by
    have : ¬ 0 ≤ r2.y := by simpa using hc2
    omega
  have en : new2 = new := hd2.log_unique hd
  subst en
  exact ⟨_, new2, rfl, hd, hb2, hr.2 hy⟩

set_option maxRecDepth 100000 in
/-- C36, as stated, fails: around the centre `(5, 5)` the stroked circle of radius 4
and thickness 2 writes the pixel `(1, 3)`, which the filled circle of radius 4 does
not: on row 3 the filled circle covers the columns 2 to 7, the stroked circle the
columns 1 to 3 and 6 to 8. -/
theorem draw_circle_bresenham_outside_disc :
    ∃ rR rD,
      draw_circle_bresenham (Surface.blank 10 10 4) (SDL_Rect.whole 10 10) 5 5 4 2 7
        DrawnArea.init = some rR ∧
      draw_circle_filled (Surface.blank 10 10 4) (SDL_Rect.whole 10 10) 5 5 4 7
        DrawnArea.init = some rD ∧
      ((1 : Int), (3 : Int)) ∈ rR.1.written ∧ ((1 : Int), (3 : Int)) ∉ rD.1.written := by
  have h1 : (match draw_circle_bresenham (Surface.blank 10 10 4) (SDL_Rect.whole 10 10) 5 5
        4 2 7 DrawnArea.init with
      | some r => decide (((1 : Int), (3 : Int)) ∈ r.1.written)
      | none => false) = true := by decide!
  have h2 : (match draw_circle_filled (Surface.blank 10 10 4) (SDL_Rect.whole 10 10) 5 5 4 7
        DrawnArea.init with
      | some r => decide (((1 : Int), (3 : Int)) ∉ r.1.written)
      | none => false) = true := by decide!
  generalize draw_circle_bresenham (Surface.blank 10 10 4) (SDL_Rect.whole 10 10) 5 5 4 2 7
    DrawnArea.init = oR at h1
  generalize draw_circle_filled (Surface.blank 10 10 4) (SDL_Rect.whole 10 10) 5 5 4 7
    DrawnArea.init = oD at h2
  cases oR with
  | none => cases h1
  | some rR =>
    cases oD with
    | none => cases h2
    | some rD => exact ⟨rR, rD, rfl, rfl, of_decide_eq_true h1, of_decide_eq_true h2⟩

/-- C36, amended: for every centre `(x0, y0)`, radius `R` and thickness `t` with
`2 <= t < R`, and the box `[x0 - R, x0 + R - 1] x [y0 - R, y0 + R - 1]` inside a clip
rectangle of C `int`s, `draw_circle_bresenham(R, t)` and `draw_circle_filled(R)` both
return; every pixel written by the stroked circle lies in that box, which is the
bounding box of the filled circle; and on the two centre rows `y0 - 1` and `y0` every
pixel of the stroked circle is a pixel of the filled circle, the filled circle
covering the columns `x0 - R .. x0 + R - 1` and the stroked circle the `t` columns at
each end, so that the outermost pixels coincide. -/
theorem draw_circle_bresenham_within_disc_box (surf : Surface) (clip : SDL_Rect)
    (x0 y0 R t : Int) (color : Nat) (da : DrawnArea) (hv : valid_depth surf) (ht : 2 ≤ t)
    (htR : t < R) (hlo : INT_MIN ≤ clip.x) (hhi : clip.x + clip.w ≤ INT_MAX + 1)
    (hclip : clip.x ≤ x0 - R ∧ x0 + R ≤ clip.x + clip.w ∧ clip.y ≤ y0 - R ∧
      y0 + R ≤ clip.y + clip.h) :
    ∃ (rR rD : Surface × DrawnArea) (newR newD : List (Int × Int)),
      draw_circle_bresenham surf clip x0 y0 R t color da = some rR ∧
      Drawn clip color newR (surf, da) rR ∧
      draw_circle_filled surf clip x0 y0 R color da = some rD ∧
      Drawn clip color newD (surf, da) rD ∧
      (∀ p ∈ newR, circle_box x0 y0 R p) ∧ (∀ p ∈ newD, circle_box x0 y0 R p) ∧
      (x0 - R, y0) ∈ newD ∧ (x0 + R - 1, y0) ∈ newD ∧ (x0, y0 - R) ∈ newD ∧
      (x0, y0 + R - 1) ∈ newD ∧
      ∀ p : Int × Int, (p.2 = y0 - 1 ∨ p.2 = y0) →
        (p ∈ newR → p ∈ newD) ∧
        (p ∈ newD ↔ x0 - R ≤ p.1 ∧ p.1 ≤ x0 + R - 1) ∧
        (p ∈ newR ↔ (x0 - R ≤ p.1 ∧ p.1 ≤ x0 - R + t - 1) ∨
          (x0 + R - t ≤ p.1 ∧ p.1 ≤ x0 + R - 1)) := by
  obtain ⟨rR, newR, eR, hdR, hbR, hrows⟩ :=
    draw_circle_bresenham_box_rows surf clip x0 y0 R t color da hv ht htR hclip
  obtain ⟨i1, i2, i3, i4⟩ := hclip
  have hxm : R - 1 ≤ (if x0 < 0 then x0 + INT_MAX + 1 else INT_MAX - x0) := by
    unfold INT_MIN at hlo
    unfold INT_MAX at hhi ⊢
    split <;> omega
  obtain ⟨T, newD, rD, eD, hdD, hm, hsym, hb, hcen⟩ :=
    draw_circle_filled_extreme surf clip x0 y0 R color da hv (by omega) hxm
  have hbox : ∀ p ∈ newD, circle_box x0 y0 R p := by
    intro p hp
    have h := hb _ _ ((hm p).mp hp).2
    unfold circle_box
    rcases corner_distance_cases (p.1 - x0) with ⟨d1, e1⟩ | ⟨d1, e1⟩ <;>
      rcases corner_distance_cases (p.2 - y0) with ⟨d2, e2⟩ | ⟨d2, e2⟩ <;>
      rw [e1, e2] at h <;> omega
  have hcell : ∀ p : Int × Int, T (corner_distance (p.1 - x0)) (corner_distance (p.2 - y0)) →
      p ∈ newD := by
    intro p h
    rw [hm]
    refine ⟨?_, h⟩
    have hb1 := hb _ _ h
    unfold inside
    rcases corner_distance_cases (p.1 - x0) with ⟨d1, e1⟩ | ⟨d1, e1⟩ <;>
      rcases corner_distance_cases (p.2 - y0) with ⟨d2, e2⟩ | ⟨d2, e2⟩ <;>
      rw [e1, e2] at hb1 <;> omega
  have hrowD : ∀ p : Int × Int, (p.2 = y0 - 1 ∨ p.2 = y0) →
      (p ∈ newD ↔ x0 - R ≤ p.1 ∧ p.1 ≤ x0 + R - 1) := by
    intro p hp
    have e2 : corner_distance (p.2 - y0) = 1 := by
      rcases corner_distance_cases (p.2 - y0) with ⟨d2, e2⟩ | ⟨d2, e2⟩ <;> omega
    constructor
    · intro h
      have := hbox p h
      unfold circle_box at this
      omega
    · intro h
      apply hcell
      rw [e2]
      have h1 := corner_distance_pos (p.1 - x0)
      exact hcen _ h1 ((corner_distance_le _ _).mpr (by omega))
  have hcol : ∀ p : Int × Int, p.1 = x0 → (p.2 = y0 - R ∨ p.2 = y0 + R - 1) → p ∈ newD := by
    intro p h1 h2
    apply hcell
    have e1 : corner_distance (p.1 - x0) = 1 := by
      rcases corner_distance_cases (p.1 - x0) with ⟨d1, e1⟩ | ⟨d1, e1⟩ <;> omega
    have e2 : corner_distance (p.2 - y0) = R := by
      rcases corner_distance_cases (p.2 - y0) with ⟨d2, e2⟩ | ⟨d2, e2⟩ <;> omega
    rw [e1, e2]
    exact hsym _ _ (hcen R (by omega) (le_refl _))
  refine ⟨rR, rD, newR, newD, eR, hdR, eD, hdD, hbR, hbox, ?_, ?_, ?_, ?_, fun p hp => ?_⟩
  · exact (hrowD (x0 - R, y0) (Or.inr rfl)).mpr ⟨le_refl _, by dsimp only; omega⟩
  · exact (hrowD (x0 + R - 1, y0) (Or.inr rfl)).mpr ⟨by dsimp only; omega, le_refl _⟩
  · exact hcol (x0, y0 - R) rfl (Or.inl rfl)
  · exact hcol (x0, y0 + R - 1) rfl (Or.inr rfl)
  · have hr := hrows p hp
    unfold ring_ends at hr
    refine ⟨fun h => (hrowD p hp).mpr ?_, hrowD p hp, hr⟩
    have := hr.mp h
    omega

theorem draw_circle_bresenham_within_disc_box_witness :
    valid_depth (Surface.blank 20 20 4) ∧ (2 : Int) ≤ 2 ∧ (2 : Int) < 5 ∧
    INT_MIN ≤ (SDL_Rect.whole 20 20).x ∧
    (SDL_Rect.whole 20 20).x + (SDL_Rect.whole 20 20).w ≤ INT_MAX + 1 ∧
    ((SDL_Rect.whole 20 20).x ≤ 10 - 5 ∧
      10 + 5 ≤ (SDL_Rect.whole 20 20).x + (SDL_Rect.whole 20 20).w ∧
      (SDL_Rect.whole 20 20).y ≤ 10 - 5 ∧
      10 + 5 ≤ (SDL_Rect.whole 20 20).y + (SDL_Rect.whole 20 20).h) ∧
    ∃ (rR rD : Surface × DrawnArea) (newR newD : List (Int × Int)),
      draw_circle_bresenham (Surface.blank 20 20 4) (SDL_Rect.whole 20 20) 10 10 5 2 7
        DrawnArea.init = some rR ∧
      Drawn (SDL_Rect.whole 20 20) 7 newR (Surface.blank 20 20 4, DrawnArea.init) rR ∧
      draw_circle_filled (Surface.blank 20 20 4) (SDL_Rect.whole 20 20) 10 10 5 7
        DrawnArea.init = some rD ∧
      Drawn (SDL_Rect.whole 20 20) 7 newD (Surface.blank 20 20 4, DrawnArea.init) rD ∧
      (∀ p ∈ newR, circle_box 10 10 5 p) ∧ (∀ p ∈ newD, circle_box 10 10 5 p) ∧
      ((10 : Int) - 5, (10 : Int)) ∈ newD ∧ ((10 : Int) + 5 - 1, (10 : Int)) ∈ newD ∧
      ((10 : Int), (10 : Int) - 5) ∈ newD ∧ ((10 : Int), (10 : Int) + 5 - 1) ∈ newD ∧
      ∀ p : Int × Int, (p.2 = 10 - 1 ∨ p.2 = 10) →
        (p ∈ newR → p ∈ newD) ∧
        (p ∈ newD ↔ 10 - 5 ≤ p.1 ∧ p.1 ≤ 10 + 5 - 1) ∧
        (p ∈ newR ↔ (10 - 5 ≤ p.1 ∧ p.1 ≤ 10 - 5 + 2 - 1) ∨
          (10 + 5 - 2 ≤ p.1 ∧ p.1 ≤ 10 + 5 - 1)) :=
  ⟨by decide, by decide, by decide, by decide, by decide, by decide,
    draw_circle_bresenham_within_disc_box (Surface.blank 20 20 4) (SDL_Rect.whole 20 20)
      10 10 5 2 7 DrawnArea.init (by decide) (by decide) (by decide) (by decide) (by decide)
      (by decide)⟩

end Draw
